import Mathlib

/-!
Parallel fields of a distributed mesh (atlas, `mesh/actions/BuildParallelFields.cc`).

A shallow embedding of the routines that build the `partition` and `remote_index`
fields of the nodes and edges of a mesh distributed over `nparts` ranks.

Conventions of the embedding.

* An array view is a function from its index to its value; the extent is carried
  separately (`nb_nodes`, `nb_edges`).  Views indexed by a loop counter (`size_t`) are
  functions on `Nat`; views indexed by an `idx_t` read from a connectivity table are
  functions on `Int`.
* `std::vector<std::vector<T>>` buffers indexed by a rank are functions from the rank to
  a list; `push_back` appends at the end.
* `std::map<uid_t,int>` is an association list whose most recent binding comes first.
* `mpi::comm().allToAll( send, recv )` makes `recv[q]` on rank `r` equal to `send[r]` on
  rank `q`.
* A `throw` is the `error` alternative of `Except`.
* A routine that calls collective operations is also given as every rank runs it from
  one collective operation to the next (`Routine`); `run` runs the ranks together and
  gives, for every rank, the state in which it leaves, the exception it raises and the
  collective operations it has called.
-/

namespace Atlas

/-! ## Errors, integer conversions, containers -/

/-- The ways in which a routine can stop abnormally.  `OutOfBounds` and `Deadlock` are
not C++ exceptions: `OutOfBounds` marks an access outside the bounds of a `std::vector`,
which the C++ code does not check; `Deadlock` marks a rank that waits in a collective
operation which another rank never enters, so that it never returns. -/
inductive Error where
  | AssertionFailed
  | SeriousBug
  | Exception
  | OutOfBounds
  | Deadlock
deriving DecidableEq, Repr

/-- The conversion `size_t( x )` of a signed integer on a 64-bit machine. -/
def size_t (x : Int) : Nat := (x % 2 ^ 64).toNat

/-- Assignment `view( i ) = v` to an array view. -/
def assign {α : Type} (view : Nat → α) (i : Nat) (v : α) : Nat → α :=
  fun k => if k = i then v else view k

/-- The effect of `buf[p].push_back( a );` on a vector of vectors. -/
def push_back1 (buf : Nat → List Int) (p : Nat) (a : Int) : Nat → List Int :=
  fun k => if k = p then buf k ++ [a] else buf k

/-- The effect of `buf[p].push_back( a ); buf[p].push_back( b );` on a vector of vectors. -/
def push_back2 (buf : Nat → List Int) (p : Nat) (a b : Int) : Nat → List Int :=
  fun k => if k = p then buf k ++ [a, b] else buf k

/-- The records of a flat buffer of stride 2, as the receiving loops read them:
record `j`, for `j < size / 2`, is `( buf[2 * j + 0], buf[2 * j + 1] )`. -/
def records (buf : List Int) : List (Int × Int) :=
  (List.range (buf.length / 2)).map (fun j => (buf.getD (2 * j) 0, buf.getD (2 * j + 1) 0))

/-- The statement `lookup[uid] = j` on a `std::map`. -/
def map_insert (lookup : List (Int × Int)) (uid j : Int) : List (Int × Int) :=
  (uid, j) :: lookup

/-- The call `lookup.find( uid )` (and `lookup.count( uid )`, `lookup[uid]` on a present key). -/
def map_find (lookup : List (Int × Int)) (uid : Int) : Option Int :=
  List.lookup uid lookup

/-- The first error among the results of ranks `0 .. n-1`, if any. -/
def first_error {α : Type} : Nat → (Nat → Except Error α) → Option Error
  | 0, _ => none
  | n + 1, f =>
    match first_error n f with
    | some e => some e
    | none =>
      match f n with
      | .error e => some e
      | .ok _ => none

/-- The value of a result, or `d` for an error. -/
def value_or {α : Type} (d : α) : Except Error α → α
  | .ok a => a
  | .error _ => d

/-! ## `build_nodes_remote_idx` -/

/-- The object `mesh::Nodes` of one rank as the node routines use it: the node count, the
`partition` field, the value of `compute_uid( jnode )` (the functor `UniqueLonLat` is
declared outside the sources at hand, so its values are taken as data), the
`remote_index` field, the `global_index` field, the metadata flag `human_readable` of
the `global_index` field and the metadata flag `parallel` of the nodes.  The flags and the
global index are unset unless given. -/
structure Nodes where
  nb_nodes : Nat
  part : Nat → Int
  uid : Nat → Int
  ridx : Nat → Int
  glb_idx : Nat → Int := fun _ => 0
  human_readable : Bool := false
  parallel : Bool := false

/-- The local variables filled by the first loop of `build_nodes_remote_idx` and of
`build_edges_remote_idx`. -/
structure Requests where
  lookup : List (Int × Int)
  ridx : Nat → Int
  send_needed : Nat → List Int

/-- One iteration of the loop of lines 262-284.  `proc` is the identity table.  The
`ASSERT( part( jnode ) < (int)proc.size() )` raises `AssertionFailed`; a negative
`part( jnode )` passes it and then indexes `proc` out of bounds. -/
def nodes_requests_step (mypart nparts : Nat) (nodes : Nodes) (s : Requests) (jnode : Nat) :
    Except Error Requests :=
  let uid := nodes.uid jnode
  if size_t (nodes.part jnode) = mypart then
    .ok { s with lookup := map_insert s.lookup uid jnode, ridx := assign s.ridx jnode jnode }
  else if nodes.part jnode ≥ (nparts : Int) then
    .error Error.AssertionFailed
  else if nodes.part jnode < 0 then
    .error Error.OutOfBounds
  else
    .ok { s with send_needed := push_back2 s.send_needed (nodes.part jnode).toNat uid jnode }

/-- The loop of lines 262-284: fill `lookup`, set `ridx` of the owned nodes and queue
`( uid, jnode )` for the owner of every other node. -/
def nodes_requests (mypart nparts : Nat) (nodes : Nodes) : Except Error Requests :=
  (List.range nodes.nb_nodes).foldlM (nodes_requests_step mypart nparts nodes)
    { lookup := [], ridx := nodes.ridx, send_needed := fun _ => [] }

/-- One iteration of the inner loop of lines 298-312 for a request `( uid, inode )`
received from `jpart`. -/
def nodes_answers_step (lookup : List (Int × Int)) (jpart : Nat) (send_found : Nat → List Int)
    (req : Int × Int) : Except Error (Nat → List Int) :=
  match map_find lookup req.1 with
  | some k => .ok (push_back2 send_found jpart req.2 k)
  | none => .error Error.SeriousBug

/-- The loop of lines 291-313: answer the requests received from every rank (`proc` is
the identity table, so `recv_needed[proc[jpart]]` is `recv_needed[jpart]`). -/
def nodes_answers (nparts : Nat) (lookup : List (Int × Int)) (recv_needed : Nat → List Int) :
    Except Error (Nat → List Int) :=
  (List.range nparts).foldlM
    (fun send_found jpart =>
      (records (recv_needed jpart)).foldlM (nodes_answers_step lookup jpart) send_found)
    (fun _ => [])

/-- The loops of lines 317-325 (and 684-692 for edges): write the received answers. -/
def write_back (nparts : Nat) (ridx : Nat → Int) (recv_found : Nat → List Int) : Nat → Int :=
  (List.range nparts).foldl
    (fun r jpart => (records (recv_found jpart)).foldl (fun r a => assign r a.1.toNat a.2) r)
    ridx

/-- The default value of the locals, used only where a rank has raised. -/
def Requests.empty : Requests :=
  { lookup := [], ridx := fun _ => 0, send_needed := fun _ => [] }

/-- The routine `build_nodes_remote_idx` run on all `nparts` ranks; `nodes r` is the data
of rank `r`.  The result is the `remote_index` field of every rank, or the first error
raised. -/
def build_nodes_remote_idx (nparts : Nat) (nodes : Nat → Nodes) :
    Except Error (Nat → Nat → Int) :=
  let p1 := fun r => nodes_requests r nparts (nodes r)
  match first_error nparts p1 with
  | some e => .error e
  | none =>
    let s1 := fun r => value_or Requests.empty (p1 r)
    let recv_needed := fun r q => (s1 q).send_needed r
    let p2 := fun r => nodes_answers nparts (s1 r).lookup (recv_needed r)
    match first_error nparts p2 with
    | some e => .error e
    | none =>
      let send_found := fun r => value_or (fun _ => []) (p2 r)
      let recv_found := fun r q => send_found q r
      .ok (fun r => write_back nparts (s1 r).ridx (recv_found r))

/-- Two ranks: rank 0 holds the nodes with UIDs 100, 200 (owned) and 300 (a ghost owned
by rank 1); rank 1 holds the nodes with UIDs 300 (owned) and 200 (a ghost owned by rank 0).
The remote indices on entry are -7. -/
def nodes_example : Nat → Nodes := fun r =>
  if r = 0 then
    { nb_nodes := 3, part := fun j => if j = 2 then 1 else 0,
      uid := fun j => if j = 0 then 100 else if j = 1 then 200 else 300, ridx := fun _ => -7 }
  else
    { nb_nodes := 2, part := fun j => if j = 0 then 1 else 0,
      uid := fun j => if j = 0 then 300 else 200, ridx := fun _ => -7 }

/-- The remote indices that `build_nodes_remote_idx` computes for `nodes_example`. -/
def nodes_example_ridx : Nat → Nat → Int :=
  value_or (fun _ _ => 0) (build_nodes_remote_idx 2 nodes_example)

/-! ## The mesh seen by the edge routines -/

/-- The node topology flags.  The class `Topology` (`atlas/mesh/Nodes.h`) is not among
the sources at hand, so the test `Topology::check( flags, bits )` and the flag constants
are parameters of the embedding. -/
structure Topology where
  check : Nat → Nat → Bool
  PERIODIC : Nat
  BC : Nat
  WEST : Nat
  EAST : Nat

/-- The operations on `double` coordinates and the geometric helpers that the edge
routines call and that are defined outside the sources at hand: `util::microdeg`, the
midpoint `0.5 * ( a + b )`, the test `a > 0`, the constants `90.` and `-90.`,
`PeriodicTransform::operator()` and `util::unique_lonlat`.  `D` stands for `double`. -/
structure Geometry (D : Type) where
  microdeg : D → Int
  midpoint : D → D → D
  positive : D → Bool
  north : D
  south : D
  transform : D × D → Int → D × D
  unique_lonlat : D × D → Int

/-- Column of the longitude in `xy`. -/
def XX : Nat := 0

/-- Column of the latitude in `xy`. -/
def YY : Nat := 1

/-- The fields of the mesh of one rank that `build_edges_partition` and
`build_edges_remote_idx` use: node coordinates, flags and partition, the edge-to-node
and edge-to-cell connectivity with its `missing_value()`, the edge fields `partition`,
`global_index`, `remote_index` and `is_pole_edge` (present when `has_pole_edges`), and
the cell fields `partition` and `halo`; `nodes` is the object `mesh.nodes()` that the node
routines work on (empty unless given). -/
structure Mesh (D : Type) where
  nodes : Nodes := { nb_nodes := 0, part := fun _ => 0, uid := fun _ => 0, ridx := fun _ => 0 }
  xy : Int → Nat → D
  flags : Int → Nat
  node_part : Int → Int
  nb_edges : Nat
  edge_nodes : Nat → Nat → Int
  edge_to_elem : Nat → Nat → Int
  missing_value : Int
  edge_part : Nat → Int
  edge_glb_idx : Nat → Int
  edge_ridx : Nat → Int
  has_pole_edges : Bool
  is_pole_edge : Nat → Int
  elem_part : Int → Int
  elem_halo : Int → Int

/-! ## `build_edges_partition`, first pass -/

/-- The local variables of the first loop of `build_edges_partition` (the vector
`periodic` is written but never read and is left out). -/
structure EdgesPartition where
  global_to_local : List (Int × Int)
  bdry_edges : List Int
  edge_part : Nat → Int

/-- The owner chosen from the endpoint coordinates at lines 388-402: on equal
micro-degree latitudes the partition of the first endpoint if its micro-degree longitude
is the smaller one and of the second endpoint otherwise; on different latitudes the
partition of the first endpoint if its latitude is the larger one and of the second
endpoint otherwise. -/
def node_based_owner {D : Type} (G : Geometry D) (mesh : Mesh D) (jedge : Nat) : Int :=
  let ip1 := mesh.edge_nodes jedge 0
  let ip2 := mesh.edge_nodes jedge 1
  let pn1 := mesh.node_part ip1
  let pn2 := mesh.node_part ip2
  let y1 := G.microdeg (mesh.xy ip1 YY)
  let y2 := G.microdeg (mesh.xy ip2 YY)
  if y1 = y2 then
    let x1 := G.microdeg (mesh.xy ip1 XX)
    let x2 := G.microdeg (mesh.xy ip2 XX)
    if x1 < x2 then pn1 else pn2
  else
    if y1 > y2 then pn1 else pn2

/-- One iteration of the loop of lines 384-433. -/
def edges_partition_step {D : Type} (G : Geometry D) (mesh : Mesh D) (s : EdgesPartition)
    (jedge : Nat) : Except Error EdgesPartition :=
  let global_to_local := map_insert s.global_to_local (mesh.edge_glb_idx jedge) jedge
  let ip1 := mesh.edge_nodes jedge 0
  let ip2 := mesh.edge_nodes jedge 1
  let pn1 := mesh.node_part ip1
  let pn2 := mesh.node_part ip2
  let p := node_based_owner G mesh jedge
  let elem1 := mesh.edge_to_elem jedge 0
  let elem2 := mesh.edge_to_elem jedge 1
  if elem1 = mesh.missing_value then
    .ok { global_to_local := global_to_local
          bdry_edges := s.bdry_edges ++ [mesh.edge_glb_idx jedge]
          edge_part := assign s.edge_part jedge pn1 }
  else if elem2 = mesh.missing_value then
    let p := mesh.elem_part elem1
    let p := if pn1 ≠ p ∧ pn2 = pn1 ∧ mesh.elem_halo elem1 > 0 then pn1 else p
    .ok { global_to_local := global_to_local
          bdry_edges := s.bdry_edges ++ [mesh.edge_glb_idx jedge]
          edge_part := assign s.edge_part jedge p }
  else if p ≠ mesh.elem_part elem1 ∧ p ≠ mesh.elem_part elem2 then
    let p := if p = pn1 then pn2 else pn1
    if p ≠ mesh.elem_part elem1 ∧ p ≠ mesh.elem_part elem2 then
      .error Error.SeriousBug
    else
      .ok { global_to_local := global_to_local
            bdry_edges := s.bdry_edges
            edge_part := assign s.edge_part jedge p }
  else
    .ok { global_to_local := global_to_local
          bdry_edges := s.bdry_edges
          edge_part := assign s.edge_part jedge p }

/-- The first pass of `build_edges_partition` (lines 384-433) on one rank. -/
def edges_partition_first_pass {D : Type} (G : Geometry D) (mesh : Mesh D) :
    Except Error EdgesPartition :=
  (List.range mesh.nb_edges).foldlM (edges_partition_step G mesh)
    { global_to_local := [], bdry_edges := [], edge_part := mesh.edge_part }

/-! ## `build_edges_remote_idx` -/

/-- The test of lines 599-608: the edge is a periodic edge whose UID has to be taken at
the transformed centroid. -/
def edge_needed {D : Type} (T : Topology) (mesh : Mesh D) (jedge : Nat) : Bool :=
  let ip1 := mesh.edge_nodes jedge 0
  let ip2 := mesh.edge_nodes jedge 1
  (T.check (mesh.flags ip1) T.PERIODIC && !T.check (mesh.flags ip1) (T.BC ||| T.WEST) &&
    T.check (mesh.flags ip2) T.PERIODIC && !T.check (mesh.flags ip2) (T.BC ||| T.WEST)) ||
  (T.check (mesh.flags ip1) T.PERIODIC && !T.check (mesh.flags ip1) (T.BC ||| T.WEST) &&
    T.check (mesh.flags ip2) (T.BC ||| T.WEST)) ||
  (T.check (mesh.flags ip1) (T.BC ||| T.WEST) &&
    T.check (mesh.flags ip2) T.PERIODIC && !T.check (mesh.flags ip2) (T.BC ||| T.WEST))

/-- The UID computed for an edge at lines 591-616: the hash of the centroid, snapped to
a pole for a pole edge and transformed for a periodic edge. -/
def edge_uid {D : Type} (T : Topology) (G : Geometry D) (mesh : Mesh D) (jedge : Nat) : Int :=
  let ip1 := mesh.edge_nodes jedge 0
  let ip2 := mesh.edge_nodes jedge 1
  let cx := G.midpoint (mesh.xy ip1 XX) (mesh.xy ip2 XX)
  let cy := G.midpoint (mesh.xy ip1 YY) (mesh.xy ip2 YY)
  let cy :=
    if mesh.has_pole_edges && mesh.is_pole_edge jedge != 0 then
      (if G.positive cy then G.north else G.south)
    else cy
  let centroid :=
    if edge_needed T mesh jedge then
      (if T.check (mesh.flags ip1) T.EAST then G.transform (cx, cy) (-1)
       else G.transform (cx, cy) 1)
    else (cx, cy)
  G.unique_lonlat centroid

/-- One iteration of the loop of lines 590-639.  An `edge_part( jedge )` outside
`[0, nparts)` indexes `send_needed` out of bounds. -/
def edges_requests_step {D : Type} (T : Topology) (G : Geometry D) (mypart nparts : Nat)
    (mesh : Mesh D) (s : Requests) (jedge : Nat) : Except Error Requests :=
  let needed := edge_needed T mesh jedge
  let uid := edge_uid T G mesh jedge
  if size_t (mesh.edge_part jedge) = mypart ∧ needed = false then
    .ok { s with lookup := map_insert s.lookup uid jedge, ridx := assign s.ridx jedge jedge }
  else if 0 ≤ mesh.edge_part jedge ∧ mesh.edge_part jedge < (nparts : Int) then
    .ok { s with send_needed := push_back2 s.send_needed (mesh.edge_part jedge).toNat uid jedge }
  else
    .error Error.OutOfBounds

/-- The loop of lines 590-639. -/
def edges_requests {D : Type} (T : Topology) (G : Geometry D) (mypart nparts : Nat)
    (mesh : Mesh D) : Except Error Requests :=
  (List.range mesh.nb_edges).foldlM (edges_requests_step T G mypart nparts mesh)
    { lookup := [], ridx := mesh.edge_ridx, send_needed := fun _ => [] }

/-- The answers queued and the warnings logged by the loop of lines 652-680; a warning
is recorded as the UID that was not found and the rank that asked for it. -/
structure EdgeAnswers where
  send_found : Nat → List Int
  warnings : List (Int × Nat)

/-- One iteration of the inner loop of lines 657-679 for a request `( recv_uid, recv_idx )`
received from `jpart`.  The `throw` of line 676 is commented out: a miss logs a warning. -/
def edges_answers_step (lookup : List (Int × Int)) (jpart : Nat) (s : EdgeAnswers)
    (req : Int × Int) : EdgeAnswers :=
  match map_find lookup req.1 with
  | some k => { s with send_found := push_back2 s.send_found jpart req.2 k }
  | none => { s with warnings := s.warnings ++ [(req.1, jpart)] }

/-- The loop of lines 652-680. -/
def edges_answers (nparts : Nat) (lookup : List (Int × Int)) (recv_needed : Nat → List Int) :
    EdgeAnswers :=
  (List.range nparts).foldl
    (fun s jpart => (records (recv_needed jpart)).foldl (edges_answers_step lookup jpart) s)
    { send_found := fun _ => [], warnings := [] }

/-- The outcome of `build_edges_remote_idx` on all ranks: the `remote_index` field and
the warnings logged on every rank. -/
structure EdgesRemoteIdx where
  edge_ridx : Nat → Nat → Int
  warnings : Nat → List (Int × Nat)

/-- The routine `build_edges_remote_idx` run on all `nparts` ranks; `mesh r` is the mesh
of rank `r`. -/
def build_edges_remote_idx {D : Type} (T : Topology) (G : Geometry D) (nparts : Nat)
    (mesh : Nat → Mesh D) : Except Error EdgesRemoteIdx :=
  let p1 := fun r => edges_requests T G r nparts (mesh r)
  match first_error nparts p1 with
  | some e => .error e
  | none =>
    let s1 := fun r => value_or Requests.empty (p1 r)
    let recv_needed := fun r q => (s1 q).send_needed r
    let p2 := fun r => edges_answers nparts (s1 r).lookup (recv_needed r)
    let send_found := fun r => (p2 r).send_found
    let recv_found := fun r q => send_found q r
    .ok { edge_ridx := fun r => write_back nparts (s1 r).ridx (recv_found r)
          warnings := fun r => (p2 r).warnings }

/-! ## `build_edges_partition`, second pass, sanity check and collective decision -/

/-- The call `std::sort( bdry_edges.begin(), bdry_edges.end() )`. -/
def sort_gidx (l : List Int) : List Int :=
  l.insertionSort (fun a b => a ≤ b)

/-- The lambda `is_bdry_edge` of lines 435-439: a binary search (`std::lower_bound`) in
the sorted vector `bdry_edges`, that is, the test whether `gid` occurs in it. -/
def is_bdry_edge (bdry_edges : List Int) (gid : Int) : Bool :=
  decide (gid ∈ bdry_edges)

/-- The buffers `send_gidx` and `send_part` filled by the loop of lines 448-460. -/
structure Corrections where
  send_gidx : Nat → List Int
  send_part : Nat → List Int

/-- One iteration of the inner loop of lines 450-459 for the global index `gidx`
received from rank `p`: a rank that holds an edge with this global index and does not
have it in its own boundary list answers with the owner it computed. -/
def corrections_step (s : EdgesPartition) (bdry_edges : List Int) (p : Nat)
    (c : Corrections) (gidx : Int) : Corrections :=
  match map_find s.global_to_local gidx with
  | some iedge =>
    if is_bdry_edge bdry_edges gidx = false then
      { send_gidx := push_back1 c.send_gidx p gidx
        send_part := push_back1 c.send_part p (s.edge_part iedge.toNat) }
    else c
  | none => c

/-- The loop of lines 448-460 on a rank whose first pass has left the locals `s` and the
sorted boundary list `bdry_edges`, and that has received the boundary lists
`recv_bdry_edges_from_parts` of all ranks. -/
def corrections (nparts : Nat) (s : EdgesPartition) (bdry_edges : List Int)
    (recv_bdry_edges_from_parts : Nat → List Int) : Corrections :=
  (List.range nparts).foldl
    (fun c p => (recv_bdry_edges_from_parts p).foldl (corrections_step s bdry_edges p) c)
    { send_gidx := fun _ => [], send_part := fun _ => [] }

/-- The entries of two parallel buffers as the loop of lines 466-473 reads them: entry
`j`, for `j < recv_gidx_p.size()`, is `( recv_gidx_p[j], recv_part_p[j] )`. -/
def entries (gidx part : List Int) : List (Int × Int) :=
  (List.range gidx.length).map (fun j => (gidx.getD j 0, part.getD j 0))

/-- The loop of lines 463-474: every received owner overwrites `edge_part` of the local
edge that `global_to_local` gives for the received global index (`operator[]` of the map
gives 0 for an absent key). -/
def apply_corrections (nparts : Nat) (global_to_local : List (Int × Int))
    (edge_part : Nat → Int) (recv_gidx recv_part : Nat → List Int) : Nat → Int :=
  (List.range nparts).foldl
    (fun ep p => (entries (recv_gidx p) (recv_part p)).foldl
      (fun ep a => assign ep ((map_find global_to_local a.1).getD 0).toNat a.2) ep)
    edge_part

/-- The second pass of `build_edges_partition` (lines 434-474) on all ranks, from the
locals `first q` that the first pass has left on every rank `q`: the sorted boundary
lists are gathered on every rank (`allGatherv`), every rank queues its answers, the
answers are exchanged (`allToAll`) and applied.  The result is `edge_part` on rank `r`. -/
def edges_partition_second_pass (nparts : Nat) (first : Nat → EdgesPartition) :
    Nat → Nat → Int := fun r =>
  let bdry_edges := fun q => sort_gidx (first q).bdry_edges
  let sent := fun q => corrections nparts (first q) (bdry_edges q) bdry_edges
  apply_corrections nparts (first r).global_to_local (first r).edge_part
    (fun p => (sent p).send_gidx r) (fun p => (sent p).send_part r)

/-- One iteration of the sanity check of lines 485-531 on the flag `insane`. -/
def sanity_step {D : Type} (mesh : Mesh D) (edge_part : Nat → Int) (insane : Int)
    (jedge : Nat) : Int :=
  let ip1 := mesh.edge_nodes jedge 0
  let ip2 := mesh.edge_nodes jedge 1
  let elem1 := mesh.edge_to_elem jedge 0
  let elem2 := mesh.edge_to_elem jedge 1
  let p := edge_part jedge
  let pn1 := mesh.node_part ip1
  let pn2 := mesh.node_part ip2
  let insane :=
    if mesh.has_pole_edges = true ∧ mesh.is_pole_edge jedge ≠ 0 then
      (if p ≠ pn1 ∨ p ≠ pn2 then 1 else insane)
    else
      (if elem1 = mesh.missing_value ∧ elem2 = mesh.missing_value then 1 else insane)
  if elem1 = mesh.missing_value ∨ elem2 = mesh.missing_value then
    (if ¬ (p = pn1 ∨ p = pn2) then 1 else insane)
  else
    let pe1 := mesh.elem_part elem1
    let pe2 := mesh.elem_part elem2
    if ¬ (p = pe1 ∨ p = pe2) ∧ ¬ (p = pn1 ∨ p = pn2) then 1 else insane

/-- The sanity check of lines 484-531: the local flag `insane` of a rank. -/
def sanity_check {D : Type} (mesh : Mesh D) (edge_part : Nat → Int) : Int :=
  (List.range mesh.nb_edges).foldl (sanity_step mesh edge_part) 0

/-- The call `mpi::comm().allReduceInPlace( insane, eckit::mpi::max() )`: every rank gets
the maximum of the flags of ranks `0 .. nparts-1`. -/
def all_reduce_max (nparts : Nat) (insane : Nat → Int) : Nat → Int := fun _ =>
  (List.range nparts).foldl (fun m q => max m (insane q)) (insane 0)

/-- The default value of the locals, used only where a rank has raised. -/
def EdgesPartition.empty : EdgesPartition :=
  { global_to_local := [], bdry_edges := [], edge_part := fun _ => 0 }

/-- The locals that the first pass of `build_edges_partition` leaves on rank `q` (the
default value where it raises). -/
def first_pass_locals {D : Type} (G : Geometry D) (mesh : Nat → Mesh D) (q : Nat) :
    EdgesPartition :=
  value_or EdgesPartition.empty (edges_partition_first_pass G (mesh q))

/-- The routine `build_edges_partition` run on all `nparts` ranks; `mesh q` is the mesh of
rank `q`.  The result is the outcome on rank `r`: the field `edges.partition()` it returns,
or the exception it raises.  A rank whose first pass raises throws `SeriousBug` before
the first collective operation, which the other ranks then never leave. -/
def build_edges_partition {D : Type} (G : Geometry D) (nparts : Nat) (mesh : Nat → Mesh D) :
    Nat → Except Error (Nat → Int) := fun r =>
  let p1 := fun q => edges_partition_first_pass G (mesh q)
  match first_error nparts p1 with
  | some _ =>
    match p1 r with
    | .error e => .error e
    | .ok _ => .error Error.Deadlock
  | none =>
    let edge_part := edges_partition_second_pass nparts (first_pass_locals G mesh)
    let insane := all_reduce_max nparts (fun q => sanity_check (mesh q) (edge_part q))
    if insane r ≠ 0 ∧ r = 0 then .error Error.Exception else .ok (edge_part r)

/-! ## `build_nodes_global_idx` and `renumber_nodes_glb_idx` -/

/-- One iteration of the loop of lines 137-139 and 173-175: a global index that is not
positive is replaced by the UID of the node. -/
def fill_glb_idx_step (uid : Nat → Int) (glb_idx : Nat → Int) (jnode : Nat) : Nat → Int :=
  if glb_idx jnode ≤ 0 then assign glb_idx jnode (uid jnode) else glb_idx

/-- The loop of lines 137-139 and 173-175 over the nodes of a rank. -/
def fill_glb_idx (nodes : Nodes) : Nat → Int :=
  (List.range nodes.nb_nodes).foldl (fill_glb_idx_step nodes.uid) nodes.glb_idx

/-- The routine `build_nodes_global_idx` on one rank. -/
def build_nodes_global_idx (nodes : Nodes) : Nodes :=
  { nodes with glb_idx := fill_glb_idx nodes }

/-- The record `Node` of lines 81-89: a global index `g` and a position `i`; records are
compared by `g` alone. -/
structure Node where
  g : Int
  i : Int

/-- The value read by an access outside a vector of records in the embedding (no such
access occurs in the loops). -/
def Node.zero : Node := { g := 0, i := 0 }

/-- The displacements computed at lines 190-193 from the gathered counts. -/
def recvdispls (recvcounts : Nat → Nat) : Nat → Nat
  | 0 => 0
  | jpart + 1 => recvcounts jpart + recvdispls recvcounts jpart

/-- The call `gatherv` of line 200 with these displacements: on the root the
contributions of ranks `0 .. nparts-1` follow one another. -/
def gatherv : Nat → (Nat → List Int) → List Int
  | 0, _ => []
  | nparts + 1, loc_id => gatherv nparts loc_id ++ loc_id nparts

/-- The vector `node_sort` of lines 204-209 before sorting: the record
`Node( glb_id( jnode ), jnode )` for every gathered position. -/
def node_sort_of (glb_id : List Int) : List Node :=
  (List.range glb_id.length).map (fun jnode => { g := glb_id.getD jnode 0, i := (jnode : Int) })

/-- The counter `gid` and the array `glb_id` in the loop of lines 214-222. -/
structure Renumbering where
  gid : Int
  glb_id : Nat → Int

/-- One iteration of the loop of lines 215-222 over the sorted records. -/
def renumber_step (node_sort : List Node) (s : Renumbering) (jnode : Nat) : Renumbering :=
  let gid :=
    if jnode = 0 then s.gid + 1
    else if (node_sort.getD jnode Node.zero).g ≠ (node_sort.getD (jnode - 1) Node.zero).g then
      s.gid + 1
    else s.gid
  let inode := (node_sort.getD jnode Node.zero).i
  { gid := gid, glb_id := assign s.glb_id inode.toNat gid }

/-- The loop of lines 214-222: the array `glb_id` after renumbering. -/
def renumber_sorted (node_sort : List Node) (glb_id : Nat → Int) : Nat → Int :=
  ((List.range node_sort.length).foldl (renumber_step node_sort)
    { gid := 0, glb_id := glb_id }).glb_id

/-- The work of the root at lines 203-222 on the gathered array: sort the records by
global index with `sort` (the call `std::sort`, which may order records of equal global
index in any way) and renumber. -/
def renumber_gathered (sort : List Node → List Node) (glb_id : List Int) : Nat → Int :=
  renumber_sorted (sort (node_sort_of glb_id)) (fun k => glb_id.getD k 0)

/-- A sort of the records by global index, used to evaluate the routine on concrete data. -/
def sort_nodes (l : List Node) : List Node :=
  l.insertionSort (fun a b => a.g ≤ b.g)

/-- The routine `renumber_nodes_glb_idx` run on all `nparts` ranks; `nodes q` is the
object of rank `q`.  The result is the outcome on rank `r`.  A rank whose flag
`human_readable` is set returns at once; a rank whose flag is unset takes part in the
collective operations `gather`, `gatherv` and `scatterv` with root 0, which complete only
if every rank takes part. -/
def renumber_nodes_glb_idx (sort : List Node → List Node) (nparts : Nat)
    (nodes : Nat → Nodes) : Nat → Except Error Nodes := fun r =>
  if (nodes r).human_readable = true then .ok (nodes r)
  else if ∀ q < nparts, (nodes q).human_readable = false then
    let loc_id := fun q => (List.range (nodes q).nb_nodes).map (fill_glb_idx (nodes q))
    let recvcounts := fun q => (nodes q).nb_nodes
    let glb_id := renumber_gathered sort (gatherv nparts loc_id)
    .ok { nodes r with
          glb_idx := fun jnode =>
            if jnode < (nodes r).nb_nodes then glb_id (recvdispls recvcounts r + jnode)
            else fill_glb_idx (nodes r) jnode
          human_readable := true }
  else .error Error.Deadlock

/-- The routine `build_nodes_partition` (lines 331-334): it returns the `partition`
field as it is. -/
def build_nodes_partition (nodes : Nodes) : Nat → Int := nodes.part

/-- The routine `build_edges_parallel_fields` (lines 116-126) run on all `nparts` ranks;
the result is the outcome on rank `r`: the mesh with the edge fields `partition` and
`remote_index` that `build_edges_partition` and `build_edges_remote_idx` have written
(the call of `build_edges_global_idx` is commented out).  A rank on which
`build_edges_partition` raises stops there; the other ranks then wait in the first
collective operation of `build_edges_remote_idx`. -/
def build_edges_parallel_fields {D : Type} (T : Topology) (G : Geometry D) (nparts : Nat)
    (mesh : Nat → Mesh D) : Nat → Except Error (Mesh D) := fun r =>
  match build_edges_partition G nparts mesh r with
  | .error e => .error e
  | .ok _ =>
    match first_error nparts (build_edges_partition G nparts mesh) with
    | some _ => .error Error.Deadlock
    | none =>
      let mesh1 := fun q =>
        { mesh q with
          edge_part := value_or (mesh q).edge_part (build_edges_partition G nparts mesh q) }
      match build_edges_remote_idx T G nparts mesh1 with
      | .error e => .error e
      | .ok res => .ok { mesh1 r with edge_ridx := res.edge_ridx r }

/-! ## The centroid of an edge and the UIDs of `build_edges_global_idx` -/

/-- The array `centroid` after the pole snap of lines 593-595 (and 729-731): the midpoint
of the edge, with the latitude replaced by `90.` or `-90.` for a pole edge. -/
def snapped_centroid {D : Type} (G : Geometry D) (mesh : Mesh D) (jedge : Nat) : D × D :=
  let ip1 := mesh.edge_nodes jedge 0
  let ip2 := mesh.edge_nodes jedge 1
  let cx := G.midpoint (mesh.xy ip1 XX) (mesh.xy ip2 XX)
  let cy := G.midpoint (mesh.xy ip1 YY) (mesh.xy ip2 YY)
  let cy :=
    if mesh.has_pole_edges && mesh.is_pole_edge jedge != 0 then
      (if G.positive cy then G.north else G.south)
    else cy
  (cx, cy)

/-- The array `centroid` that `build_edges_remote_idx` passes to `util::unique_lonlat` at
line 616: the snapped centroid, transformed for a periodic edge (lines 599-614). -/
def edge_centroid {D : Type} (T : Topology) (G : Geometry D) (mesh : Mesh D) (jedge : Nat) :
    D × D :=
  if edge_needed T mesh jedge then
    (if T.check (mesh.flags (mesh.edge_nodes jedge 0)) T.EAST then
      G.transform (snapped_centroid G mesh jedge) (-1)
     else G.transform (snapped_centroid G mesh jedge) 1)
  else snapped_centroid G mesh jedge

/-- One iteration of the loop of lines 727-734 of `build_edges_global_idx`: a global
index that is not positive is replaced by the UID of the snapped centroid. -/
def edges_gidx_step {D : Type} (G : Geometry D) (mesh : Mesh D) (edge_gidx : Nat → Int)
    (jedge : Nat) : Nat → Int :=
  if edge_gidx jedge ≤ 0 then
    assign edge_gidx jedge (G.unique_lonlat (snapped_centroid G mesh jedge))
  else edge_gidx

/-- Lines 706 and 727-734 of `build_edges_global_idx`: the global indices of the edges
are set to -1 and then replaced by the UIDs, which the rest of the routine renumbers. -/
def edges_gidx_uids {D : Type} (G : Geometry D) (mesh : Mesh D) : Nat → Int :=
  (List.range mesh.nb_edges).foldl (edges_gidx_step G mesh) (fun _ => -1)

/-! ## The run of a routine on all ranks -/

/-- The collective operations of the communicator that the routines call. -/
inductive Collective where
  | gather
  | gatherv
  | scatterv
  | allGatherv
  | allToAll
  | allReduce
deriving DecidableEq, Repr

/-- What a rank does when it runs on from where it is: it returns in state `s`, it
raises `e` in state `s`, or it reaches the call of the collective operation `c` in state
`s` with the buffers `send`, where `send q` is what it contributes for rank `q`. -/
inductive Action (σ : Type) where
  | returns (s : σ)
  | raises (e : Error) (s : σ)
  | enters (c : Collective) (s : σ) (send : Nat → List Int)

/-- The state in which the rank returns, raises or calls the collective operation. -/
def Action.state {σ : Type} : Action σ → σ
  | .returns s => s
  | .raises _ s => s
  | .enters _ s _ => s

/-- The buffers that the rank contributes (none unless it calls a collective operation). -/
def Action.send {σ : Type} : Action σ → Nat → List Int
  | .enters _ _ send => send
  | _ => fun _ => []

/-- The rank calls the collective operation `c`. -/
def Action.calls {σ : Type} (c : Collective) : Action σ → Bool
  | .enters c1 _ _ => decide (c1 = c)
  | _ => false

/-- The code `f` that follows when the rank returns. -/
def Action.and_then {σ : Type} (f : σ → σ) : Action σ → Action σ
  | .returns s => .returns (f s)
  | a => a

/-- A routine as every rank runs it between its collective operations: `first r` is
what rank `r` does from the entry to its first collective operation; `next k r s recv` is
what it does when it leaves its collective operation number `k` (counted from 0) in state
`s` with the buffers `recv`, where `recv q` is what rank `q` contributed for it. -/
structure Routine (σ : Type) where
  first : Nat → Action σ
  next : Nat → Nat → σ → (Nat → List Int) → Action σ

/-- How a rank leaves a routine: its state, the exception it raises if it does not
return (`Deadlock` when it stays in a collective operation), and the collective
operations it has called, in order. -/
structure Outcome (σ : Type) where
  state : σ
  raised : Option Error
  collectives : List Collective

/-- The result of the routine for its caller: the state returned or the exception. -/
def Outcome.result {σ : Type} (x : Outcome σ) : Except Error σ :=
  match x.raised with
  | none => .ok x.state
  | some e => .error e

/-- The run of all `nparts` ranks from the point where every rank `q` has left `k`
collective operations and does `acts q`; `called` are the collective operations that rank
`r` has called so far, and the result is how rank `r` leaves the routine.  A collective
operation is left, by every rank, only if every rank calls it, and a rank then holds
what the ranks `p < nparts` contributed for it; a rank that calls one which some rank
does not call stays in it.  The run is followed through at most `fuel` collective
operations (`run_from_fuel`: more of them change nothing once the routine calls no
further one). -/
def run_from {σ : Type} (nparts : Nat) (R : Routine σ) :
    Nat → Nat → (Nat → Action σ) → List Collective → Nat → Outcome σ
  | 0, _, acts, called, r =>
    match acts r with
    | .returns s => { state := s, raised := none, collectives := called }
    | .raises e s => { state := s, raised := some e, collectives := called }
    | .enters c s _ =>
      { state := s, raised := some Error.Deadlock, collectives := called ++ [c] }
  | fuel + 1, k, acts, called, r =>
    match acts r with
    | .returns s => { state := s, raised := none, collectives := called }
    | .raises e s => { state := s, raised := some e, collectives := called }
    | .enters c s _ =>
      if ∀ q < nparts, (acts q).calls c = true then
        run_from nparts R fuel (k + 1)
          (fun q => R.next k q (acts q).state
            (fun p => if p < nparts then (acts p).send q else []))
          (called ++ [c]) r
      else { state := s, raised := some Error.Deadlock, collectives := called ++ [c] }

/-- The run of a routine with at most `rounds` collective operations on all `nparts`
ranks: how rank `r` leaves it. -/
def run {σ : Type} (nparts rounds : Nat) (R : Routine σ) (r : Nat) : Outcome σ :=
  run_from nparts R rounds 0 R.first [] r

/-- A loop over `l` that is left at the first iteration that raises: the state reached
and the exception raised, if any.  At a raise the state is that at the start of the
iteration that raises. -/
def loop_until_raise {σ : Type} (step : σ → Nat → Except Error σ) :
    List Nat → σ → σ × Option Error
  | [], s => (s, none)
  | j :: l, s =>
    match step s j with
    | .ok s1 => loop_until_raise step l s1
    | .error e => (s, some e)

/-! ## `build_nodes_parallel_fields` and `build_parallel_fields` -/

/-- The nodes of a rank in `build_nodes_remote_idx`, with its local `lookup`. -/
structure NodesLocals where
  nodes : Nodes
  lookup : List (Int × Int)

/-- The routine `build_nodes_remote_idx` (lines 237-327) as every rank runs it: the
first loop (lines 262-284), which may raise, up to the first `allToAll` (line 286); the
second loop (lines 291-313), which may raise, up to the second `allToAll` (line 315); the
third loop (lines 317-325) and the return.  The iteration of the first loop that raises
has written nothing before the assertion. -/
def build_nodes_remote_idx_routine (nparts : Nat) (nodes : Nat → Nodes) :
    Routine NodesLocals :=
  { first := fun r =>
      match loop_until_raise (nodes_requests_step r nparts (nodes r))
          (List.range (nodes r).nb_nodes)
          { lookup := [], ridx := (nodes r).ridx, send_needed := fun _ => [] } with
      | (s, some e) => .raises e { nodes := { nodes r with ridx := s.ridx }, lookup := s.lookup }
      | (s, none) =>
        .enters Collective.allToAll
          { nodes := { nodes r with ridx := s.ridx }, lookup := s.lookup } s.send_needed
    next := fun k _ s recv =>
      match k with
      | 0 =>
        match nodes_answers nparts s.lookup recv with
        | .error e => .raises e s
        | .ok send_found => .enters Collective.allToAll s send_found
      | 1 =>
        .returns { s with nodes := { s.nodes with ridx := write_back nparts s.nodes.ridx recv } }
      | _ => .returns s }

/-- The routine `build_nodes_parallel_fields` (lines 102-112) as every rank runs it: a
rank whose flag `parallel` is set only sets it again; a rank whose flag is unset calls
`build_nodes_partition` (which has no effect), `build_nodes_remote_idx` and, when that
returns, `build_nodes_global_idx`, and sets the flag. -/
def build_nodes_parallel_fields_routine (nparts : Nat) (nodes : Nat → Nodes) :
    Routine NodesLocals :=
  let finish := fun (s : NodesLocals) =>
    { s with nodes := { build_nodes_global_idx s.nodes with parallel := true } }
  { first := fun r =>
      if (nodes r).parallel = true then
        .returns { nodes := { nodes r with parallel := true }, lookup := [] }
      else ((build_nodes_remote_idx_routine nparts nodes).first r).and_then finish
    next := fun k r s recv =>
      ((build_nodes_remote_idx_routine nparts nodes).next k r s recv).and_then finish }

/-- How rank `r` leaves `build_nodes_parallel_fields` when all `nparts` ranks run it;
`nodes q` is the object of rank `q`. -/
def build_nodes_parallel_fields_outcome (nparts : Nat) (nodes : Nat → Nodes) (r : Nat) :
    Outcome NodesLocals :=
  run nparts 2 (build_nodes_parallel_fields_routine nparts nodes) r

/-- The routine `build_nodes_parallel_fields` run on all `nparts` ranks: the nodes that
rank `r` returns, or the exception that it raises (`Deadlock` when it stays in a
collective operation). -/
def build_nodes_parallel_fields (nparts : Nat) (nodes : Nat → Nodes) :
    Nat → Except Error Nodes := fun r =>
  match (build_nodes_parallel_fields_outcome nparts nodes r).raised with
  | none => .ok (build_nodes_parallel_fields_outcome nparts nodes r).state.nodes
  | some e => .error e

/-- How rank `r` leaves `build_parallel_fields` (lines 95-98) when all `nparts` ranks run
it: the routine calls `build_nodes_parallel_fields( mesh.nodes() )` and nothing else. -/
def build_parallel_fields_outcome {D : Type} (nparts : Nat) (mesh : Nat → Mesh D) (r : Nat) :
    Outcome (Mesh D) :=
  { state :=
      { mesh r with
        nodes := (build_nodes_parallel_fields_outcome nparts (fun q => (mesh q).nodes) r).state.nodes }
    raised := (build_nodes_parallel_fields_outcome nparts (fun q => (mesh q).nodes) r).raised
    collectives :=
      (build_nodes_parallel_fields_outcome nparts (fun q => (mesh q).nodes) r).collectives }

/-- The routine `build_parallel_fields` run on all `nparts` ranks: the mesh that rank `r`
returns, or the exception that it raises. -/
def build_parallel_fields {D : Type} (nparts : Nat) (mesh : Nat → Mesh D) :
    Nat → Except Error (Mesh D) := fun r =>
  (build_parallel_fields_outcome nparts mesh r).result

/-! ## `renumber_nodes_glb_idx` and `build_edges_partition` as every rank runs them -/

/-- The nodes of a rank in `renumber_nodes_glb_idx`, with its vector `recvcounts`. -/
structure RenumberLocals where
  nodes : Nodes
  recvcounts : Nat → Nat

/-- The routine `renumber_nodes_glb_idx` (lines 143-233) as every rank runs it, with
root 0.  A rank whose flag `human_readable` is set returns at line 148.  A rank whose
flag is unset fills the global indices (lines 173-175) and calls `gather` with its number
of nodes (line 188); then `gatherv` with its global indices (line 200); then the root
sorts and renumbers what it has gathered (lines 203-222) and every rank calls `scatterv`
(line 226), in which the root contributes for rank `q` the `recvcounts[q]` entries from
`recvdispls[q]` on; then the rank copies what it has received and sets the flag (lines
229-232).  On a rank that is not the root `recvcounts` stays zero. -/
def renumber_nodes_glb_idx_routine (sort : List Node → List Node) (nparts : Nat)
    (nodes : Nat → Nodes) : Routine RenumberLocals :=
  { first := fun r =>
      if (nodes r).human_readable = true then
        .returns { nodes := nodes r, recvcounts := fun _ => 0 }
      else
        .enters Collective.gather
          { nodes := { nodes r with glb_idx := fill_glb_idx (nodes r) }
            recvcounts := fun _ => 0 }
          (fun q => if q = 0 then [((nodes r).nb_nodes : Int)] else [])
    next := fun k r s recv =>
      match k with
      | 0 =>
        .enters Collective.gatherv
          { s with recvcounts := fun q => if r = 0 then ((recv q).headD 0).toNat else 0 }
          (fun q => if q = 0 then (List.range s.nodes.nb_nodes).map s.nodes.glb_idx else [])
      | 1 =>
        let glb_id := renumber_gathered sort (gatherv nparts recv)
        .enters Collective.scatterv s
          (fun q =>
            if r = 0 then
              (List.range (s.recvcounts q)).map
                (fun jnode => glb_id (recvdispls s.recvcounts q + jnode))
            else [])
      | 2 =>
        .returns
          { s with
            nodes :=
              { s.nodes with
                glb_idx := fun jnode =>
                  if jnode < s.nodes.nb_nodes then (recv 0).getD jnode 0
                  else s.nodes.glb_idx jnode
                human_readable := true } }
      | _ => .returns s }

/-- How rank `r` leaves `renumber_nodes_glb_idx` when all `nparts` ranks run it. -/
def renumber_nodes_glb_idx_outcome (sort : List Node → List Node) (nparts : Nat)
    (nodes : Nat → Nodes) (r : Nat) : Outcome RenumberLocals :=
  run nparts 3 (renumber_nodes_glb_idx_routine sort nparts nodes) r

/-- The locals of a rank in `build_edges_partition`: those of the first loop (with
`bdry_edges` sorted from line 434 on), the buffer `send_part` and the buffer `recv_gidx`. -/
structure EdgesLocals where
  first : EdgesPartition
  send_part : Nat → List Int
  recv_gidx : Nat → List Int

/-- The routine `build_edges_partition` (lines 338-547) as every rank runs it: the first
loop (lines 384-433), which may raise, the sort of line 434 and `allGatherv` with the
boundary list (line 447); the loop of lines 448-460 and `allToAll` with `send_gidx` (line
461); `allToAll` with `send_part` (line 462); the loop of lines 463-474, the sanity check
(lines 484-531) and `allReduce` with the flag `insane` (line 532); the throw on rank 0 or
the return (lines 533-546).  The iteration of the first loop that throws has written
only the local `global_to_local` before the throw, and not the field `edge_part`. -/
def build_edges_partition_routine {D : Type} (G : Geometry D) (nparts : Nat)
    (mesh : Nat → Mesh D) : Routine EdgesLocals :=
  { first := fun r =>
      match loop_until_raise (edges_partition_step G (mesh r)) (List.range (mesh r).nb_edges)
          { global_to_local := [], bdry_edges := [], edge_part := (mesh r).edge_part } with
      | (s, some e) =>
        .raises e { first := s, send_part := fun _ => [], recv_gidx := fun _ => [] }
      | (s, none) =>
        .enters Collective.allGatherv
          { first := { s with bdry_edges := sort_gidx s.bdry_edges }
            send_part := fun _ => [], recv_gidx := fun _ => [] }
          (fun _ => sort_gidx s.bdry_edges)
    next := fun k r s recv =>
      match k with
      | 0 =>
        let c := corrections nparts s.first s.first.bdry_edges recv
        .enters Collective.allToAll { s with send_part := c.send_part } c.send_gidx
      | 1 => .enters Collective.allToAll { s with recv_gidx := recv } s.send_part
      | 2 =>
        let edge_part := apply_corrections nparts s.first.global_to_local s.first.edge_part
          s.recv_gidx recv
        .enters Collective.allReduce { s with first := { s.first with edge_part := edge_part } }
          (fun _ => [sanity_check (mesh r) edge_part])
      | 3 =>
        if all_reduce_max nparts (fun q => (recv q).headD 0) r ≠ 0 ∧ r = 0 then
          .raises Error.Exception s
        else .returns s
      | _ => .returns s }

/-- How rank `r` leaves `build_edges_partition` when all `nparts` ranks run it. -/
def build_edges_partition_outcome {D : Type} (G : Geometry D) (nparts : Nat)
    (mesh : Nat → Mesh D) (r : Nat) : Outcome EdgesLocals :=
  run nparts 4 (build_edges_partition_routine G nparts mesh) r

/-! ## Closed forms used in the proofs -/

/-- Flattening of a list of pairs into a buffer of stride 2. -/
def flat : List (Int × Int) → List Int
  | [] => []
  | p :: ps => p.1 :: p.2 :: flat ps

/-- The nodes among the first `n` that rank `mypart` owns. -/
def owned_nodes (mypart : Nat) (nodes : Nodes) (n : Nat) : List Nat :=
  (List.range n).filter (fun j => decide (nodes.part j = (mypart : Int)))

/-- The nodes among the first `n` that rank `mypart` holds and rank `p` owns. -/
def ghost_nodes (mypart : Nat) (nodes : Nodes) (p : Nat) (n : Nat) : List Nat :=
  (List.range n).filter
    (fun j => decide (nodes.part j ≠ (mypart : Int) ∧ nodes.part j = (p : Int)))

/-- The locals of `build_nodes_remote_idx` after `n` iterations of its first loop. -/
def requests_after (mypart : Nat) (nodes : Nodes) (n : Nat) : Requests :=
  { lookup := (owned_nodes mypart nodes n).reverse.map (fun j => (nodes.uid j, (j : Int)))
    ridx := fun j => if j < n ∧ nodes.part j = (mypart : Int) then (j : Int) else nodes.ridx j
    send_needed := fun p =>
      flat ((ghost_nodes mypart nodes p n).map (fun j => (nodes.uid j, (j : Int)))) }

/-- The answers produced for a list of requests all of whose UIDs are found. -/
def answers_for (lookup : List (Int × Int)) (reqs : List (Int × Int)) : List (Int × Int) :=
  reqs.map (fun req => (req.2, (map_find lookup req.1).getD 0))

/-- The locals of rank `r` after the first loop of `build_nodes_remote_idx`. -/
def rank_requests (nodes : Nat → Nodes) (r : Nat) : Requests :=
  requests_after r (nodes r) (nodes r).nb_nodes

/-- The edge has two adjacent elements and neither endpoint partition equals the
partition of either element. -/
def endpoints_mismatch {D : Type} (mesh : Mesh D) (j : Nat) : Prop :=
  mesh.edge_to_elem j 0 ≠ mesh.missing_value ∧ mesh.edge_to_elem j 1 ≠ mesh.missing_value ∧
  mesh.node_part (mesh.edge_nodes j 0) ≠ mesh.elem_part (mesh.edge_to_elem j 0) ∧
  mesh.node_part (mesh.edge_nodes j 0) ≠ mesh.elem_part (mesh.edge_to_elem j 1) ∧
  mesh.node_part (mesh.edge_nodes j 1) ≠ mesh.elem_part (mesh.edge_to_elem j 0) ∧
  mesh.node_part (mesh.edge_nodes j 1) ≠ mesh.elem_part (mesh.edge_to_elem j 1)

/-- Coordinate operations on whole degrees, used to evaluate the edge routines on
concrete meshes: the periodic transform shifts the longitude by 360 degrees. -/
def geometry_example : Geometry Int :=
  { microdeg := fun d => d * 1000000
    midpoint := fun a b => (a + b) / 2
    positive := fun a => decide (a > 0)
    north := 90
    south := -90
    transform := fun c dir => (c.1 + dir * 360, c.2)
    unique_lonlat := fun c => c.1 * 1000 + c.2 }

/-- A mesh with four nodes at (0,0), (10,0), (0,10), (10,10) owned by ranks 0, 1, 0, 1,
four cells owned by ranks 0, 1, 1, 0, the last one of halo depth 1, and five edges:
edge 0 joins nodes 0 and 1 between cells 0 and 1; edge 1 joins nodes 1 and 3 and has
cell 0 only; edge 2 joins nodes 3 and 2 and has no cell; edge 3 joins nodes 0 and 1
between cells 1 and 2; edge 4 joins nodes 1 and 3 and has cell 3 only. -/
def mesh_example : Mesh Int :=
  { xy := fun i c => if c = 0 then [0, 10, 0, 10].getD i.toNat 0 else [0, 0, 10, 10].getD i.toNat 0
    flags := fun _ => 0
    node_part := fun i => [0, 1, 0, 1].getD i.toNat 0
    nb_edges := 5
    edge_nodes := fun j c => if c = 0 then [0, 1, 3, 0, 1].getD j 0 else [1, 3, 2, 1, 3].getD j 0
    edge_to_elem := fun j c =>
      if c = 0 then [0, 0, -1, 1, 3].getD j 0 else [1, -1, -1, 2, -1].getD j 0
    missing_value := -1
    edge_part := fun _ => -1
    edge_glb_idx := fun j => 100 + j
    edge_ridx := fun _ => -1
    has_pole_edges := false
    is_pole_edge := fun _ => 0
    elem_part := fun i => [0, 1, 1, 0].getD i.toNat 0
    elem_halo := fun i => [0, 0, 0, 1].getD i.toNat 0 }

/-- The locals after the first pass of `build_edges_partition` on `mesh_example`. -/
def mesh_example_first_pass : EdgesPartition :=
  value_or { global_to_local := [], bdry_edges := [], edge_part := fun _ => 0 }
    (edges_partition_first_pass geometry_example mesh_example)

/-- A mesh with one edge joining a node of rank 0 and a node of rank 1; its first
edge-to-cell slot holds the missing value and its second slot holds cell 1, owned by
rank 1 and of halo depth 0. -/
def mesh_second_slot : Mesh Int :=
  { mesh_example with
    nb_edges := 1
    edge_nodes := fun _ c => if c = 0 then 0 else 1
    edge_to_elem := fun _ c => if c = 0 then -1 else 1 }

/-- A mesh with one edge between cells 0 and 1, both owned by rank 1, whose endpoints
are both owned by rank 0. -/
def mesh_mismatch : Mesh Int :=
  { mesh_example with
    nb_edges := 1
    node_part := fun _ => 0
    edge_to_elem := fun _ c => if c = 0 then 0 else 1
    elem_part := fun _ => 1 }

/-- The edge is entered in the lookup table of rank `mypart`: the rank owns it and it is
not a periodic edge to be looked up at its transformed centroid (the test of line 617). -/
def edge_in_table {D : Type} (T : Topology) (mypart : Nat) (mesh : Mesh D) (j : Nat) : Bool :=
  decide (mesh.edge_part j = (mypart : Int)) && !edge_needed T mesh j

/-- The edges among the first `n` that rank `mypart` enters in its lookup table. -/
def owned_edges {D : Type} (T : Topology) (mypart : Nat) (mesh : Mesh D) (n : Nat) : List Nat :=
  (List.range n).filter (edge_in_table T mypart mesh)

/-- The edges among the first `n` for which rank `mypart` sends a request to rank `p`. -/
def ghost_edges {D : Type} (T : Topology) (mypart : Nat) (mesh : Mesh D) (p : Nat) (n : Nat) :
    List Nat :=
  (List.range n).filter
    (fun j => !edge_in_table T mypart mesh j && decide (mesh.edge_part j = (p : Int)))

/-- The locals of `build_edges_remote_idx` after `n` iterations of its first loop. -/
def edge_requests_after {D : Type} (T : Topology) (G : Geometry D) (mypart : Nat)
    (mesh : Mesh D) (n : Nat) : Requests :=
  { lookup := (owned_edges T mypart mesh n).reverse.map
      (fun j => (edge_uid T G mesh j, (j : Int)))
    ridx := fun j => if j < n ∧ edge_in_table T mypart mesh j = true then (j : Int)
      else mesh.edge_ridx j
    send_needed := fun p =>
      flat ((ghost_edges T mypart mesh p n).map (fun j => (edge_uid T G mesh j, (j : Int)))) }

/-- The locals of rank `r` after the first loop of `build_edges_remote_idx`. -/
def rank_edge_requests {D : Type} (T : Topology) (G : Geometry D) (mesh : Nat → Mesh D)
    (r : Nat) : Requests :=
  edge_requests_after T G r (mesh r) (mesh r).nb_edges

/-- The answers produced for a list of requests: one for every request whose UID is found. -/
def found_answers (lookup : List (Int × Int)) (reqs : List (Int × Int)) : List (Int × Int) :=
  reqs.filterMap (fun req => (map_find lookup req.1).map (fun k => (req.2, k)))

/-- The flag bits `PERIODIC`, `BC`, `WEST`, `EAST` as powers of two and the test that
all the given bits are set, used to evaluate the edge routines on examples. -/
def topology_example : Topology :=
  { check := fun flags bits => (flags &&& bits) == bits
    PERIODIC := 4
    BC := 8
    WEST := 16
    EAST := 32 }

/-- Nodes 0 to 3 at longitudes 0, 10, 20, 30 and the periodic nodes 4 and 5 at
longitudes -360 and -350, all at latitude 0; cells as in `mesh_example`. -/
def nodes_on_a_line : Mesh Int :=
  { mesh_example with
    xy := fun i c => if c = 0 then [0, 10, 20, 30, -360, -350].getD i.toNat 0 else 0
    flags := fun i => [0, 0, 0, 0, 4, 4].getD i.toNat 0
    nb_edges := 0 }

/-- Two ranks.  Rank 0 holds the edge between nodes 0 and 1 (owned), the edge between
nodes 1 and 2 (owned by rank 1) and the periodic image, between nodes 4 and 5, of its
edge 0 (partition 0).  Rank 1 holds the edges between nodes 2 and 3 and between nodes 1
and 2 (owned) and the edge between nodes 0 and 1 (owned by rank 0). -/
def edges_example : Nat → Mesh Int := fun r =>
  if r = 0 then
    { nodes_on_a_line with
      nb_edges := 3
      edge_nodes := fun j c => if c = 0 then [0, 1, 4].getD j 0 else [1, 2, 5].getD j 0
      edge_part := fun j => [0, 1, 0].getD j 0 }
  else
    { nodes_on_a_line with
      nb_edges := 3
      edge_nodes := fun j c => if c = 0 then [2, 1, 0].getD j 0 else [3, 2, 1].getD j 0
      edge_part := fun j => [1, 1, 0].getD j 0 }

/-- The outcome of `build_edges_remote_idx` on `edges_example`. -/
def edges_example_result : EdgesRemoteIdx :=
  value_or { edge_ridx := fun _ _ => 0, warnings := fun _ => [] }
    (build_edges_remote_idx topology_example geometry_example 2 edges_example)

/-- Two ranks without halo.  Rank 0 holds the edge between nodes 0 and 1 (owned).
Rank 1 holds the edge between nodes 1 and 2 (owned) and the edge between nodes 2 and 3,
whose partition is 0 although rank 0 does not hold it. -/
def edges_without_halo : Nat → Mesh Int := fun r =>
  if r = 0 then
    { nodes_on_a_line with
      nb_edges := 1
      edge_nodes := fun _ c => if c = 0 then 0 else 1
      edge_part := fun _ => 0 }
  else
    { nodes_on_a_line with
      nb_edges := 2
      edge_nodes := fun j c => if c = 0 then [1, 2].getD j 0 else [2, 3].getD j 0
      edge_part := fun j => [1, 0].getD j 0 }

/-- The outcome of `build_edges_remote_idx` on `edges_without_halo`. -/
def edges_without_halo_result : EdgesRemoteIdx :=
  value_or { edge_ridx := fun _ _ => 0, warnings := fun _ => [] }
    (build_edges_remote_idx topology_example geometry_example 2 edges_without_halo)

/-- Two ranks holding the same edge with global index 7 between a node of rank 0 and a
node of rank 1.  On rank 0 the edge has cell 0 (rank 0) only and is a boundary edge; on
rank 1 it lies between cells 0 and 1 (ranks 0 and 1) and its first endpoint has the
larger longitude. -/
def partition_example : Nat → Mesh Int := fun r =>
  if r = 0 then
    { mesh_example with
      xy := fun i c => if c = 0 then [0, 10].getD i.toNat 0 else 0
      nb_edges := 1
      edge_nodes := fun _ c => if c = 0 then 0 else 1
      edge_to_elem := fun _ c => if c = 0 then 0 else -1
      edge_glb_idx := fun _ => 7 }
  else
    { mesh_example with
      xy := fun i c => if c = 0 then [10, 0].getD i.toNat 0 else 0
      nb_edges := 1
      edge_nodes := fun _ c => if c = 0 then 0 else 1
      edge_to_elem := fun _ c => if c = 0 then 0 else 1
      edge_glb_idx := fun _ => 7 }

/-- The answers that a rank with first-pass locals `s` and sorted boundary list
`bdry_edges` queues for the boundary list `l` of another rank. -/
def answered (s : EdgesPartition) (bdry_edges : List Int) (l : List Int) : List (Int × Int) :=
  l.filterMap (fun g =>
    match map_find s.global_to_local g with
    | some iedge =>
      if is_bdry_edge bdry_edges g = false then some (g, s.edge_part iedge.toNat) else none
    | none => none)

/-- The iteration of the sanity check at an edge sets the flag `insane`. -/
def edge_insane {D : Type} (mesh : Mesh D) (edge_part : Nat → Int) (j : Nat) : Bool :=
  decide
    ((mesh.has_pole_edges = true ∧ mesh.is_pole_edge j ≠ 0 ∧
        (edge_part j ≠ mesh.node_part (mesh.edge_nodes j 0) ∨
          edge_part j ≠ mesh.node_part (mesh.edge_nodes j 1))) ∨
      (¬ (mesh.has_pole_edges = true ∧ mesh.is_pole_edge j ≠ 0) ∧
        mesh.edge_to_elem j 0 = mesh.missing_value ∧
        mesh.edge_to_elem j 1 = mesh.missing_value) ∨
      ((mesh.edge_to_elem j 0 = mesh.missing_value ∨
          mesh.edge_to_elem j 1 = mesh.missing_value) ∧
        ¬ (edge_part j = mesh.node_part (mesh.edge_nodes j 0) ∨
          edge_part j = mesh.node_part (mesh.edge_nodes j 1))) ∨
      (¬ (mesh.edge_to_elem j 0 = mesh.missing_value ∨
          mesh.edge_to_elem j 1 = mesh.missing_value) ∧
        ¬ (edge_part j = mesh.elem_part (mesh.edge_to_elem j 0) ∨
          edge_part j = mesh.elem_part (mesh.edge_to_elem j 1)) ∧
        ¬ (edge_part j = mesh.node_part (mesh.edge_nodes j 0) ∨
          edge_part j = mesh.node_part (mesh.edge_nodes j 1))))

/-- A mesh with one edge joining a node of rank 1 and a node of rank 2 whose only
adjacent element is cell 0, owned by rank 0 and of halo depth 0. -/
def mesh_element_owner : Mesh Int :=
  { mesh_example with
    nb_edges := 1
    node_part := fun i => [1, 2].getD i.toNat 0
    edge_nodes := fun _ c => if c = 0 then 0 else 1
    edge_to_elem := fun _ c => if c = 0 then 0 else -1 }

/-- A mesh with the edges of `mesh_example` in which edge 2, which has no adjacent
element, is flagged as a pole edge and joins two nodes of rank 1. -/
def mesh_with_pole : Mesh Int :=
  { mesh_example with
    has_pole_edges := true
    is_pole_edge := fun j => if j = 2 then 1 else 0
    edge_nodes := fun j c => if c = 0 then [0, 1, 3, 0, 1].getD j 0 else [1, 3, 1, 1, 3].getD j 0 }

/-- The `edge_part` that `build_edges_partition` returns on the ranks of
`partition_example`. -/
def partition_example_result : Nat → Nat → Int := fun r =>
  value_or (fun _ => 0) (build_edges_partition geometry_example 2 partition_example r)

/-- Two ranks.  Rank 0 holds three nodes with global indices 50, 0, 30 and UIDs 10, 20,
30; rank 1 holds two nodes with global indices 30, -1 and UIDs 30, 70.  The values that
are renumbered are 50, 20, 30 on rank 0 and 30, 70 on rank 1. -/
def renumber_example : Nat → Nodes := fun r =>
  if r = 0 then
    { nb_nodes := 3, part := fun _ => 0, ridx := fun _ => 0
      uid := fun j => [10, 20, 30].getD j 0
      glb_idx := fun j => [50, 0, 30].getD j 0 }
  else
    { nb_nodes := 2, part := fun _ => 1, ridx := fun _ => 0
      uid := fun j => [30, 70].getD j 0
      glb_idx := fun j => [30, -1].getD j 0 }

/-- The nodes of `renumber_example` after `renumber_nodes_glb_idx`. -/
def renumber_example_result : Nat → Nodes := fun r =>
  value_or (renumber_example r) (renumber_nodes_glb_idx sort_nodes 2 renumber_example r)

/-- Reference: the pre-renumbering value of a node: its global index if positive and its
UID otherwise. -/
def pre_value (nodes : Nodes) (j : Nat) : Int :=
  if nodes.glb_idx j > 0 then nodes.glb_idx j else nodes.uid j

/-- Reference: the set of the pre-renumbering values of all nodes of all ranks. -/
def pre_values (nparts : Nat) (nodes : Nat → Nodes) : Finset Int :=
  (Finset.range nparts).biUnion
    (fun q => (Finset.range (nodes q).nb_nodes).image (pre_value (nodes q)))

/-- Reference numbering: 1 plus the number of distinct pre-renumbering values strictly
smaller than `v`. -/
def reference_index (nparts : Nat) (nodes : Nat → Nodes) (v : Int) : Int :=
  1 + (((pre_values nparts nodes).filter (fun u => u < v)).card : Int)

/-- Two ranks with one node each; both nodes have UID 5, and global indices 10 and 20. -/
def collision_example : Nat → Nodes := fun r =>
  { nb_nodes := 1, part := fun _ => (r : Int), ridx := fun _ => 0
    uid := fun _ => 5
    glb_idx := fun _ => if r = 0 then 10 else 20 }

/-- Two ranks with two nodes each, all global indices unset; the second node of rank 0 and
the first node of rank 1 have UID 8. -/
def halo_copy_example : Nat → Nodes := fun r =>
  if r = 0 then
    { nb_nodes := 2, part := fun _ => 0, ridx := fun _ => 0
      uid := fun j => [3, 8].getD j 0 }
  else
    { nb_nodes := 2, part := fun _ => 1, ridx := fun _ => 0
      uid := fun j => [8, 9].getD j 0 }

/-- A mesh on every rank whose nodes are those of `nodes_example`. -/
def mesh_with_nodes : Nat → Mesh Int := fun r =>
  { mesh_example with nodes := nodes_example r }

/-- The mesh with the two endpoints of every edge exchanged in the edge-to-node
connectivity. -/
def swap_endpoints {D : Type} (mesh : Mesh D) : Mesh D :=
  { mesh with edge_nodes := fun j c => mesh.edge_nodes j (if c = 0 then 1 else 0) }

/-- One rank holding one node whose partition is -1. -/
def nodes_negative_part : Nodes :=
  { nb_nodes := 1, part := fun _ => -1, uid := fun _ => 5, ridx := fun _ => 0 }

/-- One rank holding one node whose partition is 1, the number of ranks. -/
def nodes_large_part : Nodes :=
  { nb_nodes := 1, part := fun _ => 1, uid := fun _ => 5, ridx := fun _ => 0 }

/-- The meshes of `partition_example` with the nodes of `nodes_example`. -/
def partition_example_with_nodes : Nat → Mesh Int := fun r =>
  { partition_example r with nodes := nodes_example r }

/-- Three ranks holding the same edge with global index 7.  Ranks 0 and 1 are those of
`partition_example`: on rank 0 the edge is a boundary edge, on rank 1 it lies between two
cells and its first-pass owner is 1.  On rank 2 it lies between cells of ranks 2
and 1, joins a node of rank 2 and a node of rank 1, and its first-pass owner is 2. -/
def tie_break_example : Nat → Mesh Int := fun r =>
  if r < 2 then partition_example r
  else
    { mesh_example with
      xy := fun i c => if c = 0 then [0, 10].getD i.toNat 0 else 0
      node_part := fun i => [2, 1].getD i.toNat 0
      nb_edges := 1
      edge_nodes := fun _ c => if c = 0 then 0 else 1
      edge_to_elem := fun _ c => if c = 0 then 0 else 1
      edge_glb_idx := fun _ => 7
      elem_part := fun i => [2, 1].getD i.toNat 0 }

/-- Reference: the predicate "periodic-needed" on the two endpoints `n1`, `n2` of an
edge, where `P n` says that node `n` has the PERIODIC flag and `W n` that it has
BC|WEST: `(P n1 ∧ ¬W n1 ∧ P n2 ∧ ¬W n2) ∨ (P n1 ∧ ¬W n1 ∧ W n2) ∨ (W n1 ∧ P n2 ∧ ¬W n2)`. -/
def periodic_needed (P W : Int → Bool) (n1 n2 : Int) : Bool :=
  (P n1 && !W n1 && P n2 && !W n2) || (P n1 && !W n1 && W n2) || (W n1 && P n2 && !W n2)

/-- The locals of rank `r` when it has completed the first loop of
`build_edges_remote_idx` (lines 590-639): its lookup table, its `remote_index` view and
its request lists. -/
def edge_locals {D : Type} (T : Topology) (G : Geometry D) (nparts : Nat)
    (mesh : Nat → Mesh D) (r : Nat) : Requests :=
  value_or Requests.empty (edges_requests T G r nparts (mesh r))

/-- The answers that rank `p` queues for rank `r` in the loop of lines 652-680 of
`build_edges_remote_idx`, from the requests that the ranks have addressed to `p`. -/
def edge_answers_to {D : Type} (T : Topology) (G : Geometry D) (nparts : Nat)
    (mesh : Nat → Mesh D) (p r : Nat) : List (Int × Int) :=
  records ((edges_answers nparts (edge_locals T G nparts mesh p).lookup
    (fun q => (edge_locals T G nparts mesh q).send_needed p)).send_found r)

/-- A mesh with two pole edges in the northern hemisphere whose midpoints have the
longitude 10 and the latitudes 85 and 75.  Edge 0 joins the nodes 0 and 1, which are
periodic points of the EAST boundary; edge 1 joins the nodes 2 and 3, which carry no
flag. -/
def mesh_two_pole_edges : Mesh Int :=
  { mesh_example with
    xy := fun i c =>
      if c = 0 then [0, 20, 0, 20].getD i.toNat 0 else [80, 90, 70, 80].getD i.toNat 0
    flags := fun i => [36, 36, 0, 0].getD i.toNat 0
    nb_edges := 2
    edge_nodes := fun j c => if c = 0 then [0, 2].getD j 0 else [1, 3].getD j 0
    has_pole_edges := true
    is_pole_edge := fun _ => 1 }

/-- The nodes of `renumber_example` with the flag `human_readable` set on rank 0 only. -/
def renumber_flag_on_rank0 : Nat → Nodes := fun r =>
  if r = 0 then { renumber_example 0 with human_readable := true } else renumber_example r

/-- The nodes of `nodes_example` with the flag `parallel` set on rank 0 only. -/
def parallel_flag_on_rank0 : Nat → Nodes := fun r =>
  if r = 0 then { nodes_example 0 with parallel := true } else nodes_example r

/-- Two ranks: rank 0 holds `mesh_mismatch`, on which the first pass of
`build_edges_partition` raises, and rank 1 holds the mesh of rank 1 of
`partition_example`. -/
def mismatch_on_rank0 : Nat → Mesh Int := fun r =>
  if r = 0 then mesh_mismatch else partition_example r

/-- Two ranks with one node each, both of partition 1 and with the flag `parallel`
unset; rank 0 holds a node with UID 999 and rank 1 a node with UID 300, so that rank 0
asks rank 1 for a node that rank 1 does not hold. -/
def missing_owner_example : Nat → Nodes := fun r =>
  { nb_nodes := 1, part := fun _ => 1, uid := fun _ => if r = 0 then 999 else 300,
    ridx := fun _ => -7 }

/-- The nodes of `nodes_example` after `build_nodes_parallel_fields`. -/
def parallel_example_result : Nat → Nodes := fun r =>
  value_or (nodes_example r) (build_nodes_parallel_fields 2 nodes_example r)

/-- Two ranks of which rank 0 has the flag `parallel` set; rank 1 has it unset and holds
one node whose partition is 2, the number of ranks. -/
def large_part_on_rank1 : Nat → Nodes := fun r =>
  if r = 0 then { nodes_example 0 with parallel := true }
  else { nodes_large_part with part := fun _ => 2 }

/-! ## Lemmas on the containers -/

theorem flat_append (ps qs : List (Int × Int)) : flat (ps ++ qs) = flat ps ++ flat qs := by
  induction ps with
  | nil => rfl
  | cons p ps ih => simp [flat, ih]

theorem records_cons_cons (a b : Int) (l : List Int) :
    records (a :: b :: l) = (a, b) :: records l := by
  unfold records
  have hlen : (a :: b :: l).length / 2 = l.length / 2 + 1 := by
    simp only [List.length_cons]; omega
  rw [hlen, List.range_succ_eq_map, List.map_cons, List.map_map]
  rfl

theorem records_flat (ps : List (Int × Int)) : records (flat ps) = ps := by
  induction ps with
  | nil => rfl
  | cons p ps ih => simp [flat, records_cons_cons, ih]

theorem size_t_eq_iff (x : Int) (m n : Nat) (hn : n < 2 ^ 31) (h0 : 0 ≤ x)
    (hx : x < n) : size_t x = m ↔ x = (m : Int) := by
  unfold size_t
  have hx2 : x < 2 ^ 64 := by
    have : (n : Int) < 2 ^ 31 := by exact_mod_cast hn
    omega
  rw [Int.emod_eq_of_lt h0 hx2]
  omega

theorem first_error_none {α : Type} (n : Nat) (f : Nat → Except Error α) :
    first_error n f = none ↔ ∀ r < n, ∃ a, f r = .ok a := by
  induction n with
  | zero => simp [first_error]
  | succ n ih =>
    simp only [first_error]
    constructor
    · intro h r hr
      cases hfe : first_error n f with
      | some e => rw [hfe] at h; simp at h
      | none =>
        rw [hfe] at h
        rcases Nat.lt_succ_iff_lt_or_eq.mp hr with hlt | heq
        · exact (ih.mp hfe) r hlt
        · subst heq
          cases hfr : f r with
          | ok a => exact ⟨a, rfl⟩
          | error e => rw [hfr] at h; simp at h
    · intro h
      have hn : first_error n f = none := ih.mpr (fun r hr => h r (Nat.lt_succ_of_lt hr))
      rw [hn]
      obtain ⟨a, ha⟩ := h n (Nat.lt_succ_self n)
      rw [ha]

/-! ## The first loop of `build_nodes_remote_idx` -/

theorem nodes_requests_prefix (mypart nparts : Nat) (nodes : Nodes) (hn : nparts < 2 ^ 31)
    (n : Nat) (h : ∀ j < n, 0 ≤ nodes.part j ∧ nodes.part j < (nparts : Int)) :
    (List.range n).foldlM (nodes_requests_step mypart nparts nodes)
      { lookup := [], ridx := nodes.ridx, send_needed := fun _ => [] }
      = .ok (requests_after mypart nodes n) := by
  induction n with
  | zero =>
    simp [requests_after, owned_nodes, ghost_nodes, flat, pure, Except.pure]
  | succ n ih =>
    have ih2 := ih (fun j hj => h j (Nat.lt_succ_of_lt hj))
    obtain ⟨h0, h1⟩ := h n (Nat.lt_succ_self n)
    rw [List.range_succ, List.foldlM_append, ih2]
    simp only [bind, Except.bind, List.foldlM_cons, List.foldlM_nil, pure, Except.pure]
    have hsz := size_t_eq_iff (nodes.part n) mypart nparts hn h0 h1
    unfold nodes_requests_step
    by_cases hown : nodes.part n = (mypart : Int)
    · have hs : size_t (nodes.part n) = mypart := hsz.mpr hown
      simp only [hs, if_true]
      simp only [requests_after, Requests.mk.injEq, Except.ok.injEq]
      refine ⟨?_, ?_, ?_⟩
      · simp [owned_nodes, map_insert, List.range_succ, List.filter_append, hown]
      · funext j
        simp only [assign]
        by_cases hj : j = n
        · subst hj; simp [hown]
        · have : (j < n + 1 ∧ nodes.part j = (mypart : Int)) ↔
              (j < n ∧ nodes.part j = (mypart : Int)) := by
            constructor
            · rintro ⟨a, b⟩; exact ⟨by omega, b⟩
            · rintro ⟨a, b⟩; exact ⟨by omega, b⟩
          simp [hj, this]
      · funext p
        simp [ghost_nodes, List.range_succ, List.filter_append, hown]
    · have hs : ¬ size_t (nodes.part n) = mypart := fun hc => hown (hsz.mp hc)
      have h2 : ¬ nodes.part n ≥ (nparts : Int) := by omega
      have h3 : ¬ nodes.part n < 0 := by omega
      simp only [hs, h2, h3, if_false]
      simp only [requests_after, Requests.mk.injEq, Except.ok.injEq]
      refine ⟨?_, ?_, ?_⟩
      · simp [owned_nodes, List.range_succ, List.filter_append, hown]
      · funext j
        by_cases hj : j = n
        · subst hj; simp [hown]
        · have : (j < n + 1 ∧ nodes.part j = (mypart : Int)) ↔
              (j < n ∧ nodes.part j = (mypart : Int)) := by
            constructor
            · rintro ⟨a, b⟩; exact ⟨by omega, b⟩
            · rintro ⟨a, b⟩; exact ⟨by omega, b⟩
          simp [this]
      · funext p
        simp only [push_back2, ghost_nodes, List.range_succ, List.filter_append]
        by_cases hp : p = (nodes.part n).toNat
        · subst hp
          simp [hown, flat_append, flat, Int.toNat_of_nonneg h0]
        · have hpp : ¬ nodes.part n = (p : Int) := by omega
          simp [hp, hpp]

theorem nodes_requests_ok (mypart nparts : Nat) (nodes : Nodes) (hn : nparts < 2 ^ 31)
    (h : ∀ j < nodes.nb_nodes, 0 ≤ nodes.part j ∧ nodes.part j < (nparts : Int)) :
    nodes_requests mypart nparts nodes = .ok (requests_after mypart nodes nodes.nb_nodes) :=
  nodes_requests_prefix mypart nparts nodes hn nodes.nb_nodes h

/-! ## The answering loop of `build_nodes_remote_idx` -/

theorem nodes_answers_inner_ok (lookup : List (Int × Int)) (jpart : Nat)
    (reqs : List (Int × Int)) (sf : Nat → List Int)
    (h : ∀ req ∈ reqs, map_find lookup req.1 ≠ none) :
    reqs.foldlM (nodes_answers_step lookup jpart) sf
      = .ok (fun k => if k = jpart then sf k ++ flat (answers_for lookup reqs) else sf k) := by
  induction reqs generalizing sf with
  | nil => simp [answers_for, flat, pure, Except.pure]
  | cons req reqs ih =>
    have hreq := h req (List.mem_cons_self _ _)
    obtain ⟨k, hk⟩ := Option.ne_none_iff_exists'.mp hreq
    rw [List.foldlM_cons]
    simp only [nodes_answers_step, hk, bind, Except.bind]
    rw [ih _ (fun r hr => h r (List.mem_cons_of_mem _ hr))]
    congr 1
    funext q
    by_cases hq : q = jpart
    · simp [hq, push_back2, answers_for, flat, hk]
    · simp [hq, push_back2]

theorem nodes_answers_inner_error (lookup : List (Int × Int)) (jpart : Nat)
    (reqs : List (Int × Int)) (sf : Nat → List Int)
    (h : ∃ req ∈ reqs, map_find lookup req.1 = none) :
    reqs.foldlM (nodes_answers_step lookup jpart) sf = .error Error.SeriousBug := by
  induction reqs generalizing sf with
  | nil => simp at h
  | cons req reqs ih =>
    rw [List.foldlM_cons]
    cases hk : map_find lookup req.1 with
    | none => simp [nodes_answers_step, hk, bind, Except.bind]
    | some k =>
      simp only [nodes_answers_step, hk, bind, Except.bind]
      apply ih
      obtain ⟨r, hr, hnone⟩ := h
      rcases List.mem_cons.mp hr with heq | hmem
      · subst heq; rw [hk] at hnone; simp at hnone
      · exact ⟨r, hmem, hnone⟩

theorem nodes_answers_ok (nparts : Nat) (lookup : List (Int × Int))
    (recv_needed : Nat → List Int)
    (h : ∀ q < nparts, ∀ req ∈ records (recv_needed q), map_find lookup req.1 ≠ none) :
    nodes_answers nparts lookup recv_needed
      = .ok (fun k => if k < nparts then flat (answers_for lookup (records (recv_needed k)))
          else []) := by
  unfold nodes_answers
  induction nparts with
  | zero => simp [pure, Except.pure]
  | succ n ih =>
    rw [List.range_succ, List.foldlM_append, ih (fun q hq => h q (Nat.lt_succ_of_lt hq))]
    simp only [bind, Except.bind, List.foldlM_cons, List.foldlM_nil]
    rw [nodes_answers_inner_ok lookup n _ _ (h n (Nat.lt_succ_self n))]
    simp only [pure, Except.pure]
    congr 1
    funext k
    by_cases hk : k = n
    · subst hk; simp
    · by_cases hlt : k < n
      · have : k < n + 1 := by omega
        simp [hk, hlt, this]
      · have : ¬ k < n + 1 := by omega
        simp [hk, hlt, this]

theorem nodes_answers_error (nparts : Nat) (lookup : List (Int × Int))
    (recv_needed : Nat → List Int)
    (h : ∃ q < nparts, ∃ req ∈ records (recv_needed q), map_find lookup req.1 = none) :
    nodes_answers nparts lookup recv_needed = .error Error.SeriousBug := by
  unfold nodes_answers
  induction nparts with
  | zero => obtain ⟨q, hq, _⟩ := h; omega
  | succ n ih =>
    rw [List.range_succ, List.foldlM_append]
    by_cases hpre : ∃ q < n, ∃ req ∈ records (recv_needed q), map_find lookup req.1 = none
    · rw [ih hpre]; rfl
    · have hall : ∀ q < n, ∀ req ∈ records (recv_needed q), map_find lookup req.1 ≠ none := by
        intro q hq req hreq hnone
        exact hpre ⟨q, hq, req, hreq, hnone⟩
      have hok := nodes_answers_ok n lookup recv_needed hall
      unfold nodes_answers at hok
      rw [hok]
      simp only [bind, Except.bind, List.foldlM_cons, List.foldlM_nil]
      obtain ⟨q, hq, req, hreq, hnone⟩ := h
      have hqn : q = n := by
        by_contra hne
        exact hpre ⟨q, by omega, req, hreq, hnone⟩
      subst hqn
      rw [nodes_answers_inner_error lookup q _ _ ⟨req, hreq, hnone⟩]

/-! ## The write-back loop -/

theorem write_back_inner (l : List (Int × Int)) (r : Nat → Int) (j : Nat) (v : Int)
    (hv : ∀ a ∈ l, a.1.toNat = j → a.2 = v) :
    ((l.foldl (fun r a => assign r a.1.toNat a.2) r) j = v ∧ ∃ a ∈ l, a.1.toNat = j) ∨
    ((l.foldl (fun r a => assign r a.1.toNat a.2) r) j = r j ∧ ∀ a ∈ l, a.1.toNat ≠ j) := by
  induction l generalizing r with
  | nil => right; simp
  | cons a l ih =>
    rw [List.foldl_cons]
    rcases ih (assign r a.1.toNat a.2) (fun b hb => hv b (List.mem_cons_of_mem _ hb)) with
      ⟨h1, b, hb, hbj⟩ | ⟨h1, h2⟩
    · left; exact ⟨h1, b, List.mem_cons_of_mem _ hb, hbj⟩
    · by_cases haj : a.1.toNat = j
      · left
        refine ⟨?_, a, List.mem_cons_self _ _, haj⟩
        rw [h1]
        simp [assign, haj, hv a (List.mem_cons_self _ _) haj]
      · right
        refine ⟨?_, ?_⟩
        · rw [h1]
          have : ¬ j = a.1.toNat := fun hc => haj hc.symm
          simp [assign, this]
        · intro b hb
          rcases List.mem_cons.mp hb with heq | hmem
          · subst heq; exact haj
          · exact h2 b hmem

theorem write_back_cases (nparts : Nat) (ridx : Nat → Int) (recv_found : Nat → List Int)
    (j : Nat) (v : Int)
    (hv : ∀ q < nparts, ∀ a ∈ records (recv_found q), a.1.toNat = j → a.2 = v) :
    (write_back nparts ridx recv_found j = v ∧
      ∃ q < nparts, ∃ a ∈ records (recv_found q), a.1.toNat = j) ∨
    (write_back nparts ridx recv_found j = ridx j ∧
      ∀ q < nparts, ∀ a ∈ records (recv_found q), a.1.toNat ≠ j) := by
  unfold write_back
  induction nparts with
  | zero => right; simp
  | succ n ih =>
    rw [List.range_succ, List.foldl_append, List.foldl_cons, List.foldl_nil]
    rcases write_back_inner (records (recv_found n))
        ((List.range n).foldl
          (fun r jpart => (records (recv_found jpart)).foldl (fun r a => assign r a.1.toNat a.2) r)
          ridx) j v (hv n (Nat.lt_succ_self n)) with ⟨h1, a, ha, haj⟩ | ⟨h1, h2⟩
    · left; exact ⟨h1, n, Nat.lt_succ_self n, a, ha, haj⟩
    · rcases ih (fun q hq => hv q (Nat.lt_succ_of_lt hq)) with ⟨h3, q, hq, a, ha, haj⟩ | ⟨h3, h4⟩
      · left; exact ⟨by rw [h1, h3], q, Nat.lt_succ_of_lt hq, a, ha, haj⟩
      · right
        refine ⟨by rw [h1, h3], ?_⟩
        intro q hq a ha
        rcases Nat.lt_succ_iff_lt_or_eq.mp hq with hlt | heq
        · exact h4 q hlt a ha
        · subst heq; exact h2 a ha

theorem write_back_untouched (nparts : Nat) (ridx : Nat → Int) (recv_found : Nat → List Int)
    (j : Nat) (h : ∀ q < nparts, ∀ a ∈ records (recv_found q), a.1.toNat ≠ j) :
    write_back nparts ridx recv_found j = ridx j := by
  rcases write_back_cases nparts ridx recv_found j 0
      (fun q hq a ha haj => absurd haj (h q hq a ha)) with ⟨_, q, hq, a, ha, haj⟩ | ⟨h1, _⟩
  · exact absurd haj (h q hq a ha)
  · exact h1

theorem write_back_value (nparts : Nat) (ridx : Nat → Int) (recv_found : Nat → List Int)
    (j : Nat) (v : Int)
    (hv : ∀ q < nparts, ∀ a ∈ records (recv_found q), a.1.toNat = j → a.2 = v)
    (hex : ∃ q < nparts, ∃ a ∈ records (recv_found q), a.1.toNat = j) :
    write_back nparts ridx recv_found j = v := by
  rcases write_back_cases nparts ridx recv_found j v hv with ⟨h1, _⟩ | ⟨_, h2⟩
  · exact h1
  · obtain ⟨q, hq, a, ha, haj⟩ := hex
    exact absurd haj (h2 q hq a ha)

/-! ## The whole of `build_nodes_remote_idx` -/

theorem map_find_map (uid : Nat → Int) (l : List Nat) (u k : Int)
    (h : map_find (l.map (fun j => (uid j, (j : Int)))) u = some k) :
    ∃ j ∈ l, k = (j : Int) ∧ uid j = u := by
  induction l with
  | nil => simp [map_find] at h
  | cons a l ih =>
    simp only [map_find, List.map_cons, List.lookup_cons] at h
    by_cases hu : u = uid a
    · subst hu
      simp at h
      exact ⟨a, List.mem_cons_self _ _, h.symm, rfl⟩
    · have hb : (u == uid a) = false := by simpa using hu
      rw [hb] at h
      obtain ⟨j, hj, hk, hju⟩ := ih h
      exact ⟨j, List.mem_cons_of_mem _ hj, hk, hju⟩

theorem map_find_map_present (uid : Nat → Int) (l : List Nat) (j : Nat) (hj : j ∈ l) :
    map_find (l.map (fun j => (uid j, (j : Int)))) (uid j) ≠ none := by
  induction l with
  | nil => simp at hj
  | cons a l ih =>
    simp only [map_find, List.map_cons, List.lookup_cons]
    by_cases hu : uid j = uid a
    · simp [hu]
    · have hb : (uid j == uid a) = false := by simpa using hu
      rw [hb]
      rcases List.mem_cons.mp hj with heq | hmem
      · subst heq; exact absurd rfl hu
      · exact ih hmem

theorem build_nodes_remote_idx_ok (nparts : Nat) (nodes : Nat → Nodes)
    (ridx : Nat → Nat → Int) (hn : nparts < 2 ^ 31)
    (hpart : ∀ r < nparts, ∀ j < (nodes r).nb_nodes,
      0 ≤ (nodes r).part j ∧ (nodes r).part j < (nparts : Int))
    (hrun : build_nodes_remote_idx nparts nodes = .ok ridx) :
    ∃ recv_found : Nat → Nat → List Int,
      (∀ R < nparts, ∀ q < nparts, recv_found R q =
        flat (answers_for (rank_requests nodes q).lookup
          (records ((rank_requests nodes R).send_needed q)))) ∧
      (∀ R < nparts, ∀ q < nparts, ∀ req ∈ records ((rank_requests nodes q).send_needed R),
        map_find (rank_requests nodes R).lookup req.1 ≠ none) ∧
      (∀ R < nparts, ridx R = write_back nparts (rank_requests nodes R).ridx (recv_found R)) := by
  have hp1 : ∀ r < nparts, nodes_requests r nparts (nodes r) = .ok (rank_requests nodes r) :=
    fun r hr => nodes_requests_ok r nparts (nodes r) hn (hpart r hr)
  have hfe1 : first_error nparts (fun r => nodes_requests r nparts (nodes r)) = none :=
    (first_error_none _ _).mpr (fun r hr => ⟨_, hp1 r hr⟩)
  have hs1 : ∀ r < nparts,
      value_or Requests.empty (nodes_requests r nparts (nodes r)) = rank_requests nodes r :=
    fun r hr => by rw [hp1 r hr]; rfl
  unfold build_nodes_remote_idx at hrun
  simp only [hfe1] at hrun
  cases hfe2 : first_error nparts (fun r =>
      nodes_answers nparts (value_or Requests.empty (nodes_requests r nparts (nodes r))).lookup
        (fun q => (value_or Requests.empty (nodes_requests q nparts (nodes q))).send_needed r))
    with
  | some e => rw [hfe2] at hrun; simp at hrun
  | none =>
    rw [hfe2] at hrun
    simp only [Except.ok.injEq] at hrun
    have hall := (first_error_none _ _).mp hfe2
    have hfound : ∀ R < nparts, ∀ q < nparts,
        ∀ req ∈ records ((rank_requests nodes q).send_needed R),
        map_find (rank_requests nodes R).lookup req.1 ≠ none := by
      intro R hR q hq req hreq hnone
      obtain ⟨a, ha⟩ := hall R hR
      rw [nodes_answers_error nparts _ _ ⟨q, hq, req, by rw [hs1 q hq]; exact hreq,
        by rw [hs1 R hR]; exact hnone⟩] at ha
      simp at ha
    refine ⟨fun R q => value_or (fun _ => [])
      (nodes_answers nparts
        (value_or Requests.empty (nodes_requests q nparts (nodes q))).lookup
        (fun k => (value_or Requests.empty (nodes_requests k nparts (nodes k))).send_needed q))
      R, ?_, hfound, ?_⟩
    · intro R hR q hq
      beta_reduce
      rw [nodes_answers_ok nparts _ _ (by
        intro k hk req hreq
        rw [hs1 q hq]
        rw [hs1 k hk] at hreq
        exact hfound q hq k hk req hreq)]
      rw [hs1 q hq]
      show (if R < nparts then _ else _) = _
      rw [if_pos hR, hs1 R hR]
    · intro R hR
      rw [← hrun]
      beta_reduce
      rw [hs1 R hR]

theorem records_answers (nodes : Nat → Nodes) (R q : Nat) :
    records (flat (answers_for (rank_requests nodes q).lookup
      (records ((rank_requests nodes R).send_needed q))))
    = (ghost_nodes R (nodes R) q (nodes R).nb_nodes).map
        (fun (j : Nat) => ((j : Int),
          (map_find (rank_requests nodes q).lookup ((nodes R).uid j)).getD 0)) := by
  rw [records_flat]
  simp only [rank_requests, requests_after, records_flat, answers_for, List.map_map]
  rfl

theorem mem_ghost_nodes (mypart : Nat) (nodes : Nodes) (p n j : Nat) :
    j ∈ ghost_nodes mypart nodes p n ↔
      j < n ∧ nodes.part j ≠ (mypart : Int) ∧ nodes.part j = (p : Int) := by
  simp [ghost_nodes]

theorem mem_owned_nodes (mypart : Nat) (nodes : Nodes) (n j : Nat) :
    j ∈ owned_nodes mypart nodes n ↔ j < n ∧ nodes.part j = (mypart : Int) := by
  simp [owned_nodes]

/-- Claim C1.  Node remote-index round trip: when `build_nodes_remote_idx` completes on
`nparts` ranks whose node partitions all lie in `[0, nparts)`, the remote index of every
node `j` of every rank `R` is a valid node index `k` of the rank `P = partition_R(j)`,
that node is owned by `P`, and its UID on `P` equals the UID of `j` on `R`. -/
theorem nodes_remote_idx_round_trip (nparts : Nat) (nodes : Nat → Nodes)
    (ridx : Nat → Nat → Int) (hn : nparts < 2 ^ 31)
    (hpart : ∀ r < nparts, ∀ j < (nodes r).nb_nodes,
      0 ≤ (nodes r).part j ∧ (nodes r).part j < (nparts : Int))
    (hrun : build_nodes_remote_idx nparts nodes = .ok ridx) :
    ∀ R < nparts, ∀ j < (nodes R).nb_nodes, ∃ k : Nat,
      ridx R j = (k : Int) ∧
      k < (nodes ((nodes R).part j).toNat).nb_nodes ∧
      (nodes ((nodes R).part j).toNat).part k = (nodes R).part j ∧
      (nodes ((nodes R).part j).toNat).uid k = (nodes R).uid j := by
  obtain ⟨recv_found, hrecv, hfound, hridx⟩ :=
    build_nodes_remote_idx_ok nparts nodes ridx hn hpart hrun
  intro R hR j hj
  obtain ⟨h0, h1⟩ := hpart R hR j hj
  have hrec : ∀ q < nparts, records (recv_found R q) =
      (ghost_nodes R (nodes R) q (nodes R).nb_nodes).map
        (fun (j : Nat) => ((j : Int),
          (map_find (rank_requests nodes q).lookup ((nodes R).uid j)).getD 0)) :=
    fun q hq => by rw [hrecv R hR q hq, records_answers]
  rw [hridx R hR]
  by_cases hown : (nodes R).part j = (R : Int)
  · refine ⟨j, ?_, ?_, ?_, ?_⟩
    · rw [write_back_untouched]
      · simp [rank_requests, requests_after, hj, hown]
      · intro q hq a ha haj
        rw [hrec q hq] at ha
        obtain ⟨i, hi, rfl⟩ := List.mem_map.mp ha
        have := (mem_ghost_nodes _ _ _ _ _).mp hi
        simp only [Int.toNat_ofNat] at haj
        subst haj
        exact this.2.1 hown
    · simp [hown, hj]
    · simp [hown]
    · simp [hown]
  · have hP : ((nodes R).part j).toNat < nparts := by omega
    have hPeq : (((nodes R).part j).toNat : Int) = (nodes R).part j := Int.toNat_of_nonneg h0
    have hjg : j ∈ ghost_nodes R (nodes R) ((nodes R).part j).toNat (nodes R).nb_nodes :=
      (mem_ghost_nodes _ _ _ _ _).mpr ⟨hj, hown, hPeq.symm⟩
    have hreq : ((nodes R).uid j, (j : Int)) ∈
        records ((rank_requests nodes R).send_needed ((nodes R).part j).toNat) := by
      simp only [rank_requests, requests_after, records_flat]
      exact List.mem_map.mpr ⟨j, hjg, rfl⟩
    have hne := hfound _ hP R hR _ hreq
    obtain ⟨v, hv⟩ := Option.ne_none_iff_exists'.mp hne
    have hwb : write_back nparts (rank_requests nodes R).ridx (recv_found R) j = v := by
      apply write_back_value
      · intro q hq a ha haj
        rw [hrec q hq] at ha
        obtain ⟨i, hi, rfl⟩ := List.mem_map.mp ha
        have hig := (mem_ghost_nodes _ _ _ _ _).mp hi
        simp only [Int.toNat_ofNat] at haj
        subst haj
        have hq2 : q = ((nodes R).part i).toNat := by omega
        subst hq2
        simp [hv]
      · refine ⟨_, hP, ((j : Int), v), ?_, ?_⟩
        · rw [hrec _ hP]
          exact List.mem_map.mpr ⟨j, hjg, by simp [hv]⟩
        · simp
    have hlk : map_find
        ((owned_nodes ((nodes R).part j).toNat (nodes ((nodes R).part j).toNat)
          (nodes ((nodes R).part j).toNat).nb_nodes).reverse.map
            (fun i => ((nodes ((nodes R).part j).toNat).uid i, (i : Int))))
        ((nodes R).uid j) = some v := hv
    obtain ⟨k, hk, hkv, hku⟩ := map_find_map _ _ _ _ hlk
    have hko := (mem_owned_nodes _ _ _ _).mp (List.mem_reverse.mp hk)
    refine ⟨k, ?_, hko.1, ?_, hku⟩
    · rw [hwb, hkv]
    · rw [hko.2, hPeq]

theorem nodes_remote_idx_round_trip_witness :
    build_nodes_remote_idx 2 nodes_example = .ok nodes_example_ridx ∧
    nodes_example_ridx 0 2 = 0 ∧ nodes_example_ridx 1 1 = 1 ∧
    ∀ R < 2, ∀ j < (nodes_example R).nb_nodes, ∃ k : Nat,
      nodes_example_ridx R j = (k : Int) ∧
      k < (nodes_example ((nodes_example R).part j).toNat).nb_nodes ∧
      (nodes_example ((nodes_example R).part j).toNat).part k = (nodes_example R).part j ∧
      (nodes_example ((nodes_example R).part j).toNat).uid k = (nodes_example R).uid j :=
  ⟨rfl, rfl, rfl,
    nodes_remote_idx_round_trip 2 nodes_example nodes_example_ridx (by norm_num)
      (by decide) rfl⟩


theorem foldlM_range_ok {σ : Type} (step : σ → Nat → Except Error σ) (n : Nat) (init s : σ)
    (h : (List.range n).foldlM step init = .ok s) :
    ∀ j < n, ∃ a b, step a j = .ok b := by
  induction n generalizing s with
  | zero => intro j hj; omega
  | succ n ih =>
    rw [List.range_succ, List.foldlM_append] at h
    cases hpre : (List.range n).foldlM step init with
    | error e => rw [hpre] at h; simp [bind, Except.bind] at h
    | ok s1 =>
      rw [hpre] at h
      simp only [bind, Except.bind, List.foldlM_cons, List.foldlM_nil] at h
      intro j hj
      rcases Nat.lt_succ_iff_lt_or_eq.mp hj with hlt | heq
      · exact ih s1 hpre j hlt
      · subst heq
        cases hst : step s1 j with
        | error e => rw [hst] at h; simp at h
        | ok s2 => exact ⟨s1, s2, hst⟩

theorem size_t_int32 (x : Int) (m : Nat) (hlo : -2 ^ 31 ≤ x) (hhi : x < 2 ^ 31)
    (hm : m < 2 ^ 31) (h : size_t x = m) : x = (m : Int) := by
  unfold size_t at h
  have hm2 : (m : Int) < 2 ^ 31 := by exact_mod_cast hm
  have hnn : 0 ≤ x % 2 ^ 64 := Int.emod_nonneg _ (by norm_num)
  have hxm : x % 2 ^ 64 = (m : Int) := by omega
  by_cases hx : 0 ≤ x
  · rw [Int.emod_eq_of_lt hx (by omega)] at hxm; exact hxm
  · exfalso
    have h1 : (x + 2 ^ 64) % 2 ^ 64 = x % 2 ^ 64 := Int.add_emod_self
    have h2 : (x + 2 ^ 64) % 2 ^ 64 = x + 2 ^ 64 :=
      Int.emod_eq_of_lt (by omega) (by omega)
    omega

theorem nodes_requests_in_range (mypart nparts : Nat) (nodes : Nodes) (s : Requests)
    (hm : mypart < nparts) (hn : nparts < 2 ^ 31)
    (hint : ∀ j < nodes.nb_nodes, -2 ^ 31 ≤ nodes.part j ∧ nodes.part j < 2 ^ 31)
    (h : nodes_requests mypart nparts nodes = .ok s) :
    ∀ j < nodes.nb_nodes, 0 ≤ nodes.part j ∧ nodes.part j < (nparts : Int) := by
  intro j hj
  obtain ⟨a, b, hab⟩ := foldlM_range_ok _ _ _ _ h j hj
  obtain ⟨hlo, hhi⟩ := hint j hj
  unfold nodes_requests_step at hab
  by_cases hs : size_t (nodes.part j) = mypart
  · have := size_t_int32 _ _ hlo hhi (by omega) hs
    omega
  · simp only [hs, if_false] at hab
    by_cases h2 : nodes.part j ≥ (nparts : Int)
    · simp [h2] at hab
    · simp only [h2, if_false] at hab
      by_cases h3 : nodes.part j < 0
      · simp [h3] at hab
      · omega

theorem build_nodes_remote_idx_in_range (nparts : Nat) (nodes : Nat → Nodes)
    (ridx : Nat → Nat → Int) (hn : nparts < 2 ^ 31)
    (hint : ∀ r < nparts, ∀ j < (nodes r).nb_nodes,
      -2 ^ 31 ≤ (nodes r).part j ∧ (nodes r).part j < 2 ^ 31)
    (hrun : build_nodes_remote_idx nparts nodes = .ok ridx) :
    ∀ r < nparts, ∀ j < (nodes r).nb_nodes,
      0 ≤ (nodes r).part j ∧ (nodes r).part j < (nparts : Int) := by
  unfold build_nodes_remote_idx at hrun
  cases hfe : first_error nparts (fun r => nodes_requests r nparts (nodes r)) with
  | some e => simp [hfe] at hrun
  | none =>
    intro r hr
    obtain ⟨a, ha⟩ := (first_error_none _ _).mp hfe r hr
    exact nodes_requests_in_range r nparts (nodes r) a hr hn (hint r hr) ha

theorem nodes_owned_untouched (nparts : Nat) (nodes : Nat → Nodes)
    (ridx : Nat → Nat → Int) (hn : nparts < 2 ^ 31)
    (hpart : ∀ r < nparts, ∀ j < (nodes r).nb_nodes,
      0 ≤ (nodes r).part j ∧ (nodes r).part j < (nparts : Int))
    (hrun : build_nodes_remote_idx nparts nodes = .ok ridx) :
    ∀ R < nparts, ∀ j < (nodes R).nb_nodes, (nodes R).part j = (R : Int) →
      ridx R j = (j : Int) := by
  obtain ⟨recv_found, hrecv, _, hridx⟩ :=
    build_nodes_remote_idx_ok nparts nodes ridx hn hpart hrun
  intro R hR j hj hown
  rw [hridx R hR, write_back_untouched]
  · simp [rank_requests, requests_after, hj, hown]
  · intro q hq a ha haj
    rw [hrecv R hR q hq, records_answers] at ha
    obtain ⟨i, hi, rfl⟩ := List.mem_map.mp ha
    have := (mem_ghost_nodes _ _ _ _ _).mp hi
    simp only [Int.toNat_ofNat] at haj
    subst haj
    exact this.2.1 hown

/-- Claim C3.  Invariant I3 for nodes: when `build_nodes_remote_idx` completes on all
ranks, every node that a rank owns has its own local index as remote index after the
write-back of the received answers.  The partition values are C `int`s. -/
theorem nodes_owned_remote_idx_is_local (nparts : Nat) (nodes : Nat → Nodes)
    (ridx : Nat → Nat → Int) (hn : nparts < 2 ^ 31)
    (hint : ∀ r < nparts, ∀ j < (nodes r).nb_nodes,
      -2 ^ 31 ≤ (nodes r).part j ∧ (nodes r).part j < 2 ^ 31)
    (hrun : build_nodes_remote_idx nparts nodes = .ok ridx) :
    ∀ R < nparts, ∀ j < (nodes R).nb_nodes, (nodes R).part j = (R : Int) →
      ridx R j = (j : Int) :=
  nodes_owned_untouched nparts nodes ridx hn
    (build_nodes_remote_idx_in_range nparts nodes ridx hn hint hrun) hrun

theorem nodes_owned_remote_idx_is_local_witness :
    build_nodes_remote_idx 2 nodes_example = .ok nodes_example_ridx ∧
    (nodes_example 0).part 1 = 0 ∧ nodes_example_ridx 0 1 = 1 ∧
    ∀ R < 2, ∀ j < (nodes_example R).nb_nodes, (nodes_example R).part j = (R : Int) →
      nodes_example_ridx R j = (j : Int) :=
  ⟨rfl, rfl, rfl,
    nodes_owned_remote_idx_is_local 2 nodes_example nodes_example_ridx (by norm_num)
      (by decide) rfl⟩

theorem flat_length (ps : List (Int × Int)) : (flat ps).length = 2 * ps.length := by
  induction ps with
  | nil => rfl
  | cons p ps ih => simp only [flat, List.length_cons, ih]; omega

theorem forall₂_answers_for (lookup : List (Int × Int)) (reqs : List (Int × Int))
    (h : ∀ req ∈ reqs, map_find lookup req.1 ≠ none) :
    List.Forall₂ (fun req ans => ans.1 = req.2 ∧ map_find lookup req.1 = some ans.2)
      reqs (answers_for lookup reqs) := by
  induction reqs with
  | nil => exact List.Forall₂.nil
  | cons req reqs ih =>
    obtain ⟨k, hk⟩ := Option.ne_none_iff_exists'.mp (h req (List.mem_cons_self _ _))
    refine List.Forall₂.cons ?_ (ih (fun r hr => h r (List.mem_cons_of_mem _ hr)))
    simp [hk]

/-- Claim C5.  Node protocol miss: on a rank with table `lookup` that has received the
buffers `recv_needed`, the answering loop of `build_nodes_remote_idx` raises `SeriousBug`
exactly when some received request carries a UID that is not a key of `lookup`, it raises
nothing else, and when it does not raise, the buffer for every requesting rank holds
exactly one pair `( requester_local_index, owner_local_index )` per request of that rank,
in order, and nothing is addressed to any other destination. -/
theorem nodes_protocol_miss_is_fatal (nparts : Nat) (lookup : List (Int × Int))
    (recv_needed : Nat → List Int) :
    (nodes_answers nparts lookup recv_needed = .error Error.SeriousBug ↔
      ∃ q < nparts, ∃ req ∈ records (recv_needed q), map_find lookup req.1 = none) ∧
    (∀ e, nodes_answers nparts lookup recv_needed = .error e → e = Error.SeriousBug) ∧
    (∀ send_found, nodes_answers nparts lookup recv_needed = .ok send_found →
      (∀ q < nparts,
        (send_found q).length = 2 * (records (recv_needed q)).length ∧
        List.Forall₂ (fun req ans => ans.1 = req.2 ∧ map_find lookup req.1 = some ans.2)
          (records (recv_needed q)) (records (send_found q))) ∧
      ∀ q, nparts ≤ q → send_found q = []) := by
  by_cases hmiss : ∃ q < nparts, ∃ req ∈ records (recv_needed q), map_find lookup req.1 = none
  · have herr := nodes_answers_error nparts lookup recv_needed hmiss
    refine ⟨⟨fun _ => hmiss, fun _ => herr⟩, ?_, ?_⟩
    · intro e he
      rw [herr] at he
      exact (Except.error.inj he).symm
    · intro sf hsf
      rw [herr] at hsf
      simp at hsf
  · have hall : ∀ q < nparts, ∀ req ∈ records (recv_needed q),
        map_find lookup req.1 ≠ none := by
      intro q hq req hreq hnone
      exact hmiss ⟨q, hq, req, hreq, hnone⟩
    have hok := nodes_answers_ok nparts lookup recv_needed hall
    refine ⟨⟨fun h => ?_, fun h => absurd h hmiss⟩, ?_, ?_⟩
    · rw [hok] at h; simp at h
    · intro e he
      rw [hok] at he; simp at he
    · intro sf hsf
      rw [hok] at hsf
      have hsf2 := Except.ok.inj hsf
      subst hsf2
      refine ⟨?_, ?_⟩
      · intro q hq
        simp only [hq, if_true, records_flat, flat_length]
        refine ⟨by simp [answers_for], forall₂_answers_for lookup _ (hall q hq)⟩
      · intro q hq
        have : ¬ q < nparts := by omega
        simp [this]

theorem nodes_protocol_miss_is_fatal_witness :
    nodes_answers 2 [(300, 0)] (fun q => if q = 0 then [300, 2, 200, 1] else [])
      = .error Error.SeriousBug ∧
    (nodes_answers 2 [(200, 1), (300, 0)]
      (fun q => if q = 0 then [300, 2, 200, 1] else [])).map (fun f => (f 0, f 1, f 2))
      = .ok ([2, 0, 1, 1], [], []) :=
  ⟨(nodes_protocol_miss_is_fatal 2 [(300, 0)]
      (fun q => if q = 0 then [300, 2, 200, 1] else [])).1.mpr
      ⟨0, by decide, (200, 1), by decide, rfl⟩, rfl⟩

/-! ## The first pass of `build_edges_partition` -/

theorem edges_partition_step_frame {D : Type} (G : Geometry D) (mesh : Mesh D)
    (a b : EdgesPartition) (k : Nat) (h : edges_partition_step G mesh a k = .ok b) :
    (∀ j, j ≠ k → b.edge_part j = a.edge_part j) ∧
    (∀ g ∈ a.bdry_edges, g ∈ b.bdry_edges) := by
  unfold edges_partition_step at h
  simp only [] at h
  split_ifs at h <;>
    (have hb := Except.ok.inj h
     subst hb
     exact ⟨fun j hj => by simp [assign, hj], fun g hg => by simp [hg]⟩)

theorem edges_partition_fold {D : Type} (G : Geometry D) (mesh : Mesh D)
    (init s : EdgesPartition) (n : Nat)
    (h : (List.range n).foldlM (edges_partition_step G mesh) init = .ok s) :
    ∀ j < n, ∃ a b, edges_partition_step G mesh a j = .ok b ∧
      s.edge_part j = b.edge_part j ∧ ∀ g ∈ b.bdry_edges, g ∈ s.bdry_edges := by
  induction n generalizing s with
  | zero => intro j hj; omega
  | succ n ih =>
    rw [List.range_succ, List.foldlM_append] at h
    cases hpre : (List.range n).foldlM (edges_partition_step G mesh) init with
    | error e => rw [hpre] at h; simp [bind, Except.bind] at h
    | ok s1 =>
      rw [hpre] at h
      simp only [bind, Except.bind, List.foldlM_cons, List.foldlM_nil] at h
      cases hst : edges_partition_step G mesh s1 n with
      | error e => rw [hst] at h; simp at h
      | ok s2 =>
        rw [hst] at h
        have hs : s2 = s := Except.ok.inj h
        subst hs
        obtain ⟨hframe, hbdry⟩ := edges_partition_step_frame G mesh s1 s2 n hst
        intro j hj
        rcases Nat.lt_succ_iff_lt_or_eq.mp hj with hlt | heq
        · obtain ⟨a, b, hab, hpart, hb⟩ := ih s1 hpre j hlt
          refine ⟨a, b, hab, ?_, fun g hg => hbdry g (hb g hg)⟩
          rw [hframe j (by omega), hpart]
        · subst heq
          exact ⟨s1, s2, hst, rfl, fun g hg => hg⟩

theorem edges_partition_at {D : Type} (G : Geometry D) (mesh : Mesh D) (s : EdgesPartition)
    (h : edges_partition_first_pass G mesh = .ok s) :
    ∀ j < mesh.nb_edges, ∃ a b, edges_partition_step G mesh a j = .ok b ∧
      s.edge_part j = b.edge_part j ∧ ∀ g ∈ b.bdry_edges, g ∈ s.bdry_edges :=
  edges_partition_fold G mesh _ s mesh.nb_edges h

theorem node_based_owner_cases {D : Type} (G : Geometry D) (mesh : Mesh D) (j : Nat) :
    node_based_owner G mesh j = mesh.node_part (mesh.edge_nodes j 0) ∨
    node_based_owner G mesh j = mesh.node_part (mesh.edge_nodes j 1) := by
  unfold node_based_owner
  simp only []
  split_ifs <;> simp

theorem edges_partition_step_error {D : Type} (G : Geometry D) (mesh : Mesh D)
    (a : EdgesPartition) (j : Nat) (e : Error) (h : edges_partition_step G mesh a j = .error e) :
    e = Error.SeriousBug ∧
    mesh.edge_to_elem j 0 ≠ mesh.missing_value ∧ mesh.edge_to_elem j 1 ≠ mesh.missing_value ∧
    mesh.node_part (mesh.edge_nodes j 0) ≠ mesh.elem_part (mesh.edge_to_elem j 0) ∧
    mesh.node_part (mesh.edge_nodes j 0) ≠ mesh.elem_part (mesh.edge_to_elem j 1) ∧
    mesh.node_part (mesh.edge_nodes j 1) ≠ mesh.elem_part (mesh.edge_to_elem j 0) ∧
    mesh.node_part (mesh.edge_nodes j 1) ≠ mesh.elem_part (mesh.edge_to_elem j 1) := by
  unfold edges_partition_step at h
  by_cases h1 : mesh.edge_to_elem j 0 = mesh.missing_value
  · simp [h1] at h
  by_cases h2 : mesh.edge_to_elem j 1 = mesh.missing_value
  · simp [h1, h2] at h
  simp only [h1, h2, if_false] at h
  have hc := node_based_owner_cases G mesh j
  generalize node_based_owner G mesh j = p at h hc
  rcases hc with hp | hp
  · subst hp
    simp only [if_true] at h
    split_ifs at h with h3 h4
    exact ⟨(Except.error.inj h).symm, h1, h2, h3.1, h3.2, h4.1, h4.2⟩
  · subst hp
    by_cases heq : mesh.node_part (mesh.edge_nodes j 1) = mesh.node_part (mesh.edge_nodes j 0)
    · rw [if_pos heq] at h
      split_ifs at h with h3
      exact ⟨(Except.error.inj h).symm, h1, h2, heq ▸ h3.1, heq ▸ h3.2, h3.1, h3.2⟩
    · rw [if_neg heq] at h
      split_ifs at h with h3 h4
      exact ⟨(Except.error.inj h).symm, h1, h2, h4.1, h4.2, h3.1, h3.2⟩

theorem edges_partition_step_raises {D : Type} (G : Geometry D) (mesh : Mesh D)
    (a : EdgesPartition) (j : Nat)
    (h1 : mesh.edge_to_elem j 0 ≠ mesh.missing_value)
    (h2 : mesh.edge_to_elem j 1 ≠ mesh.missing_value)
    (h3 : mesh.node_part (mesh.edge_nodes j 0) ≠ mesh.elem_part (mesh.edge_to_elem j 0))
    (h4 : mesh.node_part (mesh.edge_nodes j 0) ≠ mesh.elem_part (mesh.edge_to_elem j 1))
    (h5 : mesh.node_part (mesh.edge_nodes j 1) ≠ mesh.elem_part (mesh.edge_to_elem j 0))
    (h6 : mesh.node_part (mesh.edge_nodes j 1) ≠ mesh.elem_part (mesh.edge_to_elem j 1)) :
    edges_partition_step G mesh a j = .error Error.SeriousBug := by
  unfold edges_partition_step
  simp only [h1, h2, if_false]
  have hc := node_based_owner_cases G mesh j
  generalize node_based_owner G mesh j = p at hc
  rcases hc with hp | hp
  · subst hp
    simp [h3, h4, h5, h6]
  · subst hp
    by_cases heq : mesh.node_part (mesh.edge_nodes j 1) = mesh.node_part (mesh.edge_nodes j 0)
    · simp [h3, h4, heq]
    · simp [h3, h4, h5, h6, heq]

theorem first_pass_ok_of_no_mismatch {D : Type} (G : Geometry D) (mesh : Mesh D) (n : Nat)
    (init : EdgesPartition) (h : ∀ j < n, ¬ endpoints_mismatch mesh j) :
    ∃ s, (List.range n).foldlM (edges_partition_step G mesh) init = .ok s := by
  induction n with
  | zero => exact ⟨init, rfl⟩
  | succ n ih =>
    obtain ⟨s1, hs1⟩ := ih (fun j hj => h j (Nat.lt_succ_of_lt hj))
    rw [List.range_succ, List.foldlM_append, hs1]
    simp only [bind, Except.bind, List.foldlM_cons, List.foldlM_nil]
    cases hst : edges_partition_step G mesh s1 n with
    | error e =>
      exact absurd (edges_partition_step_error G mesh s1 n e hst).2 (h n (Nat.lt_succ_self n))
    | ok s2 => exact ⟨s2, rfl⟩

theorem first_pass_error_of_mismatch {D : Type} (G : Geometry D) (mesh : Mesh D) (n : Nat)
    (init : EdgesPartition) (h : ∃ j < n, endpoints_mismatch mesh j) :
    (List.range n).foldlM (edges_partition_step G mesh) init = .error Error.SeriousBug := by
  induction n with
  | zero => obtain ⟨j, hj, _⟩ := h; omega
  | succ n ih =>
    rw [List.range_succ, List.foldlM_append]
    by_cases hpre : ∃ j < n, endpoints_mismatch mesh j
    · rw [ih hpre]; rfl
    · obtain ⟨s1, hs1⟩ := first_pass_ok_of_no_mismatch G mesh n init
        (fun j hj hm => hpre ⟨j, hj, hm⟩)
      rw [hs1]
      simp only [bind, Except.bind, List.foldlM_cons, List.foldlM_nil]
      obtain ⟨j, hj, hm⟩ := h
      have hjn : j = n := by
        by_contra hne
        exact hpre ⟨j, by omega, hm⟩
      subst hjn
      obtain ⟨h1, h2, h3, h4, h5, h6⟩ := hm
      rw [edges_partition_step_raises G mesh s1 j h1 h2 h3 h4 h5 h6]

theorem edges_partition_assigned {D : Type} (G : Geometry D) (mesh : Mesh D)
    (s : EdgesPartition) (h : edges_partition_first_pass G mesh = .ok s) (j : Nat)
    (hj : j < mesh.nb_edges) (v : Int)
    (hstep : ∀ a, ∃ b, edges_partition_step G mesh a j = .ok b ∧ b.edge_part j = v) :
    s.edge_part j = v := by
  obtain ⟨a, b, hab, hpart, _⟩ := edges_partition_at G mesh s h j hj
  obtain ⟨b2, hab2, hv⟩ := hstep a
  rw [hab] at hab2
  have hb := Except.ok.inj hab2
  subst hb
  rw [hpart, hv]

theorem edges_partition_recorded {D : Type} (G : Geometry D) (mesh : Mesh D)
    (s : EdgesPartition) (h : edges_partition_first_pass G mesh = .ok s) (j : Nat)
    (hj : j < mesh.nb_edges) (g : Int)
    (hstep : ∀ a, ∃ b, edges_partition_step G mesh a j = .ok b ∧ g ∈ b.bdry_edges) :
    g ∈ s.bdry_edges := by
  obtain ⟨a, b, hab, _, hbdry⟩ := edges_partition_at G mesh s h j hj
  obtain ⟨b2, hab2, hg⟩ := hstep a
  rw [hab] at hab2
  have hb := Except.ok.inj hab2
  subst hb
  exact hbdry g hg

theorem step_two_elements {D : Type} (G : Geometry D) (mesh : Mesh D) (jedge : Nat)
    (h1 : mesh.edge_to_elem jedge 0 ≠ mesh.missing_value)
    (h2 : mesh.edge_to_elem jedge 1 ≠ mesh.missing_value)
    (hmatch : node_based_owner G mesh jedge = mesh.elem_part (mesh.edge_to_elem jedge 0) ∨
      node_based_owner G mesh jedge = mesh.elem_part (mesh.edge_to_elem jedge 1))
    (a : EdgesPartition) :
    ∃ b, edges_partition_step G mesh a jedge = .ok b ∧
      b.edge_part jedge = node_based_owner G mesh jedge := by
  have hnot : ¬ (node_based_owner G mesh jedge ≠ mesh.elem_part (mesh.edge_to_elem jedge 0) ∧
      node_based_owner G mesh jedge ≠ mesh.elem_part (mesh.edge_to_elem jedge 1)) := by
    rintro ⟨ha, hb⟩
    rcases hmatch with hm | hm
    · exact ha hm
    · exact hb hm
  unfold edges_partition_step
  simp only [h1, h2, if_false]
  rw [if_neg hnot]
  exact ⟨_, rfl, by simp [assign]⟩

theorem step_single_element {D : Type} (G : Geometry D) (mesh : Mesh D) (jedge : Nat)
    (h1 : mesh.edge_to_elem jedge 0 ≠ mesh.missing_value)
    (h2 : mesh.edge_to_elem jedge 1 = mesh.missing_value) (a : EdgesPartition) :
    ∃ b, edges_partition_step G mesh a jedge = .ok b ∧
      b.edge_part jedge =
        (if mesh.elem_halo (mesh.edge_to_elem jedge 0) > 0 ∧
            mesh.node_part (mesh.edge_nodes jedge 0) = mesh.node_part (mesh.edge_nodes jedge 1) ∧
            mesh.node_part (mesh.edge_nodes jedge 0) ≠ mesh.elem_part (mesh.edge_to_elem jedge 0)
          then mesh.node_part (mesh.edge_nodes jedge 0)
          else mesh.elem_part (mesh.edge_to_elem jedge 0)) ∧
      mesh.edge_glb_idx jedge ∈ b.bdry_edges := by
  unfold edges_partition_step
  simp only [h1, h2, if_false, if_true]
  refine ⟨_, rfl, ?_, by simp⟩
  simp only [assign, if_true]
  by_cases hc : mesh.node_part (mesh.edge_nodes jedge 0) ≠
      mesh.elem_part (mesh.edge_to_elem jedge 0) ∧
      mesh.node_part (mesh.edge_nodes jedge 1) = mesh.node_part (mesh.edge_nodes jedge 0) ∧
      mesh.elem_halo (mesh.edge_to_elem jedge 0) > 0
  · rw [if_pos hc, if_pos ⟨hc.2.2, hc.2.1.symm, hc.1⟩]
  · rw [if_neg hc, if_neg (fun hd => hc ⟨hd.2.2, hd.2.1.symm, hd.1⟩)]

theorem step_zero_element {D : Type} (G : Geometry D) (mesh : Mesh D) (jedge : Nat)
    (h1 : mesh.edge_to_elem jedge 0 = mesh.missing_value) (a : EdgesPartition) :
    ∃ b, edges_partition_step G mesh a jedge = .ok b ∧
      b.edge_part jedge = mesh.node_part (mesh.edge_nodes jedge 0) ∧
      mesh.edge_glb_idx jedge ∈ b.bdry_edges := by
  unfold edges_partition_step
  simp only [h1, if_true]
  exact ⟨_, rfl, by simp [assign], by simp⟩

/-- Claim C7.  Node-based edge owner rule: for an edge with two adjacent elements for
which the owner chosen from the endpoint coordinates equals the partition of one of
these elements, every iteration of the first pass of `build_edges_partition` at that edge
assigns that owner to `edge_part`, and it is the value of `edge_part` when the pass
completes; that owner is the partition of the endpoint with the smaller micro-degree
longitude when the micro-degree latitudes are equal, and the partition of the endpoint
with the larger micro-degree latitude otherwise. -/
theorem node_based_edge_owner_rule {D : Type} (G : Geometry D) (mesh : Mesh D) (jedge : Nat)
    (h1 : mesh.edge_to_elem jedge 0 ≠ mesh.missing_value)
    (h2 : mesh.edge_to_elem jedge 1 ≠ mesh.missing_value)
    (hmatch : node_based_owner G mesh jedge = mesh.elem_part (mesh.edge_to_elem jedge 0) ∨
      node_based_owner G mesh jedge = mesh.elem_part (mesh.edge_to_elem jedge 1)) :
    (∀ a, ∃ b, edges_partition_step G mesh a jedge = .ok b ∧
      b.edge_part jedge = node_based_owner G mesh jedge) ∧
    (∀ s, edges_partition_first_pass G mesh = .ok s → jedge < mesh.nb_edges →
      s.edge_part jedge = node_based_owner G mesh jedge) ∧
    (G.microdeg (mesh.xy (mesh.edge_nodes jedge 0) YY)
        = G.microdeg (mesh.xy (mesh.edge_nodes jedge 1) YY) →
      (G.microdeg (mesh.xy (mesh.edge_nodes jedge 0) XX)
          < G.microdeg (mesh.xy (mesh.edge_nodes jedge 1) XX) →
        node_based_owner G mesh jedge = mesh.node_part (mesh.edge_nodes jedge 0)) ∧
      (G.microdeg (mesh.xy (mesh.edge_nodes jedge 1) XX)
          < G.microdeg (mesh.xy (mesh.edge_nodes jedge 0) XX) →
        node_based_owner G mesh jedge = mesh.node_part (mesh.edge_nodes jedge 1))) ∧
    (G.microdeg (mesh.xy (mesh.edge_nodes jedge 0) YY)
        ≠ G.microdeg (mesh.xy (mesh.edge_nodes jedge 1) YY) →
      (G.microdeg (mesh.xy (mesh.edge_nodes jedge 0) YY)
          > G.microdeg (mesh.xy (mesh.edge_nodes jedge 1) YY) →
        node_based_owner G mesh jedge = mesh.node_part (mesh.edge_nodes jedge 0)) ∧
      (G.microdeg (mesh.xy (mesh.edge_nodes jedge 1) YY)
          > G.microdeg (mesh.xy (mesh.edge_nodes jedge 0) YY) →
        node_based_owner G mesh jedge = mesh.node_part (mesh.edge_nodes jedge 1))) := by
  refine ⟨step_two_elements G mesh jedge h1 h2 hmatch, ?_, ?_, ?_⟩
  · intro s hs hj
    exact edges_partition_assigned G mesh s hs jedge hj _
      (step_two_elements G mesh jedge h1 h2 hmatch)
  · intro hy
    refine ⟨fun hx => ?_, fun hx => ?_⟩
    · simp [node_based_owner, hy, hx]
    · have : ¬ G.microdeg (mesh.xy (mesh.edge_nodes jedge 0) XX)
          < G.microdeg (mesh.xy (mesh.edge_nodes jedge 1) XX) := by omega
      simp [node_based_owner, hy, this]
  · intro hy
    refine ⟨fun hx => ?_, fun hx => ?_⟩
    · simp [node_based_owner, hy, hx]
    · have : ¬ G.microdeg (mesh.xy (mesh.edge_nodes jedge 0) YY)
          > G.microdeg (mesh.xy (mesh.edge_nodes jedge 1) YY) := by omega
      simp [node_based_owner, hy, this]

theorem node_based_edge_owner_rule_witness :
    edges_partition_first_pass geometry_example mesh_example = .ok mesh_example_first_pass ∧
    mesh_example_first_pass.edge_part 0 = 0 ∧
    mesh_example_first_pass.edge_part 0 = node_based_owner geometry_example mesh_example 0 :=
  ⟨rfl, rfl,
    (node_based_edge_owner_rule geometry_example mesh_example 0
      (by decide) (by decide) (Or.inl (by decide))).2.1 mesh_example_first_pass rfl
      (by decide)⟩

/-- Claim C8, as the code has it.  Single-element override: for an edge whose first
edge-to-element slot holds an element and whose second slot holds the missing value,
every iteration of the first pass of `build_edges_partition` at that edge assigns to
`edge_part` the partition of that element, except when the halo depth of the element is
greater than zero and both endpoints have the same partition, different from that of the
element, in which case it assigns the partition of the endpoints; it records the global
index of the edge in `bdry_edges`; these are the values when the pass completes; and for
a non-negative halo depth, greater than zero is the same as nonzero. -/
theorem single_element_override {D : Type} (G : Geometry D) (mesh : Mesh D) (jedge : Nat)
    (h1 : mesh.edge_to_elem jedge 0 ≠ mesh.missing_value)
    (h2 : mesh.edge_to_elem jedge 1 = mesh.missing_value) :
    (∀ a, ∃ b, edges_partition_step G mesh a jedge = .ok b ∧
      b.edge_part jedge =
        (if mesh.elem_halo (mesh.edge_to_elem jedge 0) > 0 ∧
            mesh.node_part (mesh.edge_nodes jedge 0) = mesh.node_part (mesh.edge_nodes jedge 1) ∧
            mesh.node_part (mesh.edge_nodes jedge 0) ≠ mesh.elem_part (mesh.edge_to_elem jedge 0)
          then mesh.node_part (mesh.edge_nodes jedge 0)
          else mesh.elem_part (mesh.edge_to_elem jedge 0)) ∧
      mesh.edge_glb_idx jedge ∈ b.bdry_edges) ∧
    (∀ s, edges_partition_first_pass G mesh = .ok s → jedge < mesh.nb_edges →
      s.edge_part jedge =
        (if mesh.elem_halo (mesh.edge_to_elem jedge 0) > 0 ∧
            mesh.node_part (mesh.edge_nodes jedge 0) = mesh.node_part (mesh.edge_nodes jedge 1) ∧
            mesh.node_part (mesh.edge_nodes jedge 0) ≠ mesh.elem_part (mesh.edge_to_elem jedge 0)
          then mesh.node_part (mesh.edge_nodes jedge 0)
          else mesh.elem_part (mesh.edge_to_elem jedge 0)) ∧
      mesh.edge_glb_idx jedge ∈ s.bdry_edges) ∧
    (0 ≤ mesh.elem_halo (mesh.edge_to_elem jedge 0) →
      (mesh.elem_halo (mesh.edge_to_elem jedge 0) > 0 ↔
        mesh.elem_halo (mesh.edge_to_elem jedge 0) ≠ 0)) := by
  refine ⟨step_single_element G mesh jedge h1 h2, ?_, fun h0 => by omega⟩
  intro s hs hj
  refine ⟨edges_partition_assigned G mesh s hs jedge hj _ ?_,
    edges_partition_recorded G mesh s hs jedge hj _ ?_⟩
  · intro a
    obtain ⟨b, hb, hv, _⟩ := step_single_element G mesh jedge h1 h2 a
    exact ⟨b, hb, hv⟩
  · intro a
    obtain ⟨b, hb, _, hg⟩ := step_single_element G mesh jedge h1 h2 a
    exact ⟨b, hb, hg⟩

theorem single_element_override_witness :
    edges_partition_first_pass geometry_example mesh_example = .ok mesh_example_first_pass ∧
    mesh_example_first_pass.edge_part 1 = 0 ∧ mesh_example_first_pass.edge_part 4 = 1 ∧
    mesh_example_first_pass.edge_part 4 =
      (if mesh_example.elem_halo (mesh_example.edge_to_elem 4 0) > 0 ∧
          mesh_example.node_part (mesh_example.edge_nodes 4 0)
            = mesh_example.node_part (mesh_example.edge_nodes 4 1) ∧
          mesh_example.node_part (mesh_example.edge_nodes 4 0)
            ≠ mesh_example.elem_part (mesh_example.edge_to_elem 4 0)
        then mesh_example.node_part (mesh_example.edge_nodes 4 0)
        else mesh_example.elem_part (mesh_example.edge_to_elem 4 0)) :=
  ⟨rfl, rfl, rfl,
    ((single_element_override geometry_example mesh_example 4 (by decide) (by decide)).2.1
      mesh_example_first_pass rfl (by decide)).1⟩

/-- Claim C8 as stated fails: on `mesh_second_slot` the only edge has the missing value
in its first edge-to-element slot and cell 1 (rank 1, halo depth 0) in its second slot,
its endpoints belong to ranks 0 and 1, and the first pass gives it the partition 0 of
its first endpoint instead of the partition 1 of its only adjacent element. -/
theorem single_element_override_counterexample :
    mesh_second_slot.edge_to_elem 0 0 = mesh_second_slot.missing_value ∧
    mesh_second_slot.edge_to_elem 0 1 ≠ mesh_second_slot.missing_value ∧
    mesh_second_slot.elem_halo (mesh_second_slot.edge_to_elem 0 1) = 0 ∧
    mesh_second_slot.elem_part (mesh_second_slot.edge_to_elem 0 1) = 1 ∧
    (edges_partition_first_pass geometry_example mesh_second_slot).map
      (fun s => s.edge_part 0) = .ok 0 ∧
    ¬ (∀ s, edges_partition_first_pass geometry_example mesh_second_slot = .ok s →
        s.edge_part 0 = mesh_second_slot.elem_part (mesh_second_slot.edge_to_elem 0 1)) := by
  refine ⟨by decide, by decide, by decide, by decide, rfl, ?_⟩
  intro hall
  have h0 := hall (value_or { global_to_local := [], bdry_edges := [], edge_part := fun _ => 0 }
    (edges_partition_first_pass geometry_example mesh_second_slot)) rfl
  revert h0
  decide

/-- Claim C9.  Zero-element rule: for an edge whose two edge-to-element slots both hold
the missing value, every iteration of the first pass of `build_edges_partition` at that
edge assigns to `edge_part` the partition of the first endpoint node and records the
global index of the edge in `bdry_edges`; these are the values when the pass completes;
and the assignment is the same for any other node coordinates and coordinate operations. -/
theorem zero_element_rule {D : Type} (G : Geometry D) (mesh : Mesh D) (jedge : Nat)
    (h1 : mesh.edge_to_elem jedge 0 = mesh.missing_value)
    (h2 : mesh.edge_to_elem jedge 1 = mesh.missing_value) :
    (∀ a, ∃ b, edges_partition_step G mesh a jedge = .ok b ∧
      b.edge_part jedge = mesh.node_part (mesh.edge_nodes jedge 0) ∧
      mesh.edge_glb_idx jedge ∈ b.bdry_edges) ∧
    (∀ s, edges_partition_first_pass G mesh = .ok s → jedge < mesh.nb_edges →
      s.edge_part jedge = mesh.node_part (mesh.edge_nodes jedge 0) ∧
      mesh.edge_glb_idx jedge ∈ s.bdry_edges) ∧
    (∀ (G2 : Geometry D) (xy2 : Int → Nat → D) (a : EdgesPartition),
      ∃ b, edges_partition_step G2 { mesh with xy := xy2 } a jedge = .ok b ∧
        b.edge_part jedge = mesh.node_part (mesh.edge_nodes jedge 0)) := by
  have _hsecond := h2
  refine ⟨step_zero_element G mesh jedge h1, ?_, ?_⟩
  · intro s hs hj
    refine ⟨edges_partition_assigned G mesh s hs jedge hj _ ?_,
      edges_partition_recorded G mesh s hs jedge hj _ ?_⟩
    · intro a
      obtain ⟨b, hb, hv, _⟩ := step_zero_element G mesh jedge h1 a
      exact ⟨b, hb, hv⟩
    · intro a
      obtain ⟨b, hb, _, hg⟩ := step_zero_element G mesh jedge h1 a
      exact ⟨b, hb, hg⟩
  · intro G2 xy2 a
    obtain ⟨b, hb, hv, _⟩ := step_zero_element G2 { mesh with xy := xy2 } jedge h1 a
    exact ⟨b, hb, hv⟩

theorem zero_element_rule_witness :
    edges_partition_first_pass geometry_example mesh_example = .ok mesh_example_first_pass ∧
    mesh_example_first_pass.bdry_edges = [101, 102, 104] ∧
    node_based_owner geometry_example mesh_example 2 = 0 ∧
    mesh_example_first_pass.edge_part 2 = 1 ∧
    (mesh_example_first_pass.edge_part 2
        = mesh_example.node_part (mesh_example.edge_nodes 2 0) ∧
      mesh_example.edge_glb_idx 2 ∈ mesh_example_first_pass.bdry_edges) :=
  ⟨rfl, rfl, rfl, rfl,
    (zero_element_rule geometry_example mesh_example 2 (by decide) (by decide)).2.1
      mesh_example_first_pass rfl (by decide)⟩

theorem and_and_and_of {A B C E : Prop} (h : A ∧ B ∧ C) (e : E) : A ∧ B ∧ C ∧ E :=
  ⟨h.1, h.2.1, h.2.2, e⟩

theorem step_swap {D : Type} (G : Geometry D) (mesh : Mesh D) (j : Nat)
    (h1 : mesh.edge_to_elem j 0 ≠ mesh.missing_value)
    (h2 : mesh.edge_to_elem j 1 ≠ mesh.missing_value)
    (h3 : node_based_owner G mesh j ≠ mesh.elem_part (mesh.edge_to_elem j 0))
    (h4 : node_based_owner G mesh j ≠ mesh.elem_part (mesh.edge_to_elem j 1))
    (hother :
      (if node_based_owner G mesh j = mesh.node_part (mesh.edge_nodes j 0)
        then mesh.node_part (mesh.edge_nodes j 1)
        else mesh.node_part (mesh.edge_nodes j 0)) = mesh.elem_part (mesh.edge_to_elem j 0) ∨
      (if node_based_owner G mesh j = mesh.node_part (mesh.edge_nodes j 0)
        then mesh.node_part (mesh.edge_nodes j 1)
        else mesh.node_part (mesh.edge_nodes j 0)) = mesh.elem_part (mesh.edge_to_elem j 1))
    (a : EdgesPartition) :
    ∃ b, edges_partition_step G mesh a j = .ok b ∧
      b.edge_part j =
        (if node_based_owner G mesh j = mesh.node_part (mesh.edge_nodes j 0)
          then mesh.node_part (mesh.edge_nodes j 1)
          else mesh.node_part (mesh.edge_nodes j 0)) := by
  have hnot : ¬ ((if node_based_owner G mesh j = mesh.node_part (mesh.edge_nodes j 0)
        then mesh.node_part (mesh.edge_nodes j 1)
        else mesh.node_part (mesh.edge_nodes j 0)) ≠ mesh.elem_part (mesh.edge_to_elem j 0) ∧
      (if node_based_owner G mesh j = mesh.node_part (mesh.edge_nodes j 0)
        then mesh.node_part (mesh.edge_nodes j 1)
        else mesh.node_part (mesh.edge_nodes j 0)) ≠ mesh.elem_part (mesh.edge_to_elem j 1)) := by
    rintro ⟨ha, hb⟩
    rcases hother with hm | hm
    · exact ha hm
    · exact hb hm
  unfold edges_partition_step
  simp only [h1, h2, if_false]
  rw [if_pos ⟨h3, h4⟩, if_neg hnot]
  exact ⟨_, rfl, by simp [assign]⟩

/-- Claim C10.  Cross-check failure condition: the first pass of `build_edges_partition`
raises `SeriousBug` exactly when some edge has two adjacent elements and neither of its
endpoint partitions equals the partition of either element, and it raises nothing else;
when it completes, an edge with two adjacent elements for which the owner chosen from
the coordinates matches neither element gets the partition of the other endpoint, which
matches one of the elements; and the iteration at an edge for which the owner chosen from
the coordinates matches neither element but the other endpoint matches one does not
raise and assigns the partition of that other endpoint. -/
theorem cross_check_failure_condition {D : Type} (G : Geometry D) (mesh : Mesh D) :
    (edges_partition_first_pass G mesh = .error Error.SeriousBug ↔
      ∃ j < mesh.nb_edges,
        mesh.edge_to_elem j 0 ≠ mesh.missing_value ∧
        mesh.edge_to_elem j 1 ≠ mesh.missing_value ∧
        mesh.node_part (mesh.edge_nodes j 0) ≠ mesh.elem_part (mesh.edge_to_elem j 0) ∧
        mesh.node_part (mesh.edge_nodes j 0) ≠ mesh.elem_part (mesh.edge_to_elem j 1) ∧
        mesh.node_part (mesh.edge_nodes j 1) ≠ mesh.elem_part (mesh.edge_to_elem j 0) ∧
        mesh.node_part (mesh.edge_nodes j 1) ≠ mesh.elem_part (mesh.edge_to_elem j 1)) ∧
    (∀ e, edges_partition_first_pass G mesh = .error e → e = Error.SeriousBug) ∧
    (∀ s, edges_partition_first_pass G mesh = .ok s → ∀ j < mesh.nb_edges,
      mesh.edge_to_elem j 0 ≠ mesh.missing_value →
      mesh.edge_to_elem j 1 ≠ mesh.missing_value →
      node_based_owner G mesh j ≠ mesh.elem_part (mesh.edge_to_elem j 0) →
      node_based_owner G mesh j ≠ mesh.elem_part (mesh.edge_to_elem j 1) →
      s.edge_part j =
        (if node_based_owner G mesh j = mesh.node_part (mesh.edge_nodes j 0)
          then mesh.node_part (mesh.edge_nodes j 1)
          else mesh.node_part (mesh.edge_nodes j 0)) ∧
      (s.edge_part j = mesh.elem_part (mesh.edge_to_elem j 0) ∨
        s.edge_part j = mesh.elem_part (mesh.edge_to_elem j 1))) ∧
    (∀ j, mesh.edge_to_elem j 0 ≠ mesh.missing_value →
      mesh.edge_to_elem j 1 ≠ mesh.missing_value →
      node_based_owner G mesh j ≠ mesh.elem_part (mesh.edge_to_elem j 0) →
      node_based_owner G mesh j ≠ mesh.elem_part (mesh.edge_to_elem j 1) →
      ((if node_based_owner G mesh j = mesh.node_part (mesh.edge_nodes j 0)
          then mesh.node_part (mesh.edge_nodes j 1)
          else mesh.node_part (mesh.edge_nodes j 0)) = mesh.elem_part (mesh.edge_to_elem j 0) ∨
        (if node_based_owner G mesh j = mesh.node_part (mesh.edge_nodes j 0)
          then mesh.node_part (mesh.edge_nodes j 1)
          else mesh.node_part (mesh.edge_nodes j 0)) = mesh.elem_part (mesh.edge_to_elem j 1)) →
      ∀ a, ∃ b, edges_partition_step G mesh a j = .ok b ∧
        b.edge_part j =
          (if node_based_owner G mesh j = mesh.node_part (mesh.edge_nodes j 0)
            then mesh.node_part (mesh.edge_nodes j 1)
            else mesh.node_part (mesh.edge_nodes j 0))) := by
  refine and_and_and_of ?_ (fun j h1 h2 h3 h4 ho => step_swap G mesh j h1 h2 h3 h4 ho)
  by_cases hm : ∃ j < mesh.nb_edges, endpoints_mismatch mesh j
  · have herr := first_pass_error_of_mismatch G mesh mesh.nb_edges
      { global_to_local := [], bdry_edges := [], edge_part := mesh.edge_part } hm
    refine ⟨⟨fun _ => hm, fun _ => herr⟩, ?_, ?_⟩
    · intro e he
      have : edges_partition_first_pass G mesh = .error Error.SeriousBug := herr
      rw [this] at he
      exact (Except.error.inj he).symm
    · intro s hs
      have : edges_partition_first_pass G mesh = .error Error.SeriousBug := herr
      rw [this] at hs
      simp at hs
  · obtain ⟨s0, hs0⟩ := first_pass_ok_of_no_mismatch G mesh mesh.nb_edges
      { global_to_local := [], bdry_edges := [], edge_part := mesh.edge_part }
      (fun j hj hmj => hm ⟨j, hj, hmj⟩)
    have hok : edges_partition_first_pass G mesh = .ok s0 := hs0
    refine ⟨⟨fun h => ?_, fun h => absurd h hm⟩, ?_, ?_⟩
    · rw [hok] at h; simp at h
    · intro e he
      rw [hok] at he; simp at he
    · intro s hs j hj h1 h2 h3 h4
      obtain ⟨a, b, hab, hpart, _⟩ := edges_partition_at G mesh s hs j hj
      unfold edges_partition_step at hab
      simp only [h1, h2, if_false] at hab
      rw [if_pos ⟨h3, h4⟩] at hab
      by_cases h5 : node_based_owner G mesh j = mesh.node_part (mesh.edge_nodes j 0)
      · rw [if_pos h5] at hab
        split_ifs at hab with h6
        have hb := Except.ok.inj hab
        subst hb
        have hv : s.edge_part j = mesh.node_part (mesh.edge_nodes j 1) := by
          rw [hpart]; simp [assign]
        refine ⟨by rw [hv, if_pos h5], ?_⟩
        rw [hv]
        by_contra hc
        exact h6 ⟨fun x => hc (Or.inl x), fun x => hc (Or.inr x)⟩
      · rw [if_neg h5] at hab
        split_ifs at hab with h6
        have hb := Except.ok.inj hab
        subst hb
        have hv : s.edge_part j = mesh.node_part (mesh.edge_nodes j 0) := by
          rw [hpart]; simp [assign]
        refine ⟨by rw [hv, if_neg h5], ?_⟩
        rw [hv]
        by_contra hc
        exact h6 ⟨fun x => hc (Or.inl x), fun x => hc (Or.inr x)⟩

theorem cross_check_failure_condition_witness :
    edges_partition_first_pass geometry_example mesh_mismatch = .error Error.SeriousBug ∧
    edges_partition_first_pass geometry_example mesh_example = .ok mesh_example_first_pass ∧
    node_based_owner geometry_example mesh_example 3 = 0 ∧
    mesh_example_first_pass.edge_part 3 = 1 ∧
    mesh_example_first_pass.edge_part 3 =
      (if node_based_owner geometry_example mesh_example 3
          = mesh_example.node_part (mesh_example.edge_nodes 3 0)
        then mesh_example.node_part (mesh_example.edge_nodes 3 1)
        else mesh_example.node_part (mesh_example.edge_nodes 3 0)) :=
  ⟨(cross_check_failure_condition geometry_example mesh_mismatch).1.mpr
      ⟨0, by decide, by decide, by decide, by decide, by decide, by decide, by decide⟩,
    rfl, rfl, rfl,
    ((cross_check_failure_condition geometry_example mesh_example).2.2.1
      mesh_example_first_pass rfl 3 (by decide) (by decide) (by decide) (by decide)
      (by decide)).1⟩

/-! ## The loops of `build_edges_remote_idx` -/

theorem edges_requests_prefix {D : Type} (T : Topology) (G : Geometry D)
    (mypart nparts : Nat) (mesh : Mesh D) (hn : nparts < 2 ^ 31) (n : Nat)
    (h : ∀ j < n, 0 ≤ mesh.edge_part j ∧ mesh.edge_part j < (nparts : Int)) :
    (List.range n).foldlM (edges_requests_step T G mypart nparts mesh)
      { lookup := [], ridx := mesh.edge_ridx, send_needed := fun _ => [] }
      = .ok (edge_requests_after T G mypart mesh n) := by
  induction n with
  | zero =>
    simp [edge_requests_after, owned_edges, ghost_edges, flat, pure, Except.pure]
  | succ n ih =>
    have ih2 := ih (fun j hj => h j (Nat.lt_succ_of_lt hj))
    obtain ⟨h0, h1⟩ := h n (Nat.lt_succ_self n)
    rw [List.range_succ, List.foldlM_append, ih2]
    simp only [bind, Except.bind, List.foldlM_cons, List.foldlM_nil, pure, Except.pure]
    have hsz := size_t_eq_iff (mesh.edge_part n) mypart nparts hn h0 h1
    unfold edges_requests_step
    by_cases hown : edge_in_table T mypart mesh n = true
    · have hown2 := hown
      simp only [edge_in_table, Bool.and_eq_true, decide_eq_true_eq, Bool.not_eq_true'] at hown2
      have hs : size_t (mesh.edge_part n) = mypart ∧ edge_needed T mesh n = false :=
        ⟨hsz.mpr hown2.1, hown2.2⟩
      simp only [hs, and_self, if_true]
      simp only [edge_requests_after, Requests.mk.injEq, Except.ok.injEq]
      refine ⟨?_, ?_, ?_⟩
      · simp [owned_edges, map_insert, List.range_succ, List.filter_append, hown]
      · funext j
        simp only [assign]
        by_cases hj : j = n
        · subst hj; simp [hown]
        · have : (j < n + 1 ∧ edge_in_table T mypart mesh j = true) ↔
              (j < n ∧ edge_in_table T mypart mesh j = true) := by
            constructor
            · rintro ⟨a, b⟩; exact ⟨by omega, b⟩
            · rintro ⟨a, b⟩; exact ⟨by omega, b⟩
          simp [hj, this]
      · funext p
        simp [ghost_edges, List.range_succ, List.filter_append, hown]
    · have hs : ¬ (size_t (mesh.edge_part n) = mypart ∧ edge_needed T mesh n = false) := by
        rintro ⟨ha, hb⟩
        apply hown
        simp [edge_in_table, hsz.mp ha, hb]
      have h2 : 0 ≤ mesh.edge_part n ∧ mesh.edge_part n < (nparts : Int) := ⟨h0, h1⟩
      simp only [hs, h2, and_self, if_false, if_true]
      simp only [edge_requests_after, Requests.mk.injEq, Except.ok.injEq]
      refine ⟨?_, ?_, ?_⟩
      · simp [owned_edges, List.range_succ, List.filter_append, hown]
      · funext j
        by_cases hj : j = n
        · subst hj; simp [hown]
        · have : (j < n + 1 ∧ edge_in_table T mypart mesh j = true) ↔
              (j < n ∧ edge_in_table T mypart mesh j = true) := by
            constructor
            · rintro ⟨a, b⟩; exact ⟨by omega, b⟩
            · rintro ⟨a, b⟩; exact ⟨by omega, b⟩
          simp [this]
      · funext p
        simp only [push_back2, ghost_edges, List.range_succ, List.filter_append]
        by_cases hp : p = (mesh.edge_part n).toNat
        · subst hp
          simp [hown, flat_append, flat, Int.toNat_of_nonneg h0]
        · have hpp : ¬ mesh.edge_part n = (p : Int) := by omega
          simp [hp, hpp]

theorem edges_requests_ok {D : Type} (T : Topology) (G : Geometry D)
    (mypart nparts : Nat) (mesh : Mesh D) (hn : nparts < 2 ^ 31)
    (h : ∀ j < mesh.nb_edges, 0 ≤ mesh.edge_part j ∧ mesh.edge_part j < (nparts : Int)) :
    edges_requests T G mypart nparts mesh
      = .ok (edge_requests_after T G mypart mesh mesh.nb_edges) :=
  edges_requests_prefix T G mypart nparts mesh hn mesh.nb_edges h

theorem edges_answers_inner_found (lookup : List (Int × Int)) (jpart : Nat)
    (reqs : List (Int × Int)) (s : EdgeAnswers) :
    (reqs.foldl (edges_answers_step lookup jpart) s).send_found
      = fun k => if k = jpart then s.send_found k ++ flat (found_answers lookup reqs)
          else s.send_found k := by
  induction reqs generalizing s with
  | nil => funext k; simp [found_answers, flat]
  | cons req reqs ih =>
    rw [List.foldl_cons, ih]
    funext k
    cases hk : map_find lookup req.1 with
    | none =>
      simp [edges_answers_step, hk, found_answers]
    | some v =>
      by_cases hq : k = jpart
      · simp [edges_answers_step, hk, found_answers, hq, push_back2, flat]
      · simp [edges_answers_step, hk, hq, push_back2]

theorem edges_answers_inner_warnings (lookup : List (Int × Int)) (jpart : Nat)
    (reqs : List (Int × Int)) (s : EdgeAnswers) :
    (∀ w ∈ s.warnings, w ∈ (reqs.foldl (edges_answers_step lookup jpart) s).warnings) ∧
    (∀ req ∈ reqs, map_find lookup req.1 = none →
      (req.1, jpart) ∈ (reqs.foldl (edges_answers_step lookup jpart) s).warnings) := by
  induction reqs generalizing s with
  | nil => simp
  | cons req reqs ih =>
    rw [List.foldl_cons]
    obtain ⟨ih1, ih2⟩ := ih (edges_answers_step lookup jpart s req)
    have hmono : ∀ w ∈ s.warnings, w ∈ (edges_answers_step lookup jpart s req).warnings := by
      intro w hw
      unfold edges_answers_step
      cases map_find lookup req.1 with
      | none => simp [hw]
      | some v => exact hw
    refine ⟨fun w hw => ih1 w (hmono w hw), ?_⟩
    intro r hr hnone
    rcases List.mem_cons.mp hr with heq | hmem
    · subst heq
      apply ih1
      simp [edges_answers_step, hnone]
    · exact ih2 r hmem hnone

theorem edges_answers_found (nparts : Nat) (lookup : List (Int × Int))
    (recv_needed : Nat → List Int) :
    (edges_answers nparts lookup recv_needed).send_found
      = fun k => if k < nparts then flat (found_answers lookup (records (recv_needed k)))
          else [] := by
  unfold edges_answers
  induction nparts with
  | zero => funext k; simp
  | succ n ih =>
    rw [List.range_succ, List.foldl_append, List.foldl_cons, List.foldl_nil,
      edges_answers_inner_found, ih]
    funext k
    by_cases hk : k = n
    · subst hk; simp
    · by_cases hlt : k < n
      · have : k < n + 1 := by omega
        simp [hk, hlt, this]
      · have : ¬ k < n + 1 := by omega
        simp [hk, hlt, this]

theorem edges_answers_warnings (nparts : Nat) (lookup : List (Int × Int))
    (recv_needed : Nat → List Int) :
    ∀ q < nparts, ∀ req ∈ records (recv_needed q), map_find lookup req.1 = none →
      (req.1, q) ∈ (edges_answers nparts lookup recv_needed).warnings := by
  unfold edges_answers
  induction nparts with
  | zero => intro q hq; omega
  | succ n ih =>
    rw [List.range_succ, List.foldl_append, List.foldl_cons, List.foldl_nil]
    intro q hq req hreq hnone
    rcases Nat.lt_succ_iff_lt_or_eq.mp hq with hlt | heq
    · exact (edges_answers_inner_warnings lookup n _ _).1 _ (ih q hlt req hreq hnone)
    · subst heq
      exact (edges_answers_inner_warnings lookup q _ _).2 req hreq hnone

theorem mem_found_answers (lookup : List (Int × Int)) (reqs : List (Int × Int))
    (a : Int × Int) :
    a ∈ found_answers lookup reqs ↔
      ∃ req ∈ reqs, ∃ k, map_find lookup req.1 = some k ∧ a = (req.2, k) := by
  unfold found_answers
  rw [List.mem_filterMap]
  constructor
  · rintro ⟨req, hreq, h⟩
    cases hk : map_find lookup req.1 with
    | none => rw [hk] at h; simp at h
    | some k =>
      rw [hk] at h
      simp only [Option.map_some', Option.some.injEq] at h
      exact ⟨req, hreq, k, hk, h.symm⟩
  · rintro ⟨req, hreq, k, hk, rfl⟩
    exact ⟨req, hreq, by simp [hk]⟩

theorem mem_ghost_edges {D : Type} (T : Topology) (mypart : Nat) (mesh : Mesh D)
    (p n j : Nat) :
    j ∈ ghost_edges T mypart mesh p n ↔
      j < n ∧ edge_in_table T mypart mesh j = false ∧ mesh.edge_part j = (p : Int) := by
  simp [ghost_edges]

theorem mem_owned_edges {D : Type} (T : Topology) (mypart : Nat) (mesh : Mesh D)
    (n j : Nat) :
    j ∈ owned_edges T mypart mesh n ↔ j < n ∧ edge_in_table T mypart mesh j = true := by
  simp [owned_edges]

theorem edge_in_table_iff {D : Type} (T : Topology) (mypart : Nat) (mesh : Mesh D) (j : Nat) :
    edge_in_table T mypart mesh j = true ↔
      mesh.edge_part j = (mypart : Int) ∧ edge_needed T mesh j = false := by
  simp [edge_in_table]

/-! ## The whole of `build_edges_remote_idx` -/

theorem build_edges_remote_idx_ok {D : Type} (T : Topology) (G : Geometry D) (nparts : Nat)
    (mesh : Nat → Mesh D) (hn : nparts < 2 ^ 31)
    (hpart : ∀ r < nparts, ∀ j < (mesh r).nb_edges,
      0 ≤ (mesh r).edge_part j ∧ (mesh r).edge_part j < (nparts : Int)) :
    ∃ (res : EdgesRemoteIdx) (recv_found : Nat → Nat → List Int),
      build_edges_remote_idx T G nparts mesh = .ok res ∧
      (∀ R < nparts, ∀ q < nparts, recv_found R q =
        flat (found_answers (rank_edge_requests T G mesh q).lookup
          (records ((rank_edge_requests T G mesh R).send_needed q)))) ∧
      (∀ R < nparts,
        res.edge_ridx R = write_back nparts (rank_edge_requests T G mesh R).ridx (recv_found R)) ∧
      (∀ R < nparts, ∀ q < nparts,
        ∀ req ∈ records ((rank_edge_requests T G mesh q).send_needed R),
        map_find (rank_edge_requests T G mesh R).lookup req.1 = none →
        (req.1, q) ∈ res.warnings R) := by
  have hp1 : ∀ r < nparts,
      edges_requests T G r nparts (mesh r) = .ok (rank_edge_requests T G mesh r) :=
    fun r hr => edges_requests_ok T G r nparts (mesh r) hn (hpart r hr)
  have hfe1 : first_error nparts (fun r => edges_requests T G r nparts (mesh r)) = none :=
    (first_error_none _ _).mpr (fun r hr => ⟨_, hp1 r hr⟩)
  have hs1 : ∀ r < nparts,
      value_or Requests.empty (edges_requests T G r nparts (mesh r))
        = rank_edge_requests T G mesh r :=
    fun r hr => by rw [hp1 r hr]; rfl
  unfold build_edges_remote_idx
  simp only [hfe1]
  refine ⟨_, fun R q =>
    (edges_answers nparts
      (value_or Requests.empty (edges_requests T G q nparts (mesh q))).lookup
      (fun k => (value_or Requests.empty
        (edges_requests T G k nparts (mesh k))).send_needed q)).send_found R, rfl, ?_, ?_, ?_⟩
  · intro R hR q hq
    beta_reduce
    rw [edges_answers_found, hs1 q hq]
    show (if R < nparts then _ else _) = _
    rw [if_pos hR, hs1 R hR]
  · intro R hR
    dsimp only
    rw [hs1 R hR]
  · intro R hR q hq req hreq hnone
    dsimp only
    apply edges_answers_warnings nparts _ _ q hq req
    · rw [hs1 q hq]; exact hreq
    · rw [hs1 R hR]; exact hnone

theorem records_found_answers {D : Type} (T : Topology) (G : Geometry D)
    (mesh : Nat → Mesh D) (R q : Nat) :
    records (flat (found_answers (rank_edge_requests T G mesh q).lookup
      (records ((rank_edge_requests T G mesh R).send_needed q))))
    = found_answers (rank_edge_requests T G mesh q).lookup
        ((ghost_edges T R (mesh R) q (mesh R).nb_edges).map
          (fun (j : Nat) => (edge_uid T G (mesh R) j, (j : Int)))) := by
  rw [records_flat]
  simp only [rank_edge_requests, edge_requests_after, records_flat]

theorem edge_write_source {D : Type} (T : Topology) (G : Geometry D)
    (mesh : Nat → Mesh D) (R q : Nat) (a : Int × Int)
    (ha : a ∈ records (flat (found_answers (rank_edge_requests T G mesh q).lookup
      (records ((rank_edge_requests T G mesh R).send_needed q))))) :
    ∃ j, j < (mesh R).nb_edges ∧ edge_in_table T R (mesh R) j = false ∧
      (mesh R).edge_part j = (q : Int) ∧ a.1 = (j : Int) ∧
      map_find (rank_edge_requests T G mesh q).lookup (edge_uid T G (mesh R) j) = some a.2 := by
  rw [records_found_answers] at ha
  obtain ⟨req, hreq, k, hk, rfl⟩ := (mem_found_answers _ _ _).mp ha
  obtain ⟨j, hj, rfl⟩ := List.mem_map.mp hreq
  obtain ⟨h1, h2, h3⟩ := (mem_ghost_edges _ _ _ _ _ _).mp hj
  exact ⟨j, h1, h2, h3, rfl, hk⟩

/-- Claim C2.  Edge remote-index round trip: on `nparts` ranks whose edge partitions lie
in `[0, nparts)`, if every requested edge (owned by another rank, or periodic) has its
UID in the lookup table of the rank it is addressed to, that is, that rank holds an edge
it owns, not periodic, with the same UID, then `build_edges_remote_idx` completes and the
remote index of every requested edge `e` of every rank `R` is a valid edge index `k` of
the rank `P = edge_partition_R(e)`, edge `k` is in the table of `P` and its UID on `P`
equals the UID of `e` on `R`. -/
theorem edges_remote_idx_round_trip {D : Type} (T : Topology) (G : Geometry D)
    (nparts : Nat) (mesh : Nat → Mesh D) (hn : nparts < 2 ^ 31)
    (hpart : ∀ r < nparts, ∀ j < (mesh r).nb_edges,
      0 ≤ (mesh r).edge_part j ∧ (mesh r).edge_part j < (nparts : Int))
    (hpresent : ∀ R < nparts, ∀ e < (mesh R).nb_edges,
      ¬ ((mesh R).edge_part e = (R : Int) ∧ edge_needed T (mesh R) e = false) →
      ∃ k < (mesh ((mesh R).edge_part e).toNat).nb_edges,
        (mesh ((mesh R).edge_part e).toNat).edge_part k = (mesh R).edge_part e ∧
        edge_needed T (mesh ((mesh R).edge_part e).toNat) k = false ∧
        edge_uid T G (mesh ((mesh R).edge_part e).toNat) k = edge_uid T G (mesh R) e) :
    ∃ res, build_edges_remote_idx T G nparts mesh = .ok res ∧
      ∀ R < nparts, ∀ e < (mesh R).nb_edges,
        ¬ ((mesh R).edge_part e = (R : Int) ∧ edge_needed T (mesh R) e = false) →
        ∃ k : Nat, res.edge_ridx R e = (k : Int) ∧
          k < (mesh ((mesh R).edge_part e).toNat).nb_edges ∧
          (mesh ((mesh R).edge_part e).toNat).edge_part k = (mesh R).edge_part e ∧
          edge_needed T (mesh ((mesh R).edge_part e).toNat) k = false ∧
          edge_uid T G (mesh ((mesh R).edge_part e).toNat) k = edge_uid T G (mesh R) e := by
  obtain ⟨res, recv_found, hres, hrecv, hridx, _⟩ :=
    build_edges_remote_idx_ok T G nparts mesh hn hpart
  refine ⟨res, hres, ?_⟩
  intro R hR e he hreq
  obtain ⟨h0, h1⟩ := hpart R hR e he
  have hnot : edge_in_table T R (mesh R) e = false := by
    rw [Bool.eq_false_iff]
    exact fun hc => hreq ((edge_in_table_iff _ _ _ _).mp hc)
  have hP : ((mesh R).edge_part e).toNat < nparts := by omega
  have hPeq : (((mesh R).edge_part e).toNat : Int) = (mesh R).edge_part e :=
    Int.toNat_of_nonneg h0
  obtain ⟨k0, hk0, hk0p, hk0n, hk0u⟩ := hpresent R hR e he hreq
  have hk0t : edge_in_table T ((mesh R).edge_part e).toNat
      (mesh ((mesh R).edge_part e).toNat) k0 = true :=
    (edge_in_table_iff _ _ _ _).mpr ⟨by rw [hk0p, hPeq], hk0n⟩
  have hne : map_find (rank_edge_requests T G mesh ((mesh R).edge_part e).toNat).lookup
      (edge_uid T G (mesh R) e) ≠ none := by
    rw [← hk0u]
    exact map_find_map_present
      (fun j => edge_uid T G (mesh ((mesh R).edge_part e).toNat) j) _ k0
      (List.mem_reverse.mpr ((mem_owned_edges _ _ _ _ _).mpr ⟨hk0, hk0t⟩))
  obtain ⟨v, hv⟩ := Option.ne_none_iff_exists'.mp hne
  have hwb : write_back nparts (rank_edge_requests T G mesh R).ridx (recv_found R) e = v := by
    apply write_back_value
    · intro q hq a ha haj
      rw [hrecv R hR q hq] at ha
      obtain ⟨j, _, _, hjp, hja, hjf⟩ := edge_write_source T G mesh R q a ha
      rw [hja, Int.toNat_ofNat] at haj
      subst haj
      have hq2 : q = ((mesh R).edge_part j).toNat := by omega
      subst hq2
      rw [hv] at hjf
      exact (Option.some.inj hjf).symm
    · refine ⟨_, hP, ((e : Int), v), ?_, by simp⟩
      rw [hrecv R hR _ hP, records_found_answers]
      refine (mem_found_answers _ _ _).mpr ⟨(edge_uid T G (mesh R) e, (e : Int)), ?_, v, hv, rfl⟩
      exact List.mem_map.mpr ⟨e, (mem_ghost_edges _ _ _ _ _ _).mpr ⟨he, hnot, hPeq.symm⟩, rfl⟩
  obtain ⟨k, hk, hkv, hku⟩ := map_find_map
    (fun j => edge_uid T G (mesh ((mesh R).edge_part e).toNat) j) _ _ _ hv
  have hko := (mem_owned_edges _ _ _ _ _).mp (List.mem_reverse.mp hk)
  have hkt := (edge_in_table_iff _ _ _ _).mp hko.2
  refine ⟨k, ?_, hko.1, ?_, hkt.2, hku⟩
  · rw [hridx R hR, hwb, hkv]
  · rw [hkt.1, hPeq]

theorem edges_remote_idx_round_trip_witness :
    build_edges_remote_idx topology_example geometry_example 2 edges_example
      = .ok edges_example_result ∧
    edges_example_result.edge_ridx 0 1 = 1 ∧ edges_example_result.edge_ridx 1 2 = 0 ∧
    ∃ res, build_edges_remote_idx topology_example geometry_example 2 edges_example = .ok res ∧
      ∀ R < 2, ∀ e < (edges_example R).nb_edges,
        ¬ ((edges_example R).edge_part e = (R : Int) ∧
          edge_needed topology_example (edges_example R) e = false) →
        ∃ k : Nat, res.edge_ridx R e = (k : Int) ∧
          k < (edges_example ((edges_example R).edge_part e).toNat).nb_edges ∧
          (edges_example ((edges_example R).edge_part e).toNat).edge_part k
            = (edges_example R).edge_part e ∧
          edge_needed topology_example (edges_example ((edges_example R).edge_part e).toNat) k
            = false ∧
          edge_uid topology_example geometry_example
              (edges_example ((edges_example R).edge_part e).toNat) k
            = edge_uid topology_example geometry_example (edges_example R) e :=
  ⟨rfl, by decide, by decide,
    edges_remote_idx_round_trip topology_example geometry_example 2 edges_example
      (by norm_num) (by decide) (by decide)⟩

theorem edges_requests_in_range {D : Type} (T : Topology) (G : Geometry D)
    (mypart nparts : Nat) (mesh : Mesh D) (s : Requests)
    (hm : mypart < nparts) (hn : nparts < 2 ^ 31)
    (hint : ∀ j < mesh.nb_edges, -2 ^ 31 ≤ mesh.edge_part j ∧ mesh.edge_part j < 2 ^ 31)
    (h : edges_requests T G mypart nparts mesh = .ok s) :
    ∀ j < mesh.nb_edges, 0 ≤ mesh.edge_part j ∧ mesh.edge_part j < (nparts : Int) := by
  intro j hj
  obtain ⟨a, b, hab⟩ := foldlM_range_ok _ _ _ _ h j hj
  obtain ⟨hlo, hhi⟩ := hint j hj
  unfold edges_requests_step at hab
  by_cases hs : size_t (mesh.edge_part j) = mypart ∧ edge_needed T mesh j = false
  · have := size_t_int32 _ _ hlo hhi (by omega) hs.1
    omega
  · simp only [hs, if_false] at hab
    by_cases h2 : 0 ≤ mesh.edge_part j ∧ mesh.edge_part j < (nparts : Int)
    · exact h2
    · simp [h2] at hab

theorem build_edges_remote_idx_in_range {D : Type} (T : Topology) (G : Geometry D)
    (nparts : Nat) (mesh : Nat → Mesh D) (res : EdgesRemoteIdx) (hn : nparts < 2 ^ 31)
    (hint : ∀ r < nparts, ∀ j < (mesh r).nb_edges,
      -2 ^ 31 ≤ (mesh r).edge_part j ∧ (mesh r).edge_part j < 2 ^ 31)
    (hrun : build_edges_remote_idx T G nparts mesh = .ok res) :
    ∀ r < nparts, ∀ j < (mesh r).nb_edges,
      0 ≤ (mesh r).edge_part j ∧ (mesh r).edge_part j < (nparts : Int) := by
  unfold build_edges_remote_idx at hrun
  cases hfe : first_error nparts (fun r => edges_requests T G r nparts (mesh r)) with
  | some e => simp [hfe] at hrun
  | none =>
    intro r hr
    obtain ⟨a, ha⟩ := (first_error_none _ _).mp hfe r hr
    exact edges_requests_in_range T G r nparts (mesh r) a hr hn (hint r hr) ha

/-- Claim C4, as the code has it.  Invariant I3 for edges: when `build_edges_remote_idx`
completes on all ranks, every edge that a rank owns and that is not a periodic edge to
be looked up at its transformed centroid has its own local index as remote index.  The
partition values are C `int`s. -/
theorem edges_owned_remote_idx_is_local {D : Type} (T : Topology) (G : Geometry D)
    (nparts : Nat) (mesh : Nat → Mesh D) (res : EdgesRemoteIdx) (hn : nparts < 2 ^ 31)
    (hint : ∀ r < nparts, ∀ j < (mesh r).nb_edges,
      -2 ^ 31 ≤ (mesh r).edge_part j ∧ (mesh r).edge_part j < 2 ^ 31)
    (hrun : build_edges_remote_idx T G nparts mesh = .ok res) :
    ∀ R < nparts, ∀ e < (mesh R).nb_edges, (mesh R).edge_part e = (R : Int) →
      edge_needed T (mesh R) e = false → res.edge_ridx R e = (e : Int) := by
  have hpart := build_edges_remote_idx_in_range T G nparts mesh res hn hint hrun
  obtain ⟨res2, recv_found, hres, hrecv, hridx, _⟩ :=
    build_edges_remote_idx_ok T G nparts mesh hn hpart
  rw [hrun] at hres
  have hres2 := Except.ok.inj hres
  subst hres2
  intro R hR e he hown hneed
  have htab : edge_in_table T R (mesh R) e = true := (edge_in_table_iff _ _ _ _).mpr ⟨hown, hneed⟩
  rw [hridx R hR, write_back_untouched]
  · simp [rank_edge_requests, edge_requests_after, he, htab]
  · intro q hq a ha haj
    rw [hrecv R hR q hq] at ha
    obtain ⟨j, _, hjt, _, hja, _⟩ := edge_write_source T G mesh R q a ha
    rw [hja, Int.toNat_ofNat] at haj
    subst haj
    rw [htab] at hjt
    exact absurd hjt (by simp)

theorem edges_owned_remote_idx_is_local_witness :
    build_edges_remote_idx topology_example geometry_example 2 edges_example
      = .ok edges_example_result ∧
    (edges_example 1).edge_part 1 = 1 ∧ edges_example_result.edge_ridx 1 1 = 1 ∧
    ∀ R < 2, ∀ e < (edges_example R).nb_edges, (edges_example R).edge_part e = (R : Int) →
      edge_needed topology_example (edges_example R) e = false →
      edges_example_result.edge_ridx R e = (e : Int) :=
  ⟨rfl, by decide, by decide,
    edges_owned_remote_idx_is_local topology_example geometry_example 2 edges_example
      edges_example_result (by norm_num) (by decide) rfl⟩

/-- Claim C4 as stated fails: on `edges_example` edge 2 of rank 0 has partition 0, its
endpoints carry the PERIODIC flag, and `build_edges_remote_idx` gives it the remote index
0, the local index of the edge of which it is the periodic image, not its own index 2. -/
theorem edges_owned_remote_idx_counterexample :
    build_edges_remote_idx topology_example geometry_example 2 edges_example
      = .ok edges_example_result ∧
    (edges_example 0).edge_part 2 = 0 ∧
    edge_needed topology_example (edges_example 0) 2 = true ∧
    edges_example_result.edge_ridx 0 2 = 0 ∧
    ¬ (∀ res, build_edges_remote_idx topology_example geometry_example 2 edges_example
          = .ok res →
        ∀ R < 2, ∀ e < (edges_example R).nb_edges, (edges_example R).edge_part e = (R : Int) →
          res.edge_ridx R e = (e : Int)) := by
  refine ⟨rfl, by decide, by decide, by decide, ?_⟩
  intro hall
  have h0 := hall edges_example_result rfl 0 (by decide) 2 (by decide) (by decide)
  revert h0
  decide

/-- Claim C6, as the code has it.  An edge protocol miss is not fatal: on `nparts` ranks
whose edge partitions lie in `[0, nparts)`, `build_edges_remote_idx` completes whatever
the UIDs are; for every requested edge `e` of a rank `R` whose UID is absent from the
lookup table of the rank `P` it is addressed to, rank `P` logs a warning naming that UID
and the requesting rank `R`, no answer is written, and the remote index of `e` on `R`
keeps the value it had on entry. -/
theorem edges_protocol_miss_is_not_fatal {D : Type} (T : Topology) (G : Geometry D)
    (nparts : Nat) (mesh : Nat → Mesh D) (hn : nparts < 2 ^ 31)
    (hpart : ∀ r < nparts, ∀ j < (mesh r).nb_edges,
      0 ≤ (mesh r).edge_part j ∧ (mesh r).edge_part j < (nparts : Int)) :
    ∃ res, build_edges_remote_idx T G nparts mesh = .ok res ∧
      ∀ R < nparts, ∀ e < (mesh R).nb_edges,
        ¬ ((mesh R).edge_part e = (R : Int) ∧ edge_needed T (mesh R) e = false) →
        (¬ ∃ k < (mesh ((mesh R).edge_part e).toNat).nb_edges,
          (mesh ((mesh R).edge_part e).toNat).edge_part k = (mesh R).edge_part e ∧
          edge_needed T (mesh ((mesh R).edge_part e).toNat) k = false ∧
          edge_uid T G (mesh ((mesh R).edge_part e).toNat) k = edge_uid T G (mesh R) e) →
        (edge_uid T G (mesh R) e, R) ∈ res.warnings ((mesh R).edge_part e).toNat ∧
        res.edge_ridx R e = (mesh R).edge_ridx e := by
  obtain ⟨res, recv_found, hres, hrecv, hridx, hwarn⟩ :=
    build_edges_remote_idx_ok T G nparts mesh hn hpart
  refine ⟨res, hres, ?_⟩
  intro R hR e he hreq habsent
  obtain ⟨h0, h1⟩ := hpart R hR e he
  have hnot : edge_in_table T R (mesh R) e = false := by
    rw [Bool.eq_false_iff]
    exact fun hc => hreq ((edge_in_table_iff _ _ _ _).mp hc)
  have hP : ((mesh R).edge_part e).toNat < nparts := by omega
  have hPeq : (((mesh R).edge_part e).toNat : Int) = (mesh R).edge_part e :=
    Int.toNat_of_nonneg h0
  have hnone : map_find (rank_edge_requests T G mesh ((mesh R).edge_part e).toNat).lookup
      (edge_uid T G (mesh R) e) = none := by
    cases hv : map_find (rank_edge_requests T G mesh ((mesh R).edge_part e).toNat).lookup
        (edge_uid T G (mesh R) e) with
    | none => rfl
    | some v =>
      exfalso
      obtain ⟨k, hk, _, hku⟩ := map_find_map
        (fun j => edge_uid T G (mesh ((mesh R).edge_part e).toNat) j) _ _ _ hv
      have hko := (mem_owned_edges _ _ _ _ _).mp (List.mem_reverse.mp hk)
      have hkt := (edge_in_table_iff _ _ _ _).mp hko.2
      exact habsent ⟨k, hko.1, by rw [hkt.1, hPeq], hkt.2, hku⟩
  refine ⟨?_, ?_⟩
  · apply hwarn _ hP R hR (edge_uid T G (mesh R) e, (e : Int)) _ hnone
    simp only [rank_edge_requests, edge_requests_after, records_flat]
    exact List.mem_map.mpr ⟨e, (mem_ghost_edges _ _ _ _ _ _).mpr ⟨he, hnot, hPeq.symm⟩, rfl⟩
  · rw [hridx R hR, write_back_untouched]
    · simp [rank_edge_requests, edge_requests_after, hnot]
    · intro q hq a ha haj
      rw [hrecv R hR q hq] at ha
      obtain ⟨j, _, _, hjp, hja, hjf⟩ := edge_write_source T G mesh R q a ha
      rw [hja, Int.toNat_ofNat] at haj
      subst haj
      have hq2 : q = ((mesh R).edge_part j).toNat := by omega
      subst hq2
      rw [hnone] at hjf
      simp at hjf

theorem edges_protocol_miss_is_not_fatal_witness :
    edges_without_halo_result.warnings 0 = [(25000, 1)] ∧
    edges_without_halo_result.edge_ridx 1 1 = -1 ∧
    ∃ res, build_edges_remote_idx topology_example geometry_example 2 edges_without_halo
        = .ok res ∧
      ∀ R < 2, ∀ e < (edges_without_halo R).nb_edges,
        ¬ ((edges_without_halo R).edge_part e = (R : Int) ∧
          edge_needed topology_example (edges_without_halo R) e = false) →
        (¬ ∃ k < (edges_without_halo ((edges_without_halo R).edge_part e).toNat).nb_edges,
          (edges_without_halo ((edges_without_halo R).edge_part e).toNat).edge_part k
            = (edges_without_halo R).edge_part e ∧
          edge_needed topology_example
            (edges_without_halo ((edges_without_halo R).edge_part e).toNat) k = false ∧
          edge_uid topology_example geometry_example
              (edges_without_halo ((edges_without_halo R).edge_part e).toNat) k
            = edge_uid topology_example geometry_example (edges_without_halo R) e) →
        (edge_uid topology_example geometry_example (edges_without_halo R) e, R)
          ∈ res.warnings ((edges_without_halo R).edge_part e).toNat ∧
        res.edge_ridx R e = (edges_without_halo R).edge_ridx e :=
  ⟨by decide, by decide,
    edges_protocol_miss_is_not_fatal topology_example geometry_example 2 edges_without_halo
      (by norm_num) (by decide)⟩

/-- Claim C6 as stated fails: on `edges_without_halo` rank 0 receives from rank 1 the
request `( 25000, 1 )`, the UID 25000 is not a key of its lookup table, and
`build_edges_remote_idx` completes with a warning on rank 0 instead of raising. -/
theorem edges_protocol_miss_counterexample :
    (value_or Requests.empty
      (edges_requests topology_example geometry_example 1 2 (edges_without_halo 1))).send_needed 0
      = [25000, 1] ∧
    (value_or Requests.empty
      (edges_requests topology_example geometry_example 0 2 (edges_without_halo 0))).lookup
      = [(5000, 0)] ∧
    map_find [(5000, 0)] 25000 = none ∧
    build_edges_remote_idx topology_example geometry_example 2 edges_without_halo
      = .ok edges_without_halo_result ∧
    edges_without_halo_result.warnings 0 = [(25000, 1)] ∧
    ¬ (∃ e, build_edges_remote_idx topology_example geometry_example 2 edges_without_halo
        = .error e) := by
  refine ⟨by decide, by decide, by decide, rfl, by decide, ?_⟩
  rintro ⟨e, he⟩
  have hok : build_edges_remote_idx topology_example geometry_example 2 edges_without_halo
      = .ok edges_without_halo_result := rfl
  rw [hok] at he
  simp at he

/-! ## The second pass of `build_edges_partition` -/

theorem first_pass_tables {D : Type} (G : Geometry D) (mesh : Mesh D) (n : Nat)
    (s : EdgesPartition)
    (h : (List.range n).foldlM (edges_partition_step G mesh)
      { global_to_local := [], bdry_edges := [], edge_part := mesh.edge_part } = .ok s) :
    s.global_to_local = (List.range n).reverse.map (fun j => (mesh.edge_glb_idx j, (j : Int))) ∧
    ∀ g ∈ s.bdry_edges, ∃ j < n, mesh.edge_glb_idx j = g := by
  induction n generalizing s with
  | zero =>
    simp only [List.range_zero, List.foldlM_nil, pure, Except.pure] at h
    have hs := Except.ok.inj h
    subst hs
    simp
  | succ n ih =>
    rw [List.range_succ, List.foldlM_append] at h
    cases hpre : (List.range n).foldlM (edges_partition_step G mesh)
        { global_to_local := [], bdry_edges := [], edge_part := mesh.edge_part } with
    | error e => rw [hpre] at h; simp [bind, Except.bind] at h
    | ok s1 =>
      rw [hpre] at h
      simp only [bind, Except.bind, List.foldlM_cons, List.foldlM_nil] at h
      obtain ⟨hg, hb⟩ := ih s1 hpre
      have hrev : (List.range (n + 1)).reverse = n :: (List.range n).reverse := by
        rw [List.range_succ, List.reverse_append]; rfl
      unfold edges_partition_step at h
      simp only [] at h
      split_ifs at h <;>
        (have hs := Except.ok.inj h
         subst hs
         refine ⟨by simp [map_insert, hg, hrev], ?_⟩
         intro g hgm
         simp only [List.mem_append, List.mem_singleton] at hgm
         first
         | (rcases hgm with hgm | hgm
            · obtain ⟨j, hj, hjg⟩ := hb g hgm
              exact ⟨j, by omega, hjg⟩
            · exact ⟨n, by omega, hgm.symm⟩)
         | (obtain ⟨j, hj, hjg⟩ := hb g hgm
            exact ⟨j, by omega, hjg⟩))

theorem first_pass_locals_ok {D : Type} (G : Geometry D) (mesh : Nat → Mesh D) (r : Nat)
    (h : ∃ s, edges_partition_first_pass G (mesh r) = .ok s) :
    edges_partition_first_pass G (mesh r) = .ok (first_pass_locals G mesh r) := by
  obtain ⟨s, hs⟩ := h
  unfold first_pass_locals
  rw [hs]
  rfl

theorem corrections_inner (s : EdgesPartition) (bdry_edges : List Int) (p : Nat)
    (l : List Int) (c : Corrections) :
    (l.foldl (corrections_step s bdry_edges p) c).send_gidx
      = (fun k => if k = p then c.send_gidx k ++ (answered s bdry_edges l).map Prod.fst
          else c.send_gidx k) ∧
    (l.foldl (corrections_step s bdry_edges p) c).send_part
      = (fun k => if k = p then c.send_part k ++ (answered s bdry_edges l).map Prod.snd
          else c.send_part k) := by
  induction l generalizing c with
  | nil => constructor <;> (funext k; simp [answered])
  | cons g l ih =>
    rw [List.foldl_cons]
    obtain ⟨ih1, ih2⟩ := ih (corrections_step s bdry_edges p c g)
    rw [ih1, ih2]
    cases hf : map_find s.global_to_local g with
    | none =>
      constructor <;> (funext k; simp [corrections_step, answered, hf])
    | some e =>
      by_cases hb : is_bdry_edge bdry_edges g = false
      · constructor <;>
          (funext k
           by_cases hk : k = p
           · simp [corrections_step, answered, hf, hb, hk, push_back1]
           · simp [corrections_step, answered, hf, hb, hk, push_back1])
      · constructor <;> (funext k; simp [corrections_step, answered, hf, hb])

theorem corrections_closed (nparts : Nat) (s : EdgesPartition) (bdry_edges : List Int)
    (recv : Nat → List Int) :
    (corrections nparts s bdry_edges recv).send_gidx
      = (fun k => if k < nparts then (answered s bdry_edges (recv k)).map Prod.fst else []) ∧
    (corrections nparts s bdry_edges recv).send_part
      = (fun k => if k < nparts then (answered s bdry_edges (recv k)).map Prod.snd else []) := by
  unfold corrections
  induction nparts with
  | zero => constructor <;> (funext k; simp)
  | succ n ih =>
    rw [List.range_succ, List.foldl_append, List.foldl_cons, List.foldl_nil]
    obtain ⟨h1, h2⟩ := corrections_inner s bdry_edges n (recv n)
      ((List.range n).foldl
        (fun c p => (recv p).foldl (corrections_step s bdry_edges p) c)
        { send_gidx := fun _ => [], send_part := fun _ => [] })
    rw [h1, h2, ih.1, ih.2]
    constructor <;>
      (funext k
       by_cases hk : k = n
       · subst hk; simp
       · by_cases hlt : k < n
         · have : k < n + 1 := by omega
           simp [hk, hlt, this]
         · have : ¬ k < n + 1 := by omega
           simp [hk, hlt, this])

theorem entries_map (l : List (Int × Int)) :
    entries (l.map Prod.fst) (l.map Prod.snd) = l := by
  unfold entries
  apply List.ext_getElem
  · simp
  · intro n h1 h2
    simp only [List.length_map, List.length_range] at h1
    simp [List.getD_eq_getElem?_getD, h1]

theorem assign_foldl_cases {β : Type} (f : β → Nat) (val : β → Int) (l : List β)
    (r : Nat → Int) (j : Nat) (v : Int) (hv : ∀ a ∈ l, f a = j → val a = v) :
    ((l.foldl (fun r a => assign r (f a) (val a)) r) j = v ∧ ∃ a ∈ l, f a = j) ∨
    ((l.foldl (fun r a => assign r (f a) (val a)) r) j = r j ∧ ∀ a ∈ l, f a ≠ j) := by
  induction l generalizing r with
  | nil => right; simp
  | cons a l ih =>
    rw [List.foldl_cons]
    rcases ih (assign r (f a) (val a)) (fun b hb => hv b (List.mem_cons_of_mem _ hb)) with
      ⟨h1, b, hb, hbj⟩ | ⟨h1, h2⟩
    · left; exact ⟨h1, b, List.mem_cons_of_mem _ hb, hbj⟩
    · by_cases haj : f a = j
      · left
        refine ⟨?_, a, List.mem_cons_self _ _, haj⟩
        rw [h1]
        simp [assign, haj, hv a (List.mem_cons_self _ _) haj]
      · right
        refine ⟨?_, ?_⟩
        · rw [h1]
          have : ¬ j = f a := fun hc => haj hc.symm
          simp [assign, this]
        · intro b hb
          rcases List.mem_cons.mp hb with heq | hmem
          · subst heq; exact haj
          · exact h2 b hmem

theorem apply_corrections_cases (nparts : Nat) (g2l : List (Int × Int)) (ep : Nat → Int)
    (recv_gidx recv_part : Nat → List Int) (j : Nat) (v : Int)
    (hv : ∀ p < nparts, ∀ a ∈ entries (recv_gidx p) (recv_part p),
      ((map_find g2l a.1).getD 0).toNat = j → a.2 = v) :
    (apply_corrections nparts g2l ep recv_gidx recv_part j = v ∧
      ∃ p < nparts, ∃ a ∈ entries (recv_gidx p) (recv_part p),
        ((map_find g2l a.1).getD 0).toNat = j) ∨
    (apply_corrections nparts g2l ep recv_gidx recv_part j = ep j ∧
      ∀ p < nparts, ∀ a ∈ entries (recv_gidx p) (recv_part p),
        ((map_find g2l a.1).getD 0).toNat ≠ j) := by
  unfold apply_corrections
  induction nparts with
  | zero => right; simp
  | succ n ih =>
    rw [List.range_succ, List.foldl_append, List.foldl_cons, List.foldl_nil]
    rcases assign_foldl_cases (fun a : Int × Int => ((map_find g2l a.1).getD 0).toNat)
        (fun a => a.2) (entries (recv_gidx n) (recv_part n))
        ((List.range n).foldl
          (fun ep p => (entries (recv_gidx p) (recv_part p)).foldl
            (fun ep a => assign ep ((map_find g2l a.1).getD 0).toNat a.2) ep) ep)
        j v (hv n (Nat.lt_succ_self n)) with ⟨h1, a, ha, haj⟩ | ⟨h1, h2⟩
    · left; exact ⟨h1, n, Nat.lt_succ_self n, a, ha, haj⟩
    · rcases ih (fun q hq => hv q (Nat.lt_succ_of_lt hq)) with ⟨h3, q, hq, a, ha, haj⟩ | ⟨h3, h4⟩
      · left; exact ⟨by rw [h1, h3], q, Nat.lt_succ_of_lt hq, a, ha, haj⟩
      · right
        refine ⟨by rw [h1, h3], ?_⟩
        intro q hq a ha
        rcases Nat.lt_succ_iff_lt_or_eq.mp hq with hlt | heq
        · exact h4 q hlt a ha
        · subst heq; exact h2 a ha

theorem mem_sort_gidx (l : List Int) (a : Int) : a ∈ sort_gidx l ↔ a ∈ l :=
  (List.perm_insertionSort (fun a b : Int => a ≤ b) l).mem_iff

theorem mem_answered (s : EdgesPartition) (bdry_edges : List Int) (l : List Int)
    (a : Int × Int) :
    a ∈ answered s bdry_edges l ↔
      a.1 ∈ l ∧ a.1 ∉ bdry_edges ∧
      ∃ e, map_find s.global_to_local a.1 = some e ∧ a.2 = s.edge_part e.toNat := by
  unfold answered
  rw [List.mem_filterMap]
  constructor
  · rintro ⟨g, hg, h⟩
    cases hf : map_find s.global_to_local g with
    | none => rw [hf] at h; simp at h
    | some e =>
      rw [hf] at h
      by_cases hb : is_bdry_edge bdry_edges g = false
      · simp only [hb, if_true, Option.some.injEq] at h
        subst h
        refine ⟨hg, ?_, e, hf, rfl⟩
        simpa [is_bdry_edge] using hb
      · simp [hb] at h
  · rintro ⟨hg, hb, e, hf, hv⟩
    refine ⟨a.1, hg, ?_⟩
    have hb2 : is_bdry_edge bdry_edges a.1 = false := by simpa [is_bdry_edge] using hb
    simp only [hf, hb2, if_true, Option.some.injEq]
    exact Prod.ext rfl hv.symm

theorem second_pass_eq (nparts : Nat) (first : Nat → EdgesPartition) (r : Nat)
    (hr : r < nparts) :
    ∃ recv_gidx recv_part : Nat → List Int,
      edges_partition_second_pass nparts first r
        = apply_corrections nparts (first r).global_to_local (first r).edge_part
            recv_gidx recv_part ∧
      ∀ p < nparts, entries (recv_gidx p) (recv_part p)
        = answered (first p) (sort_gidx (first p).bdry_edges)
            (sort_gidx (first r).bdry_edges) := by
  refine ⟨_, _, rfl, ?_⟩
  intro p _
  obtain ⟨h1, h2⟩ := corrections_closed nparts (first p) (sort_gidx (first p).bdry_edges)
    (fun q => sort_gidx (first q).bdry_edges)
  simp only [h1, h2, hr, if_true]
  exact entries_map _

/-- Claim C12.  Asymmetric boundary-edge correction: when the first pass of
`build_edges_partition` completes on every rank, rank `A` has the global index `g` in its
boundary-edge list, rank `B` holds a local edge with global index `g` and does not have
`g` in its own boundary-edge list, and no other rank answers for `g`, then after the
second pass `edge_part` on rank `A` of its edge with global index `g` is the `edge_part`
that rank `B` computed in the first pass for its edge with global index `g`; and an edge
of rank `A` for whose global index no rank answers keeps its first-pass owner. -/
theorem asymmetric_boundary_edge_correction {D : Type} (G : Geometry D) (nparts : Nat)
    (mesh : Nat → Mesh D)
    (hfirst : ∀ r < nparts, ∃ s, edges_partition_first_pass G (mesh r) = .ok s)
    (A B : Nat) (hA : A < nparts) (hB : B < nparts) (hAB : A ≠ B) (g : Int)
    (hgA : g ∈ (first_pass_locals G mesh A).bdry_edges)
    (eB : Int) (hgB : map_find (first_pass_locals G mesh B).global_to_local g = some eB)
    (hnotB : g ∉ (first_pass_locals G mesh B).bdry_edges)
    (honly : ∀ C < nparts, C ≠ B →
      map_find (first_pass_locals G mesh C).global_to_local g = none ∨
      g ∈ (first_pass_locals G mesh C).bdry_edges) :
    (∃ eA : Nat, map_find (first_pass_locals G mesh A).global_to_local g = some (eA : Int) ∧
      eA < (mesh A).nb_edges ∧ (mesh A).edge_glb_idx eA = g ∧
      edges_partition_second_pass nparts (first_pass_locals G mesh) A eA
        = (first_pass_locals G mesh B).edge_part eB.toNat) ∧
    (∀ e < (mesh A).nb_edges,
      (∀ C < nparts, (mesh A).edge_glb_idx e ∉ (first_pass_locals G mesh A).bdry_edges ∨
        map_find (first_pass_locals G mesh C).global_to_local ((mesh A).edge_glb_idx e) = none ∨
        (mesh A).edge_glb_idx e ∈ (first_pass_locals G mesh C).bdry_edges) →
      edges_partition_second_pass nparts (first_pass_locals G mesh) A e
        = (first_pass_locals G mesh A).edge_part e) := by
  have _hdistinct := hAB
  have hokA := first_pass_locals_ok G mesh A (hfirst A hA)
  obtain ⟨hg2l, hbdry⟩ := first_pass_tables G (mesh A) (mesh A).nb_edges _ hokA
  obtain ⟨recv_gidx, recv_part, hsp, hent⟩ :=
    second_pass_eq nparts (first_pass_locals G mesh) A hA
  -- every key found in the table of `A` is the global index of the edge found
  have hkey : ∀ g2 e, map_find (first_pass_locals G mesh A).global_to_local g2 = some e →
      ∃ j : Nat, e = (j : Int) ∧ j < (mesh A).nb_edges ∧ (mesh A).edge_glb_idx j = g2 := by
    intro g2 e he
    rw [hg2l] at he
    obtain ⟨j, hj, hej, hjg⟩ := map_find_map (fun j => (mesh A).edge_glb_idx j) _ _ _ he
    exact ⟨j, hej, by simpa using hj, hjg⟩
  have hpresent : ∀ g2 ∈ (first_pass_locals G mesh A).bdry_edges,
      ∃ e, map_find (first_pass_locals G mesh A).global_to_local g2 = some e := by
    intro g2 hg2
    obtain ⟨j, hj, hjg⟩ := hbdry g2 hg2
    have hne : map_find (first_pass_locals G mesh A).global_to_local g2 ≠ none := by
      rw [hg2l, ← hjg]
      exact map_find_map_present (fun j => (mesh A).edge_glb_idx j) _ j (by simpa using hj)
    exact Option.ne_none_iff_exists'.mp hne
  refine ⟨?_, ?_⟩
  · obtain ⟨e, he⟩ := hpresent g hgA
    obtain ⟨eA, heA, hlt, hglb⟩ := hkey g e he
    subst heA
    refine ⟨eA, he, hlt, hglb, ?_⟩
    rw [hsp]
    have hv : ∀ p < nparts, ∀ a ∈ entries (recv_gidx p) (recv_part p),
        ((map_find (first_pass_locals G mesh A).global_to_local a.1).getD 0).toNat = eA →
        a.2 = (first_pass_locals G mesh B).edge_part eB.toNat := by
      intro p hp a ha hidx
      rw [hent p hp] at ha
      obtain ⟨ha1, ha2, e2, hf2, hv2⟩ := (mem_answered _ _ _ _).mp ha
      obtain ⟨e3, he3⟩ := hpresent a.1 ((mem_sort_gidx _ _).mp ha1)
      obtain ⟨j3, hj3, _, hglb3⟩ := hkey a.1 e3 he3
      subst hj3
      rw [he3] at hidx
      simp only [Option.getD_some, Int.toNat_ofNat] at hidx
      subst hidx
      have hag : a.1 = g := by rw [← hglb3, hglb]
      rw [hag] at hf2 ha2
      have hpB : p = B := by
        by_contra hne
        rcases honly p hp hne with hnone | hmem
        · rw [hnone] at hf2; simp at hf2
        · exact ha2 ((mem_sort_gidx _ _).mpr hmem)
      subst hpB
      rw [hgB] at hf2
      have := Option.some.inj hf2
      subst this
      exact hv2
    rcases apply_corrections_cases nparts (first_pass_locals G mesh A).global_to_local
        (first_pass_locals G mesh A).edge_part recv_gidx recv_part eA
        ((first_pass_locals G mesh B).edge_part eB.toNat) hv with ⟨h1, _⟩ | ⟨_, h2⟩
    · exact h1
    · exfalso
      refine h2 B hB (g, (first_pass_locals G mesh B).edge_part eB.toNat) ?_ (by simp [he])
      rw [hent B hB]
      exact (mem_answered _ _ _ _).mpr
        ⟨(mem_sort_gidx _ _).mpr hgA, fun hc => hnotB ((mem_sort_gidx _ _).mp hc),
          eB, hgB, rfl⟩
  · intro e he hno
    rw [hsp]
    have hv : ∀ p < nparts, ∀ a ∈ entries (recv_gidx p) (recv_part p),
        ((map_find (first_pass_locals G mesh A).global_to_local a.1).getD 0).toNat = e →
        a.2 = (first_pass_locals G mesh A).edge_part e := by
      intro p hp a ha hidx
      exfalso
      rw [hent p hp] at ha
      obtain ⟨ha1, ha2, e2, hf2, _⟩ := (mem_answered _ _ _ _).mp ha
      have ha1m := (mem_sort_gidx _ _).mp ha1
      obtain ⟨e3, he3⟩ := hpresent a.1 ha1m
      obtain ⟨j3, hj3, _, hglb3⟩ := hkey a.1 e3 he3
      subst hj3
      rw [he3] at hidx
      simp only [Option.getD_some, Int.toNat_ofNat] at hidx
      subst hidx
      rcases hno p hp with h | h | h
      · exact h (hglb3 ▸ ha1m)
      · rw [hglb3, hf2] at h; simp at h
      · exact ha2 ((mem_sort_gidx _ _).mpr (hglb3 ▸ h))
    rcases apply_corrections_cases nparts (first_pass_locals G mesh A).global_to_local
        (first_pass_locals G mesh A).edge_part recv_gidx recv_part e
        ((first_pass_locals G mesh A).edge_part e) hv with ⟨h1, _⟩ | ⟨h1, _⟩
    · exact h1
    · exact h1

theorem asymmetric_boundary_edge_correction_witness :
    (first_pass_locals geometry_example partition_example 0).edge_part 0 = 0 ∧
    (first_pass_locals geometry_example partition_example 1).edge_part 0 = 1 ∧
    edges_partition_second_pass 2 (first_pass_locals geometry_example partition_example) 0 0 = 1 ∧
    ∃ eA : Nat,
      map_find (first_pass_locals geometry_example partition_example 0).global_to_local 7
        = some (eA : Int) ∧
      eA < (partition_example 0).nb_edges ∧ (partition_example 0).edge_glb_idx eA = 7 ∧
      edges_partition_second_pass 2 (first_pass_locals geometry_example partition_example) 0 eA
        = (first_pass_locals geometry_example partition_example 1).edge_part (0 : Int).toNat :=
  ⟨by decide, by decide, by decide,
    (asymmetric_boundary_edge_correction geometry_example 2 partition_example
      (by intro r hr; interval_cases r <;> exact ⟨_, rfl⟩)
      0 1 (by decide) (by decide) (by decide) 7 (by decide) 0 (by decide) (by decide)
      (by decide)).1⟩

/-! ## The sanity check of `build_edges_partition` -/

theorem sanity_step_eq {D : Type} (mesh : Mesh D) (edge_part : Nat → Int) (insane : Int)
    (j : Nat) :
    sanity_step mesh edge_part insane j
      = if edge_insane mesh edge_part j = true then 1 else insane := by
  unfold sanity_step edge_insane
  simp only [decide_eq_true_eq]
  split_ifs <;> first | rfl | (exfalso; tauto)

theorem sanity_fold {D : Type} (mesh : Mesh D) (edge_part : Nat → Int) (n : Nat) :
    ((List.range n).foldl (sanity_step mesh edge_part) 0 = 1 ∧
      ∃ j < n, edge_insane mesh edge_part j = true) ∨
    ((List.range n).foldl (sanity_step mesh edge_part) 0 = 0 ∧
      ∀ j < n, edge_insane mesh edge_part j = false) := by
  induction n with
  | zero => right; simp
  | succ n ih =>
    rw [List.range_succ, List.foldl_append, List.foldl_cons, List.foldl_nil, sanity_step_eq]
    by_cases hn : edge_insane mesh edge_part n = true
    · left
      exact ⟨by simp [hn], n, Nat.lt_succ_self n, hn⟩
    · rcases ih with ⟨h1, j, hj, hji⟩ | ⟨h1, h2⟩
      · left
        exact ⟨by simp [hn, h1], j, Nat.lt_succ_of_lt hj, hji⟩
      · right
        refine ⟨by simp [hn, h1], ?_⟩
        intro j hj
        rcases Nat.lt_succ_iff_lt_or_eq.mp hj with hlt | heq
        · exact h2 j hlt
        · subst heq; simpa using hn

theorem sanity_check_cases {D : Type} (mesh : Mesh D) (edge_part : Nat → Int) :
    (sanity_check mesh edge_part = 1 ∧
      ∃ j < mesh.nb_edges, edge_insane mesh edge_part j = true) ∨
    (sanity_check mesh edge_part = 0 ∧
      ∀ j < mesh.nb_edges, edge_insane mesh edge_part j = false) :=
  sanity_fold mesh edge_part mesh.nb_edges

theorem sanity_check_of_insane {D : Type} (mesh : Mesh D) (edge_part : Nat → Int) (j : Nat)
    (hj : j < mesh.nb_edges) (h : edge_insane mesh edge_part j = true) :
    sanity_check mesh edge_part = 1 := by
  rcases sanity_check_cases mesh edge_part with ⟨h1, _⟩ | ⟨_, h2⟩
  · exact h1
  · rw [h2 j hj] at h; simp at h

theorem all_reduce_max_fold (n : Nat) (f : Nat → Int) (m0 : Int) :
    (∀ q < n, f q ≤ (List.range n).foldl (fun m q => max m (f q)) m0) ∧
    m0 ≤ (List.range n).foldl (fun m q => max m (f q)) m0 ∧
    ((List.range n).foldl (fun m q => max m (f q)) m0 = m0 ∨
      ∃ q < n, (List.range n).foldl (fun m q => max m (f q)) m0 = f q) := by
  induction n with
  | zero => simp
  | succ n ih =>
    rw [List.range_succ, List.foldl_append, List.foldl_cons, List.foldl_nil]
    obtain ⟨h1, h2, h3⟩ := ih
    refine ⟨?_, le_trans h2 (le_max_left _ _), ?_⟩
    · intro q hq
      rcases Nat.lt_succ_iff_lt_or_eq.mp hq with hlt | heq
      · exact le_trans (h1 q hlt) (le_max_left _ _)
      · subst heq; exact le_max_right _ _
    · rcases max_choice ((List.range n).foldl (fun m q => max m (f q)) m0) (f n) with hm | hm
      · rw [hm]
        rcases h3 with h3 | ⟨q, hq, h3⟩
        · left; exact h3
        · right; exact ⟨q, Nat.lt_succ_of_lt hq, h3⟩
      · right; exact ⟨n, Nat.lt_succ_self n, hm⟩

theorem all_reduce_max_flags (nparts : Nat) (hn : 0 < nparts) (f : Nat → Int)
    (hf : ∀ q < nparts, f q = 0 ∨ f q = 1) (r : Nat) :
    (all_reduce_max nparts f r = 0 ∨ all_reduce_max nparts f r = 1) ∧
    (all_reduce_max nparts f r = 1 ↔ ∃ q < nparts, f q = 1) ∧
    (all_reduce_max nparts f r = 0 ↔ ∀ q < nparts, f q = 0) := by
  unfold all_reduce_max
  obtain ⟨h1, h2, h3⟩ := all_reduce_max_fold nparts f (f 0)
  have hval : ∃ q < nparts, (List.range nparts).foldl (fun m q => max m (f q)) (f 0) = f q := by
    rcases h3 with h3 | h3
    · exact ⟨0, hn, h3⟩
    · exact h3
  obtain ⟨q0, hq0, hv⟩ := hval
  refine ⟨by rw [hv]; exact hf q0 hq0, ?_, ?_⟩
  · constructor
    · intro h; exact ⟨q0, hq0, by rw [← hv, h]⟩
    · rintro ⟨q, hq, hfq⟩
      have hle := h1 q hq
      rw [hfq] at hle
      rcases hf q0 hq0 with h0 | h0
      · rw [hv, h0] at hle; omega
      · rw [hv, h0]
  · constructor
    · intro h q hq
      have hle := h1 q hq
      rw [h] at hle
      rcases hf q hq with h0 | h0
      · exact h0
      · rw [h0] at hle; omega
    · intro h
      rw [hv, h q0 hq0]

/-! ## The whole of `build_edges_partition` -/

theorem build_edges_partition_eq {D : Type} (G : Geometry D) (nparts : Nat)
    (mesh : Nat → Mesh D)
    (hfirst : ∀ r < nparts, ∃ s, edges_partition_first_pass G (mesh r) = .ok s) (r : Nat) :
    build_edges_partition G nparts mesh r
      = if all_reduce_max nparts (fun q => sanity_check (mesh q)
            (edges_partition_second_pass nparts (first_pass_locals G mesh) q)) r ≠ 0 ∧ r = 0
        then .error Error.Exception
        else .ok (edges_partition_second_pass nparts (first_pass_locals G mesh) r) := by
  have hfe : first_error nparts (fun q => edges_partition_first_pass G (mesh q)) = none :=
    (first_error_none _ _).mpr hfirst
  unfold build_edges_partition
  simp only [hfe]

theorem build_edges_partition_first_ok {D : Type} (G : Geometry D) (nparts : Nat)
    (mesh : Nat → Mesh D) (r : Nat) (ep : Nat → Int)
    (h : build_edges_partition G nparts mesh r = .ok ep) :
    ∀ q < nparts, ∃ s, edges_partition_first_pass G (mesh q) = .ok s := by
  cases hfe : first_error nparts (fun q => edges_partition_first_pass G (mesh q)) with
  | none => exact (first_error_none _ _).mp hfe
  | some e =>
    exfalso
    unfold build_edges_partition at h
    simp only [hfe] at h
    split at h
    · exact Except.noConfusion h
    · exact Except.noConfusion h

theorem sanity_flag_cases {D : Type} (mesh : Nat → Mesh D) (ep : Nat → Nat → Int) (q : Nat) :
    sanity_check (mesh q) (ep q) = 0 ∨ sanity_check (mesh q) (ep q) = 1 := by
  rcases sanity_check_cases (mesh q) (ep q) with ⟨h, _⟩ | ⟨h, _⟩
  · exact Or.inr h
  · exact Or.inl h

theorem edge_sane_covered {D : Type} (mesh : Mesh D) (ep : Nat → Int) (j : Nat)
    (h : edge_insane mesh ep j = false) :
    (ep j = mesh.node_part (mesh.edge_nodes j 0) ∨
      ep j = mesh.node_part (mesh.edge_nodes j 1) ∨
      (mesh.edge_to_elem j 0 ≠ mesh.missing_value ∧
        ep j = mesh.elem_part (mesh.edge_to_elem j 0)) ∨
      (mesh.edge_to_elem j 1 ≠ mesh.missing_value ∧
        ep j = mesh.elem_part (mesh.edge_to_elem j 1))) ∧
    (mesh.has_pole_edges = true → mesh.is_pole_edge j ≠ 0 →
      ep j = mesh.node_part (mesh.edge_nodes j 0) ∧
      ep j = mesh.node_part (mesh.edge_nodes j 1)) := by
  unfold edge_insane at h
  simp only [decide_eq_false_iff_not] at h
  refine ⟨?_, ?_⟩
  · by_cases hn : ep j = mesh.node_part (mesh.edge_nodes j 0) ∨
        ep j = mesh.node_part (mesh.edge_nodes j 1)
    · rcases hn with hn | hn
      · exact Or.inl hn
      · exact Or.inr (Or.inl hn)
    · by_cases hb : mesh.edge_to_elem j 0 = mesh.missing_value ∨
          mesh.edge_to_elem j 1 = mesh.missing_value
      · exact absurd (Or.inr (Or.inr (Or.inl ⟨hb, hn⟩))) h
      · by_cases he : ep j = mesh.elem_part (mesh.edge_to_elem j 0) ∨
            ep j = mesh.elem_part (mesh.edge_to_elem j 1)
        · rcases he with he | he
          · exact Or.inr (Or.inr (Or.inl ⟨fun hm => hb (Or.inl hm), he⟩))
          · exact Or.inr (Or.inr (Or.inr ⟨fun hm => hb (Or.inr hm), he⟩))
        · exact absurd (Or.inr (Or.inr (Or.inr ⟨hb, he, hn⟩))) h
  · intro hp hf
    by_contra hc
    apply h
    left
    refine ⟨hp, hf, ?_⟩
    by_cases ha : ep j = mesh.node_part (mesh.edge_nodes j 0)
    · exact Or.inr (fun hb => hc ⟨ha, hb⟩)
    · exact Or.inl ha

/-- Claim C11.  Ownership coverage (I4): when `build_edges_partition` returns normally on
every rank, the `edge_part` it returns has, for every edge of every rank, the partition
of one of its two endpoint nodes or of one of its adjacent elements, and for every edge
flagged in `is_pole_edge` the partition of both endpoint nodes. -/
theorem ownership_coverage {D : Type} (G : Geometry D) (nparts : Nat) (mesh : Nat → Mesh D)
    (edge_part : Nat → Nat → Int)
    (hrun : ∀ r < nparts, build_edges_partition G nparts mesh r = .ok (edge_part r)) :
    ∀ r < nparts, ∀ j < (mesh r).nb_edges,
      (edge_part r j = (mesh r).node_part ((mesh r).edge_nodes j 0) ∨
        edge_part r j = (mesh r).node_part ((mesh r).edge_nodes j 1) ∨
        ((mesh r).edge_to_elem j 0 ≠ (mesh r).missing_value ∧
          edge_part r j = (mesh r).elem_part ((mesh r).edge_to_elem j 0)) ∨
        ((mesh r).edge_to_elem j 1 ≠ (mesh r).missing_value ∧
          edge_part r j = (mesh r).elem_part ((mesh r).edge_to_elem j 1))) ∧
      ((mesh r).has_pole_edges = true → (mesh r).is_pole_edge j ≠ 0 →
        edge_part r j = (mesh r).node_part ((mesh r).edge_nodes j 0) ∧
        edge_part r j = (mesh r).node_part ((mesh r).edge_nodes j 1)) := by
  intro r hr j hj
  have hn : 0 < nparts := by omega
  have hfirst := build_edges_partition_first_ok G nparts mesh 0 _ (hrun 0 hn)
  have h0 := hrun 0 hn
  rw [build_edges_partition_eq G nparts mesh hfirst] at h0
  have hflags : ∀ q < nparts,
      (fun q => sanity_check (mesh q)
        (edges_partition_second_pass nparts (first_pass_locals G mesh) q)) q = 0 ∨
      (fun q => sanity_check (mesh q)
        (edges_partition_second_pass nparts (first_pass_locals G mesh) q)) q = 1 :=
    fun q _ => sanity_flag_cases mesh _ q
  obtain ⟨_, _, hzero⟩ := all_reduce_max_flags nparts hn _ hflags 0
  have hred : all_reduce_max nparts (fun q => sanity_check (mesh q)
      (edges_partition_second_pass nparts (first_pass_locals G mesh) q)) 0 = 0 := by
    by_contra hne
    rw [if_pos ⟨hne, rfl⟩] at h0
    simp at h0
  have hloc := hzero.mp hred r hr
  have hr2 := hrun r hr
  rw [build_edges_partition_eq G nparts mesh hfirst] at hr2
  have hep : edges_partition_second_pass nparts (first_pass_locals G mesh) r = edge_part r := by
    split_ifs at hr2
    exact Except.ok.inj hr2
  simp only [hep] at hloc
  have hsane : edge_insane (mesh r) (edge_part r) j = false := by
    rcases sanity_check_cases (mesh r) (edge_part r) with ⟨h1, _⟩ | ⟨_, h2⟩
    · rw [hloc] at h1; simp at h1
    · exact h2 j hj
  exact edge_sane_covered (mesh r) (edge_part r) j hsane

theorem ownership_coverage_witness :
    partition_example_result 0 0 = 1 ∧ partition_example_result 1 0 = 1 ∧
    ∀ r < 2, ∀ j < (partition_example r).nb_edges,
      (partition_example_result r j
          = (partition_example r).node_part ((partition_example r).edge_nodes j 0) ∨
        partition_example_result r j
          = (partition_example r).node_part ((partition_example r).edge_nodes j 1) ∨
        ((partition_example r).edge_to_elem j 0 ≠ (partition_example r).missing_value ∧
          partition_example_result r j
            = (partition_example r).elem_part ((partition_example r).edge_to_elem j 0)) ∨
        ((partition_example r).edge_to_elem j 1 ≠ (partition_example r).missing_value ∧
          partition_example_result r j
            = (partition_example r).elem_part ((partition_example r).edge_to_elem j 1))) ∧
      ((partition_example r).has_pole_edges = true → (partition_example r).is_pole_edge j ≠ 0 →
        partition_example_result r j
          = (partition_example r).node_part ((partition_example r).edge_nodes j 0) ∧
        partition_example_result r j
          = (partition_example r).node_part ((partition_example r).edge_nodes j 1)) :=
  ⟨by decide, by decide,
    ownership_coverage geometry_example 2 partition_example partition_example_result
      (by intro r hr; interval_cases r <;> rfl)⟩

/-- Claim C13.  Verifier pole rule: in the sanity check of `build_edges_partition`, the
iteration at an edge flagged in `is_pole_edge` whose owner differs from the partition of
one of its two endpoint nodes sets the flag `insane`, so the local flag of the rank is 1;
the iteration at a flagged edge whose owner equals both endpoint partitions leaves the
flag as it was, whatever the adjacent elements of the edge are. -/
theorem verifier_pole_rule {D : Type} (mesh : Mesh D) (edge_part : Nat → Int) (jedge : Nat)
    (hfield : mesh.has_pole_edges = true) (hflag : mesh.is_pole_edge jedge ≠ 0) :
    ((edge_part jedge ≠ mesh.node_part (mesh.edge_nodes jedge 0) ∨
        edge_part jedge ≠ mesh.node_part (mesh.edge_nodes jedge 1)) →
      (∀ insane, sanity_step mesh edge_part insane jedge = 1) ∧
      (jedge < mesh.nb_edges → sanity_check mesh edge_part = 1)) ∧
    ((edge_part jedge = mesh.node_part (mesh.edge_nodes jedge 0) ∧
        edge_part jedge = mesh.node_part (mesh.edge_nodes jedge 1)) →
      ∀ insane, sanity_step mesh edge_part insane jedge = insane) := by
  refine ⟨?_, ?_⟩
  · intro hne
    have hins : edge_insane mesh edge_part jedge = true := by
      unfold edge_insane
      simp only [decide_eq_true_eq]
      exact Or.inl ⟨hfield, hflag, hne⟩
    refine ⟨fun insane => by rw [sanity_step_eq, if_pos hins], fun hj => ?_⟩
    exact sanity_check_of_insane mesh edge_part jedge hj hins
  · rintro ⟨h1, h2⟩ insane
    have hins : ¬ edge_insane mesh edge_part jedge = true := by
      unfold edge_insane
      simp only [decide_eq_true_eq]
      rintro (⟨_, _, h⟩ | ⟨h, _⟩ | ⟨_, h⟩ | ⟨_, _, h⟩)
      · rcases h with h | h
        · exact h h1
        · exact h h2
      · exact h ⟨hfield, hflag⟩
      · exact h (Or.inl h1)
      · exact h (Or.inl h1)
    rw [sanity_step_eq, if_neg hins]

theorem verifier_pole_rule_witness :
    mesh_with_pole.edge_to_elem 2 0 = mesh_with_pole.missing_value ∧
    mesh_with_pole.edge_to_elem 2 1 = mesh_with_pole.missing_value ∧
    sanity_step mesh_with_pole (fun _ => 1) 0 2 = 0 ∧
    sanity_check mesh_with_pole (fun _ => 0) = 1 ∧
    (∀ insane, sanity_step mesh_with_pole (fun _ => 0) insane 2 = 1) :=
  ⟨by decide, by decide,
    (verifier_pole_rule mesh_with_pole (fun _ => 1) 2 (by decide) (by decide)).2
      ⟨by decide, by decide⟩ 0,
    ((verifier_pole_rule mesh_with_pole (fun _ => 0) 2 (by decide) (by decide)).1
      (Or.inl (by decide))).2 (by decide),
    ((verifier_pole_rule mesh_with_pole (fun _ => 0) 2 (by decide) (by decide)).1
      (Or.inl (by decide))).1⟩

/-- Claim C14, as the code has it.  Verifier boundary rule: in the sanity check of
`build_edges_partition`, the iteration at an edge that is not a pole edge and has exactly
one adjacent element leaves the flag `insane` as it was when the owner of the edge equals
the partition of one of its endpoint nodes, and sets it otherwise, so that the local
flag of the rank is 1; the partition of the adjacent element is not looked at. -/
theorem verifier_boundary_rule {D : Type} (mesh : Mesh D) (edge_part : Nat → Int)
    (jedge : Nat)
    (hnonpole : ¬ (mesh.has_pole_edges = true ∧ mesh.is_pole_edge jedge ≠ 0))
    (hone : (mesh.edge_to_elem jedge 0 = mesh.missing_value ∧
        mesh.edge_to_elem jedge 1 ≠ mesh.missing_value) ∨
      (mesh.edge_to_elem jedge 0 ≠ mesh.missing_value ∧
        mesh.edge_to_elem jedge 1 = mesh.missing_value)) :
    ((edge_part jedge = mesh.node_part (mesh.edge_nodes jedge 0) ∨
        edge_part jedge = mesh.node_part (mesh.edge_nodes jedge 1)) →
      ∀ insane, sanity_step mesh edge_part insane jedge = insane) ∧
    (¬ (edge_part jedge = mesh.node_part (mesh.edge_nodes jedge 0) ∨
        edge_part jedge = mesh.node_part (mesh.edge_nodes jedge 1)) →
      (∀ insane, sanity_step mesh edge_part insane jedge = 1) ∧
      (jedge < mesh.nb_edges → sanity_check mesh edge_part = 1)) := by
  have hb : mesh.edge_to_elem jedge 0 = mesh.missing_value ∨
      mesh.edge_to_elem jedge 1 = mesh.missing_value := by
    rcases hone with h | h
    · exact Or.inl h.1
    · exact Or.inr h.2
  have hz : ¬ (mesh.edge_to_elem jedge 0 = mesh.missing_value ∧
      mesh.edge_to_elem jedge 1 = mesh.missing_value) := by
    rintro ⟨h1, h2⟩
    rcases hone with h | h
    · exact h.2 h2
    · exact h.1 h1
  refine ⟨?_, ?_⟩
  · intro hn insane
    have hins : ¬ edge_insane mesh edge_part jedge = true := by
      unfold edge_insane
      simp only [decide_eq_true_eq]
      rintro (⟨h1, h2, _⟩ | ⟨_, h⟩ | ⟨_, h⟩ | ⟨h, _⟩)
      · exact hnonpole ⟨h1, h2⟩
      · exact hz h
      · exact h hn
      · exact h hb
    rw [sanity_step_eq, if_neg hins]
  · intro hn
    have hins : edge_insane mesh edge_part jedge = true := by
      unfold edge_insane
      simp only [decide_eq_true_eq]
      exact Or.inr (Or.inr (Or.inl ⟨hb, hn⟩))
    exact ⟨fun insane => by rw [sanity_step_eq, if_pos hins],
      fun hj => sanity_check_of_insane mesh edge_part jedge hj hins⟩

theorem verifier_boundary_rule_witness :
    sanity_step mesh_example mesh_example_first_pass.edge_part 0 4 = 0 ∧
    (∀ insane, sanity_step mesh_element_owner (fun _ => 0) insane 0 = 1) :=
  ⟨(verifier_boundary_rule mesh_example mesh_example_first_pass.edge_part 4 (by decide)
      (Or.inr ⟨by decide, by decide⟩)).1 (Or.inl (by decide)) 0,
    ((verifier_boundary_rule mesh_element_owner (fun _ => 0) 0 (by decide)
      (Or.inr ⟨by decide, by decide⟩)).2 (by decide)).1⟩

/-- Claim C14 as stated fails: the only edge of `mesh_element_owner` is not a pole edge,
has cell 0 as its only adjacent element and gets from the first pass the partition 0 of
that element; its endpoints belong to ranks 1 and 2, the sanity check sets `insane`, and
`build_edges_partition` on one rank raises. -/
theorem verifier_boundary_rule_counterexample :
    mesh_element_owner.has_pole_edges = false ∧
    mesh_element_owner.edge_to_elem 0 0 ≠ mesh_element_owner.missing_value ∧
    mesh_element_owner.edge_to_elem 0 1 = mesh_element_owner.missing_value ∧
    (first_pass_locals geometry_example (fun _ => mesh_element_owner) 0).edge_part 0
      = mesh_element_owner.elem_part (mesh_element_owner.edge_to_elem 0 0) ∧
    sanity_check mesh_element_owner
      (first_pass_locals geometry_example (fun _ => mesh_element_owner) 0).edge_part = 1 ∧
    build_edges_partition geometry_example 1 (fun _ => mesh_element_owner) 0
      = .error Error.Exception ∧
    ¬ (∀ insane, sanity_step mesh_element_owner
        (first_pass_locals geometry_example (fun _ => mesh_element_owner) 0).edge_part
        insane 0 = insane) := by
  refine ⟨by decide, by decide, by decide, by decide, by decide, rfl, ?_⟩
  intro hall
  have h0 := hall 0
  revert h0
  decide

/-- Claim C15, as the code has it.  Verifier soundness: when the first pass of
`build_edges_partition` completes on every rank and the mesh of some rank contains an
edge with zero adjacent elements that is not flagged as a pole edge (or there is no
`is_pole_edge` field), rank 0 raises the exception `Sanity check failed` and every other
rank returns normally with the `edge_part` it has after the second pass. -/
theorem verifier_soundness {D : Type} (G : Geometry D) (nparts : Nat) (mesh : Nat → Mesh D)
    (hfirst : ∀ r < nparts, ∃ s, edges_partition_first_pass G (mesh r) = .ok s)
    (R : Nat) (hR : R < nparts) (j : Nat) (hj : j < (mesh R).nb_edges)
    (h1 : (mesh R).edge_to_elem j 0 = (mesh R).missing_value)
    (h2 : (mesh R).edge_to_elem j 1 = (mesh R).missing_value)
    (hnonpole : ¬ ((mesh R).has_pole_edges = true ∧ (mesh R).is_pole_edge j ≠ 0)) :
    build_edges_partition G nparts mesh 0 = .error Error.Exception ∧
    ∀ r < nparts, r ≠ 0 →
      build_edges_partition G nparts mesh r
        = .ok (edges_partition_second_pass nparts (first_pass_locals G mesh) r) := by
  have hn : 0 < nparts := by omega
  have hins : edge_insane (mesh R)
      (edges_partition_second_pass nparts (first_pass_locals G mesh) R) j = true := by
    unfold edge_insane
    simp only [decide_eq_true_eq]
    exact Or.inr (Or.inl ⟨hnonpole, h1, h2⟩)
  have hloc := sanity_check_of_insane (mesh R) _ j hj hins
  have hflags : ∀ q < nparts,
      (fun q => sanity_check (mesh q)
        (edges_partition_second_pass nparts (first_pass_locals G mesh) q)) q = 0 ∨
      (fun q => sanity_check (mesh q)
        (edges_partition_second_pass nparts (first_pass_locals G mesh) q)) q = 1 :=
    fun q _ => sanity_flag_cases mesh _ q
  obtain ⟨_, hone, _⟩ := all_reduce_max_flags nparts hn _ hflags 0
  have hred := hone.mpr ⟨R, hR, hloc⟩
  refine ⟨?_, ?_⟩
  · rw [build_edges_partition_eq G nparts mesh hfirst, if_pos ⟨by rw [hred]; decide, rfl⟩]
  · intro r _ hr0
    rw [build_edges_partition_eq G nparts mesh hfirst, if_neg (fun hc => hr0 hc.2)]

theorem verifier_soundness_witness :
    build_edges_partition geometry_example 2 (fun _ => mesh_example) 0
      = .error Error.Exception ∧
    ∀ r < 2, r ≠ 0 →
      build_edges_partition geometry_example 2 (fun _ => mesh_example) r
        = .ok (edges_partition_second_pass 2
            (first_pass_locals geometry_example (fun _ => mesh_example)) r) :=
  verifier_soundness geometry_example 2 (fun _ => mesh_example)
    (by intro r hr; exact ⟨_, rfl⟩) 1 (by decide) 2 (by decide) (by decide) (by decide)
    (by decide)

/-- Claim C15 as stated fails: with `mesh_example` on each of two ranks, edge 2 has zero
adjacent elements, there is no `is_pole_edge` field, rank 0 raises and rank 1 returns
normally; so the fatal error is not raised on every rank. -/
theorem verifier_soundness_counterexample :
    mesh_example.edge_to_elem 2 0 = mesh_example.missing_value ∧
    mesh_example.edge_to_elem 2 1 = mesh_example.missing_value ∧
    mesh_example.has_pole_edges = false ∧
    build_edges_partition geometry_example 2 (fun _ => mesh_example) 0
      = .error Error.Exception ∧
    (build_edges_partition geometry_example 2 (fun _ => mesh_example) 1).map
      (fun f => (f 0, f 1, f 2, f 3, f 4)) = .ok (0, 0, 1, 1, 1) ∧
    ¬ (∀ r < 2, ∃ e,
        build_edges_partition geometry_example 2 (fun _ => mesh_example) r = .error e) := by
  refine ⟨by decide, by decide, by decide, rfl, rfl, ?_⟩
  intro hall
  obtain ⟨e, he⟩ := hall 1 (by decide)
  have hok : build_edges_partition geometry_example 2 (fun _ => mesh_example) 1
      = .ok (edges_partition_second_pass 2
          (first_pass_locals geometry_example (fun _ => mesh_example)) 1) := rfl
  rw [hok] at he
  exact Except.noConfusion he

/-- Claim C16.  Collective sanity decision: when the first pass of `build_edges_partition`
completes on every rank, the value of `insane` after the max-reduction is the same on
every rank, it is 0 or 1, and it is 1 exactly when the local flag of at least one rank
is 1; a rank raises the exception `Sanity check failed` exactly when that value is
nonzero and the rank is 0, it raises nothing else, and every other rank returns the
`edge_part` it has after the second pass. -/
theorem collective_sanity_decision {D : Type} (G : Geometry D) (nparts : Nat)
    (mesh : Nat → Mesh D) (hn : 0 < nparts)
    (hfirst : ∀ r < nparts, ∃ s, edges_partition_first_pass G (mesh r) = .ok s) :
    (∀ r q, all_reduce_max nparts (fun q => sanity_check (mesh q)
          (edges_partition_second_pass nparts (first_pass_locals G mesh) q)) r
        = all_reduce_max nparts (fun q => sanity_check (mesh q)
          (edges_partition_second_pass nparts (first_pass_locals G mesh) q)) q) ∧
    (∀ r, (all_reduce_max nparts (fun q => sanity_check (mesh q)
          (edges_partition_second_pass nparts (first_pass_locals G mesh) q)) r = 0 ∨
        all_reduce_max nparts (fun q => sanity_check (mesh q)
          (edges_partition_second_pass nparts (first_pass_locals G mesh) q)) r = 1) ∧
      (all_reduce_max nparts (fun q => sanity_check (mesh q)
          (edges_partition_second_pass nparts (first_pass_locals G mesh) q)) r = 1 ↔
        ∃ q < nparts, sanity_check (mesh q)
          (edges_partition_second_pass nparts (first_pass_locals G mesh) q) = 1)) ∧
    (∀ r < nparts,
      (build_edges_partition G nparts mesh r = .error Error.Exception ↔
        all_reduce_max nparts (fun q => sanity_check (mesh q)
          (edges_partition_second_pass nparts (first_pass_locals G mesh) q)) r ≠ 0 ∧ r = 0) ∧
      (∀ e, build_edges_partition G nparts mesh r = .error e → e = Error.Exception) ∧
      (¬ (all_reduce_max nparts (fun q => sanity_check (mesh q)
          (edges_partition_second_pass nparts (first_pass_locals G mesh) q)) r ≠ 0 ∧ r = 0) →
        build_edges_partition G nparts mesh r
          = .ok (edges_partition_second_pass nparts (first_pass_locals G mesh) r))) := by
  have hflags : ∀ q < nparts,
      (fun q => sanity_check (mesh q)
        (edges_partition_second_pass nparts (first_pass_locals G mesh) q)) q = 0 ∨
      (fun q => sanity_check (mesh q)
        (edges_partition_second_pass nparts (first_pass_locals G mesh) q)) q = 1 :=
    fun q _ => sanity_flag_cases mesh _ q
  refine ⟨fun r q => rfl, ?_, ?_⟩
  · intro r
    obtain ⟨h1, h2, _⟩ := all_reduce_max_flags nparts hn _ hflags r
    exact ⟨h1, h2⟩
  · intro r _
    rw [build_edges_partition_eq G nparts mesh hfirst]
    by_cases hc : all_reduce_max nparts (fun q => sanity_check (mesh q)
        (edges_partition_second_pass nparts (first_pass_locals G mesh) q)) r ≠ 0 ∧ r = 0
    · rw [if_pos hc]
      refine ⟨⟨fun _ => hc, fun _ => rfl⟩, ?_, fun hne => absurd hc hne⟩
      intro e he
      exact (Except.error.inj he).symm
    · rw [if_neg hc]
      refine ⟨⟨fun h => Except.noConfusion h, fun h => absurd h hc⟩, ?_, fun _ => rfl⟩
      intro e he
      exact Except.noConfusion he

theorem collective_sanity_decision_witness :
    build_edges_partition geometry_example 2 (fun _ => mesh_example) 0
      = .error Error.Exception ∧
    sanity_check (partition_example 0)
      (edges_partition_second_pass 2 (first_pass_locals geometry_example partition_example) 0)
      = 0 ∧
    (build_edges_partition geometry_example 2 partition_example 0
        = .error Error.Exception ↔
      all_reduce_max 2 (fun q => sanity_check (partition_example q)
        (edges_partition_second_pass 2
          (first_pass_locals geometry_example partition_example) q)) 0 ≠ 0 ∧ 0 = 0) :=
  ⟨rfl, by decide,
    ((collective_sanity_decision geometry_example 2 partition_example (by decide)
      (by intro r hr; interval_cases r <;> exact ⟨_, rfl⟩)).2.2 0 (by decide)).1⟩

/-! ## `renumber_nodes_glb_idx` -/

theorem card_filter_lt_max (V : Finset Int) (m : Int) (hm : m ∈ V) (hle : ∀ u ∈ V, u ≤ m) :
    (V.filter (fun u => u < m)).card + 1 = V.card := by
  have : V.filter (fun u => u < m) = V.erase m := by
    ext u
    simp only [Finset.mem_filter, Finset.mem_erase]
    constructor
    · rintro ⟨hu, hlt⟩; exact ⟨by omega, hu⟩
    · rintro ⟨hne, hu⟩
      have := hle u hu
      exact ⟨hu, by omega⟩
  rw [this, Finset.card_erase_add_one hm]

theorem renumber_fold (L : List Node) (g0 : Nat → Int)
    (hsorted : ∀ a b, a ≤ b → b < L.length →
      (L.getD a Node.zero).g ≤ (L.getD b Node.zero).g)
    (hinj : ∀ a b, a < L.length → b < L.length →
      (L.getD a Node.zero).i.toNat = (L.getD b Node.zero).i.toNat → a = b)
    (n : Nat) (hn : n ≤ L.length) :
    ((List.range n).foldl (renumber_step L) { gid := 0, glb_id := g0 }).gid
      = (((Finset.range n).image (fun k => (L.getD k Node.zero).g)).card : Int) ∧
    ∀ k < n,
      ((List.range n).foldl (renumber_step L) { gid := 0, glb_id := g0 }).glb_id
          (L.getD k Node.zero).i.toNat
        = 1 + ((((Finset.range n).image (fun k => (L.getD k Node.zero).g)).filter
            (fun u => u < (L.getD k Node.zero).g)).card : Int) := by
  induction n with
  | zero => simp
  | succ n ih =>
    obtain ⟨ihg, ihv⟩ := ih (by omega)
    rw [List.range_succ, List.foldl_append, List.foldl_cons, List.foldl_nil]
    rw [Finset.range_succ, Finset.image_insert]
    set s := (List.range n).foldl (renumber_step L) { gid := 0, glb_id := g0 } with hs
    set V := (Finset.range n).image (fun k => (L.getD k Node.zero).g) with hV
    set x := (L.getD n Node.zero).g with hx
    have hVle : ∀ u ∈ V, u ≤ x := by
      intro u hu
      obtain ⟨k, hk, rfl⟩ := Finset.mem_image.mp hu
      exact hsorted k n (by have := Finset.mem_range.mp hk; omega) (by omega)
    -- whether the value at position `n` is new
    by_cases hnew : n = 0 ∨ x ≠ (L.getD (n - 1) Node.zero).g
    · have hlt : ∀ u ∈ V, u < x := by
        intro u hu
        obtain ⟨k, hk, rfl⟩ := Finset.mem_image.mp hu
        have hkn := Finset.mem_range.mp hk
        rcases hnew with h0 | hne
        · omega
        · have h1 := hsorted k (n - 1) (by omega) (by omega)
          have h2 := hsorted (n - 1) n (by omega) (by omega)
          have h3 : (L.getD (n - 1) Node.zero).g ≠ x := fun h => hne h.symm
          show (L.getD k Node.zero).g < x
          omega
      have hxV : x ∉ V := fun h => by have := hlt x h; omega
      have hgid : (renumber_step L s n).gid = s.gid + 1 := by
        show (if n = 0 then s.gid + 1
          else if (L.getD n Node.zero).g ≠ (L.getD (n - 1) Node.zero).g then s.gid + 1
          else s.gid) = s.gid + 1
        split_ifs with a b
        · rfl
        · rfl
        · exfalso
          rcases hnew with h | h
          · exact a h
          · exact b h
      have hglb : (renumber_step L s n).glb_id
          = assign s.glb_id (L.getD n Node.zero).i.toNat (s.gid + 1) := by
        have : renumber_step L s n
            = { gid := (renumber_step L s n).gid,
                glb_id := assign s.glb_id (L.getD n Node.zero).i.toNat
                  (renumber_step L s n).gid } := rfl
        rw [this, hgid]
      refine ⟨?_, ?_⟩
      · rw [hgid, ihg, Finset.card_insert_of_not_mem hxV]
        push_cast; ring
      · intro k hk
        rw [hglb]
        rcases Nat.lt_succ_iff_lt_or_eq.mp hk with hlt2 | heq
        · have hne : (L.getD k Node.zero).i.toNat ≠ (L.getD n Node.zero).i.toNat := by
            intro h
            have := hinj k n (by omega) (by omega) h
            omega
          simp only [assign, hne, if_false]
          rw [ihv k hlt2]
          have hkx : ¬ x < (L.getD k Node.zero).g := by
            have := hsorted k n (by omega) (by omega)
            show ¬ x < (L.getD k Node.zero).g
            omega
          rw [Finset.filter_insert, if_neg hkx]
        · subst heq
          simp only [assign, if_true]
          rw [ihg, Finset.filter_insert, if_neg (lt_irrefl x)]
          have : V.filter (fun u => u < x) = V := Finset.filter_true_of_mem hlt
          rw [this]
          ring
    · have hn0 : n ≠ 0 := fun h => hnew (Or.inl h)
      have hxe : x = (L.getD (n - 1) Node.zero).g := by
        by_contra h; exact hnew (Or.inr h)
      have hxV : x ∈ V := by
        rw [hxe]
        exact Finset.mem_image.mpr ⟨n - 1, Finset.mem_range.mpr (by omega), rfl⟩
      have hgid : (renumber_step L s n).gid = s.gid := by
        show (if n = 0 then s.gid + 1
          else if (L.getD n Node.zero).g ≠ (L.getD (n - 1) Node.zero).g then s.gid + 1
          else s.gid) = s.gid
        split_ifs with a b
        · exact absurd a hn0
        · exact absurd hxe b
        · rfl
      have hglb : (renumber_step L s n).glb_id
          = assign s.glb_id (L.getD n Node.zero).i.toNat s.gid := by
        have : renumber_step L s n
            = { gid := (renumber_step L s n).gid,
                glb_id := assign s.glb_id (L.getD n Node.zero).i.toNat
                  (renumber_step L s n).gid } := rfl
        rw [this, hgid]
      rw [Finset.insert_eq_of_mem hxV]
      refine ⟨by rw [hgid, ihg], ?_⟩
      intro k hk
      rw [hglb]
      rcases Nat.lt_succ_iff_lt_or_eq.mp hk with hlt2 | heq
      · have hne : (L.getD k Node.zero).i.toNat ≠ (L.getD n Node.zero).i.toNat := by
          intro h
          have := hinj k n (by omega) (by omega) h
          omega
        simp only [assign, hne, if_false]
        exact ihv k hlt2
      · subst heq
        simp only [assign, if_true]
        rw [ihg]
        have := card_filter_lt_max V x hxV hVle
        rw [← this]
        push_cast; ring


theorem fill_glb_idx_fold (uid g0 : Nat → Int) (n : Nat) (j : Nat) :
    (List.range n).foldl (fill_glb_idx_step uid) g0 j
      = if j < n ∧ g0 j ≤ 0 then uid j else g0 j := by
  induction n generalizing j with
  | zero => simp
  | succ n ih =>
    rw [List.range_succ, List.foldl_append, List.foldl_cons, List.foldl_nil]
    have ihj := ih j
    have ihn := ih n
    generalize (List.range n).foldl (fill_glb_idx_step uid) g0 = F at ihj ihn ⊢
    have hFn : F n = g0 n := by rw [ihn]; simp
    unfold fill_glb_idx_step
    rw [hFn]
    by_cases hjn : j = n
    · subst hjn
      by_cases hg : g0 j ≤ 0
      · rw [if_pos hg, if_pos ⟨by omega, hg⟩]
        simp [assign]
      · rw [if_neg hg, if_neg (fun h => hg h.2)]
        exact hFn
    · have hF : (if g0 n ≤ 0 then assign F n (uid n) else F) j = F j := by
        split_ifs
        · simp [assign, hjn]
        · rfl
      rw [hF, ihj]
      by_cases hc : j < n ∧ g0 j ≤ 0
      · rw [if_pos hc, if_pos ⟨by omega, hc.2⟩]
      · rw [if_neg hc, if_neg (fun h => hc ⟨by omega, h.2⟩)]

theorem fill_glb_idx_eq (nodes : Nodes) (j : Nat) (hj : j < nodes.nb_nodes) :
    fill_glb_idx nodes j = pre_value nodes j := by
  unfold fill_glb_idx pre_value
  rw [fill_glb_idx_fold]
  by_cases h : nodes.glb_idx j ≤ 0
  · rw [if_pos ⟨hj, h⟩, if_neg (by omega)]
  · rw [if_neg (fun hh => h hh.2), if_pos (by omega)]

theorem gatherv_length (loc : Nat → List Int) (n : Nat) :
    (gatherv n loc).length = recvdispls (fun q => (loc q).length) n := by
  induction n with
  | zero => rfl
  | succ n ih => simp [gatherv, recvdispls, ih]; omega

theorem recvdispls_mono (c : Nat → Nat) (r n : Nat) (h : r < n) :
    recvdispls c r + c r ≤ recvdispls c n := by
  induction n with
  | zero => omega
  | succ n ih =>
    rcases Nat.lt_succ_iff_lt_or_eq.mp h with h1 | h1
    · have := ih h1
      simp only [recvdispls]; omega
    · subst h1; simp only [recvdispls]; omega

theorem recvdispls_sum (c : Nat → Nat) (r : Nat) :
    recvdispls c r = (Finset.range r).sum c := by
  induction r with
  | zero => rfl
  | succ r ih => rw [Finset.sum_range_succ, recvdispls, ih, Nat.add_comm]

theorem gatherv_getD (loc : Nat → List Int) (n r j : Nat) (hr : r < n)
    (hj : j < (loc r).length) :
    (gatherv n loc).getD (recvdispls (fun q => (loc q).length) r + j) 0 = (loc r).getD j 0 := by
  induction n with
  | zero => omega
  | succ n ih =>
    simp only [gatherv]
    rcases Nat.lt_succ_iff_lt_or_eq.mp hr with h1 | h1
    · have hlen := gatherv_length loc n
      have hm := recvdispls_mono (fun q => (loc q).length) r n h1
      rw [List.getD_append _ _ _ _ (by rw [hlen]; simp only at hm; omega)]
      exact ih h1
    · subst h1
      have hlen := gatherv_length loc r
      rw [List.getD_append_right _ _ _ _ (by rw [hlen]; omega)]
      rw [hlen]; congr 1; omega

theorem mem_gatherv (loc : Nat → List Int) (n : Nat) (v : Int) :
    v ∈ gatherv n loc ↔ ∃ q < n, v ∈ loc q := by
  induction n with
  | zero => simp [gatherv]
  | succ n ih =>
    simp only [gatherv, List.mem_append, ih]
    constructor
    · rintro (⟨q, hq, h⟩ | h)
      · exact ⟨q, by omega, h⟩
      · exact ⟨n, by omega, h⟩
    · rintro ⟨q, hq, h⟩
      rcases Nat.lt_succ_iff_lt_or_eq.mp hq with h1 | h1
      · exact Or.inl ⟨q, h1, h⟩
      · subst h1; exact Or.inr h


theorem node_sort_of_map_i (glb : List Int) :
    (node_sort_of glb).map (fun n => n.i.toNat) = List.range glb.length := by
  unfold node_sort_of
  rw [List.map_map]
  conv_rhs => rw [← List.map_id (List.range glb.length)]
  apply List.map_congr_left
  intro a _
  simp

theorem node_sort_of_map_g (glb : List Int) :
    (node_sort_of glb).map (fun n => n.g) = glb := by
  unfold node_sort_of
  rw [List.map_map]
  apply List.ext_getElem
  · simp
  · intro n h1 h2
    simp [List.getElem?_eq_getElem h2]

theorem mem_node_sort_of (glb : List Int) (p : Nat) (hp : p < glb.length) :
    ({ g := glb.getD p 0, i := (p : Int) } : Node) ∈ node_sort_of glb := by
  unfold node_sort_of
  exact List.mem_map.mpr ⟨p, List.mem_range.mpr hp, rfl⟩

theorem renumber_gathered_eq (sort : List Node → List Node)
    (hsort : ∀ l, (sort l).Perm l ∧ (sort l).Sorted (fun a b => a.g ≤ b.g))
    (glb : List Int) (p : Nat) (hp : p < glb.length) :
    renumber_gathered sort glb p
      = 1 + (((glb.toFinset).filter (fun u => u < glb.getD p 0)).card : Int) := by
  obtain ⟨hperm, hsorted⟩ := hsort (node_sort_of glb)
  unfold renumber_gathered renumber_sorted
  generalize sort (node_sort_of glb) = L at hperm hsorted ⊢
  have hH1 : ∀ a b, a ≤ b → b < L.length →
      (L.getD a Node.zero).g ≤ (L.getD b Node.zero).g := by
    intro a b hab hb
    rw [List.getD_eq_getElem _ _ hb, List.getD_eq_getElem _ _ (by omega : a < L.length)]
    rcases Nat.lt_or_eq_of_le hab with h | h
    · exact List.pairwise_iff_getElem.mp hsorted a b (by omega) hb h
    · subst h; exact le_refl _
  have hnd : (L.map (fun n => n.i.toNat)).Nodup := by
    have := (hperm.map (fun n => n.i.toNat)).nodup_iff
    rw [this, node_sort_of_map_i]
    exact List.nodup_range _
  have hH2 : ∀ a b, a < L.length → b < L.length →
      (L.getD a Node.zero).i.toNat = (L.getD b Node.zero).i.toNat → a = b := by
    intro a b ha hb h
    rw [List.getD_eq_getElem _ _ ha, List.getD_eq_getElem _ _ hb] at h
    have ha2 : a < (L.map (fun n => n.i.toNat)).length := by simpa using ha
    have hb2 : b < (L.map (fun n => n.i.toNat)).length := by simpa using hb
    have h2 : (L.map (fun n => n.i.toNat))[a] = (L.map (fun n => n.i.toNat))[b] := by
      simpa using h
    exact (List.Nodup.getElem_inj_iff hnd).mp h2
  have hH3 : (Finset.range L.length).image (fun k => (L.getD k Node.zero).g)
      = glb.toFinset := by
    have hg : (L.map (fun n => n.g)).toFinset = glb.toFinset := by
      have h1 := (hperm.map (fun n => n.g))
      rw [node_sort_of_map_g] at h1
      exact List.toFinset_eq_of_perm _ _ h1
    rw [← hg]
    ext v
    simp only [Finset.mem_image, Finset.mem_range, List.mem_toFinset, List.mem_map]
    constructor
    · rintro ⟨k, hk, rfl⟩
      exact ⟨L[k], List.getElem_mem _, by rw [List.getD_eq_getElem _ _ hk]⟩
    · rintro ⟨n, hn, rfl⟩
      obtain ⟨k, hk, rfl⟩ := List.getElem_of_mem hn
      exact ⟨k, hk, by rw [List.getD_eq_getElem _ _ hk]⟩
  have hmem : ({ g := glb.getD p 0, i := (p : Int) } : Node) ∈ L :=
    hperm.mem_iff.mpr (mem_node_sort_of glb p hp)
  obtain ⟨k, hk, hLk⟩ := List.getElem_of_mem hmem
  have hgk : (L.getD k Node.zero).g = glb.getD p 0 := by
    rw [List.getD_eq_getElem _ _ hk, hLk]
  have hik : (L.getD k Node.zero).i.toNat = p := by
    rw [List.getD_eq_getElem _ _ hk, hLk]; simp
  have := (renumber_fold L (fun k => glb.getD k 0) hH1 hH2 L.length (le_refl _)).2 k hk
  rw [hik, hgk, hH3] at this
  exact this


theorem card_filter_lt_mono (S : Finset Int) (v w : Int) (h : v ≤ w) :
    (S.filter (fun u => u < v)).card ≤ (S.filter (fun u => u < w)).card := by
  apply Finset.card_le_card
  intro u hu
  rw [Finset.mem_filter] at hu ⊢
  exact ⟨hu.1, by omega⟩

theorem card_filter_lt_strict (S : Finset Int) (v w : Int) (hv : v ∈ S) (h : v < w) :
    (S.filter (fun u => u < v)).card < (S.filter (fun u => u < w)).card := by
  apply Finset.card_lt_card
  rw [Finset.ssubset_iff_of_subset]
  · exact ⟨v, Finset.mem_filter.mpr ⟨hv, h⟩, fun hh => by
      have := (Finset.mem_filter.mp hh).2; omega⟩
  · intro u hu
    rw [Finset.mem_filter] at hu ⊢
    exact ⟨hu.1, by omega⟩

theorem card_filter_lt_card (S : Finset Int) (v : Int) (hv : v ∈ S) :
    (S.filter (fun u => u < v)).card < S.card := by
  apply Finset.card_lt_card
  rw [Finset.ssubset_iff_of_subset (Finset.filter_subset _ _)]
  exact ⟨v, hv, fun hh => by have := (Finset.mem_filter.mp hh).2; omega⟩

theorem card_filter_lt_onto (S : Finset Int) (c : Nat) (hc : c < S.card) :
    ∃ v ∈ S, (S.filter (fun u => u < v)).card = c := by
  have hsub : S.image (fun v => (S.filter (fun u => u < v)).card) ⊆ Finset.range S.card := by
    intro n hn
    obtain ⟨v, hv, rfl⟩ := Finset.mem_image.mp hn
    exact Finset.mem_range.mpr (card_filter_lt_card S v hv)
  have hinj : Set.InjOn (fun v => (S.filter (fun u => u < v)).card) (S : Set Int) := by
    intro a ha b hb hab
    simp only at hab
    rcases lt_trichotomy a b with h | h | h
    · have := card_filter_lt_strict S a b ha h; omega
    · exact h
    · have := card_filter_lt_strict S b a hb h; omega
  have hcard : (S.image (fun v => (S.filter (fun u => u < v)).card)).card = S.card :=
    Finset.card_image_of_injOn hinj
  have heq := Finset.eq_of_subset_of_card_le hsub (by rw [hcard, Finset.card_range])
  have hmem : c ∈ S.image (fun v => (S.filter (fun u => u < v)).card) := by
    rw [heq]; exact Finset.mem_range.mpr hc
  obtain ⟨v, hv, h⟩ := Finset.mem_image.mp hmem
  exact ⟨v, hv, h⟩

theorem gathered_values (nparts : Nat) (nodes : Nat → Nodes) :
    (gatherv nparts
      (fun q => (List.range (nodes q).nb_nodes).map (fill_glb_idx (nodes q)))).toFinset
      = pre_values nparts nodes := by
  ext v
  simp only [List.mem_toFinset, mem_gatherv, pre_values, Finset.mem_biUnion, Finset.mem_range,
    Finset.mem_image, List.mem_map, List.mem_range]
  constructor
  · rintro ⟨q, hq, j, hj, rfl⟩
    exact ⟨q, hq, j, hj, (fill_glb_idx_eq (nodes q) j hj).symm⟩
  · rintro ⟨q, hq, j, hj, rfl⟩
    exact ⟨q, hq, j, hj, fill_glb_idx_eq (nodes q) j hj⟩

theorem mem_pre_values (nparts : Nat) (nodes : Nat → Nodes) (v : Int) :
    v ∈ pre_values nparts nodes
      ↔ ∃ q < nparts, ∃ j < (nodes q).nb_nodes, pre_value (nodes q) j = v := by
  simp only [pre_values, Finset.mem_biUnion, Finset.mem_range, Finset.mem_image]

theorem renumber_nodes_glb_idx_eq (sort : List Node → List Node)
    (hsort : ∀ l, (sort l).Perm l ∧ (sort l).Sorted (fun a b => a.g ≤ b.g))
    (nparts : Nat) (nodes : Nat → Nodes)
    (hflags : ∀ q < nparts, (nodes q).human_readable = false)
    (r : Nat) (hr : r < nparts) :
    ∃ out : Nodes, renumber_nodes_glb_idx sort nparts nodes r = .ok out ∧
      out.human_readable = true ∧
      (∀ j < (nodes r).nb_nodes,
        out.glb_idx j = renumber_gathered sort
          (gatherv nparts
            (fun q => (List.range (nodes q).nb_nodes).map (fill_glb_idx (nodes q))))
          ((Finset.range r).sum (fun q => (nodes q).nb_nodes) + j)) ∧
      (∀ j < (nodes r).nb_nodes,
        out.glb_idx j = reference_index nparts nodes (pre_value (nodes r) j)) := by
  have hf : ¬ (nodes r).human_readable = true := by rw [hflags r hr]; decide
  unfold renumber_nodes_glb_idx
  rw [if_neg hf, if_pos hflags]
  refine ⟨_, rfl, rfl, ?_, ?_⟩
  · intro j hj
    simp only [if_pos hj, recvdispls_sum]
  · intro j hj
    simp only [if_pos hj]
    have hlenfun : (fun q => ((List.range (nodes q).nb_nodes).map
          (fill_glb_idx (nodes q))).length) = fun q => (nodes q).nb_nodes := by
      funext q; simp
    have hget := gatherv_getD
      (fun q => (List.range (nodes q).nb_nodes).map (fill_glb_idx (nodes q))) nparts r j hr
      (by simpa using hj)
    have hL := gatherv_length
      (fun q => (List.range (nodes q).nb_nodes).map (fill_glb_idx (nodes q))) nparts
    beta_reduce at hget hL
    rw [hlenfun] at hget hL
    have hpos : recvdispls (fun q => (nodes q).nb_nodes) r + j
        < (gatherv nparts
            (fun q => (List.range (nodes q).nb_nodes).map (fill_glb_idx (nodes q)))).length := by
      rw [hL]
      have := recvdispls_mono (fun q => (nodes q).nb_nodes) r nparts hr
      simp only at this
      omega
    rw [renumber_gathered_eq sort hsort _ _ hpos, gathered_values, hget]
    have hv : ((List.range (nodes r).nb_nodes).map (fill_glb_idx (nodes r))).getD j 0
        = pre_value (nodes r) j := by
      rw [List.getD_eq_getElem _ _ (by simpa using hj)]
      simp [fill_glb_idx_eq (nodes r) j hj]
    rw [hv]
    rfl


theorem sort_nodes_sorts (l : List Node) :
    (sort_nodes l).Perm l ∧ (sort_nodes l).Sorted (fun a b => a.g ≤ b.g) := by
  haveI : IsTotal Node (fun a b => a.g ≤ b.g) := ⟨fun a b => le_total a.g b.g⟩
  haveI : IsTrans Node (fun a b => a.g ≤ b.g) := ⟨fun a b c hab hbc => le_trans hab hbc⟩
  exact ⟨List.perm_insertionSort _ l, List.sorted_insertionSort _ l⟩

/-- Claim C17.  Renumbering reference definition.  Let `sort` order the records by global
index as `std::sort` does (a permutation of its argument, sorted by `g`), and let the flag
`human_readable` be unset on every rank.  Then `renumber_nodes_glb_idx` returns on every
rank with the flag set, and the global index of node `j` of rank `r` is 1 plus the number
of distinct pre-renumbering values, over all nodes of all ranks, strictly smaller than the
pre-renumbering value of that node (its global index if positive, else its UID).  The
assigned indices lie in `1 .. K`, every number of `1 .. K` is assigned, where `K` is the
number of distinct pre-renumbering values; the numbering preserves the order of the
pre-renumbering values; and rank `r` receives the entries of the renumbered array that
start at the sum of the node counts of the ranks before `r`, in local order. -/
theorem renumbering_reference_definition (sort : List Node → List Node)
    (hsort : ∀ l, (sort l).Perm l ∧ (sort l).Sorted (fun a b => a.g ≤ b.g))
    (nparts : Nat) (nodes : Nat → Nodes)
    (hflags : ∀ q < nparts, (nodes q).human_readable = false) :
    ∃ out : Nat → Nodes,
      (∀ r < nparts, renumber_nodes_glb_idx sort nparts nodes r = .ok (out r) ∧
        (out r).human_readable = true) ∧
      (∀ r < nparts, ∀ j < (nodes r).nb_nodes,
        (out r).glb_idx j = reference_index nparts nodes (pre_value (nodes r) j)) ∧
      (∀ r < nparts, ∀ j < (nodes r).nb_nodes,
        1 ≤ (out r).glb_idx j ∧ (out r).glb_idx j ≤ ((pre_values nparts nodes).card : Int)) ∧
      (∀ c : Int, 1 ≤ c → c ≤ ((pre_values nparts nodes).card : Int) →
        ∃ r < nparts, ∃ j < (nodes r).nb_nodes, (out r).glb_idx j = c) ∧
      (∀ r < nparts, ∀ j < (nodes r).nb_nodes, ∀ q < nparts, ∀ k < (nodes q).nb_nodes,
        (pre_value (nodes r) j < pre_value (nodes q) k
          ↔ (out r).glb_idx j < (out q).glb_idx k)) ∧
      (∀ r < nparts, ∀ j < (nodes r).nb_nodes,
        (out r).glb_idx j = renumber_gathered sort
          (gatherv nparts
            (fun q => (List.range (nodes q).nb_nodes).map (fill_glb_idx (nodes q))))
          ((Finset.range r).sum (fun q => (nodes q).nb_nodes) + j)) := by
  have hout : ∀ r < nparts,
      renumber_nodes_glb_idx sort nparts nodes r
        = .ok (value_or (nodes r) (renumber_nodes_glb_idx sort nparts nodes r)) := by
    intro r hr
    obtain ⟨o, ho, _⟩ := renumber_nodes_glb_idx_eq sort hsort nparts nodes hflags r hr
    rw [ho]; rfl
  have hspec : ∀ r < nparts,
      (value_or (nodes r) (renumber_nodes_glb_idx sort nparts nodes r)).human_readable = true ∧
      (∀ j < (nodes r).nb_nodes,
        (value_or (nodes r) (renumber_nodes_glb_idx sort nparts nodes r)).glb_idx j
          = renumber_gathered sort
            (gatherv nparts
              (fun q => (List.range (nodes q).nb_nodes).map (fill_glb_idx (nodes q))))
            ((Finset.range r).sum (fun q => (nodes q).nb_nodes) + j)) ∧
      (∀ j < (nodes r).nb_nodes,
        (value_or (nodes r) (renumber_nodes_glb_idx sort nparts nodes r)).glb_idx j
          = reference_index nparts nodes (pre_value (nodes r) j)) := by
    intro r hr
    obtain ⟨o, ho, h1, h2, h3⟩ := renumber_nodes_glb_idx_eq sort hsort nparts nodes hflags r hr
    rw [ho]
    exact ⟨h1, h2, h3⟩
  have hmem : ∀ r < nparts, ∀ j < (nodes r).nb_nodes,
      pre_value (nodes r) j ∈ pre_values nparts nodes := by
    intro r hr j hj
    exact (mem_pre_values nparts nodes _).mpr ⟨r, hr, j, hj, rfl⟩
  refine ⟨fun r => value_or (nodes r) (renumber_nodes_glb_idx sort nparts nodes r),
    fun r hr => ⟨hout r hr, (hspec r hr).1⟩, fun r hr => (hspec r hr).2.2, ?_, ?_, ?_,
    fun r hr => (hspec r hr).2.1⟩
  · intro r hr j hj
    rw [(hspec r hr).2.2 j hj]
    unfold reference_index
    have := card_filter_lt_card (pre_values nparts nodes) _ (hmem r hr j hj)
    omega
  · intro c hc1 hcK
    obtain ⟨v, hv, hcard⟩ := card_filter_lt_onto (pre_values nparts nodes) (c - 1).toNat
      (by omega)
    obtain ⟨r, hr, j, hj, rfl⟩ := (mem_pre_values nparts nodes v).mp hv
    refine ⟨r, hr, j, hj, ?_⟩
    rw [(hspec r hr).2.2 j hj]
    unfold reference_index
    rw [hcard]
    omega
  · intro r hr j hj q hq k hk
    rw [(hspec r hr).2.2 j hj, (hspec q hq).2.2 k hk]
    unfold reference_index
    constructor
    · intro h
      have := card_filter_lt_strict (pre_values nparts nodes) _ _ (hmem r hr j hj) h
      omega
    · intro h
      by_contra hle
      have := card_filter_lt_mono (pre_values nparts nodes) (pre_value (nodes q) k)
        (pre_value (nodes r) j) (by omega)
      omega

theorem renumbering_reference_definition_witness :
    (∀ q < 2, (renumber_example q).human_readable = false) ∧
    [(renumber_example_result 0).glb_idx 0, (renumber_example_result 0).glb_idx 1,
      (renumber_example_result 0).glb_idx 2, (renumber_example_result 1).glb_idx 0,
      (renumber_example_result 1).glb_idx 1] = [3, 1, 2, 2, 4] ∧
    ∃ out : Nat → Nodes,
      (∀ r < 2, renumber_nodes_glb_idx sort_nodes 2 renumber_example r = .ok (out r) ∧
        (out r).human_readable = true) ∧
      (∀ r < 2, ∀ j < (renumber_example r).nb_nodes,
        (out r).glb_idx j
          = reference_index 2 renumber_example (pre_value (renumber_example r) j)) :=
  ⟨by decide, by decide,
    (renumbering_reference_definition sort_nodes sort_nodes_sorts 2 renumber_example
      (by decide)).imp (fun _ h => ⟨h.1, h.2.1⟩)⟩

/-- Claim C18 as stated fails on the code.  Renumbering collision law: on the two ranks of
`collision_example` the flag `human_readable` is unset, the node of rank 0 and the node
of rank 1 have the same UID 5 and the positive global indices 10 and 20; the guard
`glb_idx( jnode ) <= 0` of line 174 keeps these, the UID is never looked at, and
`renumber_nodes_glb_idx` returns on both ranks with the global indices 1 and 2. -/
theorem renumbering_collision_failing_input :
    (collision_example 0).uid 0 = (collision_example 1).uid 0 ∧
    (∀ q < 2, (collision_example q).human_readable = false) ∧
    ∃ out0 out1 : Nodes,
      renumber_nodes_glb_idx sort_nodes 2 collision_example 0 = .ok out0 ∧
      renumber_nodes_glb_idx sort_nodes 2 collision_example 1 = .ok out1 ∧
      out0.glb_idx 0 = 1 ∧ out1.glb_idx 0 = 2 ∧ out0.glb_idx 0 ≠ out1.glb_idx 0 :=
  ⟨rfl, by decide, _, _, rfl, rfl, by decide, by decide, by decide⟩

/-- What the renumbering does give for copies of a node.  Let `sort` order the records
by global index as `std::sort` does and let the flag `human_readable` be unset on every
rank.  Two nodes with equal pre-renumbering values have equal global indices after
`renumber_nodes_glb_idx`; so have two nodes whose UIDs are identical and whose global
indices on entry are both not positive. -/
theorem renumbering_equal_values (sort : List Node → List Node)
    (hsort : ∀ l, (sort l).Perm l ∧ (sort l).Sorted (fun a b => a.g ≤ b.g))
    (nparts : Nat) (nodes : Nat → Nodes)
    (hflags : ∀ q < nparts, (nodes q).human_readable = false)
    (r q : Nat) (hr : r < nparts) (hq : q < nparts)
    (j k : Nat) (hj : j < (nodes r).nb_nodes) (hk : k < (nodes q).nb_nodes) :
    ∃ out_r out_q : Nodes,
      renumber_nodes_glb_idx sort nparts nodes r = .ok out_r ∧
      renumber_nodes_glb_idx sort nparts nodes q = .ok out_q ∧
      (pre_value (nodes r) j = pre_value (nodes q) k → out_r.glb_idx j = out_q.glb_idx k) ∧
      ((nodes r).uid j = (nodes q).uid k → (nodes r).glb_idx j ≤ 0 →
        (nodes q).glb_idx k ≤ 0 → out_r.glb_idx j = out_q.glb_idx k) := by
  obtain ⟨o1, ho1, _, _, h1⟩ := renumber_nodes_glb_idx_eq sort hsort nparts nodes hflags r hr
  obtain ⟨o2, ho2, _, _, h2⟩ := renumber_nodes_glb_idx_eq sort hsort nparts nodes hflags q hq
  have hpre : pre_value (nodes r) j = pre_value (nodes q) k → o1.glb_idx j = o2.glb_idx k := by
    intro h
    rw [h1 j hj, h2 k hk, h]
  refine ⟨o1, o2, ho1, ho2, hpre, ?_⟩
  intro hu hgr hgq
  apply hpre
  unfold pre_value
  rw [if_neg (by omega), if_neg (by omega), hu]

theorem renumbering_equal_values_witness :
    (halo_copy_example 0).uid 1 = (halo_copy_example 1).uid 0 ∧
    ∃ out_r out_q : Nodes,
      renumber_nodes_glb_idx sort_nodes 2 halo_copy_example 0 = .ok out_r ∧
      renumber_nodes_glb_idx sort_nodes 2 halo_copy_example 1 = .ok out_q ∧
      out_r.glb_idx 1 = out_q.glb_idx 0 := by
  obtain ⟨o1, o2, h1, h2, _, h4⟩ :=
    renumbering_equal_values sort_nodes sort_nodes_sorts 2 halo_copy_example (by decide)
      0 1 (by decide) (by decide) 1 0 (by decide) (by decide)
  exact ⟨by decide, o1, o2, h1, h2, h4 (by decide) (by decide) (by decide)⟩

/-- Claim C19.  Renumbering idempotence: an invocation of `renumber_nodes_glb_idx` on a
rank whose flag `human_readable` is set returns the nodes unchanged.  Whenever a first
invocation on all ranks returns, it returns with the flag set on every rank, and a second
invocation on all ranks returns exactly the state the first one left: the same global
indices and metadata.  The first invocation returns on every rank when the flag is unset
on every rank. -/
theorem renumbering_idempotence (sort : List Node → List Node) (nparts : Nat)
    (nodes : Nat → Nodes) :
    (∀ r, (nodes r).human_readable = true →
      renumber_nodes_glb_idx sort nparts nodes r = .ok (nodes r)) ∧
    (∀ out : Nat → Nodes,
      (∀ r < nparts, renumber_nodes_glb_idx sort nparts nodes r = .ok (out r)) →
      ∀ r < nparts, (out r).human_readable = true ∧
        renumber_nodes_glb_idx sort nparts out r = .ok (out r)) ∧
    ((∀ q < nparts, (nodes q).human_readable = false) →
      ∀ r < nparts, ∃ o : Nodes, renumber_nodes_glb_idx sort nparts nodes r = .ok o ∧
        o.human_readable = true) := by
  have hset : ∀ (n : Nat → Nodes) (r : Nat), (n r).human_readable = true →
      renumber_nodes_glb_idx sort nparts n r = .ok (n r) := by
    intro n r h
    unfold renumber_nodes_glb_idx
    rw [if_pos h]
  refine ⟨hset nodes, ?_, ?_⟩
  · intro out hout r hr
    have h := hout r hr
    have hflag : (out r).human_readable = true := by
      unfold renumber_nodes_glb_idx at h
      split_ifs at h with h1 h2
      · injection h with h3
        rw [← h3]; exact h1
      · injection h with h3
        rw [← h3]
    exact ⟨hflag, hset out r hflag⟩
  · intro hflags r hr
    have hf : ¬ (nodes r).human_readable = true := by rw [hflags r hr]; decide
    unfold renumber_nodes_glb_idx
    rw [if_neg hf, if_pos hflags]
    exact ⟨_, rfl, rfl⟩

theorem renumbering_idempotence_witness :
    (∀ r < 2, renumber_nodes_glb_idx sort_nodes 2 renumber_example r
      = .ok (renumber_example_result r)) ∧
    (∀ r < 2, (renumber_example_result r).human_readable = true ∧
      renumber_nodes_glb_idx sort_nodes 2 renumber_example_result r
        = .ok (renumber_example_result r)) :=
  have h : ∀ r < 2, renumber_nodes_glb_idx sort_nodes 2 renumber_example r
      = .ok (renumber_example_result r) := by
    intro r hr
    interval_cases r <;> rfl
  ⟨h, (renumbering_idempotence sort_nodes 2 renumber_example).2.1 renumber_example_result h⟩

/-! ## Frame conditions, endpoint order and out-of-range partitions -/

theorem node_based_owner_swap {D : Type} (G : Geometry D) (m1 m2 : Mesh D) (j1 j2 : Nat)
    (hy0 : G.microdeg (m2.xy (m2.edge_nodes j2 0) YY) = G.microdeg (m1.xy (m1.edge_nodes j1 1) YY))
    (hy1 : G.microdeg (m2.xy (m2.edge_nodes j2 1) YY) = G.microdeg (m1.xy (m1.edge_nodes j1 0) YY))
    (hx0 : G.microdeg (m2.xy (m2.edge_nodes j2 0) XX) = G.microdeg (m1.xy (m1.edge_nodes j1 1) XX))
    (hx1 : G.microdeg (m2.xy (m2.edge_nodes j2 1) XX) = G.microdeg (m1.xy (m1.edge_nodes j1 0) XX))
    (hp0 : m2.node_part (m2.edge_nodes j2 0) = m1.node_part (m1.edge_nodes j1 1))
    (hp1 : m2.node_part (m2.edge_nodes j2 1) = m1.node_part (m1.edge_nodes j1 0))
    (hdiff : G.microdeg (m1.xy (m1.edge_nodes j1 0) YY) ≠ G.microdeg (m1.xy (m1.edge_nodes j1 1) YY) ∨
      G.microdeg (m1.xy (m1.edge_nodes j1 0) XX) ≠ G.microdeg (m1.xy (m1.edge_nodes j1 1) XX)) :
    node_based_owner G m2 j2 = node_based_owner G m1 j1 := by
  unfold node_based_owner
  simp only [hy0, hy1, hx0, hx1, hp0, hp1]
  split_ifs <;> first | rfl | (exfalso; omega)

/-- Claim C24.  Endpoint-order independence of the node-based owner: for an edge whose
two endpoints differ in micro-degree latitude or in micro-degree longitude, the owner
that the latitude/longitude rule of the first pass of `build_edges_partition` selects
is the same after the two endpoints are exchanged in the edge-to-node connectivity; and
two ranks that store the same edge with opposite orientation (the same micro-degree
coordinates and node partitions at the exchanged endpoints) select the same owner. -/
theorem endpoint_order_independence {D : Type} (G : Geometry D) (mesh : Mesh D) (jedge : Nat)
    (hdiff :
      G.microdeg (mesh.xy (mesh.edge_nodes jedge 0) YY)
          ≠ G.microdeg (mesh.xy (mesh.edge_nodes jedge 1) YY) ∨
      G.microdeg (mesh.xy (mesh.edge_nodes jedge 0) XX)
          ≠ G.microdeg (mesh.xy (mesh.edge_nodes jedge 1) XX)) :
    node_based_owner G (swap_endpoints mesh) jedge = node_based_owner G mesh jedge ∧
    ∀ (other : Mesh D) (kedge : Nat),
      G.microdeg (other.xy (other.edge_nodes kedge 0) YY)
          = G.microdeg (mesh.xy (mesh.edge_nodes jedge 1) YY) →
      G.microdeg (other.xy (other.edge_nodes kedge 1) YY)
          = G.microdeg (mesh.xy (mesh.edge_nodes jedge 0) YY) →
      G.microdeg (other.xy (other.edge_nodes kedge 0) XX)
          = G.microdeg (mesh.xy (mesh.edge_nodes jedge 1) XX) →
      G.microdeg (other.xy (other.edge_nodes kedge 1) XX)
          = G.microdeg (mesh.xy (mesh.edge_nodes jedge 0) XX) →
      other.node_part (other.edge_nodes kedge 0) = mesh.node_part (mesh.edge_nodes jedge 1) →
      other.node_part (other.edge_nodes kedge 1) = mesh.node_part (mesh.edge_nodes jedge 0) →
      node_based_owner G other kedge = node_based_owner G mesh jedge :=
  ⟨node_based_owner_swap G mesh (swap_endpoints mesh) jedge jedge rfl rfl rfl rfl rfl rfl hdiff,
    fun other kedge hy0 hy1 hx0 hx1 hp0 hp1 =>
      node_based_owner_swap G mesh other jedge kedge hy0 hy1 hx0 hx1 hp0 hp1 hdiff⟩

theorem endpoint_order_independence_witness :
    node_based_owner geometry_example mesh_example 0 = 0 ∧
    node_based_owner geometry_example (swap_endpoints mesh_example) 0 = 0 ∧
    node_based_owner geometry_example (swap_endpoints mesh_example) 0
      = node_based_owner geometry_example mesh_example 0 :=
  ⟨by decide, by decide,
    (endpoint_order_independence geometry_example mesh_example 0 (by decide)).1⟩


/-- Claim C30.  Global-index initialisation preserves existing indices:
`build_nodes_global_idx` leaves every global index that is strictly positive on entry as
it is and replaces every global index of a node that is zero or negative by the UID of
that node; it changes no entry beyond the nodes and no other field; and applying it
twice gives the same result as applying it once (whether or not the UIDs are positive,
so in particular whenever every UID is positive). -/
theorem global_idx_initialisation (nodes : Nodes) :
    (∀ j < nodes.nb_nodes, 0 < nodes.glb_idx j →
      (build_nodes_global_idx nodes).glb_idx j = nodes.glb_idx j) ∧
    (∀ j < nodes.nb_nodes, nodes.glb_idx j ≤ 0 →
      (build_nodes_global_idx nodes).glb_idx j = nodes.uid j) ∧
    (∀ j, nodes.nb_nodes ≤ j → (build_nodes_global_idx nodes).glb_idx j = nodes.glb_idx j) ∧
    ((build_nodes_global_idx nodes).nb_nodes = nodes.nb_nodes ∧
      (build_nodes_global_idx nodes).part = nodes.part ∧
      (build_nodes_global_idx nodes).uid = nodes.uid ∧
      (build_nodes_global_idx nodes).ridx = nodes.ridx ∧
      (build_nodes_global_idx nodes).human_readable = nodes.human_readable ∧
      (build_nodes_global_idx nodes).parallel = nodes.parallel) ∧
    build_nodes_global_idx (build_nodes_global_idx nodes) = build_nodes_global_idx nodes ∧
    ((∀ j < nodes.nb_nodes, 0 < nodes.uid j) →
      build_nodes_global_idx (build_nodes_global_idx nodes) = build_nodes_global_idx nodes ∧
      ∀ j < nodes.nb_nodes, 0 < (build_nodes_global_idx nodes).glb_idx j) := by
  have hclosed : ∀ (n : Nodes) (j : Nat),
      (build_nodes_global_idx n).glb_idx j
        = if j < n.nb_nodes ∧ n.glb_idx j ≤ 0 then n.uid j else n.glb_idx j := by
    intro n j
    show fill_glb_idx n j = _
    unfold fill_glb_idx
    exact fill_glb_idx_fold n.uid n.glb_idx n.nb_nodes j
  have hidem : build_nodes_global_idx (build_nodes_global_idx nodes)
      = build_nodes_global_idx nodes := by
    have hg : (build_nodes_global_idx (build_nodes_global_idx nodes)).glb_idx
        = (build_nodes_global_idx nodes).glb_idx := by
      funext j
      rw [hclosed (build_nodes_global_idx nodes) j]
      show (if j < nodes.nb_nodes ∧ (build_nodes_global_idx nodes).glb_idx j ≤ 0
        then nodes.uid j else (build_nodes_global_idx nodes).glb_idx j) = _
      by_cases h : j < nodes.nb_nodes ∧ (build_nodes_global_idx nodes).glb_idx j ≤ 0
      · rw [if_pos h]
        have h2 := h.2
        rw [hclosed nodes j] at h2 ⊢
        by_cases h3 : j < nodes.nb_nodes ∧ nodes.glb_idx j ≤ 0
        · rw [if_pos h3]
        · rw [if_neg h3] at h2
          exact absurd ⟨h.1, h2⟩ h3
      · rw [if_neg h]
    show ({ build_nodes_global_idx nodes with
        glb_idx := fill_glb_idx (build_nodes_global_idx nodes) } : Nodes)
      = build_nodes_global_idx nodes
    have hg2 : fill_glb_idx (build_nodes_global_idx nodes)
        = (build_nodes_global_idx nodes).glb_idx := hg
    rw [hg2]
  refine ⟨?_, ?_, ?_, ⟨rfl, rfl, rfl, rfl, rfl, rfl⟩, hidem, ?_⟩
  · intro j hj hpos
    rw [hclosed, if_neg (fun h => by omega)]
  · intro j hj hle
    rw [hclosed, if_pos ⟨hj, hle⟩]
  · intro j hj
    rw [hclosed, if_neg (fun h => by omega)]
  · intro huid
    refine ⟨hidem, ?_⟩
    intro j hj
    rw [hclosed]
    by_cases h : j < nodes.nb_nodes ∧ nodes.glb_idx j ≤ 0
    · rw [if_pos h]; exact huid j hj
    · rw [if_neg h]
      by_contra hh
      exact h ⟨hj, by omega⟩

theorem global_idx_initialisation_witness :
    (0 < (renumber_example 0).glb_idx 0 ∧
      (build_nodes_global_idx (renumber_example 0)).glb_idx 0 = 50) ∧
    ((renumber_example 0).glb_idx 1 ≤ 0 ∧
      (build_nodes_global_idx (renumber_example 0)).glb_idx 1 = 20) ∧
    build_nodes_global_idx (build_nodes_global_idx (renumber_example 0))
      = build_nodes_global_idx (renumber_example 0) :=
  ⟨⟨by decide, by decide⟩, ⟨by decide, by decide⟩,
    ((global_idx_initialisation (renumber_example 0)).2.2.2.2.2
      (by intro j hj; have h3 : j < 3 := hj; interval_cases j <;> decide)).1⟩


theorem build_edges_parallel_fields_frame {D : Type} (T : Topology) (G : Geometry D)
    (nparts : Nat) (mesh : Nat → Mesh D) (r : Nat) (out : Mesh D)
    (h : build_edges_parallel_fields T G nparts mesh r = .ok out) :
    out.node_part = (mesh r).node_part ∧ out.nodes = (mesh r).nodes := by
  unfold build_edges_parallel_fields at h
  split at h
  · exact Except.noConfusion h
  · split at h
    · exact Except.noConfusion h
    · simp only at h
      split at h
      · exact Except.noConfusion h
      · injection h with h1
        rw [← h1]
        exact ⟨rfl, rfl⟩

/-- Claim C29 as stated fails on the code.  Out-of-range node partition: on one rank, a
node whose partition is 1, the number of ranks, fails the assertion
`part( jnode ) < (int)proc.size()` of line 278; a node whose partition is -1 differs
from every rank after the conversion to `size_t`, passes the tests of lines 271 and 278,
which have no lower bound, and is then used at line 279 as the index
`proc[part( jnode )]` outside the table: no error is raised before that use. -/
theorem negative_partition_failing_input :
    (nodes_large_part.part 0 = 1 ∧
      nodes_requests 0 1 nodes_large_part = .error Error.AssertionFailed) ∧
    (nodes_negative_part.part 0 = -1 ∧
      size_t (nodes_negative_part.part 0) = 2 ^ 64 - 1 ∧
      nodes_requests 0 1 nodes_negative_part = .error Error.OutOfBounds ∧
      build_nodes_remote_idx 1 (fun _ => nodes_negative_part) = .error Error.OutOfBounds) :=
  ⟨⟨rfl, rfl⟩, ⟨rfl, by decide, rfl, rfl⟩⟩

/-! ## Second pass of `build_edges_partition`: who sends to whom, who wins -/

theorem first_pass_key {D : Type} (G : Geometry D) (mesh : Nat → Mesh D) (A : Nat)
    (hfirst : ∃ s, edges_partition_first_pass G (mesh A) = .ok s) (g e : Int)
    (he : map_find (first_pass_locals G mesh A).global_to_local g = some e) :
    ∃ j : Nat, e = (j : Int) ∧ j < (mesh A).nb_edges ∧ (mesh A).edge_glb_idx j = g := by
  have hokA := first_pass_locals_ok G mesh A hfirst
  obtain ⟨hg2l, _⟩ := first_pass_tables G (mesh A) (mesh A).nb_edges _ hokA
  rw [hg2l] at he
  obtain ⟨j, hj, hej, hjg⟩ := map_find_map (fun j => (mesh A).edge_glb_idx j) _ _ _ he
  exact ⟨j, hej, by simpa using hj, hjg⟩

theorem first_pass_present {D : Type} (G : Geometry D) (mesh : Nat → Mesh D) (A : Nat)
    (hfirst : ∃ s, edges_partition_first_pass G (mesh A) = .ok s) (g : Int)
    (hg : g ∈ (first_pass_locals G mesh A).bdry_edges) :
    ∃ e, map_find (first_pass_locals G mesh A).global_to_local g = some e := by
  have hokA := first_pass_locals_ok G mesh A hfirst
  obtain ⟨hg2l, hbdry⟩ := first_pass_tables G (mesh A) (mesh A).nb_edges _ hokA
  obtain ⟨j, hj, hjg⟩ := hbdry g hg
  have hne : map_find (first_pass_locals G mesh A).global_to_local g ≠ none := by
    rw [hg2l, ← hjg]
    exact map_find_map_present (fun j => (mesh A).edge_glb_idx j) _ j (by simpa using hj)
  exact Option.ne_none_iff_exists'.mp hne

theorem answered_self (s : EdgesPartition) (bdry_edges : List Int) :
    answered s bdry_edges bdry_edges = [] := by
  apply List.eq_nil_iff_forall_not_mem.mpr
  intro a ha
  obtain ⟨h1, h2, _⟩ := (mem_answered _ _ _ _).mp ha
  exact h2 h1

theorem apply_corrections_none (nparts : Nat) (g2l : List (Int × Int)) (ep : Nat → Int)
    (recv_gidx recv_part : Nat → List Int)
    (h : ∀ p < nparts, entries (recv_gidx p) (recv_part p) = []) :
    apply_corrections nparts g2l ep recv_gidx recv_part = ep := by
  funext j
  rcases apply_corrections_cases nparts g2l ep recv_gidx recv_part j (ep j)
      (fun p hp a ha _ => by rw [h p hp] at ha; simp at ha) with ⟨h1, _⟩ | ⟨h1, _⟩
  · exact h1
  · exact h1

/-- Claim C27.  No self-correction in the second pass of `build_edges_partition`: the
buffers `send_gidx` and `send_part` that a rank fills for itself are empty; when the
first pass has completed on a rank, every global index that the rank receives in the
second pass is a key of its own map `global_to_local`; and on a single rank the second
pass leaves every `edge_part` equal to its first-pass value, which is then what
`build_edges_partition` returns if it returns. -/
theorem no_self_correction {D : Type} (G : Geometry D) (nparts : Nat) (mesh : Nat → Mesh D)
    (first : Nat → EdgesPartition) :
    (∀ r < nparts,
      (corrections nparts (first r) (sort_gidx (first r).bdry_edges)
        (fun q => sort_gidx (first q).bdry_edges)).send_gidx r = [] ∧
      (corrections nparts (first r) (sort_gidx (first r).bdry_edges)
        (fun q => sort_gidx (first q).bdry_edges)).send_part r = []) ∧
    (∀ r < nparts, (∃ s, edges_partition_first_pass G (mesh r) = .ok s) →
      ∀ p < nparts,
        ∀ g ∈ (corrections nparts (first_pass_locals G mesh p)
            (sort_gidx (first_pass_locals G mesh p).bdry_edges)
            (fun q => sort_gidx (first_pass_locals G mesh q).bdry_edges)).send_gidx r,
          ∃ e : Nat, e < (mesh r).nb_edges ∧
            map_find (first_pass_locals G mesh r).global_to_local g = some (e : Int)) ∧
    (∀ e, edges_partition_second_pass 1 first 0 e = (first 0).edge_part e) ∧
    (∀ edge_part, build_edges_partition G 1 mesh 0 = .ok edge_part →
      ∀ e, edge_part e = (first_pass_locals G mesh 0).edge_part e) := by
  have hsingle : ∀ f : Nat → EdgesPartition,
      edges_partition_second_pass 1 f 0 = (f 0).edge_part := by
    intro f
    obtain ⟨recv_gidx, recv_part, hsp, hent⟩ := second_pass_eq 1 f 0 (by decide)
    rw [hsp]
    apply apply_corrections_none
    intro p hp
    have hp0 : p = 0 := by omega
    subst hp0
    rw [hent 0 hp, answered_self]
  refine ⟨?_, ?_, ?_, ?_⟩
  · intro r hr
    obtain ⟨h1, h2⟩ := corrections_closed nparts (first r) (sort_gidx (first r).bdry_edges)
      (fun q => sort_gidx (first q).bdry_edges)
    rw [h1, h2]
    simp only [hr, if_true, answered_self, List.map_nil, and_self]
  · intro r hr hfirst p hp g hg
    obtain ⟨h1, _⟩ := corrections_closed nparts (first_pass_locals G mesh p)
      (sort_gidx (first_pass_locals G mesh p).bdry_edges)
      (fun q => sort_gidx (first_pass_locals G mesh q).bdry_edges)
    rw [h1] at hg
    simp only [hr, if_true] at hg
    obtain ⟨a, ha, rfl⟩ := List.mem_map.mp hg
    obtain ⟨ha1, _, _⟩ := (mem_answered _ _ _ _).mp ha
    obtain ⟨e, he⟩ := first_pass_present G mesh r hfirst a.1 ((mem_sort_gidx _ _).mp ha1)
    obtain ⟨j, hj, hlt, _⟩ := first_pass_key G mesh r hfirst a.1 e he
    subst hj
    exact ⟨j, hlt, he⟩
  · intro e
    rw [hsingle first]
  · intro edge_part h e
    have hfirst := build_edges_partition_first_ok G 1 mesh 0 _ h
    rw [build_edges_partition_eq G 1 mesh hfirst] at h
    split_ifs at h
    injection h with h1
    rw [← h1, hsingle]


theorem no_self_correction_witness :
    build_edges_partition geometry_example 1 (fun _ => partition_example 0) 0
      = .ok (first_pass_locals geometry_example (fun _ => partition_example 0) 0).edge_part ∧
    (first_pass_locals geometry_example (fun _ => partition_example 0) 0).bdry_edges = [7] ∧
    ∀ e, edges_partition_second_pass 1
        (first_pass_locals geometry_example (fun _ => partition_example 0)) 0 e
      = (first_pass_locals geometry_example (fun _ => partition_example 0) 0).edge_part e :=
  ⟨rfl, by decide,
    (no_self_correction geometry_example 1 (fun _ => partition_example 0)
      (first_pass_locals geometry_example (fun _ => partition_example 0))).2.2.1⟩

theorem apply_corrections_last (nparts : Nat) (g2l : List (Int × Int)) (ep : Nat → Int)
    (recv_gidx recv_part : Nat → List Int) (j : Nat) (v : Int) (B : Nat) (hB : B < nparts)
    (hv : ∀ a ∈ entries (recv_gidx B) (recv_part B),
      ((map_find g2l a.1).getD 0).toNat = j → a.2 = v)
    (hex : ∃ a ∈ entries (recv_gidx B) (recv_part B), ((map_find g2l a.1).getD 0).toNat = j)
    (hlater : ∀ q, B < q → q < nparts → ∀ a ∈ entries (recv_gidx q) (recv_part q),
      ((map_find g2l a.1).getD 0).toNat ≠ j) :
    apply_corrections nparts g2l ep recv_gidx recv_part j = v := by
  unfold apply_corrections
  induction nparts with
  | zero => omega
  | succ n ih =>
    rw [List.range_succ, List.foldl_append, List.foldl_cons, List.foldl_nil]
    generalize (List.range n).foldl
      (fun ep p => (entries (recv_gidx p) (recv_part p)).foldl
        (fun ep a => assign ep ((map_find g2l a.1).getD 0).toNat a.2) ep) ep = before at ih ⊢
    rcases Nat.lt_succ_iff_lt_or_eq.mp hB with hlt | heq
    · have hnone := hlater n hlt (Nat.lt_succ_self n)
      rcases assign_foldl_cases (fun a : Int × Int => ((map_find g2l a.1).getD 0).toNat)
          (fun a => a.2) (entries (recv_gidx n) (recv_part n)) before j (before j)
          (fun a ha hidx => absurd hidx (hnone a ha)) with ⟨h1, _⟩ | ⟨h1, _⟩
      · rw [h1]
        exact ih hlt (fun q hq hqn => hlater q hq (Nat.lt_succ_of_lt hqn))
      · rw [h1]
        exact ih hlt (fun q hq hqn => hlater q hq (Nat.lt_succ_of_lt hqn))
    · subst heq
      rcases assign_foldl_cases (fun a : Int × Int => ((map_find g2l a.1).getD 0).toNat)
          (fun a => a.2) (entries (recv_gidx B) (recv_part B)) before j v hv
          with ⟨h1, _⟩ | ⟨_, h2⟩
      · exact h1
      · obtain ⟨a, ha, hidx⟩ := hex
        exact absurd hidx (h2 a ha)

/-- Claim C28.  Tie-break among several answering ranks: when the first pass of
`build_edges_partition` completes on every rank, rank `A` has the global index `g` in its
boundary-edge list, rank `B` answers for `g` (it holds an edge with global index `g` and
does not have `g` in its own boundary-edge list) and no rank with a higher number than
`B` answers for `g`, then after the second pass `edge_part` on rank `A` of its edge with
global index `g` is the value sent by `B`, the `edge_part` that `B` computed in the first
pass for its edge `g`, whatever the ranks below `B` answered. -/
theorem tie_break_highest_rank {D : Type} (G : Geometry D) (nparts : Nat)
    (mesh : Nat → Mesh D)
    (hfirst : ∀ r < nparts, ∃ s, edges_partition_first_pass G (mesh r) = .ok s)
    (A B : Nat) (hA : A < nparts) (hB : B < nparts) (g : Int)
    (hgA : g ∈ (first_pass_locals G mesh A).bdry_edges)
    (eB : Int) (hgB : map_find (first_pass_locals G mesh B).global_to_local g = some eB)
    (hnotB : g ∉ (first_pass_locals G mesh B).bdry_edges)
    (hhigher : ∀ C, B < C → C < nparts →
      map_find (first_pass_locals G mesh C).global_to_local g = none ∨
      g ∈ (first_pass_locals G mesh C).bdry_edges) :
    ∃ eA : Nat, map_find (first_pass_locals G mesh A).global_to_local g = some (eA : Int) ∧
      eA < (mesh A).nb_edges ∧ (mesh A).edge_glb_idx eA = g ∧
      (g, (first_pass_locals G mesh B).edge_part eB.toNat)
        ∈ entries
            ((corrections nparts (first_pass_locals G mesh B)
              (sort_gidx (first_pass_locals G mesh B).bdry_edges)
              (fun q => sort_gidx (first_pass_locals G mesh q).bdry_edges)).send_gidx A)
            ((corrections nparts (first_pass_locals G mesh B)
              (sort_gidx (first_pass_locals G mesh B).bdry_edges)
              (fun q => sort_gidx (first_pass_locals G mesh q).bdry_edges)).send_part A) ∧
      edges_partition_second_pass nparts (first_pass_locals G mesh) A eA
        = (first_pass_locals G mesh B).edge_part eB.toNat := by
  obtain ⟨recv_gidx, recv_part, hsp, hent⟩ :=
    second_pass_eq nparts (first_pass_locals G mesh) A hA
  obtain ⟨e, he⟩ := first_pass_present G mesh A (hfirst A hA) g hgA
  obtain ⟨eA, heA, hlt, hglb⟩ := first_pass_key G mesh A (hfirst A hA) g e he
  subst heA
  -- an answer that is written to edge `eA` of rank `A` is an answer for `g`
  have htarget : ∀ p < nparts, ∀ a ∈ entries (recv_gidx p) (recv_part p),
      ((map_find (first_pass_locals G mesh A).global_to_local a.1).getD 0).toNat = eA →
      a.1 = g := by
    intro p hp a ha hidx
    rw [hent p hp] at ha
    obtain ⟨ha1, _, _⟩ := (mem_answered _ _ _ _).mp ha
    obtain ⟨e3, he3⟩ := first_pass_present G mesh A (hfirst A hA) a.1
      ((mem_sort_gidx _ _).mp ha1)
    obtain ⟨j3, hj3, _, hglb3⟩ := first_pass_key G mesh A (hfirst A hA) a.1 e3 he3
    subst hj3
    rw [he3] at hidx
    simp only [Option.getD_some, Int.toNat_ofNat] at hidx
    subst hidx
    rw [← hglb3, hglb]
  have hsentB : (g, (first_pass_locals G mesh B).edge_part eB.toNat)
      ∈ answered (first_pass_locals G mesh B) (sort_gidx (first_pass_locals G mesh B).bdry_edges)
          (sort_gidx (first_pass_locals G mesh A).bdry_edges) :=
    (mem_answered _ _ _ _).mpr
      ⟨(mem_sort_gidx _ _).mpr hgA, fun hc => hnotB ((mem_sort_gidx _ _).mp hc), eB, hgB, rfl⟩
  refine ⟨eA, he, hlt, hglb, ?_, ?_⟩
  · obtain ⟨h1, h2⟩ := corrections_closed nparts (first_pass_locals G mesh B)
      (sort_gidx (first_pass_locals G mesh B).bdry_edges)
      (fun q => sort_gidx (first_pass_locals G mesh q).bdry_edges)
    rw [h1, h2]
    simp only [hA, if_true]
    rw [entries_map]
    exact hsentB
  · rw [hsp]
    apply apply_corrections_last nparts _ _ recv_gidx recv_part eA _ B hB
    · intro a ha hidx
      have hag := htarget B hB a ha hidx
      rw [hent B hB] at ha
      obtain ⟨_, _, e2, hf2, hv2⟩ := (mem_answered _ _ _ _).mp ha
      rw [hag, hgB] at hf2
      have := Option.some.inj hf2
      subst this
      exact hv2
    · refine ⟨(g, (first_pass_locals G mesh B).edge_part eB.toNat), ?_, by simp [he]⟩
      rw [hent B hB]
      exact hsentB
    · intro q hBq hq a ha hidx
      have hag := htarget q hq a ha hidx
      rw [hent q hq] at ha
      obtain ⟨_, ha2, e2, hf2, _⟩ := (mem_answered _ _ _ _).mp ha
      rw [hag] at hf2 ha2
      rcases hhigher q hBq hq with hnone | hmem
      · rw [hnone] at hf2; simp at hf2
      · exact ha2 ((mem_sort_gidx _ _).mpr hmem)


theorem tie_break_highest_rank_witness :
    (first_pass_locals geometry_example tie_break_example 0).edge_part 0 = 0 ∧
    (first_pass_locals geometry_example tie_break_example 1).edge_part 0 = 1 ∧
    (first_pass_locals geometry_example tie_break_example 2).edge_part 0 = 2 ∧
    edges_partition_second_pass 3 (first_pass_locals geometry_example tie_break_example) 0 0
      = 2 ∧
    ∃ eA : Nat,
      map_find (first_pass_locals geometry_example tie_break_example 0).global_to_local 7
        = some (eA : Int) ∧
      edges_partition_second_pass 3 (first_pass_locals geometry_example tie_break_example) 0 eA
        = (first_pass_locals geometry_example tie_break_example 2).edge_part (0 : Int).toNat := by
  obtain ⟨eA, h1, _, _, _, h2⟩ :=
    tie_break_highest_rank geometry_example 3 tie_break_example
      (by intro r hr; interval_cases r <;> exact ⟨_, rfl⟩)
      0 2 (by decide) (by decide) 7 (by decide) 0 (by decide) (by decide)
      (by intro C h1 h2; omega)
  exact ⟨by decide, by decide, by decide, by decide, eA, h1, h2⟩

/-! ## Request enumeration of `build_edges_remote_idx` -/

theorem periodic_needed_symm (P W : Int → Bool) (n1 n2 : Int) :
    periodic_needed P W n1 n2 = periodic_needed P W n2 n1 := by
  unfold periodic_needed
  cases P n1 <;> cases W n1 <;> cases P n2 <;> cases W n2 <;> rfl

theorem edge_needed_eq {D : Type} (T : Topology) (mesh : Mesh D) (j : Nat) :
    edge_needed T mesh j
      = periodic_needed (fun n => T.check (mesh.flags n) T.PERIODIC)
          (fun n => T.check (mesh.flags n) (T.BC ||| T.WEST))
          (mesh.edge_nodes j 0) (mesh.edge_nodes j 1) := rfl

theorem ghost_edges_nodup {D : Type} (T : Topology) (mypart : Nat) (mesh : Mesh D)
    (p n : Nat) : (ghost_edges T mypart mesh p n).Nodup :=
  (List.nodup_range n).filter _

theorem snd_requests {D : Type} (T : Topology) (G : Geometry D) (mesh : Mesh D)
    (l : List Nat) :
    (l.map (fun (j : Nat) => (edge_uid T G mesh j, (j : Int)))).map Prod.snd
      = l.map (fun (j : Nat) => (j : Int)) := by
  rw [List.map_map]
  rfl

theorem count_cast (l : List Nat) (j : Nat) :
    (l.map (fun (k : Nat) => (k : Int))).count (j : Int) = l.count j :=
  List.count_map_of_injective l _ (fun a b h => by exact_mod_cast h) j

/-- Claim C26.  Request enumeration for edges: on a rank `mypart` of `nparts` ranks whose
edge partitions lie in `[0, nparts)`, the first loop of `build_edges_remote_idx`
completes and handles every local edge in exactly one of two ways.  If the partition of
the edge equals the local rank and the edge is not periodic-needed, the pair
(UID, local index) is entered in the lookup table, `remote_index` of the edge is set
to its own index, and no request carries its index.  Otherwise the lookup table has no
entry with its index, `remote_index` is left as it was, exactly one request carries its
index in the list addressed to the rank `edge_part( jedge )`, that request is
(UID, local index), and no request carries its index in any other list.  The test for
"periodic-needed" is the stated predicate on the flags of the two endpoints, which is
symmetric in the two endpoints. -/
theorem edge_request_enumeration {D : Type} (T : Topology) (G : Geometry D)
    (mypart nparts : Nat) (mesh : Mesh D) (hn : nparts < 2 ^ 31)
    (hpart : ∀ j < mesh.nb_edges, 0 ≤ mesh.edge_part j ∧ mesh.edge_part j < (nparts : Int)) :
    (∃ s, edges_requests T G mypart nparts mesh = .ok s ∧
      ∀ j < mesh.nb_edges,
        ((mesh.edge_part j = (mypart : Int) ∧ edge_needed T mesh j = false) →
          (edge_uid T G mesh j, (j : Int)) ∈ s.lookup ∧ s.ridx j = (j : Int) ∧
          ∀ p, ∀ req ∈ records (s.send_needed p), req.2 ≠ (j : Int)) ∧
        (¬ (mesh.edge_part j = (mypart : Int) ∧ edge_needed T mesh j = false) →
          (∀ u, (u, (j : Int)) ∉ s.lookup) ∧ s.ridx j = mesh.edge_ridx j ∧
          ((records (s.send_needed (mesh.edge_part j).toNat)).map Prod.snd).count (j : Int)
            = 1 ∧
          (edge_uid T G mesh j, (j : Int))
            ∈ records (s.send_needed (mesh.edge_part j).toNat) ∧
          (∀ p, ∀ req ∈ records (s.send_needed p), req.2 = (j : Int) →
            p = (mesh.edge_part j).toNat ∧ req.1 = edge_uid T G mesh j))) ∧
    (∀ j, edge_needed T mesh j
      = periodic_needed (fun n => T.check (mesh.flags n) T.PERIODIC)
          (fun n => T.check (mesh.flags n) (T.BC ||| T.WEST))
          (mesh.edge_nodes j 0) (mesh.edge_nodes j 1)) ∧
    (∀ (P W : Int → Bool) (n1 n2 : Int),
      periodic_needed P W n1 n2 = periodic_needed P W n2 n1) := by
  refine ⟨⟨_, edges_requests_ok T G mypart nparts mesh hn hpart, ?_⟩,
    fun j => edge_needed_eq T mesh j, periodic_needed_symm⟩
  intro j hj
  have hrec : ∀ p, records ((edge_requests_after T G mypart mesh mesh.nb_edges).send_needed p)
      = (ghost_edges T mypart mesh p mesh.nb_edges).map
          (fun (k : Nat) => (edge_uid T G mesh k, (k : Int))) := by
    intro p
    simp only [edge_requests_after, records_flat]
  have hlook : (edge_requests_after T G mypart mesh mesh.nb_edges).lookup
      = (owned_edges T mypart mesh mesh.nb_edges).reverse.map
          (fun (k : Nat) => (edge_uid T G mesh k, (k : Int))) := rfl
  have hridx : (edge_requests_after T G mypart mesh mesh.nb_edges).ridx j
      = if j < mesh.nb_edges ∧ edge_in_table T mypart mesh j = true then (j : Int)
        else mesh.edge_ridx j := rfl
  constructor
  · intro hloc
    have ht : edge_in_table T mypart mesh j = true := (edge_in_table_iff _ _ _ _).mpr hloc
    refine ⟨?_, ?_, ?_⟩
    · rw [hlook]
      exact List.mem_map.mpr ⟨j, List.mem_reverse.mpr
        ((mem_owned_edges _ _ _ _ _).mpr ⟨hj, ht⟩), rfl⟩
    · rw [hridx, if_pos ⟨hj, ht⟩]
    · intro p req hreq hidx
      rw [hrec p] at hreq
      obtain ⟨k, hk, rfl⟩ := List.mem_map.mp hreq
      have hkj : k = j := by
        have h' : (k : Int) = (j : Int) := hidx
        exact_mod_cast h'
      subst hkj
      obtain ⟨_, h2, _⟩ := (mem_ghost_edges _ _ _ _ _ _).mp hk
      rw [ht] at h2
      exact Bool.noConfusion h2
  · intro hloc
    have ht : edge_in_table T mypart mesh j = false := by
      rw [Bool.eq_false_iff]
      exact fun hc => hloc ((edge_in_table_iff _ _ _ _).mp hc)
    obtain ⟨h0, h1⟩ := hpart j hj
    have hPeq : (((mesh.edge_part j).toNat : Nat) : Int) = mesh.edge_part j :=
      Int.toNat_of_nonneg h0
    have hmem : j ∈ ghost_edges T mypart mesh (mesh.edge_part j).toNat mesh.nb_edges :=
      (mem_ghost_edges _ _ _ _ _ _).mpr ⟨hj, ht, hPeq.symm⟩
    refine ⟨?_, ?_, ?_, ?_, ?_⟩
    · intro u hu
      rw [hlook] at hu
      obtain ⟨k, hk, hkeq⟩ := List.mem_map.mp hu
      have hkj : k = j := by
        have h' : (k : Int) = (j : Int) := congrArg Prod.snd hkeq
        exact_mod_cast h'
      subst hkj
      obtain ⟨_, h2⟩ := (mem_owned_edges _ _ _ _ _).mp (List.mem_reverse.mp hk)
      rw [ht] at h2
      exact Bool.noConfusion h2
    · rw [hridx, if_neg (fun h => by rw [ht] at h; exact Bool.noConfusion h.2)]
    · rw [hrec, snd_requests, count_cast]
      exact List.count_eq_one_of_mem (ghost_edges_nodup _ _ _ _ _) hmem
    · rw [hrec]
      exact List.mem_map.mpr ⟨j, hmem, rfl⟩
    · intro p req hreq hidx
      rw [hrec p] at hreq
      obtain ⟨k, hk, rfl⟩ := List.mem_map.mp hreq
      have hkj : k = j := by
        have h' : (k : Int) = (j : Int) := hidx
        exact_mod_cast h'
      subst hkj
      obtain ⟨_, _, h3⟩ := (mem_ghost_edges _ _ _ _ _ _).mp hk
      refine ⟨?_, rfl⟩
      rw [h3]; simp


theorem edge_request_enumeration_witness :
    edge_needed topology_example (edges_example 0) 2 = true ∧
    ∃ s, edges_requests topology_example geometry_example 0 2 (edges_example 0) = .ok s ∧
      s.ridx 0 = 0 ∧ s.ridx 2 = (edges_example 0).edge_ridx 2 ∧
      (edge_uid topology_example geometry_example (edges_example 0) 2, 2)
        ∈ records (s.send_needed 0) := by
  obtain ⟨s, hs, h⟩ :=
    (edge_request_enumeration topology_example geometry_example 0 2 (edges_example 0)
      (by norm_num)
      (by intro j hj; have h3 : j < 3 := hj; interval_cases j <;> decide)).1
  exact ⟨by decide, s, hs, ((h 0 (by decide)).1 ⟨by decide, by decide⟩).2.1,
    ((h 2 (by decide)).2 (by decide)).2.1, ((h 2 (by decide)).2 (by decide)).2.2.2.1⟩

theorem edge_locals_eq {D : Type} (T : Topology) (G : Geometry D) (nparts : Nat)
    (mesh : Nat → Mesh D) (hn : nparts < 2 ^ 31)
    (hpart : ∀ r < nparts, ∀ j < (mesh r).nb_edges,
      0 ≤ (mesh r).edge_part j ∧ (mesh r).edge_part j < (nparts : Int))
    (r : Nat) (hr : r < nparts) :
    edge_locals T G nparts mesh r = rank_edge_requests T G mesh r := by
  unfold edge_locals
  rw [edges_requests_ok T G r nparts (mesh r) hn (hpart r hr)]
  rfl

theorem edge_answers_to_eq {D : Type} (T : Topology) (G : Geometry D) (nparts : Nat)
    (mesh : Nat → Mesh D) (hn : nparts < 2 ^ 31)
    (hpart : ∀ r < nparts, ∀ j < (mesh r).nb_edges,
      0 ≤ (mesh r).edge_part j ∧ (mesh r).edge_part j < (nparts : Int))
    (p r : Nat) (hp : p < nparts) (hr : r < nparts) :
    edge_answers_to T G nparts mesh p r
      = records (flat (found_answers (rank_edge_requests T G mesh p).lookup
          (records ((rank_edge_requests T G mesh r).send_needed p)))) := by
  unfold edge_answers_to
  rw [edges_answers_found]
  show records (if r < nparts then _ else _) = _
  rw [if_pos hr, edge_locals_eq T G nparts mesh hn hpart p hp,
    edge_locals_eq T G nparts mesh hn hpart r hr]

/-- Claim C25.  Unresolved edge requests leave the remote index untouched: on `nparts`
ranks whose edge partitions lie in `[0, nparts)`, `build_edges_remote_idx` returns on
every rank without an exception.  For every requested edge `e` of a rank `R` whose UID is
absent from the lookup table of the rank `P = edge_part( e )`, the answers of `P` to `R`
contain no pair for `e` and `remote_index( e )` on `R` keeps the value it had on entry.
The entries written are exactly those of the locally resolved edges, which get their own
index, and of the answered requests, which get the index found by `P`; every other
entry keeps the value it had on entry. -/
theorem unresolved_requests_untouched {D : Type} (T : Topology) (G : Geometry D)
    (nparts : Nat) (mesh : Nat → Mesh D) (hn : nparts < 2 ^ 31)
    (hpart : ∀ r < nparts, ∀ j < (mesh r).nb_edges,
      0 ≤ (mesh r).edge_part j ∧ (mesh r).edge_part j < (nparts : Int)) :
    ∃ res, build_edges_remote_idx T G nparts mesh = .ok res ∧
      (∀ R < nparts, ∀ e < (mesh R).nb_edges,
        ¬ ((mesh R).edge_part e = (R : Int) ∧ edge_needed T (mesh R) e = false) →
        map_find (edge_locals T G nparts mesh ((mesh R).edge_part e).toNat).lookup
          (edge_uid T G (mesh R) e) = none →
        (∀ a ∈ edge_answers_to T G nparts mesh ((mesh R).edge_part e).toNat R,
          a.1 ≠ (e : Int)) ∧
        res.edge_ridx R e = (mesh R).edge_ridx e) ∧
      (∀ R < nparts, ∀ e : Nat,
        (e < (mesh R).nb_edges →
          ((mesh R).edge_part e = (R : Int) ∧ edge_needed T (mesh R) e = false) →
          res.edge_ridx R e = (e : Int)) ∧
        (e < (mesh R).nb_edges →
          ¬ ((mesh R).edge_part e = (R : Int) ∧ edge_needed T (mesh R) e = false) →
          ∀ k, map_find (edge_locals T G nparts mesh ((mesh R).edge_part e).toNat).lookup
              (edge_uid T G (mesh R) e) = some k →
            (↑e, k) ∈ edge_answers_to T G nparts mesh ((mesh R).edge_part e).toNat R ∧
            res.edge_ridx R e = k) ∧
        ((mesh R).nb_edges ≤ e → res.edge_ridx R e = (mesh R).edge_ridx e)) := by
  obtain ⟨res, recv_found, hres, hrecv, hridx, _⟩ :=
    build_edges_remote_idx_ok T G nparts mesh hn hpart
  refine ⟨res, hres, ?_, ?_⟩
  · intro R hR e he hreq hnone
    obtain ⟨h0, h1⟩ := hpart R hR e he
    have hP : ((mesh R).edge_part e).toNat < nparts := by omega
    have hPeq : (((mesh R).edge_part e).toNat : Int) = (mesh R).edge_part e :=
      Int.toNat_of_nonneg h0
    rw [edge_locals_eq T G nparts mesh hn hpart _ hP] at hnone
    have hnot : edge_in_table T R (mesh R) e = false := by
      rw [Bool.eq_false_iff]
      exact fun hc => hreq ((edge_in_table_iff _ _ _ _).mp hc)
    constructor
    · intro a ha hidx
      rw [edge_answers_to_eq T G nparts mesh hn hpart _ R hP hR] at ha
      obtain ⟨j, _, _, _, haj, hfound⟩ := edge_write_source T G mesh R _ a ha
      have hje : j = e := by
        have h' : (j : Int) = (e : Int) := by rw [← haj, hidx]
        exact_mod_cast h'
      subst hje
      rw [hnone] at hfound
      exact Option.noConfusion hfound
    · rw [hridx R hR]
      rw [write_back_untouched]
      · show (if e < (mesh R).nb_edges ∧ edge_in_table T R (mesh R) e = true then (e : Int)
          else (mesh R).edge_ridx e) = _
        rw [if_neg (fun h => by rw [hnot] at h; exact Bool.noConfusion h.2)]
      · intro q hq a ha hidx
        rw [hrecv R hR q hq] at ha
        obtain ⟨j, _, _, hjq, haj, hfound⟩ := edge_write_source T G mesh R q a ha
        have hje : j = e := by
          rw [haj] at hidx
          simpa using hidx
        subst hje
        have hqP : q = ((mesh R).edge_part j).toNat := by
          rw [hjq]; simp
        subst hqP
        rw [hnone] at hfound
        exact Option.noConfusion hfound
  · intro R hR e
    refine ⟨?_, ?_, ?_⟩
    · intro he hloc
      have ht : edge_in_table T R (mesh R) e = true := (edge_in_table_iff _ _ _ _).mpr hloc
      rw [hridx R hR, write_back_untouched]
      · show (if e < (mesh R).nb_edges ∧ edge_in_table T R (mesh R) e = true then (e : Int)
          else (mesh R).edge_ridx e) = _
        rw [if_pos ⟨he, ht⟩]
      · intro q hq a ha hidx
        rw [hrecv R hR q hq] at ha
        obtain ⟨j, _, hjt, _, haj, _⟩ := edge_write_source T G mesh R q a ha
        have hje : j = e := by
          rw [haj] at hidx
          simpa using hidx
        subst hje
        rw [ht] at hjt
        exact Bool.noConfusion hjt
    · intro he hreq k hk
      obtain ⟨h0, h1⟩ := hpart R hR e he
      have hP : ((mesh R).edge_part e).toNat < nparts := by omega
      have hPeq : (((mesh R).edge_part e).toNat : Int) = (mesh R).edge_part e :=
        Int.toNat_of_nonneg h0
      rw [edge_locals_eq T G nparts mesh hn hpart _ hP] at hk
      have hnot : edge_in_table T R (mesh R) e = false := by
        rw [Bool.eq_false_iff]
        exact fun hc => hreq ((edge_in_table_iff _ _ _ _).mp hc)
      have hans : ((e : Int), k) ∈ records (flat (found_answers
          (rank_edge_requests T G mesh ((mesh R).edge_part e).toNat).lookup
          (records ((rank_edge_requests T G mesh R).send_needed
            ((mesh R).edge_part e).toNat)))) := by
        rw [records_found_answers]
        refine (mem_found_answers _ _ _).mpr
          ⟨(edge_uid T G (mesh R) e, (e : Int)), ?_, k, hk, rfl⟩
        exact List.mem_map.mpr ⟨e, (mem_ghost_edges _ _ _ _ _ _).mpr ⟨he, hnot, hPeq.symm⟩, rfl⟩
      constructor
      · rw [edge_answers_to_eq T G nparts mesh hn hpart _ R hP hR]
        exact hans
      · rw [hridx R hR]
        apply write_back_value
        · intro q hq a ha hidx
          rw [hrecv R hR q hq] at ha
          obtain ⟨j, _, _, hjq, haj, hfound⟩ := edge_write_source T G mesh R q a ha
          have hje : j = e := by
            rw [haj] at hidx
            simpa using hidx
          subst hje
          have hqP : q = ((mesh R).edge_part j).toNat := by
            rw [hjq]; simp
          subst hqP
          rw [hk] at hfound
          exact (Option.some.inj hfound).symm
        · refine ⟨((mesh R).edge_part e).toNat, hP, ((e : Int), k), ?_, by simp⟩
          rw [hrecv R hR _ hP]
          exact hans
    · intro hge
      rw [hridx R hR, write_back_untouched]
      · show (if e < (mesh R).nb_edges ∧ edge_in_table T R (mesh R) e = true then (e : Int)
          else (mesh R).edge_ridx e) = _
        rw [if_neg (fun h => by omega)]
      · intro q hq a ha hidx
        rw [hrecv R hR q hq] at ha
        obtain ⟨j, hj, _, _, haj, _⟩ := edge_write_source T G mesh R q a ha
        have hje : j = e := by
          rw [haj] at hidx
          simpa using hidx
        omega


theorem unresolved_requests_untouched_witness :
    (edges_without_halo 1).edge_part 1 = 0 ∧
    map_find (edge_locals topology_example geometry_example 2 edges_without_halo 0).lookup
      (edge_uid topology_example geometry_example (edges_without_halo 1) 1) = none ∧
    ∃ res, build_edges_remote_idx topology_example geometry_example 2 edges_without_halo
        = .ok res ∧
      res.edge_ridx 1 1 = (edges_without_halo 1).edge_ridx 1 ∧
      res.edge_ridx 1 0 = 0 := by
  obtain ⟨res, hres, h1, h2⟩ :=
    unresolved_requests_untouched topology_example geometry_example 2 edges_without_halo
      (by norm_num)
      (by
        intro r hr j hj
        interval_cases r
        · have h1 : j < 1 := hj
          interval_cases j; decide
        · have h2 : j < 2 := hj
          interval_cases j <;> decide)
  exact ⟨by decide, by decide, res, hres,
    (h1 1 (by decide) 1 (by decide) (by decide) (by decide)).2,
    (h2 1 (by decide) 0).1 (by decide) ⟨by decide, by decide⟩⟩

/-! ## Pole snapping -/

theorem edge_uid_eq {D : Type} (T : Topology) (G : Geometry D) (mesh : Mesh D) (j : Nat) :
    edge_uid T G mesh j = G.unique_lonlat (edge_centroid T G mesh j) := by
  unfold edge_uid edge_centroid snapped_centroid
  simp only []

theorem edges_gidx_uids_eq {D : Type} (G : Geometry D) (mesh : Mesh D) (j : Nat)
    (hj : j < mesh.nb_edges) :
    edges_gidx_uids G mesh j = G.unique_lonlat (snapped_centroid G mesh j) := by
  have h := fill_glb_idx_fold (fun k => G.unique_lonlat (snapped_centroid G mesh k))
    (fun _ => -1) mesh.nb_edges j
  rw [if_pos ⟨hj, by decide⟩] at h
  exact h

theorem snapped_centroid_pole {D : Type} (G : Geometry D) (mesh : Mesh D) (j : Nat)
    (hpole : mesh.has_pole_edges = true) (hflag : mesh.is_pole_edge j ≠ 0) :
    snapped_centroid G mesh j
      = (G.midpoint (mesh.xy (mesh.edge_nodes j 0) XX) (mesh.xy (mesh.edge_nodes j 1) XX),
          if G.positive (G.midpoint (mesh.xy (mesh.edge_nodes j 0) YY)
              (mesh.xy (mesh.edge_nodes j 1) YY)) then G.north else G.south) := by
  unfold snapped_centroid
  simp [hpole, hflag]


/-- Claim C22, as the code has it.  Pole snapping canonicalises edge UIDs.  Let the
periodic transform leave latitudes unchanged.  For an edge flagged in `is_pole_edge`,
the latitude of the centroid that `build_edges_remote_idx` and `build_edges_global_idx`
pass to the UID function is exactly `90.` when the midpoint latitude is positive and
exactly `-90.` otherwise.  Two pole-flagged edges whose midpoints have the same longitude
and latitudes for which the test `> 0` gives the same answer get identical UIDs from
`build_edges_global_idx`, and from `build_edges_remote_idx` when they get the same
periodic treatment: both are not periodic-needed, or both are periodic-needed and their
first endpoints answer the `EAST` test alike.  For an edge that is not periodic-needed
the two routines compute the same UID. -/
theorem pole_snapping_canonicalises {D : Type} (T : Topology) (G : Geometry D)
    (htransform : ∀ (c : D × D) (d : Int), (G.transform c d).2 = c.2)
    (mesh : Mesh D) (j : Nat)
    (hpole : mesh.has_pole_edges = true) (hflag : mesh.is_pole_edge j ≠ 0) :
    ((edge_centroid T G mesh j).2
        = if G.positive (G.midpoint (mesh.xy (mesh.edge_nodes j 0) YY)
              (mesh.xy (mesh.edge_nodes j 1) YY)) then G.north else G.south) ∧
    ((snapped_centroid G mesh j).2
        = if G.positive (G.midpoint (mesh.xy (mesh.edge_nodes j 0) YY)
              (mesh.xy (mesh.edge_nodes j 1) YY)) then G.north else G.south) ∧
    (edge_uid T G mesh j = G.unique_lonlat (edge_centroid T G mesh j) ∧
      (j < mesh.nb_edges →
        edges_gidx_uids G mesh j = G.unique_lonlat (snapped_centroid G mesh j))) ∧
    (∀ (other : Mesh D) (k : Nat),
      other.has_pole_edges = true → other.is_pole_edge k ≠ 0 →
      G.midpoint (other.xy (other.edge_nodes k 0) XX) (other.xy (other.edge_nodes k 1) XX)
        = G.midpoint (mesh.xy (mesh.edge_nodes j 0) XX) (mesh.xy (mesh.edge_nodes j 1) XX) →
      G.positive (G.midpoint (other.xy (other.edge_nodes k 0) YY)
          (other.xy (other.edge_nodes k 1) YY))
        = G.positive (G.midpoint (mesh.xy (mesh.edge_nodes j 0) YY)
          (mesh.xy (mesh.edge_nodes j 1) YY)) →
      (j < mesh.nb_edges → k < other.nb_edges →
        edges_gidx_uids G other k = edges_gidx_uids G mesh j) ∧
      (edge_needed T other k = edge_needed T mesh j →
        (edge_needed T mesh j = true →
          T.check (other.flags (other.edge_nodes k 0)) T.EAST
            = T.check (mesh.flags (mesh.edge_nodes j 0)) T.EAST) →
        edge_uid T G other k = edge_uid T G mesh j)) ∧
    (∀ e, e < mesh.nb_edges → edge_needed T mesh e = false →
      edge_uid T G mesh e = edges_gidx_uids G mesh e) := by
  have hsnap := snapped_centroid_pole G mesh j hpole hflag
  refine ⟨?_, ?_, ⟨edge_uid_eq T G mesh j, edges_gidx_uids_eq G mesh j⟩, ?_, ?_⟩
  · have h2 : (snapped_centroid G mesh j).2
        = if G.positive (G.midpoint (mesh.xy (mesh.edge_nodes j 0) YY)
              (mesh.xy (mesh.edge_nodes j 1) YY)) then G.north else G.south := by
      rw [hsnap]
    unfold edge_centroid
    by_cases hn : edge_needed T mesh j = true
    · rw [if_pos hn]
      by_cases he : T.check (mesh.flags (mesh.edge_nodes j 0)) T.EAST = true
      · rw [if_pos he, htransform]; exact h2
      · rw [if_neg he, htransform]; exact h2
    · rw [if_neg hn]; exact h2
  · rw [hsnap]
  · intro other k hpole2 hflag2 hx hy
    have hsnap2 := snapped_centroid_pole G other k hpole2 hflag2
    have heq : snapped_centroid G other k = snapped_centroid G mesh j := by
      rw [hsnap, hsnap2, hx, hy]
    constructor
    · intro hj hk
      rw [edges_gidx_uids_eq G mesh j hj, edges_gidx_uids_eq G other k hk, heq]
    · intro hneeded heast
      rw [edge_uid_eq, edge_uid_eq]
      unfold edge_centroid
      rw [hneeded, heq]
      by_cases hn : edge_needed T mesh j = true
      · rw [if_pos hn, if_pos hn, heast hn]
      · rw [if_neg hn, if_neg hn]
  · intro e he hne
    rw [edge_uid_eq, edges_gidx_uids_eq G mesh e he]
    unfold edge_centroid
    rw [hne]
    rfl

theorem pole_snapping_canonicalises_witness :
    edge_centroid topology_example geometry_example mesh_two_pole_edges 0 = (-350, 90) ∧
    edge_centroid topology_example geometry_example mesh_two_pole_edges 1 = (10, 90) ∧
    (edge_centroid topology_example geometry_example mesh_two_pole_edges 0).2
      = (if geometry_example.positive (geometry_example.midpoint
            (mesh_two_pole_edges.xy (mesh_two_pole_edges.edge_nodes 0 0) YY)
            (mesh_two_pole_edges.xy (mesh_two_pole_edges.edge_nodes 0 1) YY))
          then geometry_example.north else geometry_example.south) ∧
    edges_gidx_uids geometry_example mesh_two_pole_edges 1
      = edges_gidx_uids geometry_example mesh_two_pole_edges 0 :=
  ⟨by decide, by decide,
    (pole_snapping_canonicalises topology_example geometry_example (fun _ _ => rfl)
      mesh_two_pole_edges 0 rfl (by decide)).1,
    ((pole_snapping_canonicalises topology_example geometry_example (fun _ _ => rfl)
      mesh_two_pole_edges 0 rfl (by decide)).2.2.2.1 mesh_two_pole_edges 1 rfl (by decide)
      (by decide) (by decide)).1 (by decide) (by decide)⟩

/-- Claim C22 as stated fails: the two edges of `mesh_two_pole_edges` are flagged as pole
edges and their midpoints have the same longitude 10 and the positive latitudes 85 and
75, so both are snapped to (10, 90).  Edge 0 is periodic-needed and its first endpoint is
an EAST point, so `build_edges_remote_idx` hashes the transformed centroid (-350, 90);
edge 1 is not periodic-needed and is hashed at (10, 90).  The two UIDs differ. -/
theorem pole_snapping_counterexample :
    mesh_two_pole_edges.has_pole_edges = true ∧
    mesh_two_pole_edges.is_pole_edge 0 ≠ 0 ∧ mesh_two_pole_edges.is_pole_edge 1 ≠ 0 ∧
    snapped_centroid geometry_example mesh_two_pole_edges 0 = (10, 90) ∧
    snapped_centroid geometry_example mesh_two_pole_edges 1 = (10, 90) ∧
    edge_needed topology_example mesh_two_pole_edges 0 = true ∧
    edge_needed topology_example mesh_two_pole_edges 1 = false ∧
    edge_uid topology_example geometry_example mesh_two_pole_edges 0 = -349910 ∧
    edge_uid topology_example geometry_example mesh_two_pole_edges 1 = 10090 ∧
    edge_uid topology_example geometry_example mesh_two_pole_edges 0
      ≠ edge_uid topology_example geometry_example mesh_two_pole_edges 1 := by
  refine ⟨rfl, ?_, ?_, ?_, ?_, ?_, ?_, ?_, ?_, ?_⟩ <;> decide

/-! ## Runs of routines -/

theorem loop_until_raise_ok {σ : Type} (step : σ → Nat → Except Error σ) (l : List Nat)
    (s t : σ) : l.foldlM step s = .ok t ↔ loop_until_raise step l s = (t, none) := by
  induction l generalizing s with
  | nil =>
    simp only [List.foldlM_nil, loop_until_raise]
    constructor
    · intro h; injection h with h; rw [h]
    · intro h; injection h with h; rw [h]; rfl
  | cons j l ih =>
    rw [List.foldlM_cons]
    unfold loop_until_raise
    cases hstep : step s j with
    | ok s1 => exact ih s1
    | error e =>
      constructor
      · intro h; exact Except.noConfusion h
      · intro h
        injection h with _ h2
        exact Option.noConfusion h2

theorem loop_until_raise_error {σ : Type} (step : σ → Nat → Except Error σ) (l : List Nat)
    (s : σ) (e : Error) :
    l.foldlM step s = .error e ↔ (loop_until_raise step l s).2 = some e := by
  induction l generalizing s with
  | nil =>
    simp only [List.foldlM_nil, loop_until_raise]
    constructor
    · intro h; exact Except.noConfusion h
    · intro h; exact Option.noConfusion h
  | cons j l ih =>
    rw [List.foldlM_cons]
    unfold loop_until_raise
    cases hstep : step s j with
    | ok s1 => exact ih s1
    | error e1 =>
      constructor
      · intro h
        have : e1 = e := by injection h
        rw [this]
      · intro h
        have : e1 = e := by injection h
        rw [this]; rfl

theorem loop_until_raise_cases {σ : Type} (step : σ → Nat → Except Error σ) (l : List Nat)
    (s : σ) :
    (∃ t, l.foldlM step s = .ok t ∧ loop_until_raise step l s = (t, none)) ∨
    (∃ t e, l.foldlM step s = .error e ∧ loop_until_raise step l s = (t, some e)) := by
  cases h : loop_until_raise step l s with
  | mk t o =>
    cases o with
    | none => exact Or.inl ⟨t, (loop_until_raise_ok step l s t).mpr h, rfl⟩
    | some e =>
      exact Or.inr ⟨t, e, (loop_until_raise_error step l s e).mpr (by rw [h]), rfl⟩

theorem run_from_returns {σ : Type} (nparts : Nat) (R : Routine σ) (fuel k : Nat)
    (acts : Nat → Action σ) (called : List Collective) (r : Nat) (s : σ)
    (h : acts r = .returns s) :
    run_from nparts R fuel k acts called r
      = { state := s, raised := none, collectives := called } := by
  cases fuel <;> (unfold run_from; rw [h])

theorem run_from_raises {σ : Type} (nparts : Nat) (R : Routine σ) (fuel k : Nat)
    (acts : Nat → Action σ) (called : List Collective) (r : Nat) (e : Error) (s : σ)
    (h : acts r = .raises e s) :
    run_from nparts R fuel k acts called r
      = { state := s, raised := some e, collectives := called } := by
  cases fuel <;> (unfold run_from; rw [h])

theorem run_from_enters {σ : Type} (nparts : Nat) (R : Routine σ) (fuel k : Nat)
    (acts : Nat → Action σ) (called : List Collective) (r : Nat) (c : Collective) (s : σ)
    (send : Nat → List Int) (h : acts r = .enters c s send)
    (hall : ∀ q < nparts, (acts q).calls c = true) :
    run_from nparts R (fuel + 1) k acts called r
      = run_from nparts R fuel (k + 1)
          (fun q => R.next k q (acts q).state
            (fun p => if p < nparts then (acts p).send q else []))
          (called ++ [c]) r := by
  conv_lhs => unfold run_from
  rw [h]
  simp only [if_pos hall]

theorem run_from_stays {σ : Type} (nparts : Nat) (R : Routine σ) (fuel k : Nat)
    (acts : Nat → Action σ) (called : List Collective) (r : Nat) (c : Collective) (s : σ)
    (send : Nat → List Int) (h : acts r = .enters c s send)
    (hsome : ¬ ∀ q < nparts, (acts q).calls c = true) :
    run_from nparts R (fuel + 1) k acts called r
      = { state := s, raised := some Error.Deadlock, collectives := called ++ [c] } := by
  conv_lhs => unfold run_from
  rw [h]
  simp only [if_neg hsome]

/-- The property of an action used to follow a rank through a run: `Pret` holds of the
state of a return, `Poth` of the state of a raise or of a call. -/
theorem run_from_inv {σ : Type} (nparts : Nat) (R : Routine σ) (r : Nat)
    (Pret Poth : σ → Prop)
    (hnext : ∀ k s recv, Poth s →
      match R.next k r s recv with
      | .returns t => Pret t
      | .raises _ t => Poth t
      | .enters _ t _ => Poth t)
    (fuel k : Nat) (acts : Nat → Action σ) (called : List Collective)
    (hacts : match acts r with
      | .returns t => Pret t
      | .raises _ t => Poth t
      | .enters _ t _ => Poth t) :
    ((run_from nparts R fuel k acts called r).raised = none →
      Pret (run_from nparts R fuel k acts called r).state) ∧
    (∀ e, (run_from nparts R fuel k acts called r).raised = some e →
      Poth (run_from nparts R fuel k acts called r).state) := by
  induction fuel generalizing k acts called with
  | zero =>
    unfold run_from
    cases h : acts r with
    | returns s => rw [h] at hacts; exact ⟨fun _ => hacts, fun e he => Option.noConfusion he⟩
    | raises e s => rw [h] at hacts; exact ⟨fun he => Option.noConfusion he, fun _ _ => hacts⟩
    | enters c s send =>
      rw [h] at hacts; exact ⟨fun he => Option.noConfusion he, fun _ _ => hacts⟩
  | succ fuel ih =>
    cases h : acts r with
    | returns s =>
      rw [run_from_returns nparts R _ k acts called r s h]
      rw [h] at hacts; exact ⟨fun _ => hacts, fun e he => Option.noConfusion he⟩
    | raises e s =>
      rw [run_from_raises nparts R _ k acts called r e s h]
      rw [h] at hacts; exact ⟨fun he => Option.noConfusion he, fun _ _ => hacts⟩
    | enters c s send =>
      rw [h] at hacts
      by_cases hall : ∀ q < nparts, (acts q).calls c = true
      · rw [run_from_enters nparts R fuel k acts called r c s send h hall]
        apply ih
        have hs : (acts r).state = s := by rw [h]; rfl
        show match R.next k r (acts r).state
            (fun p => if p < nparts then (acts p).send r else []) with
          | .returns t => Pret t
          | .raises _ t => Poth t
          | .enters _ t _ => Poth t
        rw [hs]
        exact hnext k s _ hacts
      · rw [run_from_stays nparts R fuel k acts called r c s send h hall]
        exact ⟨fun he => Option.noConfusion he, fun _ _ => hacts⟩

theorem run_from_congr {σ : Type} (nparts : Nat) (R : Routine σ) (r : Nat) (hr : r < nparts)
    (fuel k : Nat) (acts acts2 : Nat → Action σ) (called : List Collective)
    (h : ∀ q < nparts, acts q = acts2 q) :
    run_from nparts R fuel k acts called r = run_from nparts R fuel k acts2 called r := by
  induction fuel generalizing k acts acts2 called with
  | zero =>
    unfold run_from
    rw [h r hr]
  | succ fuel ih =>
    cases h2 : acts2 r with
    | returns s =>
      rw [run_from_returns nparts R _ k acts2 called r s h2,
        run_from_returns nparts R _ k acts called r s ((h r hr).trans h2)]
    | raises e s =>
      rw [run_from_raises nparts R _ k acts2 called r e s h2,
        run_from_raises nparts R _ k acts called r e s ((h r hr).trans h2)]
    | enters c s send =>
      have h1 : acts r = .enters c s send := (h r hr).trans h2
      by_cases hall : ∀ q < nparts, (acts2 q).calls c = true
      · have hall1 : ∀ q < nparts, (acts q).calls c = true := by
          intro q hq
          rw [h q hq]
          exact hall q hq
        rw [run_from_enters nparts R fuel k acts2 called r c s send h2 hall,
          run_from_enters nparts R fuel k acts called r c s send h1 hall1]
        apply ih
        intro q hq
        beta_reduce
        rw [h q hq]
        congr 1
        funext p
        by_cases hp : p < nparts
        · rw [if_pos hp, if_pos hp, h p hp]
        · rw [if_neg hp, if_neg hp]
      · have hall1 : ¬ ∀ q < nparts, (acts q).calls c = true := by
          intro hc
          apply hall
          intro q hq
          rw [← h q hq]
          exact hc q hq
        rw [run_from_stays nparts R fuel k acts2 called r c s send h2 hall,
          run_from_stays nparts R fuel k acts called r c s send h1 hall1]

/-- One collective operation that every rank calls: rank `q` calls `c` in state `st q`
with the buffers `send q`, and goes on as `acts2 q`. -/
theorem run_from_step {σ : Type} (nparts : Nat) (R : Routine σ) (r : Nat) (hr : r < nparts)
    (fuel k : Nat) (acts acts2 : Nat → Action σ) (called : List Collective) (c : Collective)
    (st : Nat → σ) (send : Nat → Nat → List Int)
    (h : ∀ q < nparts, acts q = .enters c (st q) (send q))
    (h2 : ∀ q < nparts,
      R.next k q (st q) (fun p => if p < nparts then send p q else []) = acts2 q) :
    run_from nparts R (fuel + 1) k acts called r
      = run_from nparts R fuel (k + 1) acts2 (called ++ [c]) r := by
  rw [run_from_enters nparts R fuel k acts called r c (st r) (send r) (h r hr)
    (fun q hq => by rw [h q hq]; simp only [Action.calls, decide_True])]
  apply run_from_congr nparts R r hr
  intro q hq
  beta_reduce
  rw [← h2 q hq, h q hq]
  show R.next k q (st q) _ = _
  congr 1
  funext p
  by_cases hp : p < nparts
  · rw [if_pos hp, if_pos hp, h p hp]
    rfl
  · rw [if_neg hp, if_neg hp]

/-- A rank that calls a collective operation which some rank does not call stays in it. -/
theorem run_from_blocked {σ : Type} (nparts : Nat) (R : Routine σ) (r : Nat)
    (fuel k : Nat) (acts : Nat → Action σ) (called : List Collective) (c : Collective)
    (s : σ) (send : Nat → List Int) (h : acts r = .enters c s send)
    (q : Nat) (hq : q < nparts) (hcalls : (acts q).calls c = false) :
    run_from nparts R fuel k acts called r
      = { state := s, raised := some Error.Deadlock, collectives := called ++ [c] } := by
  cases fuel with
  | zero =>
    unfold run_from
    rw [h]
  | succ fuel =>
    apply run_from_stays nparts R fuel k acts called r c s send h
    intro hall
    rw [hall q hq] at hcalls
    exact Bool.noConfusion hcalls

/-- A routine that calls no collective operation after its collective operation number
`K` leaves in the same way whatever the number of collective operations the run is
followed through, above `K`. -/
theorem run_from_fuel {σ : Type} (nparts : Nat) (R : Routine σ) (r : Nat) (K : Nat)
    (hK : ∀ k, K ≤ k → ∀ q s recv c, (R.next k q s recv).calls c = false)
    (fuel fuel2 k : Nat) (acts : Nat → Action σ) (called : List Collective)
    (h1 : K + 1 ≤ fuel + k) (h2 : K + 1 ≤ fuel2 + k)
    (hacts : K + 1 ≤ k → ∀ c, (acts r).calls c = false) :
    run_from nparts R fuel k acts called r = run_from nparts R fuel2 k acts called r := by
  induction fuel generalizing fuel2 k acts called with
  | zero =>
    cases h : acts r with
    | returns s =>
      rw [run_from_returns nparts R _ k acts called r s h,
        run_from_returns nparts R _ k acts called r s h]
    | raises e s =>
      rw [run_from_raises nparts R _ k acts called r e s h,
        run_from_raises nparts R _ k acts called r e s h]
    | enters c s send =>
      have hc := hacts (by omega) c
      rw [h] at hc
      simp [Action.calls] at hc
  | succ fuel ih =>
    cases h : acts r with
    | returns s =>
      rw [run_from_returns nparts R _ k acts called r s h,
        run_from_returns nparts R _ k acts called r s h]
    | raises e s =>
      rw [run_from_raises nparts R _ k acts called r e s h,
        run_from_raises nparts R _ k acts called r e s h]
    | enters c s send =>
      cases fuel2 with
      | zero =>
        have hc := hacts (by omega) c
        rw [h] at hc
        simp [Action.calls] at hc
      | succ fuel2 =>
        by_cases hall : ∀ q < nparts, (acts q).calls c = true
        · rw [run_from_enters nparts R fuel k acts called r c s send h hall,
            run_from_enters nparts R fuel2 k acts called r c s send h hall]
          apply ih
          · omega
          · omega
          · intro hk c2
            exact hK k (by omega) _ _ _ c2
        · rw [run_from_stays nparts R fuel k acts called r c s send h hall,
            run_from_stays nparts R fuel2 k acts called r c s send h hall]

theorem run_fuel {σ : Type} (nparts : Nat) (R : Routine σ) (r : Nat) (K : Nat)
    (hK : ∀ k, K ≤ k → ∀ q s recv c, (R.next k q s recv).calls c = false)
    (rounds : Nat) (h : K + 1 ≤ rounds) :
    run nparts rounds R r = run nparts (K + 1) R r := by
  unfold run
  exact run_from_fuel nparts R r K hK rounds (K + 1) 0 R.first [] (by omega) (by omega)
    (fun hk => absurd hk (by omega))

theorem foldl_congr_mem {α β : Type} (f g : α → β → α) (l : List β) (a : α)
    (h : ∀ s, ∀ j ∈ l, f s j = g s j) : l.foldl f a = l.foldl g a := by
  induction l generalizing a with
  | nil => rfl
  | cons j l ih =>
    rw [List.foldl_cons, List.foldl_cons, h a j (List.mem_cons_self _ _)]
    exact ih _ (fun s k hk => h s k (List.mem_cons_of_mem _ hk))

theorem foldlM_congr_mem {α β : Type} (f g : α → β → Except Error α) (l : List β) (a : α)
    (h : ∀ s, ∀ j ∈ l, f s j = g s j) : l.foldlM f a = l.foldlM g a := by
  induction l generalizing a with
  | nil => rfl
  | cons j l ih =>
    rw [List.foldlM_cons, List.foldlM_cons, h a j (List.mem_cons_self _ _)]
    cases g a j with
    | error e => rfl
    | ok s1 => exact ih _ (fun s k hk => h s k (List.mem_cons_of_mem _ hk))

theorem nodes_answers_congr (nparts : Nat) (lookup : List (Int × Int))
    (recv recv2 : Nat → List Int) (h : ∀ q < nparts, recv q = recv2 q) :
    nodes_answers nparts lookup recv = nodes_answers nparts lookup recv2 := by
  unfold nodes_answers
  apply foldlM_congr_mem
  intro s j hj
  rw [h j (List.mem_range.mp hj)]

theorem write_back_congr (nparts : Nat) (ridx : Nat → Int) (recv recv2 : Nat → List Int)
    (h : ∀ q < nparts, recv q = recv2 q) :
    write_back nparts ridx recv = write_back nparts ridx recv2 := by
  unfold write_back
  apply foldl_congr_mem
  intro s j hj
  rw [h j (List.mem_range.mp hj)]

theorem build_nodes_remote_idx_parts (nparts : Nat) (nodes : Nat → Nodes)
    (ridx : Nat → Nat → Int) (hrun : build_nodes_remote_idx nparts nodes = .ok ridx) :
    (∀ q < nparts, ∃ s, nodes_requests q nparts (nodes q) = .ok s) ∧
    (∀ r < nparts, ∃ a,
      nodes_answers nparts
        (value_or Requests.empty (nodes_requests r nparts (nodes r))).lookup
        (fun q => (value_or Requests.empty (nodes_requests q nparts (nodes q))).send_needed r)
        = .ok a) ∧
    ridx = fun r => write_back nparts
      (value_or Requests.empty (nodes_requests r nparts (nodes r))).ridx
      (fun q => value_or (fun _ => [])
        (nodes_answers nparts
          (value_or Requests.empty (nodes_requests q nparts (nodes q))).lookup
          (fun p => (value_or Requests.empty
            (nodes_requests p nparts (nodes p))).send_needed q)) r) := by
  unfold build_nodes_remote_idx at hrun
  cases hfe1 : first_error nparts (fun r => nodes_requests r nparts (nodes r)) with
  | some e =>
    simp only [hfe1] at hrun
    exact Except.noConfusion hrun
  | none =>
    simp only [hfe1] at hrun
    cases hfe2 : first_error nparts (fun r =>
        nodes_answers nparts
          (value_or Requests.empty (nodes_requests r nparts (nodes r))).lookup
          (fun q => (value_or Requests.empty
            (nodes_requests q nparts (nodes q))).send_needed r)) with
    | some e =>
      simp only [hfe2] at hrun
      exact Except.noConfusion hrun
    | none =>
      simp only [hfe2] at hrun
      refine ⟨(first_error_none _ _).mp hfe1, (first_error_none _ _).mp hfe2, ?_⟩
      injection hrun with h
      exact h.symm

theorem remote_idx_first_ok (nparts : Nat) (nodes : Nat → Nodes) (r : Nat) (s : Requests)
    (h : nodes_requests r nparts (nodes r) = .ok s) :
    (build_nodes_remote_idx_routine nparts nodes).first r
      = .enters Collective.allToAll
          { nodes := { nodes r with ridx := s.ridx }, lookup := s.lookup } s.send_needed := by
  have h2 := (loop_until_raise_ok _ _ _ _).mp h
  unfold build_nodes_remote_idx_routine
  simp only [h2]

theorem remote_idx_first_error (nparts : Nat) (nodes : Nat → Nodes) (r : Nat) (e : Error)
    (h : nodes_requests r nparts (nodes r) = .error e) :
    ∃ t : Requests, (build_nodes_remote_idx_routine nparts nodes).first r
      = .raises e { nodes := { nodes r with ridx := t.ridx }, lookup := t.lookup } := by
  rcases loop_until_raise_cases (nodes_requests_step r nparts (nodes r))
      (List.range (nodes r).nb_nodes)
      { lookup := [], ridx := (nodes r).ridx, send_needed := fun _ => [] }
    with ⟨t, ht, _⟩ | ⟨t, e2, ht, hl⟩
  · have h3 : nodes_requests r nparts (nodes r) = .ok t := ht
    rw [h] at h3
    exact Except.noConfusion h3
  · have h3 : nodes_requests r nparts (nodes r) = .error e2 := ht
    rw [h] at h3
    have he : e = e2 := by injection h3
    subst he
    refine ⟨t, ?_⟩
    unfold build_nodes_remote_idx_routine
    simp only [hl]

theorem parallel_first_flag (nparts : Nat) (nodes : Nat → Nodes) (r : Nat)
    (h : (nodes r).parallel = true) :
    (build_nodes_parallel_fields_routine nparts nodes).first r
      = .returns { nodes := { nodes r with parallel := true }, lookup := [] } := by
  unfold build_nodes_parallel_fields_routine
  simp only [h, if_true]

theorem parallel_first_ok (nparts : Nat) (nodes : Nat → Nodes) (r : Nat) (s : Requests)
    (hf : (nodes r).parallel = false) (h : nodes_requests r nparts (nodes r) = .ok s) :
    (build_nodes_parallel_fields_routine nparts nodes).first r
      = .enters Collective.allToAll
          { nodes := { nodes r with ridx := s.ridx }, lookup := s.lookup } s.send_needed := by
  have h1 := remote_idx_first_ok nparts nodes r s h
  unfold build_nodes_parallel_fields_routine
  simp only [hf, Bool.false_eq_true, if_false, h1, Action.and_then]

theorem parallel_first_error (nparts : Nat) (nodes : Nat → Nodes) (r : Nat) (e : Error)
    (hf : (nodes r).parallel = false) (h : nodes_requests r nparts (nodes r) = .error e) :
    ∃ t : Requests, (build_nodes_parallel_fields_routine nparts nodes).first r
      = .raises e { nodes := { nodes r with ridx := t.ridx }, lookup := t.lookup } := by
  obtain ⟨t, h1⟩ := remote_idx_first_error nparts nodes r e h
  refine ⟨t, ?_⟩
  unfold build_nodes_parallel_fields_routine
  simp only [hf, Bool.false_eq_true, if_false, h1, Action.and_then]

theorem parallel_next_zero (nparts : Nat) (nodes : Nat → Nodes) (r : Nat) (s : NodesLocals)
    (recv : Nat → List Int) :
    (build_nodes_parallel_fields_routine nparts nodes).next 0 r s recv
      = match nodes_answers nparts s.lookup recv with
        | .error e => .raises e s
        | .ok send_found => .enters Collective.allToAll s send_found := by
  unfold build_nodes_parallel_fields_routine build_nodes_remote_idx_routine
  simp only []
  cases nodes_answers nparts s.lookup recv <;> rfl

theorem parallel_next_one (nparts : Nat) (nodes : Nat → Nodes) (r : Nat) (s : NodesLocals)
    (recv : Nat → List Int) :
    (build_nodes_parallel_fields_routine nparts nodes).next 1 r s recv
      = .returns { s with nodes :=
          { build_nodes_global_idx { s.nodes with ridx := write_back nparts s.nodes.ridx recv }
            with parallel := true } } := rfl

theorem parallel_fields_flag_outcome (nparts : Nat) (nodes : Nat → Nodes) (r : Nat)
    (h : (nodes r).parallel = true) :
    build_nodes_parallel_fields_outcome nparts nodes r
      = { state := { nodes := { nodes r with parallel := true }, lookup := [] }
          raised := none, collectives := [] } := by
  unfold build_nodes_parallel_fields_outcome run
  exact run_from_returns _ _ _ _ _ _ _ _ (parallel_first_flag nparts nodes r h)

theorem parallel_fields_raise_outcome (nparts : Nat) (nodes : Nat → Nodes) (r : Nat)
    (e : Error) (hf : (nodes r).parallel = false)
    (h : nodes_requests r nparts (nodes r) = .error e) :
    ∃ t : Requests, build_nodes_parallel_fields_outcome nparts nodes r
      = { state := { nodes := { nodes r with ridx := t.ridx }, lookup := t.lookup }
          raised := some e, collectives := [] } := by
  obtain ⟨t, ht⟩ := parallel_first_error nparts nodes r e hf h
  refine ⟨t, ?_⟩
  unfold build_nodes_parallel_fields_outcome run
  exact run_from_raises _ _ _ _ _ _ _ _ _ ht

theorem parallel_fields_success (nparts : Nat) (nodes : Nat → Nodes)
    (hflags : ∀ q < nparts, (nodes q).parallel = false)
    (ridx : Nat → Nat → Int) (hrun : build_nodes_remote_idx nparts nodes = .ok ridx)
    (r : Nat) (hr : r < nparts) :
    build_nodes_parallel_fields_outcome nparts nodes r
      = { state :=
            { nodes := { build_nodes_global_idx { nodes r with ridx := ridx r } with
                         parallel := true }
              lookup := (value_or Requests.empty (nodes_requests r nparts (nodes r))).lookup }
          raised := none
          collectives := [Collective.allToAll, Collective.allToAll] } := by
  obtain ⟨hp1, hp2, hridx⟩ := build_nodes_remote_idx_parts nparts nodes ridx hrun
  have hs1 : ∀ q < nparts, nodes_requests q nparts (nodes q)
      = .ok (value_or Requests.empty (nodes_requests q nparts (nodes q))) := by
    intro q hq
    obtain ⟨s, hs⟩ := hp1 q hq
    rw [hs]; rfl
  unfold build_nodes_parallel_fields_outcome run
  rw [run_from_step nparts _ r hr 1 0 _
    (fun q => .enters Collective.allToAll
      { nodes := { nodes q with
          ridx := (value_or Requests.empty (nodes_requests q nparts (nodes q))).ridx }
        lookup := (value_or Requests.empty (nodes_requests q nparts (nodes q))).lookup }
      (value_or (fun _ => [])
        (nodes_answers nparts
          (value_or Requests.empty (nodes_requests q nparts (nodes q))).lookup
          (fun p => (value_or Requests.empty
            (nodes_requests p nparts (nodes p))).send_needed q))))
    [] Collective.allToAll _ _
    (fun q hq => parallel_first_ok nparts nodes q _ (hflags q hq) (hs1 q hq))
    (fun q hq => by
      rw [parallel_next_zero]
      beta_reduce
      have hcongr := nodes_answers_congr nparts
        (value_or Requests.empty (nodes_requests q nparts (nodes q))).lookup
        (fun p => if p < nparts then
          (value_or Requests.empty (nodes_requests p nparts (nodes p))).send_needed q else [])
        (fun p => (value_or Requests.empty (nodes_requests p nparts (nodes p))).send_needed q)
        (fun p hp => by beta_reduce; rw [if_pos hp])
      rw [hcongr]
      obtain ⟨a, ha⟩ := hp2 q hq
      rw [ha]
      rfl)]
  rw [run_from_step nparts _ r hr 0 1 _
    (fun q => .returns
      { nodes := { build_nodes_global_idx { nodes q with ridx := ridx q } with
                   parallel := true }
        lookup := (value_or Requests.empty (nodes_requests q nparts (nodes q))).lookup })
    _ Collective.allToAll _ _ (fun q _ => rfl)
    (fun q hq => by
      rw [parallel_next_one]
      beta_reduce
      have hwb : write_back nparts
          (value_or Requests.empty (nodes_requests q nparts (nodes q))).ridx
          (fun p => if p < nparts then
            value_or (fun _ => [])
              (nodes_answers nparts
                (value_or Requests.empty (nodes_requests p nparts (nodes p))).lookup
                (fun p2 => (value_or Requests.empty
                  (nodes_requests p2 nparts (nodes p2))).send_needed p)) q else [])
          = ridx q := by
        rw [hridx]
        apply write_back_congr
        intro p hp
        beta_reduce
        rw [if_pos hp]
      exact congrArg (fun x => (Action.returns
        { nodes := { build_nodes_global_idx { nodes q with ridx := x } with parallel := true }
          lookup := (value_or Requests.empty (nodes_requests q nparts (nodes q))).lookup } :
        Action NodesLocals)) hwb)]
  exact run_from_returns _ _ _ _ _ _ _ _ rfl

/-! ## `build_nodes_parallel_fields` and `build_parallel_fields` -/

theorem set_parallel_of_parallel (n : Nodes) (h : n.parallel = true) :
    { n with parallel := true } = n := by
  cases n
  simp only at h
  subst h
  rfl

theorem parallel_fields_exits (nparts : Nat) (nodes : Nat → Nodes) (r : Nat) :
    ((build_nodes_parallel_fields_outcome nparts nodes r).raised = none →
      (build_nodes_parallel_fields_outcome nparts nodes r).state.nodes.parallel = true ∧
      (build_nodes_parallel_fields_outcome nparts nodes r).state.nodes.part = (nodes r).part ∧
      (build_nodes_parallel_fields_outcome nparts nodes r).state.nodes.nb_nodes
        = (nodes r).nb_nodes) ∧
    (∀ e, (build_nodes_parallel_fields_outcome nparts nodes r).raised = some e →
      (nodes r).parallel = false ∧
      (build_nodes_parallel_fields_outcome nparts nodes r).state.nodes.parallel = false ∧
      (build_nodes_parallel_fields_outcome nparts nodes r).state.nodes.part = (nodes r).part ∧
      (build_nodes_parallel_fields_outcome nparts nodes r).state.nodes.nb_nodes
        = (nodes r).nb_nodes ∧
      (build_nodes_parallel_fields_outcome nparts nodes r).state.nodes.glb_idx
        = (nodes r).glb_idx) := by
  unfold build_nodes_parallel_fields_outcome run
  apply run_from_inv nparts (build_nodes_parallel_fields_routine nparts nodes) r
    (fun t => t.nodes.parallel = true ∧ t.nodes.part = (nodes r).part ∧
      t.nodes.nb_nodes = (nodes r).nb_nodes)
    (fun t => (nodes r).parallel = false ∧ t.nodes.parallel = false ∧
      t.nodes.part = (nodes r).part ∧ t.nodes.nb_nodes = (nodes r).nb_nodes ∧
      t.nodes.glb_idx = (nodes r).glb_idx)
  · intro k s recv hs
    rcases k with _ | _ | k
    · rw [parallel_next_zero]
      cases nodes_answers nparts s.lookup recv with
      | error e => exact hs
      | ok a => exact hs
    · rw [parallel_next_one]
      exact ⟨rfl, hs.2.2.1, hs.2.2.2.1⟩
    · exact ⟨rfl, hs.2.2.1, hs.2.2.2.1⟩
  · by_cases hf : (nodes r).parallel = true
    · rw [parallel_first_flag nparts nodes r hf]
      exact ⟨rfl, rfl, rfl⟩
    · have hf2 : (nodes r).parallel = false := by simpa using hf
      cases hreq : nodes_requests r nparts (nodes r) with
      | ok s1 =>
        rw [parallel_first_ok nparts nodes r s1 hf2 hreq]
        exact ⟨hf2, hf2, rfl, rfl, rfl⟩
      | error e =>
        obtain ⟨t, ht⟩ := parallel_first_error nparts nodes r e hf2 hreq
        rw [ht]
        exact ⟨hf2, hf2, rfl, rfl, rfl⟩

theorem build_nodes_parallel_fields_ok (nparts : Nat) (nodes : Nat → Nodes) (r : Nat)
    (out : Nodes) (h : build_nodes_parallel_fields nparts nodes r = .ok out) :
    (build_nodes_parallel_fields_outcome nparts nodes r).raised = none ∧
    out = (build_nodes_parallel_fields_outcome nparts nodes r).state.nodes := by
  unfold build_nodes_parallel_fields at h
  cases hr : (build_nodes_parallel_fields_outcome nparts nodes r).raised with
  | none =>
    rw [hr] at h
    injection h with h1
    exact ⟨rfl, h1.symm⟩
  | some e =>
    rw [hr] at h
    exact Except.noConfusion h

theorem build_nodes_parallel_fields_of_outcome (nparts : Nat) (nodes : Nat → Nodes) (r : Nat)
    (x : Outcome NodesLocals) (hx : build_nodes_parallel_fields_outcome nparts nodes r = x) :
    build_nodes_parallel_fields nparts nodes r
      = match x.raised with
        | none => .ok x.state.nodes
        | some e => .error e := by
  subst hx
  rfl

theorem build_nodes_parallel_fields_flag (nparts : Nat) (nodes : Nat → Nodes) (r : Nat)
    (out : Nodes) (h : build_nodes_parallel_fields nparts nodes r = .ok out) :
    out.parallel = true := by
  obtain ⟨h1, h2⟩ := build_nodes_parallel_fields_ok nparts nodes r out h
  rw [h2]
  exact ((parallel_fields_exits nparts nodes r).1 h1).1

theorem parallel_fields_rounds (nparts : Nat) (nodes : Nat → Nodes) (r : Nat)
    (rounds : Nat) (h : 2 ≤ rounds) :
    run nparts rounds (build_nodes_parallel_fields_routine nparts nodes) r
      = build_nodes_parallel_fields_outcome nparts nodes r := by
  unfold build_nodes_parallel_fields_outcome
  apply run_fuel nparts _ r 1 _ rounds h
  intro k hk q s recv c
  rcases k with _ | _ | k
  · omega
  · rfl
  · rfl

/-- Claim C20, as the code has it.  Parallel-fields idempotence guard: if the flag
`parallel` is set on entry, `build_nodes_parallel_fields` returns the nodes as they were:
`partition`, `remote_index` and `global_index` are unchanged.  Every return of the
routine leaves the flag set; a rank that leaves the routine by an exception, or stays in
a collective operation, had the flag unset on entry and leaves it unset, and a rank with
the flag unset whose first loop of `build_nodes_remote_idx` raises leaves in this way.
A rank on which a first call returns gets the same node state from a second call,
whatever the other ranks hold then; so when a first call returns on all ranks, a second
call on all ranks returns the same node state.  The first call returns on every rank when
the flag is unset on every rank and `build_nodes_remote_idx` raises no error.  The
routine `build_parallel_fields` on a mesh has the outcome of
`build_nodes_parallel_fields` on the nodes of the mesh: the same exception and collective
operations, and the mesh with those nodes and every other field as it was.  The outcome
is that of the run followed through its two collective operations or more. -/
theorem parallel_fields_idempotence_guard {D : Type} (nparts : Nat) (nodes : Nat → Nodes)
    (mesh : Nat → Mesh D) :
    (∀ r, (nodes r).parallel = true →
      ∃ out : Nodes, build_nodes_parallel_fields nparts nodes r = .ok out ∧
        out.part = (nodes r).part ∧ out.ridx = (nodes r).ridx ∧
        out.glb_idx = (nodes r).glb_idx ∧ out = nodes r) ∧
    (∀ r out, build_nodes_parallel_fields nparts nodes r = .ok out → out.parallel = true) ∧
    (∀ r e, (build_nodes_parallel_fields_outcome nparts nodes r).raised = some e →
      (nodes r).parallel = false ∧
      (build_nodes_parallel_fields_outcome nparts nodes r).state.nodes.parallel = false) ∧
    (∀ r e, (nodes r).parallel = false →
      nodes_requests r nparts (nodes r) = .error e →
      build_nodes_parallel_fields nparts nodes r = .error e ∧
      (build_nodes_parallel_fields_outcome nparts nodes r).raised = some e ∧
      (build_nodes_parallel_fields_outcome nparts nodes r).state.nodes.parallel = false) ∧
    (∀ r out, build_nodes_parallel_fields nparts nodes r = .ok out →
      ∀ nodes2 : Nat → Nodes, nodes2 r = out →
        build_nodes_parallel_fields nparts nodes2 r = .ok out) ∧
    (∀ out : Nat → Nodes,
      (∀ r < nparts, build_nodes_parallel_fields nparts nodes r = .ok (out r)) →
      ∀ r < nparts, build_nodes_parallel_fields nparts out r = .ok (out r)) ∧
    ((∀ q < nparts, (nodes q).parallel = false) →
      ∀ ridx, build_nodes_remote_idx nparts nodes = .ok ridx →
      ∀ r < nparts, build_nodes_parallel_fields nparts nodes r
        = .ok { build_nodes_global_idx { nodes r with ridx := ridx r } with
                parallel := true }) ∧
    (∀ r,
      (∀ e, build_nodes_parallel_fields nparts (fun q => (mesh q).nodes) r = .error e →
        build_parallel_fields nparts mesh r = .error e) ∧
      (∀ out, build_nodes_parallel_fields nparts (fun q => (mesh q).nodes) r = .ok out →
        build_parallel_fields nparts mesh r = .ok { mesh r with nodes := out }) ∧
      (build_parallel_fields_outcome nparts mesh r).raised
        = (build_nodes_parallel_fields_outcome nparts (fun q => (mesh q).nodes) r).raised ∧
      (build_parallel_fields_outcome nparts mesh r).collectives
        = (build_nodes_parallel_fields_outcome nparts (fun q => (mesh q).nodes) r).collectives ∧
      (build_parallel_fields_outcome nparts mesh r).state
        = { mesh r with
            nodes := (build_nodes_parallel_fields_outcome nparts
              (fun q => (mesh q).nodes) r).state.nodes }) ∧
    (∀ r rounds, 2 ≤ rounds →
      run nparts rounds (build_nodes_parallel_fields_routine nparts nodes) r
        = build_nodes_parallel_fields_outcome nparts nodes r) := by
  have hset : ∀ (n : Nat → Nodes) (r : Nat), (n r).parallel = true →
      build_nodes_parallel_fields nparts n r = .ok (n r) := by
    intro n r h
    rw [build_nodes_parallel_fields_of_outcome nparts n r _
      (parallel_fields_flag_outcome nparts n r h)]
    show Except.ok ({ n r with parallel := true } : Nodes) = _
    rw [set_parallel_of_parallel (n r) h]
  refine ⟨?_, build_nodes_parallel_fields_flag nparts nodes, ?_, ?_, ?_, ?_, ?_, ?_,
    parallel_fields_rounds nparts nodes⟩
  · intro r h
    exact ⟨nodes r, hset nodes r h, rfl, rfl, rfl, rfl⟩
  · intro r e he
    obtain ⟨h1, h2, _⟩ := (parallel_fields_exits nparts nodes r).2 e he
    exact ⟨h1, h2⟩
  · intro r e hf hreq
    obtain ⟨t, ht⟩ := parallel_fields_raise_outcome nparts nodes r e hf hreq
    refine ⟨?_, by rw [ht], by rw [ht]; exact hf⟩
    rw [build_nodes_parallel_fields_of_outcome nparts nodes r _ ht]
  · intro r out hout nodes2 h2
    have hflag := build_nodes_parallel_fields_flag nparts nodes r out hout
    rw [← h2] at hflag ⊢
    exact hset nodes2 r hflag
  · intro out hout r hr
    exact hset out r (build_nodes_parallel_fields_flag nparts nodes r (out r) (hout r hr))
  · intro hflags ridx hridx r hr
    rw [build_nodes_parallel_fields_of_outcome nparts nodes r _
      (parallel_fields_success nparts nodes hflags ridx hridx r hr)]
  · intro r
    refine ⟨?_, ?_, rfl, rfl, rfl⟩
    · intro e h
      unfold build_nodes_parallel_fields at h
      unfold build_parallel_fields build_parallel_fields_outcome Outcome.result
      cases hx : (build_nodes_parallel_fields_outcome nparts (fun q => (mesh q).nodes) r).raised with
      | none =>
        rw [hx] at h
        exact Except.noConfusion h
      | some e1 =>
        rw [hx] at h
        injection h with h1
        rw [h1]
    · intro out h
      obtain ⟨h1, h2⟩ := build_nodes_parallel_fields_ok nparts _ r out h
      unfold build_parallel_fields build_parallel_fields_outcome Outcome.result
      simp only [h1]
      rw [h2]

theorem parallel_fields_idempotence_guard_witness :
    (∀ r < 2, build_nodes_parallel_fields 2 nodes_example r
      = .ok (parallel_example_result r)) ∧
    (∀ r < 2, build_nodes_parallel_fields 2 parallel_example_result r
      = .ok (parallel_example_result r)) ∧
    (∀ r < 2, (parallel_example_result r).parallel = true ∧
      (parallel_example_result r).glb_idx 0 = (nodes_example r).uid 0 ∧
      (parallel_example_result r).ridx = nodes_example_ridx r) ∧
    build_parallel_fields 2 mesh_with_nodes 0
      = .ok { mesh_with_nodes 0 with nodes := parallel_example_result 0 } :=
  have h : ∀ r < 2, build_nodes_parallel_fields 2 nodes_example r
      = .ok (parallel_example_result r) := by
    intro r hr
    interval_cases r <;> rfl
  ⟨h,
    (parallel_fields_idempotence_guard 2 nodes_example mesh_with_nodes).2.2.2.2.2.1
      parallel_example_result h,
    by intro r hr; interval_cases r <;> exact ⟨rfl, by decide, rfl⟩,
    rfl⟩

/-- Claim C20 as stated fails: the flag is not set on every exit.  On one rank, the node
of `nodes_large_part` has the partition 1, the number of ranks; the assertion of line
278 raises inside `build_nodes_remote_idx`, before line 111, and the rank leaves
`build_nodes_parallel_fields` with the flag `parallel` unset.  On the two ranks of
`large_part_on_rank1` rank 0, with the flag set, returns and rank 1 leaves by the same
assertion with the flag unset, without calling a collective operation.  On the two ranks
of `missing_owner_example` rank 1 raises `SeriousBug` at line 310 and leaves with the
flag unset, while rank 0 stays in the second `allToAll`. -/
theorem parallel_fields_idempotence_guard_counterexample :
    (nodes_large_part.parallel = false ∧
      (build_nodes_parallel_fields_outcome 1 (fun _ => nodes_large_part) 0).raised
        = some Error.AssertionFailed ∧
      (build_nodes_parallel_fields_outcome 1 (fun _ => nodes_large_part) 0).state.nodes.parallel
        = false) ∧
    ((build_nodes_parallel_fields_outcome 2 large_part_on_rank1 0).raised = none ∧
      (build_nodes_parallel_fields_outcome 2 large_part_on_rank1 1).raised
        = some Error.AssertionFailed ∧
      (build_nodes_parallel_fields_outcome 2 large_part_on_rank1 1).collectives = [] ∧
      (build_nodes_parallel_fields_outcome 2 large_part_on_rank1 1).state.nodes.parallel
        = false ∧
      build_nodes_parallel_fields 2 large_part_on_rank1 1 = .error Error.AssertionFailed) ∧
    ((build_nodes_parallel_fields_outcome 2 missing_owner_example 1).raised
        = some Error.SeriousBug ∧
      (build_nodes_parallel_fields_outcome 2 missing_owner_example 1).state.nodes.parallel
        = false ∧
      (build_nodes_parallel_fields_outcome 2 missing_owner_example 0).raised
        = some Error.Deadlock ∧
      (build_nodes_parallel_fields_outcome 2 missing_owner_example 0).collectives
        = [Collective.allToAll, Collective.allToAll] ∧
      build_nodes_parallel_fields 2 missing_owner_example 1 = .error Error.SeriousBug) :=
  ⟨⟨rfl, by decide, by decide⟩, ⟨by decide, by decide, by decide, by decide, rfl⟩,
    ⟨by decide, by decide, by decide, by decide, rfl⟩⟩

theorem build_nodes_parallel_fields_frame (nparts : Nat) (nodes : Nat → Nodes) (r : Nat)
    (out : Nodes) (h : build_nodes_parallel_fields nparts nodes r = .ok out) :
    out.part = (nodes r).part ∧ out.nb_nodes = (nodes r).nb_nodes := by
  obtain ⟨h1, h2⟩ := build_nodes_parallel_fields_ok nparts nodes r out h
  rw [h2]
  exact ((parallel_fields_exits nparts nodes r).1 h1).2

/-- Claim C21.  Node ownership is not reassigned: `build_nodes_partition` returns the
node partition field as it is, `build_nodes_global_idx` leaves it as it is, and every
return of `build_nodes_parallel_fields` (which runs `build_nodes_partition`,
`build_nodes_remote_idx` and `build_nodes_global_idx`) and of
`build_edges_parallel_fields` leaves every entry of the node partition array equal to
its value on entry. -/
theorem node_ownership_not_reassigned {D : Type} (T : Topology) (G : Geometry D)
    (nparts : Nat) (nodes : Nat → Nodes) (mesh : Nat → Mesh D) :
    (∀ n : Nodes, ∀ j, build_nodes_partition n j = n.part j) ∧
    (∀ n : Nodes, ∀ j, (build_nodes_global_idx n).part j = n.part j) ∧
    (∀ r out, build_nodes_parallel_fields nparts nodes r = .ok out →
      ∀ j, out.part j = (nodes r).part j) ∧
    (∀ r out, build_edges_parallel_fields T G nparts mesh r = .ok out →
      (∀ i, out.node_part i = (mesh r).node_part i) ∧
      (∀ j, out.nodes.part j = (mesh r).nodes.part j)) := by
  refine ⟨fun _ _ => rfl, fun _ _ => rfl, ?_, ?_⟩
  · intro r out h j
    rw [(build_nodes_parallel_fields_frame nparts nodes r out h).1]
  · intro r out h
    obtain ⟨h1, h2⟩ := build_edges_parallel_fields_frame T G nparts mesh r out h
    exact ⟨fun i => by rw [h1], fun j => by rw [h2]⟩

theorem node_ownership_not_reassigned_witness :
    (∀ r < 2, ∃ out, build_nodes_parallel_fields 2 nodes_example r = .ok out ∧
      ∀ j, out.part j = (nodes_example r).part j) ∧
    (∀ r < 2, ∃ out,
      build_edges_parallel_fields topology_example geometry_example 2
        partition_example_with_nodes r = .ok out ∧
      out.edge_part 0 = 1 ∧
      (∀ i, out.node_part i = (partition_example_with_nodes r).node_part i) ∧
      (∀ j, out.nodes.part j = (nodes_example r).part j)) :=
  ⟨fun r hr => by
      have h : build_nodes_parallel_fields 2 nodes_example r
          = .ok (parallel_example_result r) := by
        interval_cases r <;> rfl
      exact ⟨_, h,
        (node_ownership_not_reassigned topology_example geometry_example 2 nodes_example
          partition_example_with_nodes).2.2.1 r _ h⟩,
    fun r hr => by
      have h : build_edges_parallel_fields topology_example geometry_example 2
          partition_example_with_nodes r
          = .ok (value_or (partition_example_with_nodes r)
              (build_edges_parallel_fields topology_example geometry_example 2
                partition_example_with_nodes r)) := by
        interval_cases r <;> rfl
      exact ⟨_, h, by interval_cases r <;> decide,
        (node_ownership_not_reassigned topology_example geometry_example 2 nodes_example
          partition_example_with_nodes).2.2.2 r _ h⟩⟩

/-! ## The run of `renumber_nodes_glb_idx` -/

theorem gatherv_congr (nparts : Nat) (loc loc2 : Nat → List Int)
    (h : ∀ q < nparts, loc q = loc2 q) : gatherv nparts loc = gatherv nparts loc2 := by
  induction nparts with
  | zero => rfl
  | succ n ih =>
    unfold gatherv
    rw [ih (fun q hq => h q (Nat.lt_succ_of_lt hq)), h n (Nat.lt_succ_self n)]

theorem recvdispls_congr (c c2 : Nat → Nat) (r : Nat) (h : ∀ q < r, c q = c2 q) :
    recvdispls c r = recvdispls c2 r := by
  induction r with
  | zero => rfl
  | succ n ih =>
    unfold recvdispls
    rw [ih (fun q hq => h q (Nat.lt_succ_of_lt hq)), h n (Nat.lt_succ_self n)]

theorem getD_map_range (f : Nat → Int) (n j : Nat) (h : j < n) :
    ((List.range n).map f).getD j 0 = f j := by
  rw [List.getD_eq_getElem _ _ (by simpa using h)]
  simp

theorem renumber_first_flag (sort : List Node → List Node) (nparts : Nat)
    (nodes : Nat → Nodes) (r : Nat) (h : (nodes r).human_readable = true) :
    (renumber_nodes_glb_idx_routine sort nparts nodes).first r
      = .returns { nodes := nodes r, recvcounts := fun _ => 0 } := by
  unfold renumber_nodes_glb_idx_routine
  simp only [h, if_true]

theorem renumber_first_unset (sort : List Node → List Node) (nparts : Nat)
    (nodes : Nat → Nodes) (r : Nat) (h : (nodes r).human_readable = false) :
    (renumber_nodes_glb_idx_routine sort nparts nodes).first r
      = .enters Collective.gather
          { nodes := { nodes r with glb_idx := fill_glb_idx (nodes r) }
            recvcounts := fun _ => 0 }
          (fun q => if q = 0 then [((nodes r).nb_nodes : Int)] else []) := by
  unfold renumber_nodes_glb_idx_routine
  simp only [h, Bool.false_eq_true, if_false]

theorem renumber_flag_outcome (sort : List Node → List Node) (nparts : Nat)
    (nodes : Nat → Nodes) (r : Nat) (h : (nodes r).human_readable = true) :
    renumber_nodes_glb_idx_outcome sort nparts nodes r
      = { state := { nodes := nodes r, recvcounts := fun _ => 0 }
          raised := none, collectives := [] } := by
  unfold renumber_nodes_glb_idx_outcome run
  exact run_from_returns _ _ _ _ _ _ _ _ (renumber_first_flag sort nparts nodes r h)

theorem renumber_blocked_outcome (sort : List Node → List Node) (nparts : Nat)
    (nodes : Nat → Nodes) (r : Nat) (h : (nodes r).human_readable = false)
    (q : Nat) (hq : q < nparts) (hflag : (nodes q).human_readable = true) :
    renumber_nodes_glb_idx_outcome sort nparts nodes r
      = { state := { nodes := { nodes r with glb_idx := fill_glb_idx (nodes r) }
                     recvcounts := fun _ => 0 }
          raised := some Error.Deadlock, collectives := [Collective.gather] } := by
  unfold renumber_nodes_glb_idx_outcome run
  exact run_from_blocked _ _ _ _ _ _ _ _ _ _ (renumber_first_unset sort nparts nodes r h)
    q hq (by rw [renumber_first_flag sort nparts nodes q hflag]; rfl)

theorem renumber_success_outcome (sort : List Node → List Node) (nparts : Nat)
    (nodes : Nat → Nodes) (hflags : ∀ q < nparts, (nodes q).human_readable = false)
    (r : Nat) (hr : r < nparts) :
    renumber_nodes_glb_idx_outcome sort nparts nodes r
      = { state :=
            { nodes :=
                { nodes r with
                  glb_idx := fun jnode =>
                    if jnode < (nodes r).nb_nodes then
                      renumber_gathered sort
                        (gatherv nparts (fun q =>
                          (List.range (nodes q).nb_nodes).map (fill_glb_idx (nodes q))))
                        (recvdispls (fun q => (nodes q).nb_nodes) r + jnode)
                    else fill_glb_idx (nodes r) jnode
                  human_readable := true }
              recvcounts := fun p =>
                if r = 0 then (if p < nparts then (nodes p).nb_nodes else 0) else 0 }
          raised := none
          collectives := [Collective.gather, Collective.gatherv, Collective.scatterv] } := by
  have h0 : 0 < nparts := Nat.lt_of_le_of_lt (Nat.zero_le r) hr
  unfold renumber_nodes_glb_idx_outcome run
  rw [run_from_step nparts _ r hr 2 0 _
    (fun q => .enters Collective.gatherv
      { nodes := { nodes q with glb_idx := fill_glb_idx (nodes q) }
        recvcounts := fun p =>
          if q = 0 then (if p < nparts then (nodes p).nb_nodes else 0) else 0 }
      (fun p => if p = 0 then (List.range (nodes q).nb_nodes).map (fill_glb_idx (nodes q))
        else []))
    [] Collective.gather _ _
    (fun q hq => renumber_first_unset sort nparts nodes q (hflags q hq))
    (fun q hq => by
      show Action.enters Collective.gatherv _ _ = Action.enters Collective.gatherv _ _
      congr 2
      funext p
      by_cases hq0 : q = 0
      · by_cases hp : p < nparts
        · simp [hq0, hp]
        · simp [hq0, hp]
      · simp [hq0])]
  rw [run_from_step nparts _ r hr 1 1 _
    (fun q => .enters Collective.scatterv
      { nodes := { nodes q with glb_idx := fill_glb_idx (nodes q) }
        recvcounts := fun p =>
          if q = 0 then (if p < nparts then (nodes p).nb_nodes else 0) else 0 }
      (fun p =>
        if q = 0 then
          (List.range (if p < nparts then (nodes p).nb_nodes else 0)).map
            (fun jnode => renumber_gathered sort
              (gatherv nparts (fun q2 =>
                (List.range (nodes q2).nb_nodes).map (fill_glb_idx (nodes q2))))
              (recvdispls (fun p2 => if p2 < nparts then (nodes p2).nb_nodes else 0) p + jnode))
        else []))
    _ Collective.gatherv _ _ (fun q _ => rfl)
    (fun q hq => by
      show Action.enters Collective.scatterv _ _ = Action.enters Collective.scatterv _ _
      congr 1
      funext p
      by_cases hq0 : q = 0
      · subst hq0
        simp only [if_true]
        have hg : gatherv nparts (fun p2 => if p2 < nparts then
              (List.range (nodes p2).nb_nodes).map (fill_glb_idx (nodes p2)) else [])
            = gatherv nparts (fun q2 =>
                (List.range (nodes q2).nb_nodes).map (fill_glb_idx (nodes q2))) := by
          apply gatherv_congr
          intro p2 hp2
          simp [hp2]
        rw [hg]
      · simp only [if_neg hq0])]
  rw [run_from_step nparts _ r hr 0 2 _
    (fun q => .returns
      { nodes :=
          { nodes q with
            glb_idx := fun jnode =>
              if jnode < (nodes q).nb_nodes then
                renumber_gathered sort
                  (gatherv nparts (fun q2 =>
                    (List.range (nodes q2).nb_nodes).map (fill_glb_idx (nodes q2))))
                  (recvdispls (fun q2 => (nodes q2).nb_nodes) q + jnode)
              else fill_glb_idx (nodes q) jnode
            human_readable := true }
        recvcounts := fun p =>
          if q = 0 then (if p < nparts then (nodes p).nb_nodes else 0) else 0 })
    _ Collective.scatterv _ _ (fun q _ => rfl)
    (fun q hq => by
      have hfun : (fun jnode =>
            if jnode < (nodes q).nb_nodes then
              (if (0 : Nat) < nparts then
                (if (0 : Nat) = 0 then
                  (List.range (if q < nparts then (nodes q).nb_nodes else 0)).map
                    (fun jnode => renumber_gathered sort
                      (gatherv nparts (fun q2 =>
                        (List.range (nodes q2).nb_nodes).map (fill_glb_idx (nodes q2))))
                      (recvdispls (fun p2 => if p2 < nparts then (nodes p2).nb_nodes else 0) q
                        + jnode))
                else [])
              else []).getD jnode 0
            else fill_glb_idx (nodes q) jnode)
          = (fun jnode =>
            if jnode < (nodes q).nb_nodes then
              renumber_gathered sort
                (gatherv nparts (fun q2 =>
                  (List.range (nodes q2).nb_nodes).map (fill_glb_idx (nodes q2))))
                (recvdispls (fun q2 => (nodes q2).nb_nodes) q + jnode)
            else fill_glb_idx (nodes q) jnode) := by
        funext jnode
        by_cases hj : jnode < (nodes q).nb_nodes
        · simp only [if_pos hj, if_pos h0, if_pos hq, if_true]
          rw [getD_map_range _ _ _ hj]
          congr 2
          apply recvdispls_congr
          intro p hp
          rw [if_pos (Nat.lt_trans hp hq)]
        · simp only [if_neg hj]
      exact congrArg (fun x => (Action.returns
        { nodes := { nodes q with glb_idx := x, human_readable := true }
          recvcounts := fun p =>
            if q = 0 then (if p < nparts then (nodes p).nb_nodes else 0) else 0 } :
        Action RenumberLocals)) hfun)]
  exact run_from_returns _ _ _ _ _ _ _ _ rfl

/-- The run of `renumber_nodes_glb_idx` gives on every rank what the routine gives. -/
theorem renumber_nodes_glb_idx_outcome_eq (sort : List Node → List Node) (nparts : Nat)
    (nodes : Nat → Nodes) (r : Nat) (hr : r < nparts) :
    Except.map RenumberLocals.nodes (renumber_nodes_glb_idx_outcome sort nparts nodes r).result
      = renumber_nodes_glb_idx sort nparts nodes r := by
  unfold renumber_nodes_glb_idx
  by_cases hf : (nodes r).human_readable = true
  · rw [if_pos hf, renumber_flag_outcome sort nparts nodes r hf]
    rfl
  · rw [if_neg hf]
    have hf2 : (nodes r).human_readable = false := by simpa using hf
    by_cases hall : ∀ q < nparts, (nodes q).human_readable = false
    · rw [if_pos hall, renumber_success_outcome sort nparts nodes hall r hr]
      rfl
    · rw [if_neg hall]
      have hex : ∃ q, q < nparts ∧ (nodes q).human_readable = true := by
        by_contra hcon
        apply hall
        intro q hq
        cases hq2 : (nodes q).human_readable with
        | false => rfl
        | true => exact absurd ⟨q, hq, hq2⟩ hcon
      obtain ⟨q, hq, hq2⟩ := hex
      rw [renumber_blocked_outcome sort nparts nodes r hf2 q hq hq2]
      rfl

/-! ## The run of `build_edges_partition` -/

theorem corrections_congr (nparts : Nat) (s : EdgesPartition) (bdry_edges : List Int)
    (recv recv2 : Nat → List Int) (h : ∀ q < nparts, recv q = recv2 q) :
    corrections nparts s bdry_edges recv = corrections nparts s bdry_edges recv2 := by
  unfold corrections
  apply foldl_congr_mem
  intro c p hp
  rw [h p (List.mem_range.mp hp)]

theorem apply_corrections_congr (nparts : Nat) (global_to_local : List (Int × Int))
    (edge_part : Nat → Int) (recv_gidx recv_gidx2 recv_part recv_part2 : Nat → List Int)
    (h1 : ∀ q < nparts, recv_gidx q = recv_gidx2 q)
    (h2 : ∀ q < nparts, recv_part q = recv_part2 q) :
    apply_corrections nparts global_to_local edge_part recv_gidx recv_part
      = apply_corrections nparts global_to_local edge_part recv_gidx2 recv_part2 := by
  unfold apply_corrections
  apply foldl_congr_mem
  intro c p hp
  rw [h1 p (List.mem_range.mp hp), h2 p (List.mem_range.mp hp)]

theorem all_reduce_max_congr (nparts : Nat) (h0 : 0 < nparts) (insane insane2 : Nat → Int)
    (h : ∀ q < nparts, insane q = insane2 q) (r : Nat) :
    all_reduce_max nparts insane r = all_reduce_max nparts insane2 r := by
  unfold all_reduce_max
  rw [h 0 h0]
  apply foldl_congr_mem
  intro m q hq
  rw [h q (List.mem_range.mp hq)]

theorem edges_first_ok {D : Type} (G : Geometry D) (nparts : Nat) (mesh : Nat → Mesh D)
    (r : Nat) (s : EdgesPartition) (h : edges_partition_first_pass G (mesh r) = .ok s) :
    (build_edges_partition_routine G nparts mesh).first r
      = .enters Collective.allGatherv
          { first := { s with bdry_edges := sort_gidx s.bdry_edges }
            send_part := fun _ => [], recv_gidx := fun _ => [] }
          (fun _ => sort_gidx s.bdry_edges) := by
  have h2 := (loop_until_raise_ok _ _ _ _).mp h
  unfold build_edges_partition_routine
  simp only [h2]

theorem edges_first_error {D : Type} (G : Geometry D) (nparts : Nat) (mesh : Nat → Mesh D)
    (r : Nat) (e : Error) (h : edges_partition_first_pass G (mesh r) = .error e) :
    ∃ t : EdgesPartition, (build_edges_partition_routine G nparts mesh).first r
      = .raises e { first := t, send_part := fun _ => [], recv_gidx := fun _ => [] } := by
  rcases loop_until_raise_cases (edges_partition_step G (mesh r))
      (List.range (mesh r).nb_edges)
      { global_to_local := [], bdry_edges := [], edge_part := (mesh r).edge_part }
    with ⟨t, ht, _⟩ | ⟨t, e2, ht, hl⟩
  · have h3 : edges_partition_first_pass G (mesh r) = .ok t := ht
    rw [h] at h3
    exact Except.noConfusion h3
  · have h3 : edges_partition_first_pass G (mesh r) = .error e2 := ht
    rw [h] at h3
    have he : e = e2 := by injection h3
    subst he
    refine ⟨t, ?_⟩
    unfold build_edges_partition_routine
    simp only [hl]

theorem edges_raise_outcome {D : Type} (G : Geometry D) (nparts : Nat) (mesh : Nat → Mesh D)
    (r : Nat) (e : Error) (h : edges_partition_first_pass G (mesh r) = .error e) :
    ∃ t : EdgesPartition, build_edges_partition_outcome G nparts mesh r
      = { state := { first := t, send_part := fun _ => [], recv_gidx := fun _ => [] }
          raised := some e, collectives := [] } := by
  obtain ⟨t, ht⟩ := edges_first_error G nparts mesh r e h
  refine ⟨t, ?_⟩
  unfold build_edges_partition_outcome run
  exact run_from_raises _ _ _ _ _ _ _ _ _ ht

theorem edges_blocked_outcome {D : Type} (G : Geometry D) (nparts : Nat) (mesh : Nat → Mesh D)
    (r : Nat) (s : EdgesPartition) (h : edges_partition_first_pass G (mesh r) = .ok s)
    (q : Nat) (hq : q < nparts) (e : Error)
    (hraise : edges_partition_first_pass G (mesh q) = .error e) :
    build_edges_partition_outcome G nparts mesh r
      = { state := { first := { s with bdry_edges := sort_gidx s.bdry_edges }
                     send_part := fun _ => [], recv_gidx := fun _ => [] }
          raised := some Error.Deadlock, collectives := [Collective.allGatherv] } := by
  obtain ⟨t, ht⟩ := edges_first_error G nparts mesh q e hraise
  unfold build_edges_partition_outcome run
  exact run_from_blocked _ _ _ _ _ _ _ _ _ _ (edges_first_ok G nparts mesh r s h)
    q hq (by rw [ht]; rfl)

/-- When the first pass completes on every rank, every rank calls the four collective
operations, and gets the field that the second pass gives; rank 0 raises when the reduced
flag `insane` is set. -/
theorem edges_success_outcome {D : Type} (G : Geometry D) (nparts : Nat) (mesh : Nat → Mesh D)
    (hfirst : ∀ q < nparts, ∃ s, edges_partition_first_pass G (mesh q) = .ok s)
    (r : Nat) (hr : r < nparts) :
    (build_edges_partition_outcome G nparts mesh r).collectives
        = [Collective.allGatherv, Collective.allToAll, Collective.allToAll,
            Collective.allReduce] ∧
    (build_edges_partition_outcome G nparts mesh r).state.first.edge_part
        = edges_partition_second_pass nparts (first_pass_locals G mesh) r ∧
    (build_edges_partition_outcome G nparts mesh r).raised
        = if all_reduce_max nparts (fun q => sanity_check (mesh q)
              (edges_partition_second_pass nparts (first_pass_locals G mesh) q)) r ≠ 0 ∧ r = 0
          then some Error.Exception else none := by
  have h0 : 0 < nparts := Nat.lt_of_le_of_lt (Nat.zero_le r) hr
  have hs1 : ∀ q < nparts, edges_partition_first_pass G (mesh q)
      = .ok (first_pass_locals G mesh q) := by
    intro q hq
    obtain ⟨s, hs⟩ := hfirst q hq
    unfold first_pass_locals
    rw [hs]; rfl
  unfold build_edges_partition_outcome run
  rw [run_from_step nparts _ r hr 3 0 _
    (fun q => .enters Collective.allToAll
      { first := { first_pass_locals G mesh q with
                   bdry_edges := sort_gidx (first_pass_locals G mesh q).bdry_edges }
        send_part := (corrections nparts (first_pass_locals G mesh q)
          (sort_gidx (first_pass_locals G mesh q).bdry_edges)
          (fun p => sort_gidx (first_pass_locals G mesh p).bdry_edges)).send_part
        recv_gidx := fun _ => [] }
      (corrections nparts (first_pass_locals G mesh q)
        (sort_gidx (first_pass_locals G mesh q).bdry_edges)
        (fun p => sort_gidx (first_pass_locals G mesh p).bdry_edges)).send_gidx)
    [] Collective.allGatherv _ _
    (fun q hq => edges_first_ok G nparts mesh q _ (hs1 q hq))
    (fun q hq => by
      have hc : corrections nparts
            { first_pass_locals G mesh q with
              bdry_edges := sort_gidx (first_pass_locals G mesh q).bdry_edges }
            (sort_gidx (first_pass_locals G mesh q).bdry_edges)
            (fun p => if p < nparts then sort_gidx (first_pass_locals G mesh p).bdry_edges
              else [])
          = corrections nparts (first_pass_locals G mesh q)
            (sort_gidx (first_pass_locals G mesh q).bdry_edges)
            (fun p => sort_gidx (first_pass_locals G mesh p).bdry_edges) := by
        rw [corrections_congr nparts _ _ _
          (fun p => sort_gidx (first_pass_locals G mesh p).bdry_edges)
          (fun p hp => by beta_reduce; rw [if_pos hp])]
        rfl
      exact congrArg (fun c : Corrections => (Action.enters Collective.allToAll
        { first := { first_pass_locals G mesh q with
                     bdry_edges := sort_gidx (first_pass_locals G mesh q).bdry_edges }
          send_part := c.send_part
          recv_gidx := fun _ => [] } c.send_gidx : Action EdgesLocals)) hc)]
  rw [run_from_step nparts _ r hr 2 1 _
    (fun q => .enters Collective.allToAll
      { first := { first_pass_locals G mesh q with
                   bdry_edges := sort_gidx (first_pass_locals G mesh q).bdry_edges }
        send_part := (corrections nparts (first_pass_locals G mesh q)
          (sort_gidx (first_pass_locals G mesh q).bdry_edges)
          (fun p => sort_gidx (first_pass_locals G mesh p).bdry_edges)).send_part
        recv_gidx := fun p => if p < nparts then
          (corrections nparts (first_pass_locals G mesh p)
            (sort_gidx (first_pass_locals G mesh p).bdry_edges)
            (fun p2 => sort_gidx (first_pass_locals G mesh p2).bdry_edges)).send_gidx q
          else [] }
      (corrections nparts (first_pass_locals G mesh q)
        (sort_gidx (first_pass_locals G mesh q).bdry_edges)
        (fun p => sort_gidx (first_pass_locals G mesh p).bdry_edges)).send_part)
    _ Collective.allToAll _ _ (fun q _ => rfl) (fun q _ => rfl)]
  rw [run_from_step nparts _ r hr 1 2 _
    (fun q => .enters Collective.allReduce
      { first := { first_pass_locals G mesh q with
                   bdry_edges := sort_gidx (first_pass_locals G mesh q).bdry_edges
                   edge_part := edges_partition_second_pass nparts (first_pass_locals G mesh) q }
        send_part := (corrections nparts (first_pass_locals G mesh q)
          (sort_gidx (first_pass_locals G mesh q).bdry_edges)
          (fun p => sort_gidx (first_pass_locals G mesh p).bdry_edges)).send_part
        recv_gidx := fun p => if p < nparts then
          (corrections nparts (first_pass_locals G mesh p)
            (sort_gidx (first_pass_locals G mesh p).bdry_edges)
            (fun p2 => sort_gidx (first_pass_locals G mesh p2).bdry_edges)).send_gidx q
          else [] }
      (fun _ => [sanity_check (mesh q)
        (edges_partition_second_pass nparts (first_pass_locals G mesh) q)]))
    _ Collective.allToAll _ _ (fun q _ => rfl)
    (fun q hq => by
      have ha : apply_corrections nparts (first_pass_locals G mesh q).global_to_local
            (first_pass_locals G mesh q).edge_part
            (fun p => if p < nparts then
              (corrections nparts (first_pass_locals G mesh p)
                (sort_gidx (first_pass_locals G mesh p).bdry_edges)
                (fun p2 => sort_gidx (first_pass_locals G mesh p2).bdry_edges)).send_gidx q
              else [])
            (fun p => if p < nparts then
              (corrections nparts (first_pass_locals G mesh p)
                (sort_gidx (first_pass_locals G mesh p).bdry_edges)
                (fun p2 => sort_gidx (first_pass_locals G mesh p2).bdry_edges)).send_part q
              else [])
          = edges_partition_second_pass nparts (first_pass_locals G mesh) q := by
        unfold edges_partition_second_pass
        apply apply_corrections_congr
        · intro p hp
          beta_reduce
          rw [if_pos hp]
        · intro p hp
          beta_reduce
          rw [if_pos hp]
      exact congrArg (fun ep : Nat → Int => (Action.enters Collective.allReduce
        { first := { first_pass_locals G mesh q with
                     bdry_edges := sort_gidx (first_pass_locals G mesh q).bdry_edges
                     edge_part := ep }
          send_part := (corrections nparts (first_pass_locals G mesh q)
            (sort_gidx (first_pass_locals G mesh q).bdry_edges)
            (fun p => sort_gidx (first_pass_locals G mesh p).bdry_edges)).send_part
          recv_gidx := fun p => if p < nparts then
            (corrections nparts (first_pass_locals G mesh p)
              (sort_gidx (first_pass_locals G mesh p).bdry_edges)
              (fun p2 => sort_gidx (first_pass_locals G mesh p2).bdry_edges)).send_gidx q
            else [] }
        (fun _ => [sanity_check (mesh q) ep]) : Action EdgesLocals)) ha)]
  have hmax : ∀ q, all_reduce_max nparts
        (fun p => (if p < nparts then
          [sanity_check (mesh p)
            (edges_partition_second_pass nparts (first_pass_locals G mesh) p)]
          else []).headD 0) q
      = all_reduce_max nparts (fun p => sanity_check (mesh p)
          (edges_partition_second_pass nparts (first_pass_locals G mesh) p)) q := by
    intro q
    apply all_reduce_max_congr nparts h0
    intro p hp
    beta_reduce
    rw [if_pos hp]
    rfl
  rw [run_from_step nparts _ r hr 0 3 _
    (fun q =>
      if all_reduce_max nparts (fun p => sanity_check (mesh p)
          (edges_partition_second_pass nparts (first_pass_locals G mesh) p)) q ≠ 0 ∧ q = 0
      then .raises Error.Exception
        { first := { first_pass_locals G mesh q with
                     bdry_edges := sort_gidx (first_pass_locals G mesh q).bdry_edges
                     edge_part := edges_partition_second_pass nparts (first_pass_locals G mesh) q }
          send_part := (corrections nparts (first_pass_locals G mesh q)
            (sort_gidx (first_pass_locals G mesh q).bdry_edges)
            (fun p => sort_gidx (first_pass_locals G mesh p).bdry_edges)).send_part
          recv_gidx := fun p => if p < nparts then
            (corrections nparts (first_pass_locals G mesh p)
              (sort_gidx (first_pass_locals G mesh p).bdry_edges)
              (fun p2 => sort_gidx (first_pass_locals G mesh p2).bdry_edges)).send_gidx q
            else [] }
      else .returns
        { first := { first_pass_locals G mesh q with
                     bdry_edges := sort_gidx (first_pass_locals G mesh q).bdry_edges
                     edge_part := edges_partition_second_pass nparts (first_pass_locals G mesh) q }
          send_part := (corrections nparts (first_pass_locals G mesh q)
            (sort_gidx (first_pass_locals G mesh q).bdry_edges)
            (fun p => sort_gidx (first_pass_locals G mesh p).bdry_edges)).send_part
          recv_gidx := fun p => if p < nparts then
            (corrections nparts (first_pass_locals G mesh p)
              (sort_gidx (first_pass_locals G mesh p).bdry_edges)
              (fun p2 => sort_gidx (first_pass_locals G mesh p2).bdry_edges)).send_gidx q
            else [] })
    _ Collective.allReduce _ _ (fun q _ => rfl)
    (fun q hq => by
      show (if all_reduce_max nparts _ q ≠ 0 ∧ q = 0 then _ else _) = _
      rw [hmax q])]
  by_cases hc : all_reduce_max nparts (fun p => sanity_check (mesh p)
      (edges_partition_second_pass nparts (first_pass_locals G mesh) p)) r ≠ 0 ∧ r = 0
  · rw [run_from_raises nparts _ 0 4 _ _ r Error.Exception _ (if_pos hc), if_pos hc]
    exact ⟨rfl, rfl, rfl⟩
  · rw [run_from_returns nparts _ 0 4 _ _ r _ (if_neg hc), if_neg hc]
    exact ⟨rfl, rfl, rfl⟩

/-- The run of `build_edges_partition` gives on every rank what the routine gives. -/
theorem build_edges_partition_outcome_eq {D : Type} (G : Geometry D) (nparts : Nat)
    (mesh : Nat → Mesh D) (r : Nat) (hr : r < nparts) :
    Except.map (fun s : EdgesLocals => s.first.edge_part)
        (build_edges_partition_outcome G nparts mesh r).result
      = build_edges_partition G nparts mesh r := by
  cases hfe : first_error nparts (fun q => edges_partition_first_pass G (mesh q)) with
  | none =>
    have hfirst := (first_error_none _ _).mp hfe
    obtain ⟨_, h2, h3⟩ := edges_success_outcome G nparts mesh hfirst r hr
    rw [build_edges_partition_eq G nparts mesh hfirst r]
    unfold Outcome.result
    rw [h3]
    by_cases hc : all_reduce_max nparts (fun p => sanity_check (mesh p)
        (edges_partition_second_pass nparts (first_pass_locals G mesh) p)) r ≠ 0 ∧ r = 0
    · rw [if_pos hc, if_pos hc]
      rfl
    · rw [if_neg hc, if_neg hc]
      exact congrArg Except.ok h2
  | some e0 =>
    have hex : ∃ q, q < nparts ∧ ∃ e, edges_partition_first_pass G (mesh q) = .error e := by
      by_contra hcon
      have hall : ∀ q < nparts, ∃ s, edges_partition_first_pass G (mesh q) = .ok s := by
        intro q hq
        cases hq2 : edges_partition_first_pass G (mesh q) with
        | ok s => exact ⟨s, rfl⟩
        | error e => exact absurd ⟨q, hq, e, hq2⟩ hcon
      rw [(first_error_none _ _).mpr hall] at hfe
      exact Option.noConfusion hfe
    obtain ⟨q, hq, e, hqe⟩ := hex
    unfold build_edges_partition
    simp only [hfe]
    cases hp : edges_partition_first_pass G (mesh r) with
    | error e1 =>
      obtain ⟨t, ht⟩ := edges_raise_outcome G nparts mesh r e1 hp
      rw [ht]
      rfl
    | ok s =>
      rw [edges_blocked_outcome G nparts mesh r s hp q hq e hqe]
      rfl

theorem renumber_rounds (sort : List Node → List Node) (nparts : Nat) (nodes : Nat → Nodes)
    (r : Nat) (rounds : Nat) (h : 3 ≤ rounds) :
    run nparts rounds (renumber_nodes_glb_idx_routine sort nparts nodes) r
      = renumber_nodes_glb_idx_outcome sort nparts nodes r := by
  unfold renumber_nodes_glb_idx_outcome
  apply run_fuel nparts _ r 2 _ rounds h
  intro k hk q s recv c
  rcases k with _ | _ | _ | k
  · omega
  · omega
  · rfl
  · rfl

theorem edges_rounds {D : Type} (G : Geometry D) (nparts : Nat) (mesh : Nat → Mesh D)
    (r : Nat) (rounds : Nat) (h : 4 ≤ rounds) :
    run nparts rounds (build_edges_partition_routine G nparts mesh) r
      = build_edges_partition_outcome G nparts mesh r := by
  unfold build_edges_partition_outcome
  apply run_fuel nparts _ r 3 _ rounds h
  intro k hk q s recv c
  rcases k with _ | _ | _ | _ | k
  · omega
  · omega
  · omega
  · show (if _ then Action.raises Error.Exception s else Action.returns s).calls c = false
    split_ifs <;> rfl
  · rfl

/-! ## The sequence of collective operations -/

/-- Claim C23, as the code has it.  Collective sequence.  The collective operations of a
rank are those of its run of the routine on all ranks.  In `renumber_nodes_glb_idx` a rank
whose flag `human_readable` is set returns without calling a collective operation, and
when the flag is unset on every rank, every rank calls `gather`, `gatherv`, `scatterv`
and returns.  In `build_edges_partition` a rank on which the first pass raises leaves
with that exception without calling a collective operation, and when the first pass
completes on every rank, every rank calls `allGatherv`, `allToAll`, `allToAll`,
`allReduce`, whatever its boundary-edge list is.  In `build_nodes_parallel_fields` a rank
whose flag `parallel` is set returns without calling a collective operation, a rank whose
flag is unset and whose first loop of `build_nodes_remote_idx` raises leaves with that
exception without calling one, and when the flag is unset on every rank and
`build_nodes_remote_idx` raises nowhere, every rank calls `allToAll`, `allToAll` and
returns.  On every rank the run gives the result of the routine: the nodes of
`renumber_nodes_glb_idx`, the field of `build_edges_partition`, the nodes of
`build_nodes_parallel_fields`, or the exception.  A run followed through more collective
operations than the three, four and two of the routines leaves every rank in the same
way. -/
theorem collective_sequence {D : Type} (G : Geometry D) (sort : List Node → List Node)
    (nparts : Nat) (nodes : Nat → Nodes) (mesh : Nat → Mesh D) :
    ((∀ r, (nodes r).human_readable = true →
        (renumber_nodes_glb_idx_outcome sort nparts nodes r).collectives = [] ∧
        (renumber_nodes_glb_idx_outcome sort nparts nodes r).raised = none) ∧
      ((∀ q < nparts, (nodes q).human_readable = false) →
        ∀ r < nparts,
          (renumber_nodes_glb_idx_outcome sort nparts nodes r).collectives
            = [Collective.gather, Collective.gatherv, Collective.scatterv] ∧
          (renumber_nodes_glb_idx_outcome sort nparts nodes r).raised = none) ∧
      (∀ r < nparts,
        Except.map RenumberLocals.nodes
            (renumber_nodes_glb_idx_outcome sort nparts nodes r).result
          = renumber_nodes_glb_idx sort nparts nodes r)) ∧
    ((∀ r e, edges_partition_first_pass G (mesh r) = .error e →
        (build_edges_partition_outcome G nparts mesh r).collectives = [] ∧
        (build_edges_partition_outcome G nparts mesh r).raised = some e) ∧
      ((∀ q < nparts, ∃ s, edges_partition_first_pass G (mesh q) = .ok s) →
        ∀ r < nparts,
          (build_edges_partition_outcome G nparts mesh r).collectives
            = [Collective.allGatherv, Collective.allToAll, Collective.allToAll,
                Collective.allReduce]) ∧
      (∀ r < nparts,
        Except.map (fun s : EdgesLocals => s.first.edge_part)
            (build_edges_partition_outcome G nparts mesh r).result
          = build_edges_partition G nparts mesh r)) ∧
    ((∀ r, (nodes r).parallel = true →
        (build_nodes_parallel_fields_outcome nparts nodes r).collectives = [] ∧
        (build_nodes_parallel_fields_outcome nparts nodes r).raised = none) ∧
      (∀ r e, (nodes r).parallel = false → nodes_requests r nparts (nodes r) = .error e →
        (build_nodes_parallel_fields_outcome nparts nodes r).collectives = [] ∧
        (build_nodes_parallel_fields_outcome nparts nodes r).raised = some e) ∧
      ((∀ q < nparts, (nodes q).parallel = false) →
        ∀ ridx, build_nodes_remote_idx nparts nodes = .ok ridx →
        ∀ r < nparts,
          (build_nodes_parallel_fields_outcome nparts nodes r).collectives
            = [Collective.allToAll, Collective.allToAll] ∧
          (build_nodes_parallel_fields_outcome nparts nodes r).raised = none) ∧
      (∀ r,
        Except.map NodesLocals.nodes (build_nodes_parallel_fields_outcome nparts nodes r).result
          = build_nodes_parallel_fields nparts nodes r)) ∧
    (∀ r rounds,
      (3 ≤ rounds → run nparts rounds (renumber_nodes_glb_idx_routine sort nparts nodes) r
        = renumber_nodes_glb_idx_outcome sort nparts nodes r) ∧
      (4 ≤ rounds → run nparts rounds (build_edges_partition_routine G nparts mesh) r
        = build_edges_partition_outcome G nparts mesh r) ∧
      (2 ≤ rounds → run nparts rounds (build_nodes_parallel_fields_routine nparts nodes) r
        = build_nodes_parallel_fields_outcome nparts nodes r)) := by
  refine ⟨⟨?_, ?_, ?_⟩, ⟨?_, ?_, ?_⟩, ⟨?_, ?_, ?_, ?_⟩,
    fun r rounds => ⟨renumber_rounds sort nparts nodes r rounds,
      edges_rounds G nparts mesh r rounds, parallel_fields_rounds nparts nodes r rounds⟩⟩
  · intro r h
    rw [renumber_flag_outcome sort nparts nodes r h]
    exact ⟨rfl, rfl⟩
  · intro hflags r hr
    rw [renumber_success_outcome sort nparts nodes hflags r hr]
    exact ⟨rfl, rfl⟩
  · exact renumber_nodes_glb_idx_outcome_eq sort nparts nodes
  · intro r e h
    obtain ⟨t, ht⟩ := edges_raise_outcome G nparts mesh r e h
    rw [ht]
    exact ⟨rfl, rfl⟩
  · intro hfirst r hr
    exact (edges_success_outcome G nparts mesh hfirst r hr).1
  · exact build_edges_partition_outcome_eq G nparts mesh
  · intro r h
    rw [parallel_fields_flag_outcome nparts nodes r h]
    exact ⟨rfl, rfl⟩
  · intro r e hf h
    obtain ⟨t, ht⟩ := parallel_fields_raise_outcome nparts nodes r e hf h
    rw [ht]
    exact ⟨rfl, rfl⟩
  · intro hflags ridx hrun r hr
    rw [parallel_fields_success nparts nodes hflags ridx hrun r hr]
    exact ⟨rfl, rfl⟩
  · intro r
    unfold build_nodes_parallel_fields Outcome.result
    cases (build_nodes_parallel_fields_outcome nparts nodes r).raised <;> rfl

theorem collective_sequence_witness :
    (first_pass_locals geometry_example partition_example 1).bdry_edges = [] ∧
    (∀ r < 2,
      (renumber_nodes_glb_idx_outcome sort_nodes 2 renumber_example r).collectives
        = [Collective.gather, Collective.gatherv, Collective.scatterv] ∧
      (renumber_nodes_glb_idx_outcome sort_nodes 2 renumber_example r).raised = none) ∧
    (∀ r < 2,
      (build_edges_partition_outcome geometry_example 2 partition_example r).collectives
        = [Collective.allGatherv, Collective.allToAll, Collective.allToAll,
            Collective.allReduce]) ∧
    (∀ r < 2,
      (build_nodes_parallel_fields_outcome 2 nodes_example r).collectives
        = [Collective.allToAll, Collective.allToAll] ∧
      (build_nodes_parallel_fields_outcome 2 nodes_example r).raised = none) :=
  ⟨by decide,
    (collective_sequence geometry_example sort_nodes 2 renumber_example
      partition_example).1.2.1 (by decide),
    (collective_sequence geometry_example sort_nodes 2 renumber_example
      partition_example).2.1.2.1 (by intro q hq; interval_cases q <;> exact ⟨_, rfl⟩),
    (collective_sequence geometry_example sort_nodes 2 nodes_example
      partition_example).2.2.1.2.2.1 (by decide) nodes_example_ridx rfl⟩

/-- Claim C23 as stated fails: the sequence of collective operations of a rank depends
on its flags and on the errors it detects.  With the flag `human_readable` set on rank 0
only, rank 0 calls no collective operation of `renumber_nodes_glb_idx` and rank 1 stays
in `gather`; with the flag `parallel` set on rank 0 only, rank 0 calls no collective
operation of `build_nodes_parallel_fields` and rank 1 stays in `allToAll`; when the first
pass of `build_edges_partition` raises `SeriousBug` on rank 0, rank 0 calls no collective
operation and rank 1 stays in `allGatherv`; when rank 1 finds in the second loop of
`build_nodes_remote_idx` that it does not hold a node asked of it, it raises `SeriousBug`
after one `allToAll` and rank 0 stays in the second. -/
theorem collective_sequence_counterexample :
    ((renumber_flag_on_rank0 0).human_readable = true ∧
      (renumber_flag_on_rank0 1).human_readable = false ∧
      (renumber_nodes_glb_idx_outcome sort_nodes 2 renumber_flag_on_rank0 0).collectives = [] ∧
      (renumber_nodes_glb_idx_outcome sort_nodes 2 renumber_flag_on_rank0 1).collectives
        = [Collective.gather] ∧
      (renumber_nodes_glb_idx_outcome sort_nodes 2 renumber_flag_on_rank0 1).raised
        = some Error.Deadlock) ∧
    ((parallel_flag_on_rank0 0).parallel = true ∧
      (parallel_flag_on_rank0 1).parallel = false ∧
      (build_nodes_parallel_fields_outcome 2 parallel_flag_on_rank0 0).collectives = [] ∧
      (build_nodes_parallel_fields_outcome 2 parallel_flag_on_rank0 1).collectives
        = [Collective.allToAll] ∧
      (build_nodes_parallel_fields_outcome 2 parallel_flag_on_rank0 1).raised
        = some Error.Deadlock) ∧
    (edges_partition_first_pass geometry_example (mismatch_on_rank0 0)
        = .error Error.SeriousBug ∧
      (build_edges_partition_outcome geometry_example 2 mismatch_on_rank0 0).collectives = [] ∧
      (build_edges_partition_outcome geometry_example 2 mismatch_on_rank0 1).collectives
        = [Collective.allGatherv] ∧
      (build_edges_partition_outcome geometry_example 2 mismatch_on_rank0 1).raised
        = some Error.Deadlock) ∧
    ((build_nodes_parallel_fields_outcome 2 missing_owner_example 1).collectives
        = [Collective.allToAll] ∧
      (build_nodes_parallel_fields_outcome 2 missing_owner_example 1).raised
        = some Error.SeriousBug ∧
      (build_nodes_parallel_fields_outcome 2 missing_owner_example 0).collectives
        = [Collective.allToAll, Collective.allToAll]) :=
  ⟨⟨rfl, rfl, by decide, by decide, by decide⟩, ⟨rfl, rfl, by decide, by decide, by decide⟩,
    ⟨rfl, by decide, by decide, by decide⟩, ⟨by decide, by decide, by decide⟩⟩

end Atlas
